import Mathlib

set_option linter.unusedSectionVars false

/-!
# Jacobian: a shallow embedding of the back-propagation engine

The development follows `src/bpnn.cpp` (classes `Layer` and `Network`) and
`src/src/utils.cpp` (namespaces `activations` and `optimizers`).

Modelling conventions.

* Scalars (`float` / `double`) are elements of an arbitrary field `α`; the
  arithmetic is exact, so rounding error is outside the model.  A quotient
  whose IEEE value would be `inf` or `NaN` (division by a zero batch size) is
  reported as `none`.
* `Eigen::MatrixXd` is `Mat α`: run-time dimensions plus a coefficient
  function.  Every Eigen operation whose dimensions must agree is fallible
  (`Option`), as is every coefficient access outside the dimensions.
* Pointers that the constructors leave unset (`weights`, `prev_update`,
  `labels`) are `Option`s; dereferencing `none` fails.
* Storage that the code allocates without writing to it is filled from an
  explicit `heap` argument, and the random weight samples come from an explicit
  `rnd` argument.
* `std::vector<Layer>` is `List (Layer α)`; the loops of the source are folds
  over the index lists they run through.
* The stream `data` is a `DataFile`: the lines of the shuffled file, each as
  `sscanf` parses it, and the number of lines read.  The array `batch` of
  `next_batch` starts from an explicit `stack` argument.
* The closures of `namespace optimizers` are functions of the layer, the
  gradient and the learning rate; the closure of `demon`, which is `mutable`,
  also returns its captured variables.  The C library `sqrt` is a parameter.
  A call whose IEEE result would hold `inf` or `NaN` (zero divisor, root of a
  negative number) is reported as `none`.
* The same closures are given a second time over a `FloatOps`, a set of total
  operations of which no law is assumed (`momentumOn`, `Demon.callOn`,
  `adamOn`, `adamaxOn`): there a call fails on a mismatch of shapes only, as
  in the source, and the values may be infinite or NaN.  Over the operations
  of the field the two agree wherever the exact closure has a value.
-/

namespace Jacobian

/-! ## Matrices -/

/-- Dense matrix with run-time dimensions, `Eigen::MatrixXd`. -/
structure Mat (α : Type) where
  rows : Nat
  cols : Nat
  coeff : Nat → Nat → α

namespace Mat

variable {α : Type}

/-- Pair `(rows, cols)`. -/
def shape (m : Mat α) : Nat × Nat := (m.rows, m.cols)

/-- Allocation `new Eigen::MatrixXd (r, c)`: the entries are whatever the heap holds. -/
def alloc (r c : Nat) (heap : Nat → Nat → α) : Mat α := ⟨r, c, heap⟩

/-- Read access `m(j,k)`; out of range is an Eigen assertion failure. -/
def get? (m : Mat α) (j k : Nat) : Option α :=
  if j < m.rows ∧ k < m.cols then some (m.coeff j k) else none

/-- Write access `m(j,k) = v`; out of range is an Eigen assertion failure. -/
def set? (m : Mat α) (j k : Nat) (v : α) : Option (Mat α) :=
  if j < m.rows ∧ k < m.cols then
    some ⟨m.rows, m.cols, fun a b => if a = j ∧ b = k then v else m.coeff a b⟩
  else none

/-- Method `transpose()`. -/
def transpose (m : Mat α) : Mat α := ⟨m.cols, m.rows, fun a b => m.coeff b a⟩

/-- Scalar multiple `c * m`. -/
def smul [Mul α] (c : α) (m : Mat α) : Mat α := ⟨m.rows, m.cols, fun a b => c * m.coeff a b⟩

/-- Coefficients of the product `a * b`, of dimensions `a.rows` by `b.cols`. -/
def mul [Semiring α] (a b : Mat α) : Mat α :=
  ⟨a.rows, b.cols, fun i j => ∑ k in Finset.range a.cols, a.coeff i k * b.coeff k j⟩

/-- Coefficient-wise combination, of the dimensions of the left operand. -/
def zip (f : α → α → α) (a b : Mat α) : Mat α :=
  ⟨a.rows, a.cols, fun i j => f (a.coeff i j) (b.coeff i j)⟩

/-- Coefficients of `a + b`. -/
def add [Add α] (a b : Mat α) : Mat α := zip (fun x y => x + y) a b

/-- Coefficients of `a - b`. -/
def sub [Sub α] (a b : Mat α) : Mat α := zip (fun x y => x - y) a b

/-- Coefficients of `a.cwiseProduct(b)`. -/
def cwiseProduct [Mul α] (a b : Mat α) : Mat α := zip (fun x y => x * y) a b

/-- Matrix product `a * b` as Eigen evaluates it: it needs `a.cols = b.rows`. -/
def mul? [Semiring α] (a b : Mat α) : Option (Mat α) :=
  if a.cols = b.rows then some (a.mul b) else none

/-- Coefficient-wise operation as Eigen evaluates it: both operands have one shape. -/
def zip? (f : α → α → α) (a b : Mat α) : Option (Mat α) :=
  if a.rows = b.rows ∧ a.cols = b.cols then some (zip f a b) else none

/-- Sum `a + b`. -/
def add? [Add α] (a b : Mat α) : Option (Mat α) := zip? (fun x y => x + y) a b

/-- Difference `a - b`. -/
def sub? [Sub α] (a b : Mat α) : Option (Mat α) := zip? (fun x y => x - y) a b

/-- Method `a.cwiseProduct(b)`. -/
def cwiseProduct? [Mul α] (a b : Mat α) : Option (Mat α) := zip? (fun x y => x * y) a b

/-- Coefficient-wise image of `m` under `f`, as `unaryExpr` and the `array()` functions
compute it. -/
def map (f : α → α) (m : Mat α) : Mat α := ⟨m.rows, m.cols, fun a b => f (m.coeff a b)⟩

/-- Method `sum()`: the sum of all coefficients. -/
def sum [AddCommMonoid α] (m : Mat α) : α :=
  ∑ j in Finset.range m.rows, ∑ k in Finset.range m.cols, m.coeff j k

/-- Every coefficient inside the dimensions satisfies `p`. -/
def Forall (m : Mat α) (p : α → Prop) : Prop :=
  ∀ j, j < m.rows → ∀ k, k < m.cols → p (m.coeff j k)

instance decidableForall (m : Mat α) (p : α → Prop) [DecidablePred p] :
    Decidable (m.Forall p) := by
  unfold Forall
  infer_instance

/-- Method `cwiseSqrt()`, with the C library `sqrt` passed in; the square root of a negative
coefficient is not a number of the field. -/
def cwiseSqrt? [LinearOrderedField α] (sqrt : α → α) (m : Mat α) : Option (Mat α) :=
  if m.Forall (fun x => 0 ≤ x) then some (m.map sqrt) else none

/-- Coefficient-wise `array().pow(-1)`; the inverse of a zero coefficient is infinite, not a
number of the field. -/
def cwiseInverse? [LinearOrderedField α] (m : Mat α) : Option (Mat α) :=
  if m.Forall (fun x => x ≠ 0) then some (m.map (fun x => x⁻¹)) else none

end Mat

/-! ## Layers and networks -/

/-- Modelled from the spec: the declaration of class `Layer` that `bpnn.cpp` compiles against
is missing (the `bpnn.hpp` at hand declares an older class).  The fields are the members
`bpnn.cpp` uses: five matrix pointers and the two activation callbacks. -/
structure Layer (α : Type) where
  contents : Mat α
  dZ : Mat α
  bias : Mat α
  weights : Option (Mat α)
  prev_update : Option (Mat α)
  activation : Option (α → α)
  activation_deriv : Option (α → α)

/-- Modelled from the spec: the declaration of class `Network` that `bpnn.cpp` compiles against
is missing.  The fields are the members `bpnn.cpp` uses, the file handle `data` left out. -/
structure Network (α : Type) where
  layers : List (Layer α)
  length : Nat
  learning_rate : α
  bias_lr : α
  batch_size : Nat
  labels : Option (Mat α)
  instances : Nat
  batches : Nat

/-- One line of the shuffled file as `sscanf` with the format `"%f,%f,%f,%f,%i"` reads it:
four features and the label. -/
structure Instance (α : Type) where
  x0 : α
  x1 : α
  x2 : α
  x3 : α
  label : Int

/-- The stream `data` of `Network`: the lines of the shuffled file and the number of lines
that `fgets` has read since the last `rewind`. -/
structure DataFile (α : Type) where
  lines : List (Instance α)
  pos : Nat

/-! ## Activation library (`namespace activations` of `utils.cpp`) -/

/-- Functions that `utils.cpp` and `bpnn.cpp` call but that have no exact counterpart over a
field: the bit-pattern exponential `fexp`, the C library `log`, and the pair `mytanh`,
`tanh_deriv` that `Network::add_layer` registers under the name `tanh`. -/
structure Prims (α : Type) where
  fexp : α → α
  log : α → α
  mytanh : α → α
  tanh_deriv : α → α

namespace activations

variable {α : Type} [LinearOrderedField α]

/-- Function `ftanh`. -/
def ftanh (x : α) : α :=
  (x * (10 + x ^ 2) * (60 + x ^ 2)) / (600 + (270 * x ^ 2) + (11 * x ^ 4) + (x ^ 6 / 24))

/-- Function `fcosh`. -/
def fcosh (p : Prims α) (val : α) : α := (p.fexp val + p.fexp (-val)) * (1 / 2)

/-- Function `sigmoid`. -/
def sigmoid (p : Prims α) (x : α) : α := 1 / (1 + p.fexp (-x))

/-- Function `sigmoid_deriv`. -/
def sigmoid_deriv (p : Prims α) (x : α) : α :=
  1 / (1 + p.fexp (-x)) * (1 - 1 / (1 + p.fexp (-x)))

/-- Function `linear`. -/
def linear (x : α) : α := x

/-- Function `linear_deriv`. -/
def linear_deriv (_x : α) : α := 1

/-- Function `lecun_tanh`. -/
def lecun_tanh (x : α) : α := 17159 / 10000 * ftanh (66 / 100 * x)

/-- Function `lecun_tanh_deriv`. -/
def lecun_tanh_deriv (p : Prims α) (x : α) : α :=
  114393 / 100000 * (1 / fcosh p (66 / 100 * x)) ^ 2

/-- Function `inverse_logit`. -/
def inverse_logit (p : Prims α) (x : α) : α := p.fexp x / (p.fexp x + 1)

/-- Function `inverse_logit_deriv`. -/
def inverse_logit_deriv (p : Prims α) (x : α) : α := p.fexp x / (p.fexp x + 1) ^ 2

/-- Function `softplus`. -/
def softplus (p : Prims α) (x : α) : α := p.log (1 + p.fexp x)

/-- Function `softplus_deriv`. -/
def softplus_deriv (p : Prims α) (x : α) : α := p.fexp x / (p.fexp x + 1)

/-- Function `cloglog`. -/
def cloglog (p : Prims α) (x : α) : α := 1 - p.fexp (-p.fexp x)

/-- Function `cloglog_deriv`. -/
def cloglog_deriv (p : Prims α) (x : α) : α := p.fexp (x - p.fexp x)

/-- Function `step`. -/
def step (x : α) : α := if x > 0 then 1 else 0

/-- Function `step_deriv`. -/
def step_deriv (_x : α) : α := 0

/-- Combinator `rectifier`. -/
def rectifier (activation : α → α) : α → α :=
  fun x => if x > 0 then activation x else 0

end activations

/-! ## Construction -/

section construction

variable {α : Type} [LinearOrderedField α]

/-- Constructor `Layer::Layer(batch_sz, nodes)`.  The four allocations take their initial
entries from `heap 0 .. heap 3`; the last statement replaces `dZ` by a fresh allocation. -/
def Layer.new (batch_sz nodes : Nat) (heap : Nat → Nat → Nat → α) : Option (Layer α) := do
  let contents := Mat.alloc batch_sz nodes (heap 0)
  let dZ := Mat.alloc batch_sz nodes (heap 1)
  let datalen := batch_sz * nodes
  let (contents, _dZ) ← (List.range datalen).foldlM
    (fun (s : Mat α × Mat α) i => do
      let c ← s.1.set? (i / nodes) (i % nodes) 0
      let d ← s.2.set? (i / nodes) (i % nodes) 0
      pure (c, d))
    (contents, dZ)
  let bias := Mat.alloc batch_sz nodes (heap 2)
  let bias ← (List.range nodes).foldlM
    (fun (b : Mat α) i => (List.range batch_sz).foldlM (fun (b : Mat α) j => b.set? j i 0) b)
    bias
  let dZ := Mat.alloc batch_sz nodes (heap 3)
  pure
    { contents := contents, dZ := dZ, bias := bias, weights := none, prev_update := none,
      activation := none, activation_deriv := none }

/-- Method `Layer::init_weights(next)`.  Sample number `i` of the normal distribution is
`rnd i`; `prev_update` is allocated and not written to. -/
def Layer.init_weights (l next : Layer α) (rnd : Nat → α) (heap : Nat → Nat → Nat → α) :
    Option (Layer α) := do
  let weights := Mat.alloc l.contents.cols next.contents.cols (heap 0)
  let nodes := weights.cols
  let weights ← (List.range (weights.rows * weights.cols)).foldlM
    (fun (w : Mat α) i => w.set? (i / nodes) (i % nodes) (rnd i)) weights
  let prev_update := Mat.alloc l.contents.cols next.contents.cols (heap 1)
  pure { l with weights := some weights, prev_update := some prev_update }

/-- Constructor `Network::Network(path, batch_sz, learn_rate, bias_rate)`; `instances` is the
line count that `prep_file` returns. -/
def Network.new (instances batch_sz : Nat) (learn_rate bias_rate : α) : Network α :=
  { layers := [], length := 0, learning_rate := learn_rate, bias_lr := bias_rate,
    batch_size := batch_sz, labels := none, instances := instances, batches := 0 }

/-- The `if`/`else if` chain of `Network::add_layer`: the pair of callbacks stored for a
name, `none` for the final `else` branch. -/
def lookupActivation (p : Prims α) (name : String) : Option ((α → α) × (α → α)) :=
  if name = "sigmoid" then some (activations.sigmoid p, activations.sigmoid_deriv p)
  else if name = "linear" then some (activations.linear, activations.linear_deriv)
  else if name = "step" then some (activations.step, activations.step_deriv)
  else if name = "tanh" then some (p.mytanh, p.tanh_deriv)
  else if name = "lecun_tanh" then some (activations.lecun_tanh, activations.lecun_tanh_deriv p)
  else if name = "inverse_logit" then
    some (activations.inverse_logit p, activations.inverse_logit_deriv p)
  else if name = "cloglog" then some (activations.cloglog p, activations.cloglog_deriv p)
  else if name = "softplus" then some (activations.softplus p, activations.softplus_deriv p)
  else if name = "relu" then
    some (activations.rectifier activations.linear, activations.rectifier activations.linear_deriv)
  else if name = "resig" then
    some (activations.rectifier (activations.sigmoid p),
      activations.rectifier (activations.sigmoid_deriv p))
  else none

/-- Method `Network::add_layer(nodes, name)`: `length++`, `layers.emplace_back(batch_size,
nodes)`, then the callbacks of `layers[length-1]` are set by name.  `Except.error 1` is
`exit(1)`; `Except.error 134` stands for an Eigen assertion failure inside the `Layer`
constructor or an access outside `layers`. -/
def Network.add_layer (p : Prims α) (net : Network α) (nodes : Nat) (name : String)
    (heap : Nat → Nat → Nat → α) : Except Nat (Network α) :=
  match Layer.new net.batch_size nodes heap with
  | none => Except.error 134
  | some l =>
    let net := { net with length := net.length + 1, layers := net.layers ++ [l] }
    match lookupActivation p name with
    | some (f, f') =>
      match net.layers[net.length - 1]? with
      | some l =>
        let l := { l with activation := some f, activation_deriv := some f' }
        Except.ok { net with layers := net.layers.set (net.length - 1) l }
      | none => Except.error 134
    | none => Except.error 1

/-- A topology given as successive calls `net.add_layer(nodes, name)`, as in `bench` of
`example.cpp`; call number `i` builds its layer on the storage `heaps i`. -/
def Network.add_layers (p : Prims α) (heaps : Nat → Nat → Nat → Nat → α) :
    Network α → List (Nat × String) → Except Nat (Network α)
  | net, [] => Except.ok net
  | net, (nodes, name) :: rest =>
    match net.add_layer p nodes name (heaps net.length) with
    | Except.ok net => Network.add_layers p heaps net rest
    | Except.error e => Except.error e

/-- Method `Network::initialize()`.  Layer `i` draws its samples from `rnd i` and its
allocations from `heap i`; `lheap` is the storage handed out for `labels`. -/
def Network.initialize (net : Network α) (rnd : Nat → Nat → α)
    (heap : Nat → Nat → Nat → Nat → α) (lheap : Nat → Nat → α) : Option (Network α) := do
  if net.length = 0 then none
  let last ← net.layers[net.length - 1]?
  let labels := Mat.alloc net.batch_size last.contents.cols lheap
  let net := { net with labels := some labels }
  (List.range (net.length - 1)).foldlM
    (fun (n : Network α) i => do
      let l ← n.layers[i]?
      let next ← n.layers[i + 1]?
      let l ← l.init_weights next (rnd i) (heap i)
      pure { n with layers := n.layers.set i l })
    net

/-- Method `Network::set_activation(index, custom, custom_deriv)`. -/
def Network.set_activation (net : Network α) (index : Nat) (custom custom_deriv : α → α) :
    Option (Network α) := do
  let l ← net.layers[index]?
  let l := { l with activation := some custom, activation_deriv := some custom_deriv }
  pure { net with layers := net.layers.set index l }

end construction

/-! ## Forward pass, loss and backward pass -/

section engine

variable {α : Type} [LinearOrderedField α]

/-- Body of the two inner loops of `Network::feedforward`:
`dZ(j,k) = activation_deriv(contents(j,k)); contents(j,k) = activation(contents(j,k));`. -/
def Layer.activateEntry (l : Layer α) (j k : Nat) : Option (Layer α) := do
  let f' ← l.activation_deriv
  let z ← l.contents.get? j k
  let dZ ← l.dZ.set? j k (f' z)
  let l := { l with dZ := dZ }
  let f ← l.activation
  let z ← l.contents.get? j k
  let contents ← l.contents.set? j k (f z)
  pure { l with contents := contents }

/-- Loops `for j < contents->rows()`, `for k < contents->cols()` of `Network::feedforward`
over one layer. -/
def Layer.activate (l : Layer α) : Option (Layer α) :=
  (List.range l.contents.rows).foldlM
    (fun (l : Layer α) j =>
      (List.range l.contents.cols).foldlM (fun (l : Layer α) k => l.activateEntry j k) l)
    l

/-- Activation loops of `Network::feedforward` applied to `layers[i]`. -/
def Network.activateAt (net : Network α) (i : Nat) : Option (Network α) := do
  let l ← net.layers[i]?
  let l ← l.activate
  pure { net with layers := net.layers.set i l }

/-- Body of the second loop of `Network::feedforward`:
`*layers[i+1].contents = (*layers[i].contents) * (*layers[i].weights);`
`*layers[i+1].contents += *layers[i+1].bias;`. -/
def Network.propagateAt (net : Network α) (i : Nat) : Option (Network α) := do
  let l ← net.layers[i]?
  let next ← net.layers[i + 1]?
  let w ← l.weights
  let prod ← l.contents.mul? w
  let next := { next with contents := prod }
  let sum ← next.contents.add? next.bias
  let next := { next with contents := sum }
  pure { net with layers := net.layers.set (i + 1) next }

/-- Second loop of `Network::feedforward`, `for (i = 0; i < length-1; i++)`. -/
def Network.propagateAll (net : Network α) : Option (Network α) :=
  (List.range (net.length - 1)).foldlM Network.propagateAt net

/-- The third loop of `Network::feedforward` restricted to the layers `1 .. n`. -/
def Network.activateUpTo (net : Network α) (n : Nat) : Option (Network α) :=
  (List.range' 1 n).foldlM Network.activateAt net

/-- The state of `Network::feedforward` just before its third loop reaches layer `i`: the
input layer is activated, every product is formed and the layers `1 .. i-1` are activated.
For the input layer it is the state on entry. -/
def Network.feedforwardBefore (net : Network α) : Nat → Option (Network α)
  | 0 => some net
  | i + 1 => do
    let net ← net.activateAt 0
    let net ← net.propagateAll
    net.activateUpTo i

/-- What `Network::feedforward` still does once layer `i` is activated: for the input layer
the products and the whole third loop, for a later layer the third loop from `i+1` on. -/
def Network.feedforwardAfter (net : Network α) : Nat → Option (Network α)
  | 0 => do
    let net ← net.propagateAll
    net.activateUpTo (net.length - 1)
  | i + 1 => (List.range' (i + 2) (net.length - 2 - i)).foldlM Network.activateAt net

/-- Method `Network::feedforward()`. -/
def Network.feedforward (net : Network α) : Option (Network α) := do
  let net ← net.activateAt 0
  let net ← net.propagateAll
  net.activateUpTo (net.length - 1)

/-- Method `Network::cost()`.  For `batch_size = 0` the factor `1.0/batch_size` is infinite
and the result is not a number of the field. -/
def Network.cost (net : Network α) : Option α := do
  if net.length = 0 then none
  let last ← net.layers[net.length - 1]?
  let labels ← net.labels
  let sum ← (List.range last.contents.rows).foldlM
    (fun (sum : α) i => do
      let y ← labels.get? i 0
      let p ← last.contents.get? i 0
      pure (sum + (y - p) ^ 2))
    (0 : α)
  if net.batch_size = 0 then none
  pure (1 / (net.batch_size : α) * sum)

/-- The C library `round`: nearest integer, halfway cases away from zero. -/
def cround [FloorRing α] (x : α) : α :=
  if 0 ≤ x then ((⌊x + 1 / 2⌋ : Int) : α) else ((⌈x - 1 / 2⌉ : Int) : α)

/-- Method `Network::accuracy()`.  For `batch_size = 0` the factor `1.0/batch_size` is
infinite and the result is not a number of the field. -/
def Network.accuracy [FloorRing α] (net : Network α) : Option α := do
  if net.length = 0 then none
  let last ← net.layers[net.length - 1]?
  let labels ← net.labels
  let correct ← (List.range last.contents.rows).foldlM
    (fun (correct : α) i => do
      let y ← labels.get? i 0
      let p ← last.contents.get? i 0
      pure (if y = cround p then correct + 1 else correct))
    (0 : α)
  if net.batch_size = 0 then none
  pure (1 / (net.batch_size : α) * correct)

/-- Body of the first loop of `Network::backpropagate()`, on the vectors `gradients` and
`deltas` and the variable `counter`:
`gradients.push_back((gradients[counter-1] * layers[i].weights->transpose()).cwiseProduct(*layers[i].dZ));`
`deltas.push_back(layers[i-1].contents->transpose() * gradients[counter]); counter++;`. -/
def Network.backpropStep (net : Network α) (s : List (Mat α) × List (Mat α) × Nat) (i : Nat) :
    Option (List (Mat α) × List (Mat α) × Nat) := do
  let (gradients, deltas, counter) := s
  let li ← net.layers[i]?
  let w ← li.weights
  let gprev ← gradients[counter - 1]?
  let back ← gprev.mul? w.transpose
  let g ← back.cwiseProduct? li.dZ
  let gradients := gradients ++ [g]
  let lprev ← net.layers[i - 1]?
  let gcur ← gradients[counter]?
  let d ← lprev.contents.transpose.mul? gcur
  pure (gradients, deltas ++ [d], counter + 1)

/-- First half of `Network::backpropagate()`: the vectors `gradients` and `deltas` as they
stand when the update loop starts.  The loop runs `for (i = length-2; i >= 1; i--)`. -/
def Network.backpropSignals (net : Network α) : Option (List (Mat α) × List (Mat α)) := do
  if net.length < 2 then none
  let last ← net.layers[net.length - 1]?
  let labels ← net.labels
  let error ← last.contents.sub? labels
  let g0 ← error.cwiseProduct? last.dZ
  let prev ← net.layers[net.length - 2]?
  let d0 ← prev.contents.transpose.mul? g0
  let (gradients, deltas, _) ← (List.range' 1 (net.length - 2)).reverse.foldlM
    net.backpropStep ([g0], [d0], 1)
  pure (gradients, deltas)

/-- Body of the update loop of `Network::backpropagate()`:
`*layers[length-2-i].weights -= 0.9 * *layers[length-2-i].prev_update + learning_rate * deltas[i];`
`*layers[length-1-i].bias -= bias_lr * gradients[i];`. -/
def Network.updateAt (gradients deltas : List (Mat α)) (net : Network α) (i : Nat) :
    Option (Network α) := do
  let gradient ← gradients[i]?
  let l ← net.layers[net.length - 2 - i]?
  let w ← l.weights
  let pu ← l.prev_update
  let d ← deltas[i]?
  let change ← (Mat.smul (9 / 10) pu).add? (Mat.smul net.learning_rate d)
  let w ← w.sub? change
  let l := { l with weights := some w }
  let net := { net with layers := net.layers.set (net.length - 2 - i) l }
  let l ← net.layers[net.length - 1 - i]?
  let b ← l.bias.sub? (Mat.smul net.bias_lr gradient)
  let l := { l with bias := b }
  pure { net with layers := net.layers.set (net.length - 1 - i) l }

/-- Method `Network::backpropagate()`. -/
def Network.backpropagate (net : Network α) : Option (Network α) := do
  let (gradients, deltas) ← net.backpropSignals
  (List.range (net.length - 1)).foldlM (Network.updateAt gradients deltas) net

/-- Method `Network::update_layer(vals, datalen, index)`. -/
def Network.update_layer (net : Network α) (vals : Nat → α) (datalen index : Nat) :
    Option (Network α) :=
  (List.range datalen).foldlM
    (fun (n : Network α) i => do
      let l ← n.layers[index]?
      let c ← l.contents.set? (i / l.contents.cols) (i % l.contents.cols) (vals i)
      pure { n with layers := n.layers.set index { l with contents := c } })
    net

/-- Method `Network::next_batch()`.  The array `batch` of `datalen` floats starts as whatever
the stack holds; the loop ends at the first `fgets` that finds no line; a write outside
`batch`, `labels` or the input layer is a failure. -/
def Network.next_batch (net : Network α) (data : DataFile α) (stack : Nat → α) :
    Option (Network α × DataFile α) := do
  let l0 ← net.layers[0]?
  let inputs := l0.contents.cols
  let datalen := net.batch_size * inputs
  let read := (data.lines.drop data.pos).take net.batch_size
  let (batch, labels) ← (List.range read.length).foldlM
    (fun (s : (Nat → α) × Option (Mat α)) i => do
      let line ← read[i]?
      if datalen ≤ 3 + i * inputs then none
      let batch := fun n =>
        if n = 3 + i * inputs then line.x3 else if n = 2 + i * inputs then line.x2
        else if n = 1 + i * inputs then line.x1 else if n = 0 + i * inputs then line.x0
        else s.1 n
      let labels ← s.2
      let labels ← labels.set? i 0 (line.label : α)
      pure (batch, some labels))
    (stack, net.labels)
  let net := { net with labels := labels }
  let net ← net.update_layer batch datalen 0
  pure (net, { data with pos := data.pos + read.length })

/-- Body of the `for` loop of `Network::train` at index `i`, on the network, the stream and
the variables `cost_sum` and `acc_sum`.  The loop runs only while `i <= instances -
batch_size`, where the difference of the source is the one of the natural numbers. -/
def Network.trainBatch [FloorRing α] (stack : Nat → Nat → α)
    (s : Network α × DataFile α × α × α) (i : Nat) : Option (Network α × DataFile α × α × α) := do
  let (net, data, cost_sum, acc_sum) := s
  let (net, data) ←
    if i ≠ net.instances - net.batch_size then net.next_batch data (stack i)
    else pure (net, data)
  let net ← net.feedforward
  let net ← net.backpropagate
  let c ← net.cost
  let a ← net.accuracy
  pure ({ net with batches := net.batches + 1 }, data, cost_sum + c, acc_sum + a)

/-- The values `0, batch_size, 2 * batch_size, ...` that the index of the `for` loop of
`Network::train` takes: those with `i <= instances - batch_size`. -/
def trainIndices (instances batch_size : Nat) : List Nat :=
  if instances < batch_size then []
  else (List.range ((instances - batch_size) / batch_size + 1)).map (fun n => n * batch_size)

/-- The `for` loop of one round of the `while` loop of `Network::train`.  With `batch_size =
0` the step `i += batch_size` never moves and the loop does not end. -/
def Network.trainLoop [FloorRing α] (net : Network α) (data : DataFile α)
    (stack : Nat → Nat → α) : Option (Network α × DataFile α × α × α) :=
  if net.batch_size = 0 then none
  else (trainIndices net.instances net.batch_size).foldlM (Network.trainBatch stack)
    (net, data, 0, 0)

/-- One round of the `while` loop of `Network::train`: the `for` loop, then `batches = 1`
and `rewind(data)`.  The epoch cost and accuracy are printed only. -/
def Network.trainEpoch [FloorRing α] (net : Network α) (data : DataFile α)
    (stack : Nat → Nat → α) : Option (Network α × DataFile α) := do
  let (net, data, _cost_sum, _acc_sum) ← net.trainLoop data stack
  pure ({ net with batches := 1 }, { data with pos := 0 })

/-- Method `Network::train(total_epochs)`; epoch `e` finds the storage `stack e`. -/
def Network.train [FloorRing α] (net : Network α) (data : DataFile α)
    (stack : Nat → Nat → Nat → α) (total_epochs : Nat) : Option (Network α × DataFile α) :=
  (List.range total_epochs).foldlM
    (fun (s : Network α × DataFile α) e => s.1.trainEpoch s.2 (stack e)) (net, data)

end engine

/-! ## Optimizers (`namespace optimizers` of `utils.cpp`) -/

/-- Modelled from the spec: the class `Layer` that `utils.cpp` compiles against (`utils.hpp`)
is missing.  Its optimizers use the value members `weights`, `m` and `v`, which the spec
describes as the weights and the first and second moment state shaped like them. -/
structure OptLayer (α : Type) where
  weights : Mat α
  m : Mat α
  v : Mat α

namespace optimizers

variable {α : Type} [LinearOrderedField α]

/-- The closure returned by `optimizers::momentum(beta)`. -/
def momentum (beta : α) (layer : OptLayer α) (delta : Mat α) (learning_rate : α) :
    Option (OptLayer α) := do
  let change ← (Mat.smul beta layer.m).add? (Mat.smul learning_rate delta)
  let w ← layer.weights.sub? change
  let layer := { layer with weights := w }
  pure { layer with m := Mat.smul learning_rate delta }

/-- The variables that the closure of `optimizers::demon` captures by value and, being
`mutable`, keeps between calls. -/
structure Demon (α : Type) where
  max_ep : Int
  epochs : α
  beta_init : α
  beta : α

/-- Function `optimizers::demon(beta, max_ep)`: the closure as it is returned. -/
def demon (beta : α) (max_ep : Int) : Demon α :=
  { max_ep := max_ep, epochs := 0, beta_init := beta, beta := beta }

/-- One call of the closure of `optimizers::demon`: the layer and the closure after it.  A
quotient with divisor zero is not a number of the field. -/
def Demon.call (c : Demon α) (layer : OptLayer α) (delta : Mat α) (learning_rate : α) :
    Option (OptLayer α × Demon α) := do
  if (c.max_ep : α) = 0 then none
  if c.beta_init * (1 - c.epochs / (c.max_ep : α)) + (1 - c.beta_init) = 0 then none
  let c := { c with beta := c.beta_init * (1 - c.epochs / (c.max_ep : α)) /
    (c.beta_init * (1 - c.epochs / (c.max_ep : α)) + (1 - c.beta_init)) }
  let change ← (Mat.smul c.beta layer.m).add? (Mat.smul learning_rate delta)
  let w ← layer.weights.sub? change
  let layer := { layer with weights := w }
  let layer := { layer with m := Mat.smul learning_rate delta }
  pure (layer, { c with epochs := c.epochs + 1 })

/-- The closure returned by `optimizers::adam(beta1, beta2, epsilon)`; `sqrt` is the C
library function. -/
def adam (sqrt : α → α) (beta1 beta2 epsilon : α) (layer : OptLayer α) (delta : Mat α)
    (learning_rate : α) : Option (OptLayer α) := do
  let m ← (Mat.smul beta1 layer.m).add? (Mat.smul (1 - beta1) delta)
  let layer := { layer with m := m }
  let sq ← delta.cwiseProduct? delta
  let v ← (Mat.smul beta2 layer.v).add? (Mat.smul (1 - beta2) sq)
  let layer := { layer with v := v }
  let root ← layer.v.cwiseSqrt? sqrt
  let inv ← (root.map (fun x => x + epsilon)).cwiseInverse?
  let quot ← inv.cwiseProduct? layer.m
  let w ← layer.weights.sub? (Mat.smul learning_rate quot)
  pure { layer with weights := w }

/-- The closure returned by `optimizers::adamax(beta1, beta2, epsilon)`. -/
def adamax (beta1 beta2 _epsilon : α) (layer : OptLayer α) (delta : Mat α)
    (learning_rate : α) : Option (OptLayer α) := do
  let m ← (Mat.smul beta1 layer.m).add? (Mat.smul (1 - beta1) delta)
  let layer := { layer with m := m }
  let layer :=
    if (Mat.smul beta2 layer.v).sum > (delta.map (fun x => |x|)).sum then
      { layer with v := Mat.smul beta2 layer.v }
    else { layer with v := delta.map (fun x => |x|) }
  let inv ← layer.v.cwiseInverse?
  let quot ← inv.cwiseProduct? layer.m
  let w ← layer.weights.sub? (Mat.smul learning_rate quot)
  pure { layer with weights := w }

end optimizers

/-- A value of the type `std::function<void(Layer&, Eigen::MatrixXf, float)>` that one of the
four functions of `namespace optimizers` returns, with the variables it captures. -/
inductive Optimizer (α : Type) where
  | momentum (beta : α)
  | demon (c : optimizers.Demon α)
  | adam (beta1 beta2 epsilon : α)
  | adamax (beta1 beta2 epsilon : α)

section optimizer
variable {α : Type} [LinearOrderedField α]

/-- One call `opt(layer, delta, learning_rate)`: the layer and the closure after it. -/
def Optimizer.call (sqrt : α → α) (o : Optimizer α) (layer : OptLayer α) (delta : Mat α)
    (learning_rate : α) : Option (OptLayer α × Optimizer α) :=
  match o with
  | Optimizer.momentum beta =>
    (optimizers.momentum beta layer delta learning_rate).map (fun l => (l, o))
  | Optimizer.demon c =>
    (c.call layer delta learning_rate).map (fun r => (r.1, Optimizer.demon r.2))
  | Optimizer.adam beta1 beta2 epsilon =>
    (optimizers.adam sqrt beta1 beta2 epsilon layer delta learning_rate).map (fun l => (l, o))
  | Optimizer.adamax beta1 beta2 epsilon =>
    (optimizers.adamax beta1 beta2 epsilon layer delta learning_rate).map (fun l => (l, o))

/-- Consecutive calls of one optimizer on one layer, with the gradients and learning rates
of the list. -/
def Optimizer.run (sqrt : α → α) :
    Optimizer α → OptLayer α → List (Mat α × α) → Option (OptLayer α × Optimizer α)
  | o, layer, [] => some (layer, o)
  | o, layer, (delta, lr) :: rest =>
    match o.call sqrt layer delta lr with
    | some (layer, o) => Optimizer.run sqrt o layer rest
    | none => none

end optimizer

/-! ## Auxiliary definitions used to state the results -/

section auxiliary

variable {α : Type} [LinearOrderedField α]

/-- The entries the activation loops have rewritten when they stand at row `r`, column `n`,
of a matrix with `c` columns. -/
def done (c r n a b : Nat) : Bool := decide (b < c ∧ (a < r ∨ (a = r ∧ b < n)))

/-- A layer in which the entries selected by `s` are activated. -/
def Layer.activatedOn (l : Layer α) (f f' : α → α) (s : Nat → Nat → Bool) : Layer α :=
  { l with
    dZ := ⟨l.dZ.rows, l.dZ.cols,
      fun a b => if s a b then f' (l.contents.coeff a b) else l.dZ.coeff a b⟩
    contents := ⟨l.contents.rows, l.contents.cols,
      fun a b => if s a b then f (l.contents.coeff a b) else l.contents.coeff a b⟩ }

/-- The network with `layers[i]` replaced by `l`. -/
def Network.withLayer (net : Network α) (i : Nat) (l : Layer α) : Network α :=
  { net with layers := net.layers.set i l }

/-- The network with one more layer at the end. -/
def Network.pushLayer (net : Network α) (l : Layer α) : Network α :=
  { net with length := net.length + 1, layers := net.layers ++ [l] }

/-- The layer with both callbacks set. -/
def Layer.withActivation (l : Layer α) (f f' : α → α) : Layer α :=
  { l with activation := some f, activation_deriv := some f' }

/-- The layer with `weights` and `prev_update` set. -/
def Layer.withWeights (l : Layer α) (w pu : Mat α) : Layer α :=
  { l with weights := some w, prev_update := some pu }

/-- The network with `labels` set. -/
def Network.withLabels (net : Network α) (m : Mat α) : Network α :=
  { net with labels := some m }

/-- The weights of the layers below `m` are allocated with the shapes `dims` asks for. -/
def Network.WeightsUpTo (net : Network α) (dims : List Nat) (m : Nat) : Prop :=
  ∀ (i : Nat) (l : Layer α) (n n' : Nat), i < m → net.layers[i]? = some l → dims[i]? = some n →
    dims[i + 1]? = some n' →
    l.weights.map Mat.shape = some (n, n') ∧ l.prev_update.map Mat.shape = some (n, n')

/-- The layer with `contents` replaced by `c`. -/
def Layer.withContents (l : Layer α) (c : Mat α) : Layer α := { l with contents := c }

/-- The layer as the activation loops leave it: every entry inside the dimensions of
`contents` is activated. -/
def Layer.activated (l : Layer α) (f f' : α → α) : Layer α :=
  l.activatedOn f f' (done l.contents.cols l.contents.rows 0)

/-- Two networks agree on every field other than `layers`. -/
def Network.SameFrame (a b : Network α) : Prop :=
  a.length = b.length ∧ a.batch_size = b.batch_size ∧ a.labels = b.labels ∧
    a.learning_rate = b.learning_rate ∧ a.bias_lr = b.bias_lr

/-- Every layer of `a` has the bias, weights, momentum state and callbacks of the layer of
`b` at the same index. -/
def Network.SameStatics (a b : Network α) : Prop :=
  ∀ (k : Nat) (l : Layer α), a.layers[k]? = some l →
    ∃ l0, b.layers[k]? = some l0 ∧ l.bias = l0.bias ∧ l.weights = l0.weights ∧
      l.prev_update = l0.prev_update ∧ l.activation = l0.activation ∧
      l.activation_deriv = l0.activation_deriv

/-- The invariant carried through the loops of the forward pass: `s` differs from `net` in the
`contents` and `dZ` of its layers only. -/
def Network.Frame (net s : Network α) : Prop := s.SameFrame net ∧ s.SameStatics net

/-- Shape invariant of one layer: `contents`, `dZ` and `bias` are `b` by `n` and both
callbacks are set. -/
structure Layer.Shaped (l : Layer α) (b n : Nat) : Prop where
  contents_rows : l.contents.rows = b
  contents_cols : l.contents.cols = n
  dZ_rows : l.dZ.rows = b
  dZ_cols : l.dZ.cols = n
  bias_rows : l.bias.rows = b
  bias_cols : l.bias.cols = n
  act : l.activation.isSome = true
  deriv : l.activation_deriv.isSome = true

/-- Shape invariant of a network under construction: `add_layer` has been called once per
entry of `dims`. -/
structure Network.Built (net : Network α) (dims : List Nat) : Prop where
  length_eq : net.length = dims.length
  layers_length : net.layers.length = dims.length
  shaped : ∀ (i : Nat) (l : Layer α) (n : Nat), net.layers[i]? = some l → dims[i]? = some n →
    l.Shaped net.batch_size n

/-- Shape invariant of an initialized network with node counts `dims`: every layer is
`batch_size` by its node count, every layer but the last owns `weights` and `prev_update`
of shape (its node count, the next node count), and `labels` is shaped like the last
layer. -/
structure Network.WellFormed (net : Network α) (dims : List Nat) : Prop where
  length_eq : net.length = dims.length
  layers_length : net.layers.length = dims.length
  pos : 0 < dims.length
  shaped : ∀ (i : Nat) (l : Layer α) (n : Nat), net.layers[i]? = some l → dims[i]? = some n → l.Shaped net.batch_size n
  weights : ∀ (i : Nat) (l : Layer α) (n n' : Nat), net.layers[i]? = some l → dims[i]? = some n →
    dims[i + 1]? = some n' →
    l.weights.map Mat.shape = some (n, n') ∧ l.prev_update.map Mat.shape = some (n, n')
  labels : ∀ (n : Nat), dims[dims.length - 1]? = some n →
    net.labels.map Mat.shape = some (net.batch_size, n)

/-- The empty matrix. -/
def Mat.empty : Mat α := ⟨0, 0, fun _ _ => 0⟩

/-- The matrix `*layers[i].contents`; empty when there is no layer `i`. -/
def Network.contentsAt (net : Network α) (i : Nat) : Mat α :=
  match net.layers[i]? with
  | some l => l.contents
  | none => Mat.empty

/-- The matrix `*layers[i].dZ`; empty when there is no layer `i`. -/
def Network.dZAt (net : Network α) (i : Nat) : Mat α :=
  match net.layers[i]? with
  | some l => l.dZ
  | none => Mat.empty

/-- The matrix `*layers[i].bias`; empty when there is no layer `i`. -/
def Network.biasAt (net : Network α) (i : Nat) : Mat α :=
  match net.layers[i]? with
  | some l => l.bias
  | none => Mat.empty

/-- The matrix `*layers[i].weights`; empty when it is not allocated. -/
def Network.weightsAt (net : Network α) (i : Nat) : Mat α :=
  match net.layers[i]? with
  | some l => l.weights.getD Mat.empty
  | none => Mat.empty

/-- The matrix `*layers[i].prev_update`; empty when it is not allocated. -/
def Network.prevUpdateAt (net : Network α) (i : Nat) : Mat α :=
  match net.layers[i]? with
  | some l => l.prev_update.getD Mat.empty
  | none => Mat.empty

/-- The matrix `*labels`; empty when it is not allocated. -/
def Network.labelsMat (net : Network α) : Mat α := net.labels.getD Mat.empty

/-- The error signals in the order of section 4.5 of the specification, counted from the
output layer: `g_0 = (prediction - labels) ⊙ dZ_last`, and `g_{c+1} = (g_c · weights_i^T) ⊙ dZ_i`
for the layer `i = length-2-c`. -/
def Network.signalBack (net : Network α) : Nat → Mat α
  | 0 =>
    ((net.contentsAt (net.length - 1)).sub net.labelsMat).cwiseProduct
      (net.dZAt (net.length - 1))
  | c + 1 =>
    ((net.signalBack c).mul (net.weightsAt (net.length - 2 - c)).transpose).cwiseProduct
      (net.dZAt (net.length - 2 - c))

/-- The error signal of layer `j`. -/
def Network.errorSignal (net : Network α) (j : Nat) : Mat α :=
  net.signalBack (net.length - 1 - j)

/-- The weight gradient of the edge between the layers `i` and `i+1`,
`delta_i = contents_i^T · g_{i+1}`. -/
def Network.delta (net : Network α) (i : Nat) : Mat α :=
  (net.contentsAt i).transpose.mul (net.errorSignal (i + 1))

/-- The weights of edge `i` after the update
`weights_i - (0.9 · prev_update_i + learning_rate · delta_i)`. -/
def Network.newWeights (net : Network α) (i : Nat) : Mat α :=
  (net.weightsAt i).sub
    ((Mat.smul (9 / 10) (net.prevUpdateAt i)).add (Mat.smul net.learning_rate (net.delta i)))

/-- The bias of layer `j` after the update `bias_j - bias_lr · g_j`. -/
def Network.newBias (net : Network α) (j : Nat) : Mat α :=
  (net.biasAt j).sub (Mat.smul net.bias_lr (net.errorSignal j))

/-- Layer `k` as the update loop of `Network::backpropagate` leaves it after `m` rounds,
given the layer `l` it was on entry: the rounds `0 .. m-1` have rewritten the weights of the
edges `length-1-m .. length-2` and the bias of the layers `length-m .. length-1`. -/
def Network.updatedLayer (net : Network α) (m k : Nat) (l : Layer α) : Layer α :=
  { l with
    weights :=
      if net.length - 1 - m ≤ k ∧ k + 1 < net.length then some (net.newWeights k) else l.weights
    bias := if net.length - m ≤ k ∧ k < net.length then net.newBias k else l.bias }

/-- The state of the update loop of `Network::backpropagate` after `m` rounds, started
from `net`: only the layers differ, as `updatedLayer` says. -/
def Network.UpdatedTo (net s : Network α) (m : Nat) : Prop :=
  s.SameFrame net ∧ s.instances = net.instances ∧ s.batches = net.batches ∧
    ∀ k, s.layers[k]? = (net.layers[k]?).map (net.updatedLayer m k)

end auxiliary

/-! ## Concrete networks over the rationals -/

/-- The functions outside the field model, taken constant for the examples. -/
def zeroPrims : Prims ℚ := ⟨fun _ => 0, fun _ => 0, fun _ => 0, fun _ => 0⟩

/-- The topology of `bench` in `example.cpp`. -/
def benchTopology : List (Nat × String) := [(4, "linear"), (5, "lecun_tanh"), (2, "linear")]

/-- The `r` by `c` matrix with every entry `v`. -/
def Mat.const {α : Type} (r c : Nat) (v : α) : Mat α := ⟨r, c, fun _ _ => v⟩

/-- A network of 4 linear inputs and 1 linear output for a batch of `b` instances: features
`x`, weights `w`, zero bias, terminal contents `pred`, labels `y`, zero momentum state. -/
def twoLayer (b : Nat) (x : Nat → Nat → ℚ) (w : Nat → ℚ) (pred y : Nat → ℚ) : Network ℚ :=
  { layers :=
      [{ contents := ⟨b, 4, x⟩, dZ := Mat.const b 4 0, bias := Mat.const b 4 0,
         weights := some ⟨4, 1, fun k _ => w k⟩, prev_update := some (Mat.const 4 1 0),
         activation := some activations.linear,
         activation_deriv := some activations.linear_deriv },
       { contents := ⟨b, 1, fun j _ => pred j⟩, dZ := Mat.const b 1 0, bias := Mat.const b 1 0,
         weights := none, prev_update := none,
         activation := some activations.linear,
         activation_deriv := some activations.linear_deriv }],
    length := 2, learning_rate := 1 / 100, bias_lr := 1 / 100, batch_size := b,
    labels := some ⟨b, 1, fun j _ => y j⟩, instances := b, batches := 0 }

/-- Input layer of `chain3`: features `(2, 0, 0, 0)`, weights `(1, 0, 0, 0)`, linear. -/
def chainIn : Layer ℚ :=
  { contents := ⟨1, 4, fun _ k => if k = 0 then 2 else 0⟩, dZ := Mat.const 1 4 0,
    bias := Mat.const 1 4 0, weights := some ⟨4, 1, fun k _ => if k = 0 then 1 else 0⟩,
    prev_update := some (Mat.const 4 1 0), activation := some activations.linear,
    activation_deriv := some activations.linear_deriv }

/-- Hidden layer of `chain3`: one `step` node, weight 1, zero bias. -/
def chainHidden : Layer ℚ :=
  { contents := Mat.const 1 1 0, dZ := Mat.const 1 1 0, bias := Mat.const 1 1 0,
    weights := some (Mat.const 1 1 1), prev_update := some (Mat.const 1 1 0),
    activation := some activations.step, activation_deriv := some activations.step_deriv }

/-- Output layer of `chain3`: one linear node, zero bias. -/
def chainOut : Layer ℚ :=
  { contents := Mat.const 1 1 0, dZ := Mat.const 1 1 0, bias := Mat.const 1 1 0,
    weights := none, prev_update := none, activation := some activations.linear,
    activation_deriv := some activations.linear_deriv }

/-- The chain of 4 linear inputs, 1 `step` node and 1 linear output for a batch of one
instance, with label 0. -/
def chain3 : Network ℚ :=
  { layers := [chainIn, chainHidden, chainOut], length := 3, learning_rate := 1 / 100,
    bias_lr := 1 / 100, batch_size := 1, labels := some (Mat.const 1 1 0), instances := 1,
    batches := 0 }

/-- The hidden layer of `chain3` between the product loop and its activation. -/
def chainHiddenPre : Layer ℚ :=
  chainHidden.withContents
    (((chainIn.activated activations.linear activations.linear_deriv).contents.mul
      ⟨4, 1, fun k _ => if k = 0 then 1 else 0⟩).add chainHidden.bias)

/-- The output layer of `chain3` between the product loop and its activation. -/
def chainOutPre : Layer ℚ :=
  chainOut.withContents ((chainHiddenPre.contents.mul (Mat.const 1 1 1)).add chainOut.bias)

/-- State of `chain3` after the first loop of `Network::feedforward`. -/
def chainS1 : Network ℚ :=
  chain3.withLayer 0 (chainIn.activated activations.linear activations.linear_deriv)

/-- State of `chain3` after the first product. -/
def chainS2 : Network ℚ := chainS1.withLayer 1 chainHiddenPre

/-- State of `chain3` after the product loop. -/
def chainS3 : Network ℚ := chainS2.withLayer 2 chainOutPre

/-- State of `chain3` after the activation of the hidden layer. -/
def chainS4 : Network ℚ :=
  chainS3.withLayer 1 (chainHiddenPre.activated activations.step activations.step_deriv)

/-- State of `chain3` after the activation of the output layer. -/
def chainS5 : Network ℚ :=
  chainS4.withLayer 2 (chainOutPre.activated activations.linear activations.linear_deriv)

/-- Two rows with predictions `1, 0` and labels `1, 1`. -/
def scoreNet : Network ℚ :=
  twoLayer 2 (fun _ _ => 0) (fun _ => 0) (fun j => if j = 0 then 1 else 0) (fun _ => 1)

/-- One row with prediction 1 and label `1/2`. -/
def halfNet : Network ℚ := twoLayer 1 (fun _ _ => 0) (fun _ => 0) (fun _ => 1) (fun _ => 1 / 2)

/-- One row with prediction 1 and label 1. -/
def unitNet : Network ℚ := twoLayer 1 (fun _ _ => 0) (fun _ => 0) (fun _ => 1) (fun _ => 1)

/-- A network of batch size 0. -/
def emptyNet : Network ℚ := twoLayer 0 (fun _ _ => 0) (fun _ => 0) (fun _ => 0) (fun _ => 0)

/-- Entry `(0, 0)` of the contents of layer `i`, when the network and the layer exist. -/
def readOut (n : Option (Network ℚ)) (i : Nat) : Option ℚ :=
  n.bind (fun n => n.layers[i]?.bind (fun l => l.contents.get? 0 0))

/-- The activation names the spec lists as registered. -/
def registeredNames : List String :=
  ["sigmoid", "linear", "step", "tanh", "lecun_tanh", "inverse_logit", "cloglog", "softplus",
    "relu", "resig"]

/-- Storage in which every allocation of a layer finds the value 7. -/
def sevens : Nat → Nat → Nat → ℚ := fun _ _ _ => 7

/-- A layer of one row and one column as `add_layer(1, "linear")` leaves it. -/
def unitLayer : Layer ℚ :=
  ⟨Mat.const 1 1 0, Mat.const 1 1 0, Mat.const 1 1 0, none, none, some activations.linear,
    some activations.linear_deriv⟩

/-- A network of two layers of one node, batch size 1, before `initialize`. -/
def unitPair : Network ℚ :=
  ⟨[unitLayer, unitLayer], 2, 1 / 10, 1 / 10, 1, none, 1, 0⟩

/-- Entry `(0,0)` of the `prev_update` of layer `i` of a network, when all of it exists. -/
def prevUpdateEntry (n : Option (Network ℚ)) (i : Nat) : Option ℚ :=
  n.bind (fun n => (n.layers[i]?).bind (fun l => l.prev_update.map (fun m => m.coeff 0 0)))

section optimizerState

variable {α : Type} [LinearOrderedField α]

/-- Shape invariant of a layer as the optimizers see it: `weights`, `m` and `v` are all `r`
by `c`. -/
def OptLayer.Shaped (l : OptLayer α) (r c : Nat) : Prop :=
  l.weights.shape = (r, c) ∧ l.m.shape = (r, c) ∧ l.v.shape = (r, c)

/-- The coefficient `beta` that the closure of `demon` computes when its counter is `t`. -/
def decayedBeta (beta_init t : α) (max_ep : Int) : α :=
  beta_init * (1 - t / (max_ep : α)) / (beta_init * (1 - t / (max_ep : α)) + (1 - beta_init))

/-- The second moment that one call of `adam` stores. -/
def adamSecondMoment (beta2 : α) (layer : OptLayer α) (delta : Mat α) : Mat α :=
  (Mat.smul beta2 layer.v).add (Mat.smul (1 - beta2) (delta.cwiseProduct delta))

/-- The first moment that one call of `adam` or `adamax` stores. -/
def adamFirstMoment (beta1 : α) (layer : OptLayer α) (delta : Mat α) : Mat α :=
  (Mat.smul beta1 layer.m).add (Mat.smul (1 - beta1) delta)

/-- The matrix `v` that one call of `adamax` stores. -/
def adamaxNorm (beta2 : α) (layer : OptLayer α) (delta : Mat α) : Mat α :=
  if (Mat.smul beta2 layer.v).sum > (delta.map (fun x => |x|)).sum then Mat.smul beta2 layer.v
  else delta.map (fun x => |x|)

/-- The arithmetic of one call of the optimizer on `layer` and `delta` stays inside the
field: no quotient has divisor zero and no square root is taken of a negative number. -/
def Optimizer.Finite (sqrt : α → α) (o : Optimizer α) (layer : OptLayer α) (delta : Mat α) :
    Prop :=
  match o with
  | Optimizer.momentum _ => True
  | Optimizer.demon c =>
    (c.max_ep : α) ≠ 0 ∧ c.beta_init * (1 - c.epochs / (c.max_ep : α)) + (1 - c.beta_init) ≠ 0
  | Optimizer.adam _ beta2 epsilon =>
    (adamSecondMoment beta2 layer delta).Forall (fun x => 0 ≤ x) ∧
      (((adamSecondMoment beta2 layer delta).map sqrt).map (fun x => x + epsilon)).Forall
        (fun x => x ≠ 0)
  | Optimizer.adamax _ beta2 _ => (adamaxNorm beta2 layer delta).Forall (fun x => x ≠ 0)

end optimizerState

/-- A layer of one weight as the optimizers see it: weight 1, `m` equal to 1, `v` zero. -/
def unitOpt : OptLayer ℚ := ⟨Mat.const 1 1 1, Mat.const 1 1 1, Mat.const 1 1 0⟩

/-- The matrix of one row with the entries `a` and `b`. -/
def Mat.row2 (a b : ℚ) : Mat ℚ := ⟨1, 2, fun _ k => if k = 0 then a else b⟩

/-- A layer of two weights: weights (1, 1), `m` zero, `v` equal to (4, 1). -/
def pairOpt : OptLayer ℚ := ⟨Mat.row2 1 1, Mat.row2 0 0, Mat.row2 4 1⟩

/-- A square root on the rationals, exact on the quotients of perfect squares. -/
def ratSqrt (x : ℚ) : ℚ := (Nat.sqrt x.num.toNat : ℚ) / (Nat.sqrt x.den : ℚ)

/-- A layer of two by one weights: weights 1, `m` equal to 1, `v` equal to 4. -/
def columnOpt : OptLayer ℚ := ⟨Mat.const 2 1 1, Mat.const 2 1 1, Mat.const 2 1 4⟩

/-- The network `chain3` over a file of two instances. -/
def chainPair : Network ℚ :=
  ⟨[chainIn, chainHidden, chainOut], 3, 1 / 100, 1 / 100, 1, some (Mat.const 1 1 0), 2, 0⟩

/-- A shuffled file of two lines, not yet read. -/
def twoLines : DataFile ℚ := ⟨[⟨1, 2, 3, 4, 0⟩, ⟨5, 6, 7, 8, 1⟩], 0⟩

/-- A shuffled file of one line, not yet read. -/
def oneLine : DataFile ℚ := ⟨[⟨1, 2, 3, 4, 0⟩], 0⟩

section pairs

variable {α : Type} [LinearOrderedField α]

/-- The layer with `weights` replaced. -/
def Layer.withNewWeights (l : Layer α) (w : Mat α) : Layer α := { l with weights := some w }

/-- The layer with `bias` replaced. -/
def Layer.withBias (l : Layer α) (b : Mat α) : Layer α := { l with bias := b }

/-- The network with `layers` replaced. -/
def Network.withLayers (net : Network α) (ls : List (Layer α)) : Network α :=
  { net with layers := ls }

end pairs

/-- Input layer of `momNet`: features `(1, 0, 0, 0)`, zero weights, zero `prev_update`, every
entry of `dZ` equal to 1. -/
def momIn : Layer ℚ :=
  ⟨⟨1, 4, fun _ k => if k = 0 then 1 else 0⟩, Mat.const 1 4 1, Mat.const 1 4 0,
    some (Mat.const 4 1 0), some (Mat.const 4 1 0), some activations.linear,
    some activations.linear_deriv⟩

/-- Output layer of `momNet`: prediction 0, `dZ` equal to 1, zero bias. -/
def momOut : Layer ℚ :=
  ⟨Mat.const 1 1 0, Mat.const 1 1 1, Mat.const 1 1 0, none, none, some activations.linear,
    some activations.linear_deriv⟩

/-- A network of 4 linear inputs and 1 linear output as `Network::feedforward` leaves it on
the instance with features `(1, 0, 0, 0)` and label 1, on zero weights; learning rate 1/100. -/
def momNet : Network ℚ :=
  ⟨[momIn, momOut], 2, 1 / 100, 1 / 100, 1, some (Mat.const 1 1 1), 1, 0⟩

/-- The weight gradient of `momNet`: `contents_0^T * g_0` with
`g_0 = (contents_1 - labels)` times `dZ_1`. -/
def momDelta : Mat ℚ :=
  momIn.contents.transpose.mul ((momOut.contents.sub (Mat.const 1 1 1)).cwiseProduct momOut.dZ)

/-- The layer 0 of `momNet` as `optimizers::momentum` sees it: its weights, its `prev_update`
as `m`, and a `v` that plays no part. -/
def momOpt : OptLayer ℚ := ⟨Mat.const 4 1 0, Mat.const 4 1 0, Mat.const 4 1 0⟩

section alike

variable {α : Type} [LinearOrderedField α]

/-- Two layers that differ at most in `contents` and in the entries of `dZ` inside its
dimensions. -/
def Layer.Alike (a b : Layer α) : Prop :=
  a.bias = b.bias ∧ a.weights = b.weights ∧ a.prev_update = b.prev_update ∧
    a.activation = b.activation ∧ a.activation_deriv = b.activation_deriv ∧
    a.dZ.rows = b.dZ.rows ∧ a.dZ.cols = b.dZ.cols ∧
    ∀ j k, ¬ (j < a.dZ.rows ∧ k < a.dZ.cols) → a.dZ.coeff j k = b.dZ.coeff j k

/-- Two networks whose layers are alike, with equal `contents` in the layers below `c` and
equal layers below `e`. -/
def Network.Alike (a b : Network α) (c e : Nat) : Prop :=
  a.SameFrame b ∧ a.instances = b.instances ∧ a.batches = b.batches ∧
    a.layers.length = b.layers.length ∧
    ∀ (k : Nat) (la lb : Layer α), a.layers[k]? = some la → b.layers[k]? = some lb →
      la.Alike lb ∧ (k < c → la.contents = lb.contents) ∧ (k < e → la = lb)

end alike

/-- Every layer of `s` has the `dZ` of the layer of `net` at the same index, the entries
inside the dimensions aside. -/
def Network.SameOutside {α : Type} (s net : Network α) : Prop :=
  ∀ (i : Nat) (li : Layer α), s.layers[i]? = some li → ∃ ln : Layer α,
    net.layers[i]? = some ln ∧ li.dZ.rows = ln.dZ.rows ∧ li.dZ.cols = ln.dZ.cols ∧
    ∀ j c, ¬ (j < li.dZ.rows ∧ c < li.dZ.cols) → li.dZ.coeff j c = ln.dZ.coeff j c

/-- Input layer of `doubleNet`: features `(1, 0, 0, 0)`, weights `(1, 0, 0, 0)`, and the
custom activation `x -> 2 * x` with derivative 2, as `set_activation` installs one. -/
def doubleIn : Layer ℚ :=
  ⟨⟨1, 4, fun _ k => if k = 0 then 1 else 0⟩, Mat.const 1 4 0, Mat.const 1 4 0,
    some ⟨4, 1, fun k _ => if k = 0 then 1 else 0⟩, some (Mat.const 4 1 0),
    some (fun x => 2 * x), some (fun _ => 2)⟩

/-- Output layer of `doubleNet`: one linear node, zero bias. -/
def doubleOut : Layer ℚ :=
  ⟨Mat.const 1 1 0, Mat.const 1 1 0, Mat.const 1 1 0, none, none, some activations.linear,
    some activations.linear_deriv⟩

/-- A network of 4 inputs and 1 linear output whose input layer doubles its entries. -/
def doubleNet : Network ℚ :=
  ⟨[doubleIn, doubleOut], 2, 1 / 100, 1 / 100, 1, some (Mat.const 1 1 0), 1, 0⟩

section batches

variable {α : Type} [LinearOrderedField α]

/-- The matrix `c` after `update_layer` has written the first `t` values of `vals`: entry
`(a, b)` holds `vals[a * cols + b]` when that index is below `t`. -/
def Mat.filled (c : Mat α) (vals : Nat → α) (t : Nat) : Mat α :=
  ⟨c.rows, c.cols, fun a b =>
    if b < c.cols ∧ a * c.cols + b < t then vals (a * c.cols + b) else c.coeff a b⟩

/-- The input layer and `labels` hold the batch that starts at line `p` of the file: row `r`
of the input layer holds the four features of line `p + r` in its columns 0 to 3 and what
the array `batch` held on the stack in the columns from 4 on, and row `r` of `labels` holds
the label of that line. -/
def Network.HoldsBatch (net : Network α) (lines : List (Instance α)) (p : Nat)
    (stack : Nat → α) : Prop :=
  ∃ (l0 : Layer α) (lab : Mat α), net.layers[0]? = some l0 ∧ net.labels = some lab ∧
    ∀ (r : Nat) (ln : Instance α), r < net.batch_size → lines[p + r]? = some ln →
      l0.contents.coeff r 0 = ln.x0 ∧ l0.contents.coeff r 1 = ln.x1 ∧
      l0.contents.coeff r 2 = ln.x2 ∧ l0.contents.coeff r 3 = ln.x3 ∧
      lab.coeff r 0 = (ln.label : α) ∧
      ∀ (c : Nat), 4 ≤ c → c < l0.contents.cols →
        l0.contents.coeff r c = stack (r * l0.contents.cols + c)

/-- The input layer holds the activated batch that starts at line `p` of the file, as a
forward pass leaves it: with `f` the activation of the input layer, row `r` holds `f` of the
four features of line `p + r`, and row `r` of `labels` holds the label of that line. -/
def Network.HoldsActivated (net : Network α) (lines : List (Instance α)) (p : Nat) : Prop :=
  ∃ (l0 : Layer α) (lab : Mat α) (f : α → α), net.layers[0]? = some l0 ∧
    l0.activation = some f ∧ net.labels = some lab ∧
    ∀ (r : Nat) (ln : Instance α), r < net.batch_size → lines[p + r]? = some ln →
      l0.contents.coeff r 0 = f ln.x0 ∧ l0.contents.coeff r 1 = f ln.x1 ∧
      l0.contents.coeff r 2 = f ln.x2 ∧ l0.contents.coeff r 3 = f ln.x3 ∧
      lab.coeff r 0 = (ln.label : α)

/-- The network `bp` with its counter `batches` advanced by one, the statement `batches++`
of `Network::train`. -/
def Network.counted (bp : Network α) : Network α := { bp with batches := bp.batches + 1 }

/-- A round of the loop of `Network::train` that loads: from the state `pre`, `next_batch`
reads the batch at line `p` into the input layer and `labels`, that state is fed forward,
the result is backpropagated, and `post` is the result with `batches` advanced. -/
def Network.LoadedRound (pre post : Network α) (lines : List (Instance α)) (p : Nat)
    (stack : Nat → α) : Prop :=
  ∃ (loaded ff bp : Network α),
    pre.next_batch ⟨lines, p⟩ stack = some (loaded, ⟨lines, p + pre.batch_size⟩) ∧
    loaded.HoldsBatch lines p stack ∧
    (∀ (i : Nat), 1 ≤ i → loaded.layers[i]? = pre.layers[i]?) ∧
    loaded.feedforward = some ff ∧ ff.backpropagate = some bp ∧ post = bp.counted

/-- A round of the loop of `Network::train` that does not load: the state `pre`, as the
round before left it, is fed forward and backpropagated, and `post` is the result with
`batches` advanced. -/
def Network.IdleRound (pre post : Network α) : Prop :=
  ∃ (ff bp : Network α), pre.feedforward = some ff ∧ ff.backpropagate = some bp ∧
    post = bp.counted

end batches

/-! ## The optimizers over an arithmetic without laws -/

/-- The operations of `float` that the closures of `namespace optimizers` use, as total
functions on a type `β` of values.  No law is assumed of them, so `β` may hold the
infinities and NaN that the IEEE operations return: `recip` is `pow(-1)`, `ofInt` the
conversion of an `int`, `gt` the comparison `>`. -/
structure FloatOps (β : Type) where
  zero : β
  one : β
  ofInt : Int → β
  add : β → β → β
  sub : β → β → β
  mul : β → β → β
  div : β → β → β
  abs : β → β
  sqrt : β → β
  recip : β → β
  gt : β → β → Bool

section floatOptimizers

variable {β : Type}

/-- Method `sum()` over the arithmetic `F`: the coefficients are added up row by row,
starting from zero (the source does not fix the order). -/
def Mat.sumOn (F : FloatOps β) (m : Mat β) : β :=
  (List.range m.rows).foldl
    (fun s j => (List.range m.cols).foldl (fun s k => F.add s (m.coeff j k)) s) F.zero

/-- The closure returned by `optimizers::momentum(beta)`, over the arithmetic `F`. -/
def optimizers.momentumOn (F : FloatOps β) (beta : β) (layer : OptLayer β) (delta : Mat β)
    (learning_rate : β) : Option (OptLayer β) := do
  let change ← Mat.zip? F.add (layer.m.map (F.mul beta)) (delta.map (F.mul learning_rate))
  let w ← Mat.zip? F.sub layer.weights change
  let layer := { layer with weights := w }
  pure { layer with m := delta.map (F.mul learning_rate) }

/-- One call of the closure of `optimizers::demon`, over the arithmetic `F`: the layer and
the closure after it. -/
def optimizers.Demon.callOn (F : FloatOps β) (c : optimizers.Demon β) (layer : OptLayer β)
    (delta : Mat β) (learning_rate : β) : Option (OptLayer β × optimizers.Demon β) := do
  let beta :=
    F.div (F.mul c.beta_init (F.sub F.one (F.div c.epochs (F.ofInt c.max_ep))))
      (F.add (F.mul c.beta_init (F.sub F.one (F.div c.epochs (F.ofInt c.max_ep))))
        (F.sub F.one c.beta_init))
  let c := { c with beta := beta }
  let change ← Mat.zip? F.add (layer.m.map (F.mul c.beta)) (delta.map (F.mul learning_rate))
  let w ← Mat.zip? F.sub layer.weights change
  let layer := { layer with weights := w }
  let layer := { layer with m := delta.map (F.mul learning_rate) }
  pure (layer, { c with epochs := F.add c.epochs F.one })

/-- The closure returned by `optimizers::adam(beta1, beta2, epsilon)`, over the arithmetic
`F`. -/
def optimizers.adamOn (F : FloatOps β) (beta1 beta2 epsilon : β) (layer : OptLayer β)
    (delta : Mat β) (learning_rate : β) : Option (OptLayer β) := do
  let m ← Mat.zip? F.add (layer.m.map (F.mul beta1)) (delta.map (F.mul (F.sub F.one beta1)))
  let layer := { layer with m := m }
  let sq ← Mat.zip? F.mul delta delta
  let v ← Mat.zip? F.add (layer.v.map (F.mul beta2)) (sq.map (F.mul (F.sub F.one beta2)))
  let layer := { layer with v := v }
  let inv := ((layer.v.map F.sqrt).map (fun x => F.add x epsilon)).map F.recip
  let quot ← Mat.zip? F.mul inv layer.m
  let w ← Mat.zip? F.sub layer.weights (quot.map (F.mul learning_rate))
  pure { layer with weights := w }

/-- The closure returned by `optimizers::adamax(beta1, beta2, epsilon)`, over the arithmetic
`F`. -/
def optimizers.adamaxOn (F : FloatOps β) (beta1 beta2 _epsilon : β) (layer : OptLayer β)
    (delta : Mat β) (learning_rate : β) : Option (OptLayer β) := do
  let m ← Mat.zip? F.add (layer.m.map (F.mul beta1)) (delta.map (F.mul (F.sub F.one beta1)))
  let layer := { layer with m := m }
  let layer :=
    if F.gt ((layer.v.map (F.mul beta2)).sumOn F) ((delta.map F.abs).sumOn F) then
      { layer with v := layer.v.map (F.mul beta2) }
    else { layer with v := delta.map F.abs }
  let inv := layer.v.map F.recip
  let quot ← Mat.zip? F.mul inv layer.m
  let w ← Mat.zip? F.sub layer.weights (quot.map (F.mul learning_rate))
  pure { layer with weights := w }

/-- One call `opt(layer, delta, learning_rate)` over the arithmetic `F`: the layer and the
closure after it. -/
def Optimizer.callOn (F : FloatOps β) (o : Optimizer β) (layer : OptLayer β) (delta : Mat β)
    (learning_rate : β) : Option (OptLayer β × Optimizer β) :=
  match o with
  | Optimizer.momentum beta =>
    (optimizers.momentumOn F beta layer delta learning_rate).map (fun l => (l, o))
  | Optimizer.demon c =>
    (c.callOn F layer delta learning_rate).map (fun r => (r.1, Optimizer.demon r.2))
  | Optimizer.adam beta1 beta2 epsilon =>
    (optimizers.adamOn F beta1 beta2 epsilon layer delta learning_rate).map (fun l => (l, o))
  | Optimizer.adamax beta1 beta2 epsilon =>
    (optimizers.adamaxOn F beta1 beta2 epsilon layer delta learning_rate).map (fun l => (l, o))

/-- Consecutive calls of one optimizer on one layer over the arithmetic `F`, with the
gradients and learning rates of the list. -/
def Optimizer.runOn (F : FloatOps β) :
    Optimizer β → OptLayer β → List (Mat β × β) → Option (OptLayer β × Optimizer β)
  | o, layer, [] => some (layer, o)
  | o, layer, (delta, lr) :: rest =>
    match o.callOn F layer delta lr with
    | some (layer, o) => Optimizer.runOn F o layer rest
    | none => none

end floatOptimizers

/-- The exact arithmetic of a field as a `FloatOps`, with the quotient by zero that the field
defines; `sqrt` is passed in. -/
def fieldOps {α : Type} [LinearOrderedField α] (sqrt : α → α) : FloatOps α where
  zero := 0
  one := 1
  ofInt := fun z => (z : α)
  add := fun x y => x + y
  sub := fun x y => x - y
  mul := fun x y => x * y
  div := fun x y => x / y
  abs := fun x => |x|
  sqrt := sqrt
  recip := fun x => x⁻¹
  gt := fun x y => decide (x > y)

/-- The rationals with one more value `none` for a result that is no number (the infinities
and NaN of IEEE taken together): a quotient by zero, the inverse of zero, the root of a
negative number and every operation on `none` give `none`. -/
def extendedOps : FloatOps (Option ℚ) where
  zero := some 0
  one := some 1
  ofInt := fun z => some (z : ℚ)
  add := fun x y => x.bind (fun a => y.map (fun b => a + b))
  sub := fun x y => x.bind (fun a => y.map (fun b => a - b))
  mul := fun x y => x.bind (fun a => y.map (fun b => a * b))
  div := fun x y => x.bind (fun a => y.bind (fun b => if b = 0 then none else some (a / b)))
  abs := fun x => x.map (fun a => |a|)
  sqrt := fun x => x.bind (fun a => if a < 0 then none else some (ratSqrt a))
  recip := fun x => x.bind (fun a => if a = 0 then none else some a⁻¹)
  gt := fun x y =>
    match x, y with
    | some a, some b => decide (a > b)
    | _, _ => false

/-- The matrix of one row with the entries `a` and `b`, over the extended rationals. -/
def Mat.rowPair (a b : Option ℚ) : Mat (Option ℚ) := ⟨1, 2, fun _ k => if k = 0 then a else b⟩

/-- A layer of two weights over the extended rationals: weights (1, 1), `m` and `v` zero,
the state before the first call. -/
def freshOpt : OptLayer (Option ℚ) :=
  ⟨Mat.rowPair (some 1) (some 1), Mat.rowPair (some 0) (some 0), Mat.rowPair (some 0) (some 0)⟩

/-- The closure `demon(1/2, 2)` as it is returned, over the extended rationals. -/
def freshDemon : optimizers.Demon (Option ℚ) := ⟨2, some 0, some (1 / 2), some (1 / 2)⟩

/-- A layer of two weights: weights (1, 1), `m` and `v` zero, the state before the first
call. -/
def zeroOpt : OptLayer ℚ := ⟨Mat.row2 1 1, Mat.row2 0 0, Mat.row2 0 0⟩

section gradientCheck

variable {α : Type} [LinearOrderedField α]

end gradientCheck

end Jacobian

/-! ## Matrix lemmas -/

namespace Jacobian

namespace Mat

variable {α : Type}

theorem get?_eq_some (m : Mat α) {j k : Nat} (hj : j < m.rows) (hk : k < m.cols) :
    m.get? j k = some (m.coeff j k) := by
  simp [get?, hj, hk]

theorem set?_eq_some (m : Mat α) {j k : Nat} (hj : j < m.rows) (hk : k < m.cols) (v : α) :
    m.set? j k v = some ⟨m.rows, m.cols, fun a b => if a = j ∧ b = k then v else m.coeff a b⟩ := by
  simp [set?, hj, hk]

theorem set?_shape {m m' : Mat α} {j k : Nat} {v : α} (h : m.set? j k v = some m') :
    m'.rows = m.rows ∧ m'.cols = m.cols := by
  unfold set? at h
  split at h
  · cases h; exact ⟨rfl, rfl⟩
  · cases h

theorem zip?_eq_some (f : α → α → α) {a b : Mat α} (hr : a.rows = b.rows)
    (hc : a.cols = b.cols) : zip? f a b = some (zip f a b) := by
  simp [zip?, hr, hc]

theorem add?_eq_some [Add α] {a b : Mat α} (hr : a.rows = b.rows) (hc : a.cols = b.cols) :
    a.add? b = some (a.add b) := zip?_eq_some _ hr hc

theorem sub?_eq_some [Sub α] {a b : Mat α} (hr : a.rows = b.rows) (hc : a.cols = b.cols) :
    a.sub? b = some (a.sub b) := zip?_eq_some _ hr hc

theorem cwiseProduct?_eq_some [Mul α] {a b : Mat α} (hr : a.rows = b.rows)
    (hc : a.cols = b.cols) : a.cwiseProduct? b = some (a.cwiseProduct b) := zip?_eq_some _ hr hc

theorem mul?_eq_some [Semiring α] {a b : Mat α} (h : a.cols = b.rows) :
    a.mul? b = some (a.mul b) := by
  simp [mul?, h]

end Mat

/-- Success of a loop from an invariant: when every step taken from a state that satisfies
`Inv`, at an index that satisfies `P`, returns a state that satisfies `Inv`, so does the fold. -/
theorem foldlM_inv {σ ι : Type} (Inv : σ → Prop) (P : ι → Prop) (step : σ → ι → Option σ)
    (h : ∀ s i, Inv s → P i → ∃ s', step s i = some s' ∧ Inv s') :
    ∀ (is : List ι) (s : σ), Inv s → (∀ i ∈ is, P i) →
      ∃ s', is.foldlM step s = some s' ∧ Inv s' := by
  intro is
  induction is with
  | nil => intro s hs _; exact ⟨s, rfl, hs⟩
  | cons i is ih =>
    intro s hs hP
    obtain ⟨s1, h1, hinv1⟩ := h s i hs (hP i (List.mem_cons_self _ _))
    obtain ⟨s2, h2, hinv2⟩ := ih s1 hinv1 (fun x hx => hP x (List.mem_cons_of_mem _ hx))
    exact ⟨s2, by simp [List.foldlM_cons, h1, h2], hinv2⟩

/-! ## The activation loops -/

section activation

variable {α : Type} [LinearOrderedField α]

theorem Layer.activateEntry_eq (l : Layer α) (f f' : α → α)
    (hf : l.activation = some f) (hf' : l.activation_deriv = some f')
    (hr : l.dZ.rows = l.contents.rows) (hc : l.dZ.cols = l.contents.cols)
    {j k : Nat} (hj : j < l.contents.rows) (hk : k < l.contents.cols) :
    l.activateEntry j k = some
      { l with
        dZ := ⟨l.dZ.rows, l.dZ.cols,
          fun a b => if a = j ∧ b = k then f' (l.contents.coeff j k) else l.dZ.coeff a b⟩
        contents := ⟨l.contents.rows, l.contents.cols,
          fun a b => if a = j ∧ b = k then f (l.contents.coeff j k) else l.contents.coeff a b⟩ } := by
  simp [Layer.activateEntry, hf, hf', Mat.get?, Mat.set?, hj, hk, hr, hc]

theorem done_succ (c j k a b : Nat) (hk : k < c) :
    done c j (k + 1) a b = (decide (a = j ∧ b = k) || done c j k a b) := by
  simp only [done, Bool.decide_eq_true, ← Bool.decide_or]
  congr 1
  apply propext
  constructor
  · rintro ⟨h1, h2 | ⟨h2, h3⟩⟩
    · exact Or.inr ⟨h1, Or.inl h2⟩
    · by_cases hb : b = k
      · exact Or.inl ⟨h2, hb⟩
      · exact Or.inr ⟨h1, Or.inr ⟨h2, by omega⟩⟩
  · rintro (⟨h1, h2⟩ | ⟨h1, h2 | ⟨h2, h3⟩⟩)
    · exact ⟨by omega, Or.inr ⟨h1, by omega⟩⟩
    · exact ⟨h1, Or.inl h2⟩
    · exact ⟨h1, Or.inr ⟨h2, by omega⟩⟩

theorem Layer.activateEntry_activatedOn (l : Layer α) (f f' : α → α)
    (hf : l.activation = some f) (hf' : l.activation_deriv = some f')
    (hr : l.dZ.rows = l.contents.rows) (hc : l.dZ.cols = l.contents.cols)
    {j k : Nat} (hj : j < l.contents.rows) (hk : k < l.contents.cols) :
    (l.activatedOn f f' (done l.contents.cols j k)).activateEntry j k
      = some (l.activatedOn f f' (done l.contents.cols j (k + 1))) := by
  have hnot : done l.contents.cols j k j k = false := by simp [done]
  rw [Layer.activateEntry_eq (l.activatedOn f f' (done l.contents.cols j k)) f f' hf hf' hr hc
    hj hk]
  simp only [Layer.activatedOn, hnot]
  congr 2
  · congr 1
    funext a b
    rw [done_succ _ _ _ _ _ hk]
    by_cases hab : a = j ∧ b = k
    · obtain ⟨rfl, rfl⟩ := hab
      simp
    · simp [hab]
  · congr 1
    funext a b
    rw [done_succ _ _ _ _ _ hk]
    by_cases hab : a = j ∧ b = k
    · obtain ⟨rfl, rfl⟩ := hab
      simp
    · simp [hab]

theorem Layer.activate_row (l : Layer α) (f f' : α → α)
    (hf : l.activation = some f) (hf' : l.activation_deriv = some f')
    (hr : l.dZ.rows = l.contents.rows) (hc : l.dZ.cols = l.contents.cols)
    {j : Nat} (hj : j < l.contents.rows) (n : Nat) (hn : n ≤ l.contents.cols) :
    (List.range n).foldlM (fun (l : Layer α) k => l.activateEntry j k)
        (l.activatedOn f f' (done l.contents.cols j 0))
      = some (l.activatedOn f f' (done l.contents.cols j n)) := by
  induction n with
  | zero => rfl
  | succ n ih =>
    rw [List.range_succ, List.foldlM_append, ih (by omega)]
    simp only [List.foldlM_cons, List.foldlM_nil, Option.bind_eq_bind, Option.some_bind]
    rw [Layer.activateEntry_activatedOn l f f' hf hf' hr hc hj (by omega)]
    rfl

theorem done_row_end (c j : Nat) : done c j c = done c (j + 1) 0 := by
  funext a b
  simp only [done]
  congr 1
  apply propext
  constructor
  · rintro ⟨h1, h2 | ⟨h2, _⟩⟩
    · exact ⟨h1, Or.inl (by omega)⟩
    · exact ⟨h1, Or.inl (by omega)⟩
  · rintro ⟨h1, h2 | ⟨_, h3⟩⟩
    · exact ⟨h1, by omega⟩
    · omega

theorem Layer.activate_rows (l : Layer α) (f f' : α → α)
    (hf : l.activation = some f) (hf' : l.activation_deriv = some f')
    (hr : l.dZ.rows = l.contents.rows) (hc : l.dZ.cols = l.contents.cols)
    (m : Nat) (hm : m ≤ l.contents.rows) :
    (List.range m).foldlM
        (fun (l : Layer α) j =>
          (List.range l.contents.cols).foldlM (fun (l : Layer α) k => l.activateEntry j k) l)
        (l.activatedOn f f' (done l.contents.cols 0 0))
      = some (l.activatedOn f f' (done l.contents.cols m 0)) := by
  induction m with
  | zero => rfl
  | succ m ih =>
    rw [List.range_succ, List.foldlM_append, ih (by omega)]
    simp only [List.foldlM_cons, List.foldlM_nil, Option.bind_eq_bind, Option.some_bind]
    have hcols : (l.activatedOn f f' (done l.contents.cols m 0)).contents.cols = l.contents.cols :=
      rfl
    rw [hcols, Layer.activate_row l f f' hf hf' hr hc (by omega) _ (le_refl _), done_row_end]
    rfl

theorem Layer.activatedOn_none (l : Layer α) (f f' : α → α) :
    l.activatedOn f f' (done l.contents.cols 0 0) = l := by
  have h : ∀ a b, done l.contents.cols 0 0 a b = false := by
    intro a b; simp [done]
  simp [Layer.activatedOn, h]

/-- The activation loops rewrite exactly the entries inside the dimensions of `contents`. -/
theorem Layer.activate_eq (l : Layer α) (f f' : α → α)
    (hf : l.activation = some f) (hf' : l.activation_deriv = some f')
    (hr : l.dZ.rows = l.contents.rows) (hc : l.dZ.cols = l.contents.cols) :
    l.activate = some (l.activatedOn f f' (done l.contents.cols l.contents.rows 0)) := by
  have h := Layer.activate_rows l f f' hf hf' hr hc l.contents.rows (le_refl _)
  rw [Layer.activatedOn_none] at h
  exact h
end activation

/-! ## Steps of the forward pass on a well-formed network -/

section network

variable {α : Type} [LinearOrderedField α]

theorem Network.WellFormed.layer_exists {net : Network α} {dims : List Nat}
    (h : net.WellFormed dims) {i : Nat} (hi : i < dims.length) :
    ∃ l n, net.layers[i]? = some l ∧ dims[i]? = some n ∧ l.Shaped net.batch_size n := by
  have h1 : i < net.layers.length := by rw [h.layers_length]; exact hi
  refine ⟨net.layers[i], dims[i], List.getElem?_eq_getElem h1, List.getElem?_eq_getElem hi, ?_⟩
  exact h.shaped i _ _ (List.getElem?_eq_getElem h1) (List.getElem?_eq_getElem hi)

/-- Replacing a layer by one of the same shapes keeps the network well formed. -/
theorem Network.WellFormed.set_layer {net : Network α} {dims : List Nat} (h : net.WellFormed dims)
    {i : Nat} {l l' : Layer α} (hl : net.layers[i]? = some l)
    (hs : ∀ n, l.Shaped net.batch_size n → l'.Shaped net.batch_size n)
    (hw : l'.weights.map Mat.shape = l.weights.map Mat.shape)
    (hp : l'.prev_update.map Mat.shape = l.prev_update.map Mat.shape) :
    (net.withLayer i l').WellFormed dims := by
  have hlt : i < net.layers.length := by
    by_contra hc
    rw [List.getElem?_eq_none (by omega)] at hl
    cases hl
  refine ⟨h.length_eq, by simp [Network.withLayer, h.layers_length], h.pos, ?_, ?_, h.labels⟩
  · intro k x n hx hn
    have hx' : (net.layers.set i l')[k]? = some x := hx
    by_cases hik : i = k
    · subst hik
      rw [List.getElem?_set_self hlt] at hx'
      cases hx'
      exact hs n (h.shaped i l n hl hn)
    · rw [List.getElem?_set_ne hik] at hx'
      exact h.shaped k x n hx' hn
  · intro k x n n' hx hn hn'
    have hx' : (net.layers.set i l')[k]? = some x := hx
    by_cases hik : i = k
    · subst hik
      rw [List.getElem?_set_self hlt] at hx'
      cases hx'
      rw [hw, hp]
      exact h.weights i l n n' hl hn hn'
    · rw [List.getElem?_set_ne hik] at hx'
      exact h.weights k x n n' hx' hn hn'

theorem Network.activateAt_eq {net : Network α} {i : Nat} {l : Layer α} {f f' : α → α}
    (hl : net.layers[i]? = some l)
    (hf : l.activation = some f) (hf' : l.activation_deriv = some f')
    (hr : l.dZ.rows = l.contents.rows) (hc : l.dZ.cols = l.contents.cols) :
    net.activateAt i = some (net.withLayer i (l.activated f f')) := by
  simp [Network.activateAt, hl, Layer.activate_eq l f f' hf hf' hr hc, Network.withLayer,
    Layer.activated]

theorem Network.propagateAt_eq {net : Network α} {i : Nat} {l next : Layer α} {w : Mat α}
    (hl : net.layers[i]? = some l) (hn : net.layers[i + 1]? = some next)
    (hw : l.weights = some w) (h1 : l.contents.cols = w.rows)
    (h2 : l.contents.rows = next.bias.rows) (h3 : w.cols = next.bias.cols) :
    net.propagateAt i = some (net.withLayer (i + 1) (next.withContents ((l.contents.mul w).add next.bias))) := by
  simp only [Network.propagateAt, hl, hn, hw, Option.pure_def, Option.bind_eq_bind,
    Option.some_bind, Mat.mul?_eq_some h1]
  rw [Mat.add?_eq_some (a := l.contents.mul w) (b := next.bias) h2 h3]
  rfl

theorem Layer.Shaped.functions {l : Layer α} {b n : Nat} (h : l.Shaped b n) :
    ∃ f f', l.activation = some f ∧ l.activation_deriv = some f' := by
  have h1 := h.act
  have h2 := h.deriv
  rw [Option.isSome_iff_exists] at h1 h2
  obtain ⟨f, hf⟩ := h1
  obtain ⟨f', hf'⟩ := h2
  exact ⟨f, f', hf, hf'⟩

/-- Activating layer `i` of a well-formed network succeeds, keeps it well formed and changes
layer `i` only. -/
theorem Network.WellFormed.activateAt {net : Network α} {dims : List Nat}
    (h : net.WellFormed dims) {i : Nat} (hi : i < dims.length) :
    ∃ l f f', net.layers[i]? = some l ∧ l.activation = some f ∧ l.activation_deriv = some f' ∧
      net.activateAt i = some (net.withLayer i (l.activated f f')) ∧
      Network.WellFormed (net.withLayer i (l.activated f f')) dims := by
  obtain ⟨l, n, hl, hn, hs⟩ := h.layer_exists hi
  obtain ⟨f, f', hf, hf'⟩ := hs.functions
  refine ⟨l, f, f', hl, hf, hf', ?_, ?_⟩
  · exact Network.activateAt_eq hl hf hf' (by rw [hs.dZ_rows, hs.contents_rows])
      (by rw [hs.dZ_cols, hs.contents_cols])
  · refine h.set_layer hl ?_ rfl rfl
    intro n' hs'
    exact ⟨hs'.contents_rows, hs'.contents_cols, hs'.dZ_rows, hs'.dZ_cols, hs'.bias_rows,
      hs'.bias_cols, hs'.act, hs'.deriv⟩

theorem Network.WellFormed.weights_exists {net : Network α} {dims : List Nat}
    (h : net.WellFormed dims) {i : Nat} (hi : i + 1 < dims.length) :
    ∃ l next w pu n n', net.layers[i]? = some l ∧ net.layers[i + 1]? = some next ∧
      dims[i]? = some n ∧ dims[i + 1]? = some n' ∧
      l.Shaped net.batch_size n ∧ next.Shaped net.batch_size n' ∧
      l.weights = some w ∧ w.rows = n ∧ w.cols = n' ∧
      l.prev_update = some pu ∧ pu.rows = n ∧ pu.cols = n' := by
  obtain ⟨l, n, hl, hn, hs⟩ := h.layer_exists (i := i) (by omega)
  obtain ⟨next, n', hl', hn', hs'⟩ := h.layer_exists hi
  obtain ⟨hw, hp⟩ := h.weights i l n n' hl hn hn'
  rw [Option.map_eq_some'] at hw hp
  obtain ⟨w, hw, hws⟩ := hw
  obtain ⟨pu, hp, hps⟩ := hp
  simp only [Mat.shape, Prod.mk.injEq] at hws hps
  exact ⟨l, next, w, pu, n, n', hl, hl', hn, hn', hs, hs', hw, hws.1, hws.2, hp, hps.1, hps.2⟩

/-- Forming the product for layer `i+1` of a well-formed network succeeds, keeps it well
formed and changes the contents of layer `i+1` only. -/
theorem Network.WellFormed.propagateAt {net : Network α} {dims : List Nat}
    (h : net.WellFormed dims) {i : Nat} (hi : i + 1 < dims.length) :
    ∃ l next w, net.layers[i]? = some l ∧ net.layers[i + 1]? = some next ∧
      l.weights = some w ∧
      net.propagateAt i = some (net.withLayer (i + 1) (next.withContents ((l.contents.mul w).add next.bias))) ∧
      Network.WellFormed (net.withLayer (i + 1) (next.withContents ((l.contents.mul w).add next.bias))) dims := by
  obtain ⟨l, next, w, pu, n, n', hl, hl', hn, hn', hs, hs', hw, hwr, hwc, -, -, -⟩ :=
    h.weights_exists hi
  refine ⟨l, next, w, hl, hl', hw, ?_, ?_⟩
  · exact Network.propagateAt_eq hl hl' hw (by rw [hs.contents_cols, hwr])
      (by rw [hs.contents_rows, hs'.bias_rows]) (by rw [hwc, hs'.bias_cols])
  · refine h.set_layer hl' ?_ rfl rfl
    intro m hm
    have hmn : m = n' := by
      have := hm.contents_cols
      rw [hs'.contents_cols] at this
      exact this.symm
    subst hmn
    exact ⟨hs.contents_rows, hwc, hm.dZ_rows, hm.dZ_cols, hm.bias_rows, hm.bias_cols, hm.act,
      hm.deriv⟩

end network

/-! ## The forward pass on a well-formed network -/

section forward

variable {α : Type} [LinearOrderedField α]

/-- A run of activations over the layers `is` of a well-formed network succeeds and keeps
every property that activating one of those layers keeps. -/
theorem Network.WellFormed.activate_fold {net : Network α} {dims : List Nat}
    (h : net.WellFormed dims) (is : List Nat) (his : ∀ i ∈ is, i < dims.length)
    (Q : Network α → Prop)
    (hQ : ∀ (s : Network α) (k : Nat) (l : Layer α) (f f' : α → α), k ∈ is →
      s.layers[k]? = some l → Q s → Q (s.withLayer k (l.activated f f')))
    (hq : Q net) :
    ∃ net', is.foldlM Network.activateAt net = some net' ∧ net'.WellFormed dims ∧ Q net' := by
  have key := foldlM_inv (fun s : Network α => s.WellFormed dims ∧ Q s) (fun i => i ∈ is)
    Network.activateAt
    (by
      rintro s i ⟨hs, hqs⟩ hi
      obtain ⟨l, f, f', hl, -, -, heq, hwf⟩ := hs.activateAt (his i hi)
      exact ⟨_, heq, hwf, hQ s i l f f' hi hl hqs⟩)
    is net ⟨h, hq⟩ (fun i hi => hi)
  obtain ⟨net', h1, h2, h3⟩ := key
  exact ⟨net', h1, h2, h3⟩

/-- The product loop over the layers `is` of a well-formed network succeeds and keeps every
property that one of its steps keeps. -/
theorem Network.WellFormed.propagate_fold {net : Network α} {dims : List Nat}
    (h : net.WellFormed dims) (is : List Nat) (his : ∀ i ∈ is, i + 1 < dims.length)
    (Q : Network α → Prop)
    (hQ : ∀ (s : Network α) (k : Nat) (l next : Layer α) (w : Mat α), k ∈ is →
      s.layers[k]? = some l → s.layers[k + 1]? = some next → l.weights = some w → Q s →
      Q (s.withLayer (k + 1) (next.withContents ((l.contents.mul w).add next.bias))))
    (hq : Q net) :
    ∃ net', is.foldlM Network.propagateAt net = some net' ∧ net'.WellFormed dims ∧ Q net' := by
  have key := foldlM_inv (fun s : Network α => s.WellFormed dims ∧ Q s) (fun i => i ∈ is)
    Network.propagateAt
    (by
      rintro s i ⟨hs, hqs⟩ hi
      obtain ⟨l, next, w, hl, hn, hw, heq, hwf⟩ := hs.propagateAt (his i hi)
      exact ⟨_, heq, hwf, hQ s i l next w hi hl hn hw hqs⟩)
    is net ⟨h, hq⟩ (fun i hi => hi)
  obtain ⟨net', h1, h2, h3⟩ := key
  exact ⟨net', h1, h2, h3⟩

theorem Network.SameStatics.refl (net : Network α) : net.SameStatics net :=
  fun _ l hl => ⟨l, hl, rfl, rfl, rfl, rfl, rfl⟩

/-- Replacing a layer by one with the same bias, weights, momentum state and callbacks keeps
`SameStatics`. -/
theorem Network.SameStatics.withLayer {s net : Network α} (h : s.SameStatics net) {k : Nat}
    {l l' : Layer α} (hl : s.layers[k]? = some l) (hb : l'.bias = l.bias)
    (hw : l'.weights = l.weights) (hp : l'.prev_update = l.prev_update)
    (ha : l'.activation = l.activation) (hd : l'.activation_deriv = l.activation_deriv) :
    (s.withLayer k l').SameStatics net := by
  intro j x hx
  have hx' : (s.layers.set k l')[j]? = some x := hx
  by_cases hkj : k = j
  · subst hkj
    have hlt : k < s.layers.length := by
      by_contra hc
      rw [List.getElem?_eq_none (by omega)] at hl
      cases hl
    rw [List.getElem?_set_self hlt] at hx'
    cases hx'
    obtain ⟨l0, h0, e1, e2, e3, e4, e5⟩ := h k l hl
    exact ⟨l0, h0, hb.trans e1, hw.trans e2, hp.trans e3, ha.trans e4, hd.trans e5⟩
  · rw [List.getElem?_set_ne hkj] at hx'
    exact h j x hx'

theorem Network.Frame.activated {net s : Network α} (h : net.Frame s) {k : Nat} {l : Layer α}
    (f f' : α → α) (hl : s.layers[k]? = some l) : net.Frame (s.withLayer k (l.activated f f')) :=
  ⟨h.1, h.2.withLayer hl rfl rfl rfl rfl rfl⟩

theorem Network.Frame.propagated {net s : Network α} (h : net.Frame s) {k : Nat} {l : Layer α}
    (c : Mat α) (hl : s.layers[k]? = some l) : net.Frame (s.withLayer k (l.withContents c)) :=
  ⟨h.1, h.2.withLayer hl rfl rfl rfl rfl rfl⟩

/-- The first two loops of `Network::feedforward` on a well-formed network. -/
theorem Network.WellFormed.feedforward_products {net : Network α} {dims : List Nat}
    (h : net.WellFormed dims) :
    ∃ l f f' n2, net.layers[0]? = some l ∧ l.activation = some f ∧
      l.activation_deriv = some f' ∧
      net.activateAt 0 = some (net.withLayer 0 (l.activated f f')) ∧
      (net.withLayer 0 (l.activated f f')).propagateAll = some n2 ∧
      n2.WellFormed dims ∧ net.Frame n2 ∧ n2.layers[0]? = some (l.activated f f') := by
  obtain ⟨l, f, f', hl, hf, hf', h1, hwf1⟩ := h.activateAt h.pos
  have hlen : 0 < net.layers.length := by rw [h.layers_length]; exact h.pos
  obtain ⟨n2, h2, hwf2, hq2, hz2⟩ := hwf1.propagate_fold (List.range (net.length - 1))
    (by
      intro i hi
      have := h.length_eq
      simp only [List.mem_range] at hi
      omega)
    (fun s => net.Frame s ∧ s.layers[0]? = some (l.activated f f'))
    (by
      rintro s k lk next w - - hn - ⟨hs, hz⟩
      refine ⟨hs.propagated _ hn, ?_⟩
      show (s.layers.set (k + 1) _)[0]? = _
      rw [List.getElem?_set_ne (by omega)]
      exact hz)
    ⟨Network.Frame.activated ⟨⟨rfl, rfl, rfl, rfl, rfl⟩, Network.SameStatics.refl net⟩ f f' hl,
      by
        show (net.layers.set 0 _)[0]? = _
        rw [List.getElem?_set_self hlen]⟩
  exact ⟨l, f, f', n2, hl, hf, hf', h1, h2, hwf2, hq2, hz2⟩

/-- On a well-formed network `Network::feedforward` returns, and the result is well formed
with the same node counts. -/
theorem Network.WellFormed.feedforward {net : Network α} {dims : List Nat}
    (h : net.WellFormed dims) :
    ∃ post, net.feedforward = some post ∧ post.WellFormed dims ∧ net.Frame post := by
  obtain ⟨l, f, f', n2, -, -, -, h1, h2, hwf2, hq2, -⟩ := h.feedforward_products
  obtain ⟨n3, h3, hwf3, hq3⟩ := hwf2.activate_fold (List.range' 1 (n2.length - 1))
    (by
      intro i hi
      have := hwf2.length_eq
      simp only [List.mem_range'_1] at hi
      omega)
    (fun s => net.Frame s) (fun s k lk g g' _ hl hs => hs.activated g g' hl) hq2
  refine ⟨n3, ?_, hwf3, hq3⟩
  simp only [Network.feedforward, h1, Option.bind_eq_bind, Option.some_bind, h2]
  exact h3

theorem Layer.activated_coeff (l : Layer α) (f f' : α → α) {j k : Nat}
    (hj : j < l.contents.rows) (hk : k < l.contents.cols) :
    (l.activated f f').dZ.coeff j k = f' (l.contents.coeff j k) ∧
      (l.activated f f').contents.coeff j k = f (l.contents.coeff j k) := by
  simp [Layer.activated, Layer.activatedOn, done, hj, hk]

theorem range'_split (i n : Nat) (h : i + 1 < n) :
    List.range' 1 (n - 1) = List.range' 1 i ++ (i + 1) :: List.range' (i + 2) (n - 2 - i) := by
  have h1 : List.range' 1 (n - 1) = List.range' 1 (i + 1) ++ List.range' (i + 2) (n - 2 - i) := by
    have := List.range'_append 1 (i + 1) (n - 2 - i) 1
    rw [show 1 + 1 * (i + 1) = i + 2 by omega, show n - 2 - i + (i + 1) = n - 1 by omega] at this
    exact this.symm
  rw [h1, List.range'_concat, List.append_assoc]
  simp [Nat.add_comm]

end forward

/-! ## Construction of a network -/

section build

variable {α : Type} [LinearOrderedField α]

/-- A loop of in-range writes returns a matrix of the same dimensions. -/
theorem Mat.foldlM_set? (r c : Nat → Nat) (v : Nat → α) (is : List Nat) (m : Mat α)
    (h : ∀ i ∈ is, r i < m.rows ∧ c i < m.cols) :
    ∃ m', is.foldlM (fun (w : Mat α) i => w.set? (r i) (c i) (v i)) m = some m' ∧
      m'.rows = m.rows ∧ m'.cols = m.cols := by
  have key := foldlM_inv (fun s : Mat α => s.rows = m.rows ∧ s.cols = m.cols) (fun i => i ∈ is)
    (fun (w : Mat α) i => w.set? (r i) (c i) (v i))
    (by
      rintro s i ⟨hr, hc⟩ hi
      obtain ⟨h1, h2⟩ := h i hi
      refine ⟨_, Mat.set?_eq_some s (by omega) (by omega) _, hr, hc⟩)
    is m ⟨rfl, rfl⟩ (fun i hi => hi)
  exact key

theorem div_mod_lt {b n i : Nat} (h : i < b * n) : i / n < b ∧ i % n < n := by
  have hn : 0 < n := by
    rcases Nat.eq_zero_or_pos n with h0 | h0
    · subst h0; simp at h
    · exact h0
  exact ⟨Nat.div_lt_of_lt_mul (by rw [Nat.mul_comm]; exact h), Nat.mod_lt _ hn⟩

/-- The constructor `Layer::Layer` returns a layer whose three matrices are `b` by `n`. -/
theorem Layer.new_eq_some (b n : Nat) (heap : Nat → Nat → Nat → α) :
    ∃ l, Layer.new b n heap = some l ∧ l.contents.shape = (b, n) ∧ l.dZ.shape = (b, n) ∧
      l.bias.shape = (b, n) ∧ l.weights = none ∧ l.prev_update = none := by
  -- first loop, on the pair `(contents, dZ)`
  have h1 := foldlM_inv
    (fun s : Mat α × Mat α => (s.1.rows = b ∧ s.1.cols = n) ∧ (s.2.rows = b ∧ s.2.cols = n))
    (fun i => i < b * n)
    (fun (s : Mat α × Mat α) i => do
      let c ← s.1.set? (i / n) (i % n) 0
      let d ← s.2.set? (i / n) (i % n) 0
      pure (c, d))
    (by
      rintro ⟨c, d⟩ i ⟨⟨hcr, hcc⟩, ⟨hdr, hdc⟩⟩ hi
      obtain ⟨hq, hm⟩ := div_mod_lt hi
      simp only at hcr hcc hdr hdc
      have e1 := Mat.set?_eq_some c (j := i / n) (k := i % n) (by omega) (by omega) (0 : α)
      have e2 := Mat.set?_eq_some d (j := i / n) (k := i % n) (by omega) (by omega) (0 : α)
      refine ⟨(⟨c.rows, c.cols, fun a k => if a = i / n ∧ k = i % n then 0 else c.coeff a k⟩,
        ⟨d.rows, d.cols, fun a k => if a = i / n ∧ k = i % n then 0 else d.coeff a k⟩), ?_,
        ⟨hcr, hcc⟩, ⟨hdr, hdc⟩⟩
      simp only [Option.pure_def, Option.bind_eq_bind, e1, e2, Option.some_bind])
    (List.range (b * n)) (Mat.alloc b n (heap 0), Mat.alloc b n (heap 1)) ⟨⟨rfl, rfl⟩, ⟨rfl, rfl⟩⟩
    (fun i hi => List.mem_range.mp hi)
  obtain ⟨⟨c, d⟩, hc, ⟨hcr, hcc⟩, -⟩ := h1
  -- bias loops
  have h2 := foldlM_inv (fun s : Mat α => s.rows = b ∧ s.cols = n) (fun i => i < n)
    (fun (bm : Mat α) i => (List.range b).foldlM (fun (bm : Mat α) j => bm.set? j i 0) bm)
    (by
      rintro s i ⟨hr, hc⟩ hi
      obtain ⟨m', hm', hr', hc'⟩ := Mat.foldlM_set? (fun j => j) (fun _ => i) (fun _ => (0 : α))
        (List.range b) s (by
          intro j hj
          simp only [List.mem_range] at hj
          exact ⟨by show j < s.rows; omega, by show i < s.cols; omega⟩)
      exact ⟨m', hm', hr'.trans hr, hc'.trans hc⟩)
    (List.range n) (Mat.alloc b n (heap 2)) ⟨rfl, rfl⟩ (fun i hi => List.mem_range.mp hi)
  obtain ⟨bm, hb, hbr, hbc⟩ := h2
  have hnew : Layer.new b n heap
      = some ⟨c, Mat.alloc b n (heap 3), bm, none, none, none, none⟩ := by
    simp only [Option.pure_def, Option.bind_eq_bind] at hc
    simp only [Layer.new, Option.pure_def, Option.bind_eq_bind]
    rw [hc]
    simp only [Option.some_bind]
    rw [hb]
    rfl
  refine ⟨_, hnew, ?_, rfl, ?_, rfl, rfl⟩
  · show (c.rows, c.cols) = (b, n)
    rw [show c.rows = b from hcr, show c.cols = n from hcc]
  · show (bm.rows, bm.cols) = (b, n)
    rw [hbr, hbc]

/-- Method `Layer::init_weights` returns the layer with `weights` and `prev_update` of shape
(own node count, next node count) and nothing else changed. -/
theorem Layer.init_weights_eq_some (l next : Layer α) (rnd : Nat → α)
    (heap : Nat → Nat → Nat → α) :
    ∃ w pu, l.init_weights next rnd heap
        = some { l with weights := some w, prev_update := some pu } ∧
      w.shape = (l.contents.cols, next.contents.cols) ∧
      pu.shape = (l.contents.cols, next.contents.cols) := by
  obtain ⟨w, hw, hr, hc⟩ := Mat.foldlM_set? (fun i => i / next.contents.cols)
    (fun i => i % next.contents.cols) rnd
    (List.range (l.contents.cols * next.contents.cols))
    (Mat.alloc l.contents.cols next.contents.cols (heap 0))
    (by
      intro i hi
      exact div_mod_lt (List.mem_range.mp hi))
  refine ⟨w, Mat.alloc l.contents.cols next.contents.cols (heap 1), ?_, ?_, rfl⟩
  · simp only [Layer.init_weights, Option.pure_def, Option.bind_eq_bind]
    have hw' : List.foldlM (fun (w : Mat α) i => w.set? (i / (Mat.alloc l.contents.cols
        next.contents.cols (heap 0)).cols) (i % (Mat.alloc l.contents.cols
        next.contents.cols (heap 0)).cols) (rnd i))
        (Mat.alloc l.contents.cols next.contents.cols (heap 0))
        (List.range ((Mat.alloc l.contents.cols next.contents.cols (heap 0)).rows *
          (Mat.alloc l.contents.cols next.contents.cols (heap 0)).cols)) = some w := hw
    rw [hw']
    rfl
  · simp only [Mat.shape]
    rw [hr, hc]
    rfl

theorem Network.add_layer_ok (p : Prims α) (net : Network α) (dims : List Nat)
    (h : net.Built dims) (nodes : Nat) (name : String) (heap : Nat → Nat → Nat → α)
    (hname : (lookupActivation p name).isSome = true) :
    ∃ net', net.add_layer p nodes name heap = Except.ok net' ∧ net'.Built (dims ++ [nodes]) ∧
      net'.SameFrame { net with length := net.length + 1 } := by
  obtain ⟨l, hl, hc, hd, hb, -, -⟩ := Layer.new_eq_some net.batch_size nodes heap
  rw [Option.isSome_iff_exists] at hname
  obtain ⟨⟨f, f'⟩, hff⟩ := hname
  simp only [Mat.shape, Prod.mk.injEq] at hc hd hb
  have hadd : net.add_layer p nodes name heap
      = Except.ok (net.pushLayer (l.withActivation f f')) := by
    have hget : (net.layers ++ [l])[net.length + 1 - 1]? = some l := by
      rw [Nat.add_sub_cancel, h.length_eq, ← h.layers_length,
        List.getElem?_append_right (le_refl _), Nat.sub_self]
      rfl
    have hset : (net.layers ++ [l]).set (net.length + 1 - 1) (l.withActivation f f')
        = net.layers ++ [l.withActivation f f'] := by
      rw [Nat.add_sub_cancel, h.length_eq, ← h.layers_length,
        List.set_append_right _ _ (le_refl _), Nat.sub_self]
      rfl
    simp only [Network.add_layer, hl, hff, hget]
    have hset' : (net.layers ++ [l]).set (net.length + 1 - 1)
        { l with activation := some f, activation_deriv := some f' }
        = net.layers ++ [l.withActivation f f'] := hset
    rw [hset']
    rfl
  refine ⟨_, hadd, ?_, ⟨rfl, rfl, rfl, rfl, rfl⟩⟩
  refine ⟨by simp [Network.pushLayer, h.length_eq], by simp [Network.pushLayer, h.layers_length],
    ?_⟩
  intro i x n hx hn
  have hx' : (net.layers ++ [l.withActivation f f'])[i]? = some x := hx
  by_cases hi : i < net.layers.length
  · rw [List.getElem?_append_left hi] at hx'
    rw [List.getElem?_append_left (by rw [← h.layers_length]; exact hi)] at hn
    exact h.shaped i x n hx' hn
  · have hi' : net.layers.length ≤ i := by omega
    rw [List.getElem?_append_right hi'] at hx'
    rw [List.getElem?_append_right (by rw [← h.layers_length]; exact hi')] at hn
    rw [h.layers_length] at hx'
    generalize i - dims.length = k at hx' hn
    cases k with
    | zero =>
      simp only [List.getElem?_cons_zero, Option.some.injEq] at hx' hn
      subst hx' hn
      exact ⟨hc.1, hc.2, hd.1, hd.2, hb.1, hb.2, rfl, rfl⟩
    | succ k => simp at hn

theorem Network.add_layers_ok (p : Prims α) (heaps : Nat → Nat → Nat → Nat → α)
    (topo : List (Nat × String))
    (hnames : ∀ t ∈ topo, (lookupActivation p t.2).isSome = true) :
    ∀ (net : Network α) (dims : List Nat), net.Built dims →
      ∃ net', Network.add_layers p heaps net topo = Except.ok net' ∧
        net'.Built (dims ++ topo.map Prod.fst) ∧ net'.batch_size = net.batch_size := by
  induction topo with
  | nil =>
    intro net dims h
    exact ⟨net, rfl, by simpa using h, rfl⟩
  | cons t rest ih =>
    intro net dims h
    obtain ⟨nodes, name⟩ := t
    obtain ⟨n1, h1, hb1, hs1⟩ := Network.add_layer_ok p net dims h nodes name
      (heaps net.length) (hnames (nodes, name) (List.mem_cons_self _ _))
    obtain ⟨n2, h2, hb2, hs2⟩ := ih (fun t ht => hnames t (List.mem_cons_of_mem _ ht)) n1
      (dims ++ [nodes]) hb1
    refine ⟨n2, ?_, ?_, hs2.trans hs1.2.1⟩
    · simp only [Network.add_layers, h1]
      exact h2
    · simpa using hb2

theorem Network.Built.set_built {net : Network α} {dims : List Nat} (h : net.Built dims)
    {i : Nat} {l l' : Layer α} (hl : net.layers[i]? = some l)
    (hs : ∀ n, l.Shaped net.batch_size n → l'.Shaped net.batch_size n) :
    (net.withLayer i l').Built dims := by
  have hlt : i < net.layers.length := by
    by_contra hc
    rw [List.getElem?_eq_none (by omega)] at hl
    cases hl
  refine ⟨h.length_eq, by simp [Network.withLayer, h.layers_length], ?_⟩
  intro k x n hx hn
  have hx' : (net.layers.set i l')[k]? = some x := hx
  by_cases hik : i = k
  · subst hik
    rw [List.getElem?_set_self hlt] at hx'
    cases hx'
    exact hs n (h.shaped i l n hl hn)
  · rw [List.getElem?_set_ne hik] at hx'
    exact h.shaped k x n hx' hn

theorem Network.initialize_loop (rnd : Nat → Nat → α) (heap : Nat → Nat → Nat → Nat → α)
    (net : Network α) (dims : List Nat) (h : net.Built dims) (m : Nat)
    (hm : m + 1 ≤ dims.length) :
    ∃ net', (List.range m).foldlM
        (fun (n : Network α) i => do
          let l ← n.layers[i]?
          let next ← n.layers[i + 1]?
          let l ← l.init_weights next (rnd i) (heap i)
          pure { n with layers := n.layers.set i l })
        net = some net' ∧
      net'.Built dims ∧ net'.SameFrame net ∧ net'.WeightsUpTo dims m := by
  induction m with
  | zero =>
    exact ⟨net, rfl, h, ⟨rfl, rfl, rfl, rfl, rfl⟩, fun i _ _ _ hi => absurd hi (Nat.not_lt_zero _)⟩
  | succ m ih =>
    obtain ⟨s, hs, hb, hf, hw⟩ := ih (by omega)
    have hlen := hb.layers_length
    have hm1 : m < s.layers.length := by omega
    have hm2 : m + 1 < s.layers.length := by omega
    have hl : s.layers[m]? = some s.layers[m] := List.getElem?_eq_getElem hm1
    have hn : s.layers[m + 1]? = some s.layers[m + 1] := List.getElem?_eq_getElem hm2
    have hd1 : dims[m]? = some dims[m] := List.getElem?_eq_getElem (by omega)
    have hd2 : dims[m + 1]? = some dims[m + 1] := List.getElem?_eq_getElem (by omega)
    have sh1 := hb.shaped m _ _ hl hd1
    have sh2 := hb.shaped (m + 1) _ _ hn hd2
    obtain ⟨w, pu, hinit, hws, hps⟩ :=
      Layer.init_weights_eq_some s.layers[m] s.layers[m + 1] (rnd m) (heap m)
    refine ⟨s.withLayer m (s.layers[m].withWeights w pu), ?_, ?_, hf, ?_⟩
    · rw [List.range_succ, List.foldlM_append, hs]
      simp only [List.foldlM_cons, List.foldlM_nil, Option.bind_eq_bind, Option.some_bind, hl, hn,
        hinit, Option.pure_def]
      rfl
    · refine hb.set_built hl ?_
      intro n hsn
      exact ⟨hsn.contents_rows, hsn.contents_cols, hsn.dZ_rows, hsn.dZ_cols, hsn.bias_rows,
        hsn.bias_cols, hsn.act, hsn.deriv⟩
    · intro i x n n' hi hx hdn hdn'
      have hx' : (s.layers.set m _)[i]? = some x := hx
      by_cases him : m = i
      · subst him
        rw [List.getElem?_set_self hm1] at hx'
        cases hx'
        rw [hd1] at hdn
        rw [hd2] at hdn'
        cases hdn
        cases hdn'
        rw [sh1.contents_cols, sh2.contents_cols] at hws hps
        exact ⟨congrArg some hws, congrArg some hps⟩
      · rw [List.getElem?_set_ne him] at hx'
        exact hw i x n n' (by omega) hx' hdn hdn'

/-- After `add_layer` for every entry of a non-empty `dims`, `Network::initialize` returns a
well-formed network. -/
theorem Network.Built.initialize_wellFormed {net : Network α} {dims : List Nat} (h : net.Built dims)
    (hpos : 0 < dims.length) (rnd : Nat → Nat → α) (heap : Nat → Nat → Nat → Nat → α)
    (lheap : Nat → Nat → α) :
    ∃ net', Network.initialize net rnd heap lheap = some net' ∧ net'.WellFormed dims ∧
      net'.batch_size = net.batch_size := by
  have hlen := h.length_eq
  have hlast : net.length - 1 < net.layers.length := by rw [h.layers_length]; omega
  have hl : net.layers[net.length - 1]? = some net.layers[net.length - 1] :=
    List.getElem?_eq_getElem hlast
  have hd : dims[dims.length - 1]? = some dims[dims.length - 1] :=
    List.getElem?_eq_getElem (by omega)
  have sh := h.shaped _ _ _ hl (by rw [hlen]; exact hd)
  have hb0 : (net.withLabels
      (Mat.alloc net.batch_size net.layers[net.length - 1].contents.cols lheap)).Built dims :=
    ⟨h.length_eq, h.layers_length, h.shaped⟩
  obtain ⟨net', hfold, hb, hf, hw⟩ := Network.initialize_loop rnd heap _ dims hb0
    (net.length - 1) (by omega)
  refine ⟨net', ?_, ?_, hf.2.1⟩
  · simp only [ Network.initialize, Option.pure_def, Option.bind_eq_bind]
    rw [if_neg (by omega)]
    simp only [Option.some_bind, hl]
    exact hfold
  · refine ⟨hb.length_eq, hb.layers_length, hpos, hb.shaped, ?_, ?_⟩
    · intro i l n n' hl' hn hn'
      refine hw i l n n' ?_ hl' hn hn'
      by_contra hc
      rw [List.getElem?_eq_none (by omega)] at hn'
      cases hn'
    · intro n hn
      rw [hd] at hn
      cases hn
      rw [hf.2.2.1, hf.2.1]
      simp only [Network.withLabels, Option.map_some', Mat.shape, Mat.alloc, sh.contents_cols]

theorem Network.new_built (instances b : Nat) (lr blr : α) :
    (Network.new instances b lr blr).Built [] :=
  ⟨rfl, rfl, fun i l n hl _ => by simp [Network.new] at hl⟩

end build

/-! ## Loss and accuracy -/

section loss

variable {α : Type} [LinearOrderedField α]

/-- The summation loop of `Network::cost` over the first `n` rows. -/
theorem cost_loop (labels contents : Mat α) (hc : 0 < labels.cols) (hc' : 0 < contents.cols)
    (n : Nat) (hn : n ≤ labels.rows) (hn' : n ≤ contents.rows) :
    (List.range n).foldlM
        (fun (sum : α) i => do
          let y ← labels.get? i 0
          let p ← contents.get? i 0
          pure (sum + (y - p) ^ 2))
        (0 : α)
      = some (∑ i in Finset.range n, (labels.coeff i 0 - contents.coeff i 0) ^ 2) := by
  induction n with
  | zero => rfl
  | succ n ih =>
    rw [List.range_succ, List.foldlM_append, ih (by omega) (by omega), Finset.sum_range_succ]
    simp only [List.foldlM_cons, List.foldlM_nil, Option.bind_eq_bind, Option.some_bind,
      Option.pure_def]
    rw [Mat.get?_eq_some labels (by omega) hc, Mat.get?_eq_some contents (by omega) hc']
    rfl

/-- The counting loop of `Network::accuracy` over the first `n` rows. -/
theorem accuracy_loop [FloorRing α] (labels contents : Mat α) (hc : 0 < labels.cols)
    (hc' : 0 < contents.cols) (n : Nat) (hn : n ≤ labels.rows) (hn' : n ≤ contents.rows) :
    (List.range n).foldlM
        (fun (correct : α) i => do
          let y ← labels.get? i 0
          let p ← contents.get? i 0
          pure (if y = cround p then correct + 1 else correct))
        (0 : α)
      = some (((Finset.range n).filter
          (fun i => labels.coeff i 0 = cround (contents.coeff i 0))).card : α) := by
  induction n with
  | zero => simp
  | succ n ih =>
    rw [List.range_succ, List.foldlM_append, ih (by omega) (by omega), Finset.range_succ,
      Finset.filter_insert]
    simp only [List.foldlM_cons, List.foldlM_nil, Option.bind_eq_bind, Option.some_bind,
      Option.pure_def]
    rw [Mat.get?_eq_some labels (by omega) hc, Mat.get?_eq_some contents (by omega) hc']
    simp only [Option.some_bind]
    by_cases h : labels.coeff n 0 = cround (contents.coeff n 0)
    · rw [if_pos h, if_pos h, Finset.card_insert_of_not_mem (by simp)]
      push_cast
      rfl
    · rw [if_neg h, if_neg h]

/-- An integer is its own rounding. -/
theorem cround_intCast [FloorRing α] (z : Int) : cround (z : α) = (z : α) := by
  unfold cround
  split
  · congr 1
    rw [Int.floor_eq_iff]
    constructor
    · linarith
    · linarith
  · congr 1
    rw [Int.ceil_eq_iff]
    constructor
    · linarith
    · linarith

/-- The value of `Network::cost` when the terminal layer and the labels have `batch_size >= 1`
rows and a first column. -/
theorem Network.cost_eq_sum (net : Network α) (l : Layer α) (labels : Mat α)
    (hlen : 0 < net.length) (hl : net.layers[net.length - 1]? = some l)
    (hlab : net.labels = some labels) (hrows : l.contents.rows = net.batch_size)
    (hlrows : labels.rows = net.batch_size) (hcols : 0 < l.contents.cols)
    (hlcols : 0 < labels.cols) (hb : 1 ≤ net.batch_size) :
    net.cost = some (1 / (net.batch_size : α) *
      ∑ i in Finset.range net.batch_size, (labels.coeff i 0 - l.contents.coeff i 0) ^ 2) := by
  simp only [Network.cost, Option.pure_def, Option.bind_eq_bind]
  rw [if_neg (by omega)]
  simp only [Option.some_bind, hl, hlab]
  have hloop := cost_loop labels l.contents hlcols hcols net.batch_size (by omega) (by omega)
  simp only [Option.pure_def, Option.bind_eq_bind] at hloop
  rw [hrows, hloop]
  simp only [Option.some_bind]
  rw [if_neg (by omega)]

/-- The value of `Network::accuracy` when the terminal layer and the labels have
`batch_size >= 1` rows and a first column. -/
theorem Network.accuracy_eq_fraction [FloorRing α] (net : Network α) (l : Layer α)
    (labels : Mat α) (hlen : 0 < net.length) (hl : net.layers[net.length - 1]? = some l)
    (hlab : net.labels = some labels) (hrows : l.contents.rows = net.batch_size)
    (hlrows : labels.rows = net.batch_size) (hcols : 0 < l.contents.cols)
    (hlcols : 0 < labels.cols) (hb : 1 ≤ net.batch_size) :
    net.accuracy = some ((((Finset.range net.batch_size).filter
        (fun i => labels.coeff i 0 = cround (l.contents.coeff i 0))).card : α) /
          (net.batch_size : α)) := by
  simp only [Network.accuracy, Option.pure_def, Option.bind_eq_bind]
  rw [if_neg (by omega)]
  simp only [Option.some_bind, hl, hlab]
  have hloop := accuracy_loop labels l.contents hlcols hcols net.batch_size (by omega)
    (by omega)
  simp only [Option.pure_def, Option.bind_eq_bind] at hloop
  rw [hrows, hloop]
  simp only [Option.some_bind]
  rw [if_neg (by omega)]
  simp only [Option.some.injEq]
  rw [one_div, mul_comm, div_eq_mul_inv]

end loss

/-! ## The backward pass on a well-formed network -/

section backward

variable {α : Type} [LinearOrderedField α]

theorem Network.contentsAt_eq {net : Network α} {i : Nat} {l : Layer α}
    (h : net.layers[i]? = some l) : net.contentsAt i = l.contents := by
  simp [Network.contentsAt, h]

theorem Network.dZAt_eq {net : Network α} {i : Nat} {l : Layer α}
    (h : net.layers[i]? = some l) : net.dZAt i = l.dZ := by
  simp [Network.dZAt, h]

theorem Network.biasAt_eq {net : Network α} {i : Nat} {l : Layer α}
    (h : net.layers[i]? = some l) : net.biasAt i = l.bias := by
  simp [Network.biasAt, h]

theorem Network.weightsAt_eq {net : Network α} {i : Nat} {l : Layer α} {w : Mat α}
    (h : net.layers[i]? = some l) (hw : l.weights = some w) : net.weightsAt i = w := by
  simp [Network.weightsAt, h, hw]

theorem Network.prevUpdateAt_eq {net : Network α} {i : Nat} {l : Layer α} {w : Mat α}
    (h : net.layers[i]? = some l) (hw : l.prev_update = some w) : net.prevUpdateAt i = w := by
  simp [Network.prevUpdateAt, h, hw]

/-- Everything `Network::backpropagate` reads about layer `i` of a well-formed network. -/
theorem Network.WellFormed.layer_data {net : Network α} {dims : List Nat}
    (h : net.WellFormed dims) {i : Nat} (hi : i < dims.length) :
    ∃ l n, net.layers[i]? = some l ∧ dims[i]? = some n ∧
      (net.contentsAt i).rows = net.batch_size ∧ (net.contentsAt i).cols = n ∧
      (net.dZAt i).rows = net.batch_size ∧ (net.dZAt i).cols = n ∧
      (net.biasAt i).rows = net.batch_size ∧ (net.biasAt i).cols = n ∧
      net.contentsAt i = l.contents ∧ net.dZAt i = l.dZ ∧ net.biasAt i = l.bias := by
  obtain ⟨l, n, hl, hn, hs⟩ := h.layer_exists hi
  refine ⟨l, n, hl, hn, ?_, ?_, ?_, ?_, ?_, ?_, Network.contentsAt_eq hl, Network.dZAt_eq hl,
    Network.biasAt_eq hl⟩
  · rw [Network.contentsAt_eq hl]; exact hs.contents_rows
  · rw [Network.contentsAt_eq hl]; exact hs.contents_cols
  · rw [Network.dZAt_eq hl]; exact hs.dZ_rows
  · rw [Network.dZAt_eq hl]; exact hs.dZ_cols
  · rw [Network.biasAt_eq hl]; exact hs.bias_rows
  · rw [Network.biasAt_eq hl]; exact hs.bias_cols

/-- The weights and momentum state of edge `i` of a well-formed network. -/
theorem Network.WellFormed.edge_data {net : Network α} {dims : List Nat}
    (h : net.WellFormed dims) {i : Nat} (hi : i + 1 < dims.length) :
    ∃ l n n', net.layers[i]? = some l ∧ dims[i]? = some n ∧ dims[i + 1]? = some n' ∧
      l.weights = some (net.weightsAt i) ∧ l.prev_update = some (net.prevUpdateAt i) ∧
      (net.weightsAt i).rows = n ∧ (net.weightsAt i).cols = n' ∧
      (net.prevUpdateAt i).rows = n ∧ (net.prevUpdateAt i).cols = n' := by
  obtain ⟨l, next, w, pu, n, n', hl, -, hn, hn', -, -, hw, hwr, hwc, hp, hpr, hpc⟩ :=
    h.weights_exists hi
  refine ⟨l, n, n', hl, hn, hn', ?_, ?_, ?_, ?_, ?_, ?_⟩
  · rw [Network.weightsAt_eq hl hw]; exact hw
  · rw [Network.prevUpdateAt_eq hl hp]; exact hp
  · rw [Network.weightsAt_eq hl hw]; exact hwr
  · rw [Network.weightsAt_eq hl hw]; exact hwc
  · rw [Network.prevUpdateAt_eq hl hp]; exact hpr
  · rw [Network.prevUpdateAt_eq hl hp]; exact hpc

/-- The error signal number `c` from the output has the shape of the layer it belongs to. -/
theorem Network.WellFormed.signalBack_shape {net : Network α} {dims : List Nat}
    (h : net.WellFormed dims) (c : Nat) (hc : c < dims.length) :
    (net.signalBack c).rows = net.batch_size ∧
      ∃ n, dims[dims.length - 1 - c]? = some n ∧ (net.signalBack c).cols = n := by
  have hlen := h.length_eq
  induction c with
  | zero =>
    obtain ⟨l, n, -, hn, hr, hcc, -, -, -, -, -, -, -⟩ :=
      h.layer_data (i := dims.length - 1) (by omega)
    rw [← hlen] at hr hcc
    exact ⟨hr, n, hn, hcc⟩
  | succ c ih =>
    obtain ⟨hr, -⟩ := ih (by omega)
    obtain ⟨l, n, n', -, hn, -, -, -, hwr, -, -, -⟩ :=
      h.edge_data (i := dims.length - 2 - c) (by omega)
    refine ⟨hr, n, ?_, ?_⟩
    · rw [show dims.length - 1 - (c + 1) = dims.length - 2 - c by omega]
      exact hn
    · show (net.weightsAt (net.length - 2 - c)).rows = n
      rw [hlen]
      exact hwr

theorem reverse_range'_one (n : Nat) :
    (List.range' 1 n).reverse = (List.range n).map (fun c => n - c) := by
  induction n with
  | zero => rfl
  | succ n ih =>
    rw [List.range'_concat, List.reverse_append, ih, List.range_succ_eq_map]
    simp only [List.reverse_cons, List.reverse_nil, List.nil_append, List.singleton_append,
      List.map_cons, List.map_map, mul_one]
    refine congrArg₂ _ (by omega) ?_
    apply List.map_congr_left
    intro c _
    simp only [Function.comp_apply]
    omega

theorem getElem?_map_range {β : Type} (f : Nat → β) {n c : Nat} (h : c < n) :
    ((List.range n).map f)[c]? = some (f c) := by
  simp [List.getElem?_map, List.getElem?_range h]

theorem Network.WellFormed.labelsMat_shape {net : Network α} {dims : List Nat}
    (h : net.WellFormed dims) :
    net.labels = some net.labelsMat ∧ net.labelsMat.rows = net.batch_size ∧
      net.labelsMat.rows = (net.contentsAt (net.length - 1)).rows ∧
      net.labelsMat.cols = (net.contentsAt (net.length - 1)).cols := by
  obtain ⟨l, n, -, hn, hr, hc, -, -, -, -, -, -, -⟩ :=
    h.layer_data (i := dims.length - 1) (by have := h.pos; omega)
  have hl := h.labels n hn
  rw [Option.map_eq_some'] at hl
  obtain ⟨m, hm, hms⟩ := hl
  simp only [Mat.shape, Prod.mk.injEq] at hms
  have : net.labelsMat = m := by simp [Network.labelsMat, hm]
  rw [this, h.length_eq, hr, hc]
  exact ⟨hm, hms.1, hms.1, hms.2⟩

/-- One round of the first loop of `Network::backpropagate`, taken after `m` rounds. -/
theorem Network.WellFormed.backpropStep_eq {net : Network α} {dims : List Nat}
    (h : net.WellFormed dims) (m : Nat) (hm : m + 2 < dims.length) :
    net.backpropStep
        ((List.range (m + 1)).map net.signalBack,
          (List.range (m + 1)).map (fun c => net.delta (net.length - 2 - c)), m + 1)
        (net.length - 2 - m)
      = some ((List.range (m + 2)).map net.signalBack,
          (List.range (m + 2)).map (fun c => net.delta (net.length - 2 - c)), m + 2) := by
  have hlen := h.length_eq
  obtain ⟨li, n, n', hli, hn, hn', hw, -, hwr, hwc, -, -⟩ :=
    h.edge_data (i := net.length - 2 - m) (by omega)
  obtain ⟨li', n1, hli', hn1, -, -, hdr, hdc, -, -, -, hdz, -⟩ :=
    h.layer_data (i := net.length - 2 - m) (by omega)
  rw [hli] at hli'
  cases hli'
  rw [hn] at hn1
  cases hn1
  obtain ⟨lp, np, hlp, -, hpr, -, -, -, -, -, hpc, -, -⟩ :=
    h.layer_data (i := net.length - 2 - m - 1) (by omega)
  obtain ⟨hsr, ns, hns, hsc⟩ := h.signalBack_shape m (by omega)
  have hns' : ns = n' := by
    rw [show dims.length - 1 - m = net.length - 2 - m + 1 by omega, hn'] at hns
    cases hns
    rfl
  subst hns'
  have hg : net.signalBack (m + 1)
      = ((net.signalBack m).mul (net.weightsAt (net.length - 2 - m)).transpose).cwiseProduct
        li.dZ := by
    rw [← hdz]
    rfl
  have hd : net.delta (net.length - 2 - (m + 1))
      = lp.contents.transpose.mul (net.signalBack (m + 1)) := by
    rw [← hpc]
    show (net.contentsAt (net.length - 2 - (m + 1))).transpose.mul
      (net.signalBack (net.length - 1 - (net.length - 2 - (m + 1) + 1))) = _
    rw [show net.length - 1 - (net.length - 2 - (m + 1) + 1) = m + 1 by omega,
      show net.length - 2 - (m + 1) = net.length - 2 - m - 1 by omega]
  simp only [Network.backpropStep, hli, hw, Option.pure_def, Option.bind_eq_bind,
    Option.some_bind, Nat.add_sub_cancel, hlp]
  rw [getElem?_map_range _ (by omega)]
  simp only [Option.some_bind]
  rw [Mat.mul?_eq_some (by show (net.signalBack m).cols = (net.weightsAt _).cols; rw [hsc, hwc])]
  simp only [Option.some_bind]
  rw [Mat.cwiseProduct?_eq_some (by show (net.signalBack m).rows = li.dZ.rows; rw [hsr, ← hdz, hdr])
    (by show (net.weightsAt _).rows = li.dZ.cols; rw [hwr, ← hdz, hdc])]
  simp only [Option.some_bind]
  rw [← hg]
  have happ : (List.range (m + 1)).map net.signalBack ++ [net.signalBack (m + 1)]
      = (List.range (m + 2)).map net.signalBack := by
    rw [List.range_succ (n := m + 1), List.map_append]
    rfl
  rw [happ, getElem?_map_range _ (by omega)]
  simp only [Option.some_bind]
  rw [Mat.mul?_eq_some (by
    show lp.contents.rows = (net.signalBack (m + 1)).rows
    rw [← hpc, hpr, (h.signalBack_shape (m + 1) (by omega)).1])]
  simp only [Option.some_bind, Option.some.injEq, Prod.mk.injEq, true_and, and_true]
  rw [List.range_succ (n := m + 1), List.map_append, ← hd]
  rfl

/-- The first loop of `Network::backpropagate` after `m` rounds. -/
theorem Network.WellFormed.backprop_loop {net : Network α} {dims : List Nat}
    (h : net.WellFormed dims) (m : Nat) (hm : m + 2 ≤ dims.length) :
    ((List.range m).map (fun c => net.length - 2 - c)).foldlM net.backpropStep
        ([net.signalBack 0], [net.delta (net.length - 2)], 1)
      = some ((List.range (m + 1)).map net.signalBack,
          (List.range (m + 1)).map (fun c => net.delta (net.length - 2 - c)), m + 1) := by
  induction m with
  | zero => rfl
  | succ m ih =>
    rw [List.range_succ, List.map_append, List.foldlM_append, ih (by omega)]
    simp only [List.map_cons, List.map_nil, List.foldlM_cons, List.foldlM_nil,
      Option.bind_eq_bind, Option.some_bind]
    rw [h.backpropStep_eq m (by omega)]
    rfl

/-- On a well-formed network of at least two layers the vectors `gradients` and `deltas` of
`Network::backpropagate` hold the error signals from the output layer down to layer 1 and the
weight gradients from the last edge down to edge 0. -/
theorem Network.WellFormed.backpropSignals_eq {net : Network α} {dims : List Nat}
    (h : net.WellFormed dims) (h2 : 2 ≤ dims.length) :
    net.backpropSignals
      = some ((List.range (net.length - 1)).map net.signalBack,
          (List.range (net.length - 1)).map (fun c => net.delta (net.length - 2 - c))) := by
  have hlen := h.length_eq
  obtain ⟨last, n, hlast, -, hr, hc, hzr, hzc, -, -, hcl, hdl, -⟩ :=
    h.layer_data (i := net.length - 1) (by omega)
  obtain ⟨prev, np, hprev, -, hpr, -, -, -, -, -, hpc, -, -⟩ :=
    h.layer_data (i := net.length - 2) (by omega)
  obtain ⟨hlab, -, hlr, hlc⟩ := h.labelsMat_shape
  have hg0 : (last.contents.sub net.labelsMat).cwiseProduct last.dZ = net.signalBack 0 := by
    rw [← hcl, ← hdl]
    rfl
  have hd0 : prev.contents.transpose.mul (net.signalBack 0) = net.delta (net.length - 2) := by
    rw [← hpc]
    show _ = (net.contentsAt (net.length - 2)).transpose.mul
      (net.signalBack (net.length - 1 - (net.length - 2 + 1)))
    rw [show net.length - 1 - (net.length - 2 + 1) = 0 by omega]
  simp only [Network.backpropSignals, Option.pure_def, Option.bind_eq_bind]
  rw [if_neg (by omega)]
  simp only [Option.some_bind, hlast, hlab, hprev]
  rw [Mat.sub?_eq_some (by rw [← hcl]; exact hlr.symm) (by rw [← hcl]; exact hlc.symm)]
  simp only [Option.some_bind]
  rw [Mat.cwiseProduct?_eq_some (by show last.contents.rows = _; rw [← hcl, ← hdl, hr, hzr])
    (by show last.contents.cols = _; rw [← hcl, ← hdl, hc, hzc])]
  simp only [Option.some_bind]
  rw [hg0, Mat.mul?_eq_some (by
    show prev.contents.rows = _
    rw [← hpc, hpr, (h.signalBack_shape 0 (by omega)).1])]
  simp only [Option.some_bind]
  rw [hd0, reverse_range'_one]
  rw [h.backprop_loop (net.length - 2) (by omega)]
  simp only [Option.some_bind]
  rw [show net.length - 2 + 1 = net.length - 1 by omega]

theorem Network.updatedLayer_zero (net : Network α) (k : Nat) (l : Layer α)
    (hk : k < net.length) : net.updatedLayer 0 k l = l := by
  have h1 : ¬ (net.length - 1 - 0 ≤ k ∧ k + 1 < net.length) := by omega
  have h2 : ¬ (net.length - 0 ≤ k ∧ k < net.length) := by omega
  simp only [Network.updatedLayer, if_neg h1, if_neg h2]

theorem Network.WellFormed.updatedTo_zero {net : Network α} {dims : List Nat}
    (h : net.WellFormed dims) : net.UpdatedTo net 0 := by
  refine ⟨⟨rfl, rfl, rfl, rfl, rfl⟩, rfl, rfl, ?_⟩
  intro k
  by_cases hk : k < net.layers.length
  · rw [List.getElem?_eq_getElem hk, Option.map_some',
      net.updatedLayer_zero k _ (by rw [h.length_eq, ← h.layers_length]; exact hk)]
  · rw [List.getElem?_eq_none (by omega)]
    rfl

theorem Network.WellFormed.delta_shape {net : Network α} {dims : List Nat}
    (h : net.WellFormed dims) {i : Nat} (hi : i + 1 < dims.length) :
    (net.delta i).rows = (net.weightsAt i).rows ∧ (net.delta i).cols = (net.weightsAt i).cols ∧
      (net.prevUpdateAt i).rows = (net.weightsAt i).rows ∧
      (net.prevUpdateAt i).cols = (net.weightsAt i).cols := by
  have hlen := h.length_eq
  obtain ⟨l, n, n', -, hn, hn', -, -, hwr, hwc, hpr, hpc⟩ := h.edge_data hi
  obtain ⟨l', n1, -, hn1, -, hcc, -, -, -, -, -, -, -⟩ := h.layer_data (i := i) (by omega)
  rw [hn] at hn1
  cases hn1
  obtain ⟨-, ns, hns, hsc⟩ := h.signalBack_shape (net.length - 1 - (i + 1)) (by omega)
  rw [show dims.length - 1 - (net.length - 1 - (i + 1)) = i + 1 by omega, hn'] at hns
  cases hns
  refine ⟨?_, ?_, by rw [hpr, hwr], by rw [hpc, hwc]⟩
  · show (net.contentsAt i).cols = _
    rw [hcc, hwr]
  · show (net.signalBack (net.length - 1 - (i + 1))).cols = _
    rw [hsc, hwc]

/-- One round of the update loop of `Network::backpropagate`. -/
theorem Network.WellFormed.updateAt_eq {net s : Network α} {dims : List Nat}
    (h : net.WellFormed dims) (m : Nat) (hm : m + 1 < dims.length) (hs : net.UpdatedTo s m) :
    ∃ s', Network.updateAt ((List.range (net.length - 1)).map net.signalBack)
        ((List.range (net.length - 1)).map (fun c => net.delta (net.length - 2 - c))) s m
        = some s' ∧ net.UpdatedTo s' (m + 1) := by
  have hlen := h.length_eq
  obtain ⟨⟨hsl, hsb, hslab, hslr, hsblr⟩, hsi, hsbt, hlay⟩ := hs
  -- the layer whose weights are rewritten
  obtain ⟨l, n, n', hl, -, -, hw, hp, -, -, -, -⟩ :=
    h.edge_data (i := net.length - 2 - m) (by omega)
  obtain ⟨hdr, hdc, hpr, hpc⟩ := h.delta_shape (i := net.length - 2 - m) (by omega)
  have hsl1 : s.layers[net.length - 2 - m]? = some l := by
    rw [hlay, hl, Option.map_some']
    have h1 : ¬ (net.length - 1 - m ≤ net.length - 2 - m ∧ net.length - 2 - m + 1 < net.length) := by
      omega
    have h2 : ¬ (net.length - m ≤ net.length - 2 - m ∧ net.length - 2 - m < net.length) := by
      omega
    simp only [Network.updatedLayer, if_neg h1, if_neg h2]
  -- the layer whose bias is rewritten
  obtain ⟨l2, n2, hl2, hn2d, -, -, -, -, hbr, hbc, -, -, hbias⟩ :=
    h.layer_data (i := net.length - 1 - m) (by omega)
  obtain ⟨hgr, ng, hng, hgc⟩ := h.signalBack_shape m (by omega)
  rw [show dims.length - 1 - m = net.length - 1 - m by omega, hn2d] at hng
  cases hng
  have hsl2 : s.layers[net.length - 1 - m]?
      = some (net.updatedLayer m (net.length - 1 - m) l2) := by
    rw [hlay, hl2, Option.map_some']
  have hb2 : (net.updatedLayer m (net.length - 1 - m) l2).bias = net.biasAt (net.length - 1 - m) := by
    have h2 : ¬ (net.length - m ≤ net.length - 1 - m ∧ net.length - 1 - m < net.length) := by
      omega
    simp only [Network.updatedLayer, if_neg h2, hbias]
  have hlt1 : net.length - 2 - m < s.layers.length := by
    by_contra hc
    rw [List.getElem?_eq_none (by omega)] at hsl1
    cases hsl1
  have hnw : (net.weightsAt (net.length - 2 - m)).sub
      ((Mat.smul (9 / 10) (net.prevUpdateAt (net.length - 2 - m))).add
        (Mat.smul net.learning_rate (net.delta (net.length - 2 - m))))
      = net.newWeights (net.length - 2 - m) := rfl
  refine ⟨⟨(s.layers.set (net.length - 2 - m)
      ⟨l.contents, l.dZ, l.bias, some (net.newWeights (net.length - 2 - m)),
        some (net.prevUpdateAt (net.length - 2 - m)), l.activation, l.activation_deriv⟩).set
      (net.length - 1 - m)
      ⟨(net.updatedLayer m (net.length - 1 - m) l2).contents,
        (net.updatedLayer m (net.length - 1 - m) l2).dZ, net.newBias (net.length - 1 - m),
        (net.updatedLayer m (net.length - 1 - m) l2).weights,
        (net.updatedLayer m (net.length - 1 - m) l2).prev_update,
        (net.updatedLayer m (net.length - 1 - m) l2).activation,
        (net.updatedLayer m (net.length - 1 - m) l2).activation_deriv⟩,
    net.length, net.learning_rate, net.bias_lr, s.batch_size, s.labels, s.instances,
    s.batches⟩, ?_, ?_⟩
  · simp only [Network.updateAt, Option.pure_def, Option.bind_eq_bind, hsl, hslr, hsblr]
    rw [getElem?_map_range _ (by omega), getElem?_map_range _ (by omega)]
    simp only [Option.some_bind, hsl1, hw, hp]
    rw [Mat.add?_eq_some (by show (net.prevUpdateAt _).rows = (net.delta _).rows; rw [hpr, hdr])
      (by show (net.prevUpdateAt _).cols = (net.delta _).cols; rw [hpc, hdc])]
    simp only [Option.some_bind]
    rw [Mat.sub?_eq_some (by show _ = (net.prevUpdateAt _).rows; rw [hpr])
      (by show _ = (net.prevUpdateAt _).cols; rw [hpc])]
    simp only [Option.some_bind]
    rw [List.getElem?_set_ne (by omega), hsl2]
    simp only [Option.some_bind]
    rw [Mat.sub?_eq_some (by show _ = (net.signalBack m).rows; rw [hb2, hbr, hgr])
      (by show _ = (net.signalBack m).cols; rw [hb2, hbc, hgc])]
    simp only [Option.some_bind, Option.some.injEq]
    have hnb : net.newBias (net.length - 1 - m)
        = (net.updatedLayer m (net.length - 1 - m) l2).bias.sub
          (Mat.smul net.bias_lr (net.signalBack m)) := by
      rw [hb2]
      show (net.biasAt _).sub (Mat.smul net.bias_lr
        (net.signalBack (net.length - 1 - (net.length - 1 - m)))) = _
      rw [show net.length - 1 - (net.length - 1 - m) = m by omega]
    rw [← hnb, hnw]
  · refine ⟨⟨rfl, hsb, hslab, rfl, rfl⟩, hsi, hsbt, ?_⟩
    intro k
    show ((s.layers.set (net.length - 2 - m) _).set (net.length - 1 - m) _)[k]? = _
    by_cases hk1 : net.length - 1 - m = k
    · subst hk1
      rw [List.getElem?_set_self (by
        rw [List.length_set]
        by_contra hc
        rw [List.getElem?_eq_none (by omega)] at hsl2
        cases hsl2), hl2, Option.map_some']
      have c1 : net.length - 1 - m ≤ net.length - 1 - m ∧ net.length - 1 - m + 1 < net.length
          ↔ net.length - 1 - (m + 1) ≤ net.length - 1 - m ∧ net.length - 1 - m + 1 < net.length := by
        omega
      have c2 : net.length - (m + 1) ≤ net.length - 1 - m ∧ net.length - 1 - m < net.length := by
        omega
      simp only [Network.updatedLayer, if_pos c2, c1]
    · rw [List.getElem?_set_ne hk1]
      by_cases hk2 : net.length - 2 - m = k
      · subst hk2
        rw [List.getElem?_set_self hlt1, hl, Option.map_some']
        have c1 : net.length - 1 - (m + 1) ≤ net.length - 2 - m ∧
            net.length - 2 - m + 1 < net.length := by omega
        have c2 : ¬ (net.length - (m + 1) ≤ net.length - 2 - m ∧
            net.length - 2 - m < net.length) := by omega
        simp only [Network.updatedLayer, if_pos c1, if_neg c2, hp]
      · rw [List.getElem?_set_ne hk2, hlay]
        congr 1
        funext x
        have c1 : (net.length - 1 - m ≤ k ∧ k + 1 < net.length)
            ↔ (net.length - 1 - (m + 1) ≤ k ∧ k + 1 < net.length) := by omega
        have c2 : (net.length - m ≤ k ∧ k < net.length)
            ↔ (net.length - (m + 1) ≤ k ∧ k < net.length) := by omega
        simp only [Network.updatedLayer, c1, c2]

/-- The update loop of `Network::backpropagate` after `m` rounds. -/
theorem Network.WellFormed.update_loop {net : Network α} {dims : List Nat}
    (h : net.WellFormed dims) (m : Nat) (hm : m + 1 ≤ dims.length) :
    ∃ s, (List.range m).foldlM
        (Network.updateAt ((List.range (net.length - 1)).map net.signalBack)
          ((List.range (net.length - 1)).map (fun c => net.delta (net.length - 2 - c)))) net
        = some s ∧ net.UpdatedTo s m := by
  induction m with
  | zero => exact ⟨net, rfl, h.updatedTo_zero⟩
  | succ m ih =>
    obtain ⟨s, hs, hu⟩ := ih (by omega)
    obtain ⟨s', hs', hu'⟩ := h.updateAt_eq m (by omega) hu
    refine ⟨s', ?_, hu'⟩
    rw [List.range_succ, List.foldlM_append, hs]
    simp only [List.foldlM_cons, List.foldlM_nil, Option.bind_eq_bind, Option.some_bind, hs']
    rfl

/-- On a well-formed network of at least two layers `Network::backpropagate` returns the
network in which every round of the update loop has been applied. -/
theorem Network.WellFormed.backpropagate_eq {net : Network α} {dims : List Nat}
    (h : net.WellFormed dims) (h2 : 2 ≤ dims.length) :
    ∃ post, net.backpropagate = some post ∧ net.UpdatedTo post (net.length - 1) := by
  obtain ⟨s, hs, hu⟩ := h.update_loop (net.length - 1) (by have := h.length_eq; omega)
  refine ⟨s, ?_, hu⟩
  simp only [Network.backpropagate, h.backpropSignals_eq h2, Option.bind_eq_bind,
    Option.some_bind]
  exact hs

/-- Layer `k` of the result of `Network::backpropagate` on a well-formed network. -/
theorem Network.UpdatedTo.layer_updated {net post : Network α} {dims : List Nat}
    (h : net.WellFormed dims) (hu : net.UpdatedTo post (net.length - 1)) {k : Nat}
    (hk : k < net.length) :
    ∃ l0 lpost, net.layers[k]? = some l0 ∧ post.layers[k]? = some lpost ∧
      lpost.weights = (if k + 1 < net.length then some (net.newWeights k) else l0.weights) ∧
      lpost.bias = (if 1 ≤ k then net.newBias k else l0.bias) ∧
      lpost.contents = l0.contents ∧ lpost.dZ = l0.dZ ∧ lpost.prev_update = l0.prev_update := by
  obtain ⟨l, n, hl, -, -⟩ := h.layer_exists (i := k) (by have := h.length_eq; omega)
  have hp := hu.2.2.2 k
  rw [hl, Option.map_some'] at hp
  refine ⟨l, _, hl, hp, ?_, ?_, rfl, rfl, rfl⟩
  · by_cases h1 : k + 1 < net.length
    · have c : net.length - 1 - (net.length - 1) ≤ k ∧ k + 1 < net.length := by omega
      simp only [Network.updatedLayer, if_pos c, if_pos h1]
    · have c : ¬ (net.length - 1 - (net.length - 1) ≤ k ∧ k + 1 < net.length) := by omega
      simp only [Network.updatedLayer, if_neg c, if_neg h1]
  · by_cases h1 : 1 ≤ k
    · have c : net.length - (net.length - 1) ≤ k ∧ k < net.length := by omega
      simp only [Network.updatedLayer, if_pos c, if_pos h1]
    · have c : ¬ (net.length - (net.length - 1) ≤ k ∧ k < net.length) := by omega
      simp only [Network.updatedLayer, if_neg c, if_neg h1]

end backward

/-! ## Gradient of a network of two linear layers -/

section gradient

variable {α : Type} [LinearOrderedField α]

/-- The forward pass of a well-formed network of two layers, in closed form. -/
theorem Network.WellFormed.feedforward_two {net : Network α} {n0 n1 : Nat}
    (h : net.WellFormed [n0, n1]) :
    ∃ l0 l1 w f0 f0' f1 f1' post, net.layers[0]? = some l0 ∧ net.layers[1]? = some l1 ∧
      l0.weights = some w ∧ l0.activation = some f0 ∧ l0.activation_deriv = some f0' ∧
      l1.activation = some f1 ∧ l1.activation_deriv = some f1' ∧
      l0.Shaped net.batch_size n0 ∧ l1.Shaped net.batch_size n1 ∧ w.rows = n0 ∧ w.cols = n1 ∧
      net.feedforward = some post ∧ net.Frame post ∧ post.layers.length = 2 ∧
      post.layers[0]? = some (l0.activated f0 f0') ∧
      post.layers[1]? = some ((l1.withContents
        (((l0.activated f0 f0').contents.mul w).add l1.bias)).activated f1 f1') := by
  have hlen : net.length = 2 := h.length_eq
  have hll : net.layers.length = 2 := h.layers_length
  obtain ⟨l0, l1, w, pu, m0, m1, hl0, hl1, hm0, hm1, hs0, hs1, hw, hwr, hwc, -, -, -⟩ :=
    h.weights_exists (i := 0) (by simp)
  simp only [List.getElem?_cons_zero, List.getElem?_cons_succ, Option.some.injEq] at hm0 hm1
  subst hm0 hm1
  obtain ⟨f0, f0', hf0, hf0'⟩ := hs0.functions
  obtain ⟨f1, f1', hf1, hf1'⟩ := hs1.functions
  have e1 := Network.activateAt_eq hl0 hf0 hf0' (by rw [hs0.dZ_rows, hs0.contents_rows])
    (by rw [hs0.dZ_cols, hs0.contents_cols])
  have e2 := @Network.propagateAt_eq α _ (net.withLayer 0 (l0.activated f0 f0')) 0
    (l0.activated f0 f0') l1 w
    (by show (net.layers.set 0 _)[0]? = _; rw [List.getElem?_set_self (by omega)])
    (by show (net.layers.set 0 _)[1]? = _; rw [List.getElem?_set_ne (by omega)]; exact hl1)
    hw (by show l0.contents.cols = w.rows; rw [hs0.contents_cols, hwr])
    (by show l0.contents.rows = l1.bias.rows; rw [hs0.contents_rows, hs1.bias_rows])
    (by rw [hwc, hs1.bias_cols])
  have e3 := @Network.activateAt_eq α _
    ((net.withLayer 0 (l0.activated f0 f0')).withLayer 1
      (l1.withContents (((l0.activated f0 f0').contents.mul w).add l1.bias))) 1
    (l1.withContents (((l0.activated f0 f0').contents.mul w).add l1.bias)) f1 f1'
    (by
      show ((net.layers.set 0 _).set 1 _)[1]? = _
      rw [List.getElem?_set_self (by rw [List.length_set]; omega)])
    hf1 hf1'
    (by show l1.dZ.rows = l0.contents.rows; rw [hs1.dZ_rows, hs0.contents_rows])
    (by show l1.dZ.cols = w.cols; rw [hs1.dZ_cols, hwc])
  refine ⟨l0, l1, w, f0, f0', f1, f1',
    ((net.withLayer 0 (l0.activated f0 f0')).withLayer 1
      (l1.withContents (((l0.activated f0 f0').contents.mul w).add l1.bias))).withLayer 1
      ((l1.withContents (((l0.activated f0 f0').contents.mul w).add l1.bias)).activated f1 f1'),
    hl0, hl1, hw, hf0, hf0', hf1, hf1', hs0, hs1, hwr,
    hwc, ?_, ?_, ?_, ?_, ?_⟩
  · simp only [Network.feedforward, e1, Option.bind_eq_bind, Option.some_bind,
      Network.propagateAll]
    rw [show (net.withLayer 0 (l0.activated f0 f0')).length - 1 = 1 by
      show net.length - 1 = 1
      omega]
    simp only [List.range_succ, List.range_zero, List.nil_append, List.foldlM_cons,
      List.foldlM_nil, Option.bind_eq_bind, e2, Option.some_bind, Option.pure_def,
      Network.activateUpTo]
    rw [show ((net.withLayer 0 (l0.activated f0 f0')).withLayer 1
      (l1.withContents (((l0.activated f0 f0').contents.mul w).add l1.bias))).length - 1 = 1 by
      show net.length - 1 = 1
      omega]
    simp only [List.range', List.foldlM_cons, List.foldlM_nil, Option.bind_eq_bind, e3,
      Option.some_bind, Option.pure_def]
  · refine ⟨⟨rfl, rfl, rfl, rfl, rfl⟩, ?_⟩
    have s0 : (net.withLayer 0 (l0.activated f0 f0')).SameStatics net :=
      (Network.SameStatics.refl net).withLayer hl0 rfl rfl rfl rfl rfl
    have s1 := @Network.SameStatics.withLayer α _ _ _ s0 1 l1
      (l1.withContents (((l0.activated f0 f0').contents.mul w).add l1.bias))
      (by show (net.layers.set 0 _)[1]? = _; rw [List.getElem?_set_ne (by omega)]; exact hl1)
      rfl rfl rfl rfl rfl
    exact s1.withLayer (k := 1)
      (l := l1.withContents (((l0.activated f0 f0').contents.mul w).add l1.bias))
      (by
        show ((net.layers.set 0 _).set 1 _)[1]? = _
        rw [List.getElem?_set_self (by rw [List.length_set]; omega)])
      rfl rfl rfl rfl rfl
  · show (((net.layers.set 0 _).set 1 _).set 1 _).length = 2
    simp only [List.length_set, hll]
  · show (((net.layers.set 0 _).set 1 _).set 1 _)[0]? = _
    rw [List.getElem?_set_ne (by omega), List.getElem?_set_ne (by omega),
      List.getElem?_set_self (by omega)]
  · show (((net.layers.set 0 _).set 1 _).set 1 _)[1]? = _
    rw [List.getElem?_set_self (by simp only [List.length_set]; omega)]


end gradient

/-! ## The concrete networks are well formed -/

section examples

theorem chain3_wellFormed : chain3.WellFormed [4, 1, 1] := by
  refine ⟨rfl, rfl, by decide, ?_, ?_, ?_⟩
  · intro i l n hl hn
    match i with
    | 0 =>
      simp only [chain3, List.getElem?_cons_zero, Option.some.injEq] at hl hn
      subst hl hn
      exact ⟨rfl, rfl, rfl, rfl, rfl, rfl, rfl, rfl⟩
    | 1 =>
      simp only [chain3, List.getElem?_cons_succ, List.getElem?_cons_zero,
        Option.some.injEq] at hl hn
      subst hl hn
      exact ⟨rfl, rfl, rfl, rfl, rfl, rfl, rfl, rfl⟩
    | 2 =>
      simp only [chain3, List.getElem?_cons_succ, List.getElem?_cons_zero,
        Option.some.injEq] at hl hn
      subst hl hn
      exact ⟨rfl, rfl, rfl, rfl, rfl, rfl, rfl, rfl⟩
    | k + 3 => simp at hn
  · intro i l n n' hl hn hn'
    match i with
    | 0 =>
      simp only [chain3, List.getElem?_cons_succ, List.getElem?_cons_zero,
        Option.some.injEq] at hl hn hn'
      subst hl hn hn'
      exact ⟨rfl, rfl⟩
    | 1 =>
      simp only [chain3, List.getElem?_cons_succ, List.getElem?_cons_zero,
        Option.some.injEq] at hl hn hn'
      subst hl hn hn'
      exact ⟨rfl, rfl⟩
    | k + 2 => simp at hn'
  · intro n hn
    simp only [List.length_cons, List.length_nil, List.getElem?_cons_succ,
      List.getElem?_cons_zero, Option.some.injEq] at hn
    subst hn
    rfl

theorem chain3_steps :
    chain3.activateAt 0 = some chainS1 ∧ chainS1.propagateAt 0 = some chainS2 ∧
      chainS2.propagateAt 1 = some chainS3 ∧ chainS3.activateAt 1 = some chainS4 ∧
      chainS4.activateAt 2 = some chainS5 :=
  ⟨@Network.activateAt_eq ℚ _ chain3 0 chainIn activations.linear activations.linear_deriv
      rfl rfl rfl rfl rfl,
    @Network.propagateAt_eq ℚ _ chainS1 0
      (chainIn.activated activations.linear activations.linear_deriv) chainHidden
      ⟨4, 1, fun k _ => if k = 0 then 1 else 0⟩ rfl rfl rfl rfl rfl rfl,
    @Network.propagateAt_eq ℚ _ chainS2 1 chainHiddenPre chainOut (Mat.const 1 1 1)
      rfl rfl rfl rfl rfl rfl,
    @Network.activateAt_eq ℚ _ chainS3 1 chainHiddenPre activations.step activations.step_deriv
      rfl rfl rfl rfl rfl,
    @Network.activateAt_eq ℚ _ chainS4 2 chainOutPre activations.linear activations.linear_deriv
      rfl rfl rfl rfl rfl⟩

theorem chain3_propagateAll : chainS1.propagateAll = some chainS3 := by
  obtain ⟨-, e2, e3, -, -⟩ := chain3_steps
  show List.foldlM Network.propagateAt chainS1 (List.range 2) = some chainS3
  simp only [List.range_succ, List.range_zero, List.nil_append, List.cons_append,
    List.foldlM_cons, List.foldlM_nil, Option.bind_eq_bind, e2, Option.some_bind, e3,
    Option.pure_def]

theorem chain3_feedforward : chain3.feedforward = some chainS5 := by
  obtain ⟨e1, -, -, e4, e5⟩ := chain3_steps
  simp only [Network.feedforward, e1, Option.bind_eq_bind, Option.some_bind, chain3_propagateAll]
  show List.foldlM Network.activateAt chainS3 (List.range' 1 2) = some chainS5
  simp only [List.range', List.foldlM_cons, List.foldlM_nil, Option.bind_eq_bind, e4,
    Option.some_bind, e5, Option.pure_def]

theorem chain3_before_hidden : chain3.feedforwardBefore 1 = some chainS3 := by
  obtain ⟨e1, -, -, -, -⟩ := chain3_steps
  simp only [Network.feedforwardBefore, e1, Option.bind_eq_bind, Option.some_bind,
    chain3_propagateAll]
  rfl

theorem chain3_before_output : chain3.feedforwardBefore 2 = some chainS4 := by
  obtain ⟨e1, -, -, e4, -⟩ := chain3_steps
  simp only [Network.feedforwardBefore, e1, Option.bind_eq_bind, Option.some_bind,
    chain3_propagateAll]
  show List.foldlM Network.activateAt chainS3 (List.range' 1 1) = some chainS4
  simp only [List.range', List.foldlM_cons, List.foldlM_nil, Option.bind_eq_bind, e4,
    Option.some_bind, Option.pure_def]

theorem chainHiddenPre_value : chainHiddenPre.contents.coeff 0 0 = 2 := by
  simp [chainHiddenPre, Layer.withContents, Layer.activated, Layer.activatedOn, chainIn,
    chainHidden, Mat.mul, Mat.add, Mat.zip, Mat.const, Finset.sum_range_succ, done,
    activations.linear]

theorem chainOutPre_value : chainOutPre.contents.coeff 0 0 = 2 := by
  have hc : chainHiddenPre.contents.cols = 1 := rfl
  simp [chainOutPre, Layer.withContents, chainOut, Mat.mul, Mat.add, Mat.zip, Mat.const, hc,
    chainHiddenPre_value]

end examples

/-! ## Registration of the activations -/

section registration

variable {α : Type} [LinearOrderedField α]

/-- The chain of `add_layer` reaches its final `else` exactly for the names that are not
registered. -/
theorem lookupActivation_eq_none (p : Prims α) (name : String) :
    lookupActivation p name = none ↔ name ∉ registeredNames := by
  constructor
  · intro h hmem
    simp only [registeredNames, List.mem_cons, List.mem_singleton, List.not_mem_nil,
      or_false] at hmem
    rcases hmem with e | e | e | e | e | e | e | e | e | e <;> subst e <;>
      exact Option.noConfusion h
  · intro hmem
    simp only [registeredNames, List.mem_cons, List.mem_singleton, List.not_mem_nil, or_false,
      not_or] at hmem
    obtain ⟨h1, h2, h3, h4, h5, h6, h7, h8, h9, h10⟩ := hmem
    simp only [lookupActivation, if_neg h1, if_neg h2, if_neg h3, if_neg h4, if_neg h5,
      if_neg h6, if_neg h7, if_neg h8, if_neg h9, if_neg h10]

/-- With `length` the size of `layers`, a call of `add_layer` with a registered name appends
the constructed layer with the pair of the name. -/
theorem Network.add_layer_push (p : Prims α) (net : Network α) (nodes : Nat) (name : String)
    (heap : Nat → Nat → Nat → α) (hlen : net.length = net.layers.length) {f f' : α → α}
    (hff : lookupActivation p name = some (f, f')) :
    ∃ l, Layer.new net.batch_size nodes heap = some l ∧
      net.add_layer p nodes name heap = Except.ok (net.pushLayer (l.withActivation f f')) ∧
      l.contents.shape = (net.batch_size, nodes) ∧ l.dZ.shape = (net.batch_size, nodes) ∧
      l.bias.shape = (net.batch_size, nodes) := by
  obtain ⟨l, hl, hc, hd, hb, -, -⟩ := Layer.new_eq_some net.batch_size nodes heap
  refine ⟨l, hl, ?_, hc, hd, hb⟩
  have hget : (net.layers ++ [l])[net.length + 1 - 1]? = some l := by
    rw [Nat.add_sub_cancel, hlen, List.getElem?_append_right (le_refl _), Nat.sub_self]
    rfl
  have hset : (net.layers ++ [l]).set (net.length + 1 - 1)
      { l with activation := some f, activation_deriv := some f' }
      = net.layers ++ [l.withActivation f f'] := by
    rw [Nat.add_sub_cancel, hlen, List.set_append_right _ _ (le_refl _), Nat.sub_self]
    rfl
  simp only [Network.add_layer, hl, hff, hget]
  rw [hset]
  rfl

/-- The call `add_layer` ends in `exit(1)` exactly when the chain finds no name. -/
theorem Network.add_layer_exit (p : Prims α) (net : Network α) (nodes : Nat) (name : String)
    (heap : Nat → Nat → Nat → α) :
    net.add_layer p nodes name heap = Except.error 1 ↔ lookupActivation p name = none := by
  obtain ⟨l, hl, -⟩ := Layer.new_eq_some net.batch_size nodes heap
  simp only [Network.add_layer, hl]
  cases hlook : lookupActivation p name with
  | none => simp
  | some ff =>
    obtain ⟨f, f'⟩ := ff
    simp only
    split <;> simp

end registration

/-! ## The entries that the constructors leave -/

section entries

variable {α : Type} [LinearOrderedField α]

/-- A loop that writes one value `v` at the places `(r i, c i)`: the entries of the result. -/
theorem Mat.foldlM_set?_const (r c : Nat → Nat) (v : α) (is : List Nat) :
    ∀ (m : Mat α), (∀ i ∈ is, r i < m.rows ∧ c i < m.cols) →
    ∃ m', is.foldlM (fun (w : Mat α) i => w.set? (r i) (c i) v) m = some m' ∧
      m'.rows = m.rows ∧ m'.cols = m.cols ∧
      ∀ a k, m'.coeff a k = if (∃ i ∈ is, r i = a ∧ c i = k) then v else m.coeff a k := by
  induction is with
  | nil =>
    intro m _
    exact ⟨m, rfl, rfl, rfl, fun a k => by simp⟩
  | cons i rest ih =>
    intro m h
    obtain ⟨h1, h2⟩ := h i (List.mem_cons_self _ _)
    have e := Mat.set?_eq_some m h1 h2 v
    obtain ⟨m', hm', hr, hc, hco⟩ := ih
      ⟨m.rows, m.cols, fun a b => if a = r i ∧ b = c i then v else m.coeff a b⟩
      (fun j hj => h j (List.mem_cons_of_mem _ hj))
    refine ⟨m', ?_, hr, hc, ?_⟩
    · simp only [List.foldlM_cons, Option.bind_eq_bind, e, Option.some_bind]
      exact hm'
    · intro a k
      rw [hco a k]
      by_cases hx : ∃ j ∈ rest, r j = a ∧ c j = k
      · obtain ⟨j, hj, hja⟩ := hx
        rw [if_pos ⟨j, hj, hja⟩, if_pos ⟨j, List.mem_cons_of_mem _ hj, hja⟩]
      · rw [if_neg hx]
        by_cases hi : r i = a ∧ c i = k
        · rw [if_pos ⟨i, List.mem_cons_self _ _, hi⟩]
          show (if a = r i ∧ k = c i then v else m.coeff a k) = v
          rw [if_pos ⟨hi.1.symm, hi.2.symm⟩]
        · have hn : ¬ ∃ j ∈ i :: rest, r j = a ∧ c j = k := by
            rintro ⟨j, hj, hja⟩
            rcases List.mem_cons.mp hj with e' | e'
            · exact hi (e' ▸ hja)
            · exact hx ⟨j, e', hja⟩
          rw [if_neg hn]
          show (if a = r i ∧ k = c i then v else m.coeff a k) = m.coeff a k
          rw [if_neg (fun hh => hi ⟨hh.1.symm, hh.2.symm⟩)]

/-- The first loop of `Layer::Layer`, which zeroes `contents` and the first `dZ` together. -/
theorem zero_pair_loop (n : Nat) (is : List Nat) :
    ∀ (c d : Mat α), (∀ i ∈ is, (i / n < c.rows ∧ i % n < c.cols) ∧
        (i / n < d.rows ∧ i % n < d.cols)) →
    ∃ c' d', is.foldlM
        (fun (s : Mat α × Mat α) i => do
          let c ← s.1.set? (i / n) (i % n) 0
          let d ← s.2.set? (i / n) (i % n) 0
          pure (c, d))
        (c, d) = some (c', d') ∧
      is.foldlM (fun (w : Mat α) i => w.set? (i / n) (i % n) 0) c = some c' := by
  induction is with
  | nil =>
    intro c d _
    exact ⟨c, d, rfl, rfl⟩
  | cons i rest ih =>
    intro c d h
    obtain ⟨⟨h1, h2⟩, ⟨h3, h4⟩⟩ := h i (List.mem_cons_self _ _)
    have e1 := Mat.set?_eq_some c h1 h2 (0 : α)
    have e2 := Mat.set?_eq_some d h3 h4 (0 : α)
    obtain ⟨c', d', hcd, hc'⟩ := ih
      ⟨c.rows, c.cols, fun a b => if a = i / n ∧ b = i % n then 0 else c.coeff a b⟩
      ⟨d.rows, d.cols, fun a b => if a = i / n ∧ b = i % n then 0 else d.coeff a b⟩
      (fun j hj => h j (List.mem_cons_of_mem _ hj))
    refine ⟨c', d', ?_, ?_⟩
    · simp only [List.foldlM_cons, Option.pure_def, Option.bind_eq_bind, e1, e2,
        Option.some_bind]
      simp only [Option.pure_def, Option.bind_eq_bind] at hcd
      exact hcd
    · simp only [List.foldlM_cons, Option.bind_eq_bind, e1, Option.some_bind]
      exact hc'

/-- The two nested loops of `Layer::Layer` that zero `bias`. -/
theorem zero_bias_loop (b : Nat) (is : List Nat) :
    ∀ (m : Mat α), b ≤ m.rows → (∀ i ∈ is, i < m.cols) →
    ∃ m', is.foldlM
        (fun (bm : Mat α) i => (List.range b).foldlM (fun (bm : Mat α) j => bm.set? j i 0) bm)
        m = some m' ∧ m'.rows = m.rows ∧ m'.cols = m.cols ∧
      ∀ a k, m'.coeff a k = if a < b ∧ k ∈ is then 0 else m.coeff a k := by
  induction is with
  | nil =>
    intro m _ _
    exact ⟨m, rfl, rfl, rfl, fun a k => by simp⟩
  | cons i rest ih =>
    intro m hb h
    obtain ⟨m1, hm1, hr1, hc1, hco1⟩ := Mat.foldlM_set?_const (fun j => j) (fun _ => i) (0 : α)
      (List.range b) m (by
        intro j hj
        have := List.mem_range.mp hj
        exact ⟨by show j < m.rows; omega, h i (List.mem_cons_self _ _)⟩)
    obtain ⟨m', hm', hr, hc, hco⟩ := ih m1 (by omega)
      (fun j hj => by rw [hc1]; exact h j (List.mem_cons_of_mem _ hj))
    refine ⟨m', ?_, hr.trans hr1, hc.trans hc1, ?_⟩
    · simp only [List.foldlM_cons, Option.bind_eq_bind, hm1, Option.some_bind]
      exact hm'
    · intro a k
      rw [hco a k, hco1 a k]
      by_cases ha : a < b
      · by_cases hk : k ∈ rest
        · rw [if_pos ⟨ha, hk⟩, if_pos ⟨ha, List.mem_cons_of_mem _ hk⟩]
        · rw [if_neg (fun hh => hk hh.2)]
          by_cases hki : k = i
          · subst hki
            rw [if_pos ⟨a, List.mem_range.mpr ha, rfl, rfl⟩,
              if_pos ⟨ha, List.mem_cons_self _ _⟩]
          · rw [if_neg (by rintro ⟨j, -, -, hj⟩; exact hki hj.symm),
              if_neg (by
                rintro ⟨-, hh⟩
                rcases List.mem_cons.mp hh with e' | e'
                · exact hki e'
                · exact hk e')]
      · rw [if_neg (fun hh => ha hh.1), if_neg (by rintro ⟨j, hj, hja, -⟩; exact ha (by
          have := List.mem_range.mp hj
          omega)), if_neg (fun hh => ha hh.1)]

/-- The layer that `Layer::Layer(b, n)` returns: `contents` and `bias` are zero inside their
`b` by `n` entries, and `dZ` is the allocation made by the last statement, untouched. -/
theorem Layer.new_spec (b n : Nat) (heap : Nat → Nat → Nat → α) :
    ∃ l, Layer.new b n heap = some l ∧ l.contents.shape = (b, n) ∧ l.bias.shape = (b, n) ∧
      l.dZ = Mat.alloc b n (heap 3) ∧
      (∀ a k, a < b → k < n → l.contents.coeff a k = 0) ∧
      (∀ a k, a < b → k < n → l.bias.coeff a k = 0) := by
  obtain ⟨c, d, hcd, hc⟩ := zero_pair_loop n (List.range (b * n)) (Mat.alloc b n (heap 0))
    (Mat.alloc b n (heap 1)) (by
      intro i hi
      have := div_mod_lt (List.mem_range.mp hi)
      exact ⟨this, this⟩)
  obtain ⟨c1, hc1, hr, hcc, hco⟩ := Mat.foldlM_set?_const (fun i => i / n) (fun i => i % n)
    (0 : α) (List.range (b * n)) (Mat.alloc b n (heap 0)) (by
      intro i hi
      exact div_mod_lt (List.mem_range.mp hi))
  have hcc1 : c1 = c := Option.some.inj (hc1.symm.trans hc)
  subst hcc1
  obtain ⟨bm, hbm, hbr, hbc, hbco⟩ := zero_bias_loop b (List.range n) (Mat.alloc b n (heap 2))
    (le_refl _) (fun i hi => List.mem_range.mp hi)
  have hnew : Layer.new b n heap
      = some ⟨c1, Mat.alloc b n (heap 3), bm, none, none, none, none⟩ := by
    simp only [Option.pure_def, Option.bind_eq_bind] at hcd
    simp only [Layer.new, Option.pure_def, Option.bind_eq_bind]
    rw [hcd]
    simp only [Option.some_bind]
    rw [hbm]
    rfl
  refine ⟨_, hnew, ?_, ?_, rfl, ?_, ?_⟩
  · show (c1.rows, c1.cols) = (b, n)
    rw [hr, hcc]
    rfl
  · show (bm.rows, bm.cols) = (b, n)
    rw [hbr, hbc]
    rfl
  · intro a k ha hk
    show c1.coeff a k = 0
    rw [hco a k, if_pos]
    refine ⟨a * n + k, List.mem_range.mpr ?_, ?_, ?_⟩
    · calc a * n + k < a * n + n := by omega
        _ = (a + 1) * n := by ring
        _ ≤ b * n := Nat.mul_le_mul_right n ha
    · show (a * n + k) / n = a
      rw [Nat.add_comm, Nat.add_mul_div_right _ _ (by omega), Nat.div_eq_of_lt hk, Nat.zero_add]
    · show (a * n + k) % n = k
      rw [Nat.add_comm, Nat.add_mul_mod_self_right, Nat.mod_eq_of_lt hk]
  · intro a k ha hk
    show bm.coeff a k = 0
    rw [hbco a k, if_pos ⟨ha, List.mem_range.mpr hk⟩]

/-- The layer that `Layer::init_weights` returns: `prev_update` is the second allocation,
untouched. -/
theorem Layer.init_weights_spec (l next : Layer α) (rnd : Nat → α)
    (heap : Nat → Nat → Nat → α) :
    ∃ w, l.init_weights next rnd heap = some (l.withWeights w
        (Mat.alloc l.contents.cols next.contents.cols (heap 1))) ∧
      w.shape = (l.contents.cols, next.contents.cols) := by
  obtain ⟨w, hw, hr, hc⟩ := Mat.foldlM_set? (fun i => i / next.contents.cols)
    (fun i => i % next.contents.cols) rnd
    (List.range (l.contents.cols * next.contents.cols))
    (Mat.alloc l.contents.cols next.contents.cols (heap 0))
    (by
      intro i hi
      exact div_mod_lt (List.mem_range.mp hi))
  refine ⟨w, ?_, ?_⟩
  · simp only [Layer.init_weights, Option.pure_def, Option.bind_eq_bind]
    have hw' : List.foldlM (fun (w : Mat α) i => w.set? (i / (Mat.alloc l.contents.cols
        next.contents.cols (heap 0)).cols) (i % (Mat.alloc l.contents.cols
        next.contents.cols (heap 0)).cols) (rnd i))
        (Mat.alloc l.contents.cols next.contents.cols (heap 0))
        (List.range ((Mat.alloc l.contents.cols next.contents.cols (heap 0)).rows *
          (Mat.alloc l.contents.cols next.contents.cols (heap 0)).cols)) = some w := hw
    rw [hw']
    rfl
  · simp only [Mat.shape]
    rw [hr, hc]
    rfl

end entries

/-! ## The rational function `ftanh` -/

section rational

/-- The hyperbolic tangent of 66 exceeds one half. -/
theorem half_lt_tanh_66 : (1 / 2 : ℝ) < Real.tanh 66 := by
  have h1 : (3 : ℝ) < Real.exp 66 := by
    have := Real.add_one_le_exp (66 : ℝ)
    linarith
  have h2 : Real.exp (-66) < 1 := by
    have := Real.exp_lt_exp.mpr (show (-66 : ℝ) < 0 by norm_num)
    rwa [Real.exp_zero] at this
  have h3 : 0 < Real.exp (-66) := Real.exp_pos _
  rw [Real.tanh_eq_sinh_div_cosh, Real.sinh_eq, Real.cosh_eq, lt_div_iff₀ (by positivity)]
  linarith

/-- The value of `ftanh` at 66. -/
theorem ftanh_66 : activations.ftanh (66 : ℝ) = 1272496896 / 3653813400 := by
  unfold activations.ftanh
  norm_num

/-- The divisor of `ftanh` is positive. -/
theorem ftanh_divisor_pos {α : Type} [LinearOrderedField α] (y : α) :
    0 < 600 + (270 * y ^ 2) + (11 * y ^ 4) + (y ^ 6 / 24) := by
  have h2 : 0 ≤ y ^ 2 := by positivity
  have h4 : 0 ≤ y ^ 4 := by positivity
  have h6 : 0 ≤ y ^ 6 / 24 := by positivity
  linarith

end rational

/-! ## The optimizers on a layer whose state is shaped like its weights -/

section optimizerLemmas

variable {α : Type} [LinearOrderedField α]

theorem Mat.zip?_shape_eq (f : α → α → α) {a b : Mat α} (h : a.shape = b.shape) :
    Mat.zip? f a b = some (Mat.zip f a b) := by
  simp only [Mat.shape, Prod.mk.injEq] at h
  exact Mat.zip?_eq_some f h.1 h.2

/-- The closure of `momentum` on shaped operands. -/
theorem optimizers.momentum_eq (beta lr : α) (layer : OptLayer α) (delta : Mat α) {r c : Nat}
    (hl : layer.Shaped r c) (hd : delta.shape = (r, c)) :
    optimizers.momentum beta layer delta lr
      = some ⟨layer.weights.sub ((Mat.smul beta layer.m).add (Mat.smul lr delta)),
          Mat.smul lr delta, layer.v⟩ := by
  obtain ⟨hw, hm, -⟩ := hl
  simp only [optimizers.momentum, Option.pure_def, Option.bind_eq_bind, Mat.add?, Mat.sub?]
  rw [Mat.zip?_shape_eq _ (show (Mat.smul beta layer.m).shape = (Mat.smul lr delta).shape from
    hm.trans hd.symm)]
  simp only [Option.some_bind]
  rw [Mat.zip?_shape_eq _ (show layer.weights.shape = (Mat.zip (fun x y => x + y)
    (Mat.smul beta layer.m) (Mat.smul lr delta)).shape from hw.trans hm.symm)]
  rfl

/-- One call of the closure of `demon` on shaped operands: it fails exactly when a divisor
is zero; otherwise it is the momentum update with the decayed coefficient of the current
counter, and the counter grows by one. -/
theorem optimizers.Demon.call_eq (cl : optimizers.Demon α) (lr : α) (layer : OptLayer α)
    (delta : Mat α) {r c : Nat} (hl : layer.Shaped r c) (hd : delta.shape = (r, c)) :
    cl.call layer delta lr
      = if (cl.max_ep : α) ≠ 0 ∧
          cl.beta_init * (1 - cl.epochs / (cl.max_ep : α)) + (1 - cl.beta_init) ≠ 0 then
        some (⟨layer.weights.sub ((Mat.smul (decayedBeta cl.beta_init cl.epochs cl.max_ep)
            layer.m).add (Mat.smul lr delta)), Mat.smul lr delta, layer.v⟩,
          ⟨cl.max_ep, cl.epochs + 1, cl.beta_init,
            decayedBeta cl.beta_init cl.epochs cl.max_ep⟩)
      else none := by
  obtain ⟨hw, hm, -⟩ := hl
  by_cases h1 : (cl.max_ep : α) = 0
  · simp [optimizers.Demon.call, h1]
  by_cases h2 : cl.beta_init * (1 - cl.epochs / (cl.max_ep : α)) + (1 - cl.beta_init) = 0
  · simp [optimizers.Demon.call, h1, h2]
  rw [if_pos ⟨h1, h2⟩]
  simp only [optimizers.Demon.call, Option.pure_def, Option.bind_eq_bind, Mat.add?, Mat.sub?,
    if_neg h1, if_neg h2]
  rw [Mat.zip?_shape_eq _ (show (Mat.smul (cl.beta_init * (1 - cl.epochs / (cl.max_ep : α)) /
      (cl.beta_init * (1 - cl.epochs / (cl.max_ep : α)) + (1 - cl.beta_init))) layer.m).shape
      = (Mat.smul lr delta).shape from hm.trans hd.symm)]
  simp only [Option.some_bind]
  rw [Mat.zip?_shape_eq _ (show layer.weights.shape = (Mat.zip (fun x y => x + y)
    (Mat.smul (cl.beta_init * (1 - cl.epochs / (cl.max_ep : α)) /
      (cl.beta_init * (1 - cl.epochs / (cl.max_ep : α)) + (1 - cl.beta_init))) layer.m)
    (Mat.smul lr delta)).shape from hw.trans hm.symm)]
  rfl

theorem OptLayer.Shaped.dims {layer : OptLayer α} {r c : Nat} (hl : layer.Shaped r c) :
    (layer.weights.rows = r ∧ layer.weights.cols = c) ∧ (layer.m.rows = r ∧ layer.m.cols = c) ∧
      (layer.v.rows = r ∧ layer.v.cols = c) := by
  obtain ⟨hw, hm, hv⟩ := hl
  simp only [Mat.shape, Prod.mk.injEq] at hw hm hv
  exact ⟨hw, hm, hv⟩

/-- The closure of `adam` on shaped operands: it fails exactly when a square root or an
inverse is not a number; otherwise the three matrices are as follows. -/
theorem optimizers.adam_eq (sqrt : α → α) (beta1 beta2 epsilon lr : α) (layer : OptLayer α)
    (delta : Mat α) {r c : Nat} (hl : layer.Shaped r c) (hd : delta.shape = (r, c)) :
    optimizers.adam sqrt beta1 beta2 epsilon layer delta lr
      = if (adamSecondMoment beta2 layer delta).Forall (fun x => 0 ≤ x) ∧
          (((adamSecondMoment beta2 layer delta).map sqrt).map (fun x => x + epsilon)).Forall
            (fun x => x ≠ 0) then
        some ⟨layer.weights.sub (Mat.smul lr
            (((((adamSecondMoment beta2 layer delta).map sqrt).map (fun x => x + epsilon)).map
              (fun x => x⁻¹)).cwiseProduct (adamFirstMoment beta1 layer delta))),
          adamFirstMoment beta1 layer delta, adamSecondMoment beta2 layer delta⟩
      else none := by
  obtain ⟨⟨hwr, hwc⟩, ⟨hmr, hmc⟩, ⟨hvr, hvc⟩⟩ := hl.dims
  simp only [Mat.shape, Prod.mk.injEq] at hd
  obtain ⟨hdr, hdc⟩ := hd
  have em : (Mat.smul beta1 layer.m).add? (Mat.smul (1 - beta1) delta)
      = some (adamFirstMoment beta1 layer delta) :=
    Mat.zip?_eq_some _ (hmr.trans hdr.symm) (hmc.trans hdc.symm)
  have es : delta.cwiseProduct? delta = some (delta.cwiseProduct delta) :=
    Mat.zip?_eq_some _ rfl rfl
  have ev : (Mat.smul beta2 layer.v).add? (Mat.smul (1 - beta2) (delta.cwiseProduct delta))
      = some (adamSecondMoment beta2 layer delta) :=
    Mat.zip?_eq_some _ (hvr.trans hdr.symm) (hvc.trans hdc.symm)
  have eq : ∀ inv : Mat α, inv.rows = r → inv.cols = c →
      inv.cwiseProduct? (adamFirstMoment beta1 layer delta)
        = some (inv.cwiseProduct (adamFirstMoment beta1 layer delta)) :=
    fun inv h1 h2 => Mat.zip?_eq_some _ (h1.trans hmr.symm) (h2.trans hmc.symm)
  have ew : ∀ q : Mat α, q.rows = r → q.cols = c →
      layer.weights.sub? (Mat.smul lr q) = some (layer.weights.sub (Mat.smul lr q)) :=
    fun q h1 h2 => Mat.zip?_eq_some _ (hwr.trans h1.symm) (hwc.trans h2.symm)
  simp only [optimizers.adam, Option.pure_def, Option.bind_eq_bind, em, es, ev,
    Option.some_bind]
  by_cases h1 : (adamSecondMoment beta2 layer delta).Forall (fun x => 0 ≤ x)
  · have e1 : (adamSecondMoment beta2 layer delta).cwiseSqrt? sqrt
        = some ((adamSecondMoment beta2 layer delta).map sqrt) := if_pos h1
    simp only [e1, Option.some_bind]
    by_cases h2 : (((adamSecondMoment beta2 layer delta).map sqrt).map
        (fun x => x + epsilon)).Forall (fun x => x ≠ 0)
    · have e2 : (((adamSecondMoment beta2 layer delta).map sqrt).map
          (fun x => x + epsilon)).cwiseInverse?
          = some ((((adamSecondMoment beta2 layer delta).map sqrt).map
            (fun x => x + epsilon)).map (fun x => x⁻¹)) := if_pos h2
      rw [if_pos ⟨h1, h2⟩]
      simp only [e2, Option.some_bind]
      rw [eq ((((adamSecondMoment beta2 layer delta).map sqrt).map
        (fun x => x + epsilon)).map (fun x => x⁻¹)) hvr hvc]
      simp only [Option.some_bind]
      rw [ew (((((adamSecondMoment beta2 layer delta).map sqrt).map
        (fun x => x + epsilon)).map (fun x => x⁻¹)).cwiseProduct
          (adamFirstMoment beta1 layer delta)) hvr hvc]
      rfl
    · have e2 : (((adamSecondMoment beta2 layer delta).map sqrt).map
          (fun x => x + epsilon)).cwiseInverse? = none := if_neg h2
      rw [if_neg (fun h => h2 h.2)]
      simp only [e2, Option.none_bind]
  · have e1 : (adamSecondMoment beta2 layer delta).cwiseSqrt? sqrt = none := if_neg h1
    rw [if_neg (fun h => h1 h.1)]
    simp only [e1, Option.none_bind]

theorem adamaxNorm_dims (beta2 : α) (layer : OptLayer α) (delta : Mat α) {r c : Nat}
    (hl : layer.Shaped r c) (hd : delta.shape = (r, c)) :
    (adamaxNorm beta2 layer delta).rows = r ∧ (adamaxNorm beta2 layer delta).cols = c := by
  obtain ⟨-, -, ⟨hvr, hvc⟩⟩ := hl.dims
  simp only [Mat.shape, Prod.mk.injEq] at hd
  unfold adamaxNorm
  split
  · exact ⟨hvr, hvc⟩
  · exact hd

/-- The closure of `adamax` on shaped operands: it fails exactly when the stored `v` has a
zero entry; otherwise the three matrices are as follows. -/
theorem optimizers.adamax_eq (beta1 beta2 epsilon lr : α) (layer : OptLayer α)
    (delta : Mat α) {r c : Nat} (hl : layer.Shaped r c) (hd : delta.shape = (r, c)) :
    optimizers.adamax beta1 beta2 epsilon layer delta lr
      = if (adamaxNorm beta2 layer delta).Forall (fun x => x ≠ 0) then
        some ⟨layer.weights.sub (Mat.smul lr
            (((adamaxNorm beta2 layer delta).map (fun x => x⁻¹)).cwiseProduct
              (adamFirstMoment beta1 layer delta))),
          adamFirstMoment beta1 layer delta, adamaxNorm beta2 layer delta⟩
      else none := by
  obtain ⟨hnr, hnc⟩ := adamaxNorm_dims beta2 layer delta hl hd
  obtain ⟨⟨hwr, hwc⟩, ⟨hmr, hmc⟩, -⟩ := hl.dims
  simp only [Mat.shape, Prod.mk.injEq] at hd
  obtain ⟨hdr, hdc⟩ := hd
  have em : (Mat.smul beta1 layer.m).add? (Mat.smul (1 - beta1) delta)
      = some (adamFirstMoment beta1 layer delta) :=
    Mat.zip?_eq_some _ (hmr.trans hdr.symm) (hmc.trans hdc.symm)
  have eq : ∀ inv : Mat α, inv.rows = r → inv.cols = c →
      inv.cwiseProduct? (adamFirstMoment beta1 layer delta)
        = some (inv.cwiseProduct (adamFirstMoment beta1 layer delta)) :=
    fun inv h1 h2 => Mat.zip?_eq_some _ (h1.trans hmr.symm) (h2.trans hmc.symm)
  have ew : ∀ q : Mat α, q.rows = r → q.cols = c →
      layer.weights.sub? (Mat.smul lr q) = some (layer.weights.sub (Mat.smul lr q)) :=
    fun q h1 h2 => Mat.zip?_eq_some _ (hwr.trans h1.symm) (hwc.trans h2.symm)
  have key : ∀ vn : Mat α, vn.rows = r → vn.cols = c →
      (vn.cwiseInverse?.bind fun inv =>
        (inv.cwiseProduct? (adamFirstMoment beta1 layer delta)).bind fun quot =>
          (layer.weights.sub? (Mat.smul lr quot)).bind fun w =>
            some (⟨w, adamFirstMoment beta1 layer delta, vn⟩ : OptLayer α))
      = if vn.Forall (fun x => x ≠ 0) then
          some ⟨layer.weights.sub (Mat.smul lr ((vn.map (fun x => x⁻¹)).cwiseProduct
            (adamFirstMoment beta1 layer delta))), adamFirstMoment beta1 layer delta, vn⟩
        else none := by
    intro vn h1 h2
    by_cases hf : vn.Forall (fun x => x ≠ 0)
    · have e1 : vn.cwiseInverse? = some (vn.map (fun x => x⁻¹)) := if_pos hf
      rw [if_pos hf]
      simp only [e1, Option.some_bind]
      rw [eq (vn.map (fun x => x⁻¹)) h1 h2]
      simp only [Option.some_bind]
      rw [ew ((vn.map (fun x => x⁻¹)).cwiseProduct (adamFirstMoment beta1 layer delta)) h1 h2]
      rfl
    · have e1 : vn.cwiseInverse? = none := if_neg hf
      rw [if_neg hf]
      simp only [e1, Option.none_bind]
  rw [← key _ hnr hnc]
  simp only [optimizers.adamax, Option.pure_def, Option.bind_eq_bind, em, Option.some_bind]
  unfold adamaxNorm
  split <;> rfl

end optimizerLemmas

/-! ## Consecutive calls of an optimizer -/

section optimizerRuns

variable {α : Type} [LinearOrderedField α]

/-- One call of any of the four optimizers on shaped operands fails exactly when its
arithmetic leaves the field, and a call that returns leaves a shaped layer. -/
theorem Optimizer.call_spec (sqrt : α → α) (o : Optimizer α) (layer : OptLayer α)
    (delta : Mat α) (lr : α) {r c : Nat} (hl : layer.Shaped r c) (hd : delta.shape = (r, c)) :
    (o.call sqrt layer delta lr = none ↔ ¬ o.Finite sqrt layer delta) ∧
      ∀ post o', o.call sqrt layer delta lr = some (post, o') → post.Shaped r c := by
  obtain ⟨hw, hm, hv⟩ := hl
  have hl' : layer.Shaped r c := ⟨hw, hm, hv⟩
  cases o with
  | momentum beta =>
    simp only [Optimizer.call, optimizers.momentum_eq beta lr layer delta hl' hd,
      Option.map_some', Optimizer.Finite, not_true_eq_false, iff_false]
    refine ⟨fun h => Option.noConfusion h, ?_⟩
    intro post o' h
    simp only [Option.some.injEq, Prod.mk.injEq] at h
    rw [← h.1]
    exact ⟨hw, hd, hv⟩
  | demon cl =>
    simp only [Optimizer.call, optimizers.Demon.call_eq cl lr layer delta hl' hd,
      Optimizer.Finite]
    split
    · rename_i hf
      refine ⟨⟨fun h => Option.noConfusion h, fun h => absurd hf h⟩, ?_⟩
      intro post o' h
      simp only [Option.map_some', Option.some.injEq, Prod.mk.injEq] at h
      rw [← h.1]
      exact ⟨hw, hd, hv⟩
    · rename_i hf
      exact ⟨⟨fun _ => hf, fun _ => rfl⟩, fun post o' h => Option.noConfusion h⟩
  | adam beta1 beta2 epsilon =>
    simp only [Optimizer.call, optimizers.adam_eq sqrt beta1 beta2 epsilon lr layer delta hl' hd,
      Optimizer.Finite]
    split
    · rename_i hf
      refine ⟨⟨fun h => Option.noConfusion h, fun h => absurd hf h⟩, ?_⟩
      intro post o' h
      simp only [Option.map_some', Option.some.injEq, Prod.mk.injEq] at h
      rw [← h.1]
      exact ⟨hw, hm, hv⟩
    · rename_i hf
      exact ⟨⟨fun _ => hf, fun _ => rfl⟩, fun post o' h => Option.noConfusion h⟩
  | adamax beta1 beta2 epsilon =>
    simp only [Optimizer.call, optimizers.adamax_eq beta1 beta2 epsilon lr layer delta hl' hd,
      Optimizer.Finite]
    split
    · rename_i hf
      refine ⟨⟨fun h => Option.noConfusion h, fun h => absurd hf h⟩, ?_⟩
      intro post o' h
      simp only [Option.map_some', Option.some.injEq, Prod.mk.injEq] at h
      rw [← h.1]
      obtain ⟨h1, h2⟩ := adamaxNorm_dims beta2 layer delta hl' hd
      refine ⟨hw, hm, ?_⟩
      show ((adamaxNorm beta2 layer delta).rows, (adamaxNorm beta2 layer delta).cols) = (r, c)
      rw [h1, h2]
    · rename_i hf
      exact ⟨⟨fun _ => hf, fun _ => rfl⟩, fun post o' h => Option.noConfusion h⟩

/-- Consecutive calls that all return leave a shaped layer. -/
theorem Optimizer.run_shaped (sqrt : α → α) {r c : Nat} (calls : List (Mat α × α)) :
    ∀ (o : Optimizer α) (layer : OptLayer α), layer.Shaped r c →
      (∀ d ∈ calls, d.1.shape = (r, c)) →
      ∀ post o', o.run sqrt layer calls = some (post, o') → post.Shaped r c := by
  induction calls with
  | nil =>
    intro o layer hl _ post o' h
    simp only [Optimizer.run, Option.some.injEq, Prod.mk.injEq] at h
    rw [← h.1]
    exact hl
  | cons d rest ih =>
    intro o layer hl hd post o' h
    obtain ⟨delta, lr⟩ := d
    have hd0 : delta.shape = (r, c) := hd (delta, lr) (List.mem_cons_self _ _)
    cases hcall : o.call sqrt layer delta lr with
    | none => simp [Optimizer.run, hcall] at h
    | some res =>
      obtain ⟨l1, o1⟩ := res
      simp only [Optimizer.run, hcall] at h
      exact ih o1 l1 ((Optimizer.call_spec sqrt o layer delta lr hl hd0).2 l1 o1 hcall)
        (fun d hd' => hd d (List.mem_cons_of_mem _ hd')) post o' h

/-- Consecutive calls of the closure of `momentum` on shaped operands all return. -/
theorem Optimizer.run_momentum (sqrt : α → α) (beta : α) {r c : Nat}
    (calls : List (Mat α × α)) :
    ∀ (layer : OptLayer α), layer.Shaped r c → (∀ d ∈ calls, d.1.shape = (r, c)) →
      ∃ post, (Optimizer.momentum beta).run sqrt layer calls
        = some (post, Optimizer.momentum beta) := by
  induction calls with
  | nil =>
    intro layer _ _
    exact ⟨layer, rfl⟩
  | cons d rest ih =>
    intro layer hl hd
    obtain ⟨delta, lr⟩ := d
    have hd0 : delta.shape = (r, c) := hd (delta, lr) (List.mem_cons_self _ _)
    have hcall : (Optimizer.momentum beta).call sqrt layer delta lr
        = some (⟨layer.weights.sub ((Mat.smul beta layer.m).add (Mat.smul lr delta)),
          Mat.smul lr delta, layer.v⟩, Optimizer.momentum beta) := by
      simp only [Optimizer.call, optimizers.momentum_eq beta lr layer delta hl hd0,
        Option.map_some']
    obtain ⟨post, hpost⟩ := ih _
      ((Optimizer.call_spec sqrt (Optimizer.momentum beta) layer delta lr hl hd0).2 _ _ hcall)
      (fun d hd' => hd d (List.mem_cons_of_mem _ hd'))
    refine ⟨post, ?_⟩
    simp only [Optimizer.run, hcall]
    exact hpost

theorem ratSqrt_nonneg (x : ℚ) : 0 ≤ ratSqrt x := by
  unfold ratSqrt
  positivity

theorem ratSqrt_four : ratSqrt 4 = 2 := by
  have h : Nat.sqrt 4 = 2 := Nat.sqrt_eq 2
  have h1 : Nat.sqrt 1 = 1 := Nat.sqrt_eq 1
  have hn : ((4 : ℚ).num).toNat = 4 := rfl
  have hd : (4 : ℚ).den = 1 := rfl
  unfold ratSqrt
  rw [hn, hd, h, h1]
  norm_num

end optimizerRuns

/-! ## One epoch of training -/

section training

variable {α : Type} [LinearOrderedField α]

/-- A quantity that every step keeps is kept by the loop. -/
theorem foldlM_preserves {σ ι β : Type} (f : σ → β) (step : σ → ι → Option σ)
    (h : ∀ s i s', step s i = some s' → f s' = f s) :
    ∀ (is : List ι) (s s' : σ), is.foldlM step s = some s' → f s' = f s := by
  intro is
  induction is with
  | nil =>
    intro s s' hs
    simp only [List.foldlM_nil, Option.pure_def, Option.some.injEq] at hs
    rw [hs]
  | cons i is ih =>
    intro s s' hs
    simp only [List.foldlM_cons, Option.bind_eq_bind, Option.bind_eq_some] at hs
    obtain ⟨s1, h1, h2⟩ := hs
    rw [ih s1 s' h2, h s i s1 h1]

theorem Network.activateAt_static {net s : Network α} {i : Nat}
    (h : net.activateAt i = some s) :
    (s.instances, s.batches) = (net.instances, net.batches) := by
  simp only [Network.activateAt, Option.pure_def, Option.bind_eq_bind, Option.bind_eq_some,
    Option.some.injEq] at h
  obtain ⟨l, -, l', -, rfl⟩ := h
  rfl

theorem Network.propagateAt_static {net s : Network α} {i : Nat}
    (h : net.propagateAt i = some s) :
    (s.instances, s.batches) = (net.instances, net.batches) := by
  simp only [Network.propagateAt, Option.pure_def, Option.bind_eq_bind, Option.bind_eq_some,
    Option.some.injEq] at h
  obtain ⟨l, -, nx, -, w, -, pr, -, sm, -, rfl⟩ := h
  rfl

/-- The forward pass leaves `instances` and `batches` alone. -/
theorem Network.feedforward_static {net s : Network α} (h : net.feedforward = some s) :
    s.instances = net.instances ∧ s.batches = net.batches := by
  simp only [Network.feedforward, Option.bind_eq_bind, Option.bind_eq_some] at h
  obtain ⟨n1, h1, n2, h2, h3⟩ := h
  have e1 := Network.activateAt_static h1
  have e2 := foldlM_preserves (fun n : Network α => (n.instances, n.batches))
    Network.propagateAt (fun s i s' hs => Network.propagateAt_static hs) _ n1 n2 h2
  have e3 := foldlM_preserves (fun n : Network α => (n.instances, n.batches))
    Network.activateAt (fun s i s' hs => Network.activateAt_static hs) _ n2 s h3
  have e := e3.trans (e2.trans e1)
  simp only [Prod.mk.injEq] at e
  exact e

/-- The backward pass keeps a network well formed. -/
theorem Network.WellFormed.of_updatedTo {net post : Network α} {dims : List Nat}
    (h : net.WellFormed dims) {m : Nat} (hu : net.UpdatedTo post m) : post.WellFormed dims := by
  obtain ⟨⟨hlen, hbs, hlab, -, -⟩, -, -, hlay⟩ := hu
  have hll : post.layers.length = net.layers.length := by
    apply le_antisymm
    · by_contra hc
      have h1 := hlay net.layers.length
      rw [List.getElem?_eq_none (le_refl _), Option.map_none',
        List.getElem?_eq_getElem (by omega)] at h1
      cases h1
    · by_contra hc
      have h1 := hlay post.layers.length
      rw [List.getElem?_eq_none (le_refl _), List.getElem?_eq_getElem (by omega),
        Option.map_some'] at h1
      cases h1
  refine ⟨hlen.trans h.length_eq, hll.trans h.layers_length, h.pos, ?_, ?_, ?_⟩
  · intro k x n hx hn
    rw [hlay k, Option.map_eq_some'] at hx
    obtain ⟨l, hl, rfl⟩ := hx
    have hs := h.shaped k l n hl hn
    rw [hbs]
    refine ⟨hs.contents_rows, hs.contents_cols, hs.dZ_rows, hs.dZ_cols, ?_, ?_, hs.act,
      hs.deriv⟩
    · show (if net.length - m ≤ k ∧ k < net.length then net.newBias k else l.bias).rows = _
      split
      · show (net.biasAt k).rows = _
        rw [Network.biasAt_eq hl]
        exact hs.bias_rows
      · exact hs.bias_rows
    · show (if net.length - m ≤ k ∧ k < net.length then net.newBias k else l.bias).cols = _
      split
      · show (net.biasAt k).cols = _
        rw [Network.biasAt_eq hl]
        exact hs.bias_cols
      · exact hs.bias_cols
  · intro k x n n' hx hn hn'
    rw [hlay k, Option.map_eq_some'] at hx
    obtain ⟨l, hl, rfl⟩ := hx
    obtain ⟨hw, hp⟩ := h.weights k l n n' hl hn hn'
    refine ⟨?_, hp⟩
    show (if net.length - 1 - m ≤ k ∧ k + 1 < net.length then some (net.newWeights k)
      else l.weights).map Mat.shape = _
    split
    · rw [Option.map_eq_some'] at hw
      obtain ⟨w, hw1, hw2⟩ := hw
      rw [Option.map_some']
      show some ((net.weightsAt k).rows, (net.weightsAt k).cols) = _
      rw [Network.weightsAt_eq hl hw1]
      exact congrArg some hw2
    · exact hw
  · intro n hn
    rw [hlab, hbs]
    exact h.labels n hn

/-- Method `update_layer` on the input layer of a well-formed network, for the `datalen` of
`next_batch`. -/
theorem Network.WellFormed.update_layer {net : Network α} {dims : List Nat}
    (h : net.WellFormed dims) {n0 : Nat} (h0 : dims[0]? = some n0) (vals : Nat → α) :
    ∃ post, net.update_layer vals (net.batch_size * n0) 0 = some post ∧ post.WellFormed dims ∧
      post.SameFrame net ∧ post.instances = net.instances ∧ post.batches = net.batches := by
  have key := foldlM_inv
    (fun s : Network α => s.WellFormed dims ∧ s.SameFrame net ∧ s.instances = net.instances ∧
      s.batches = net.batches)
    (fun i => i < net.batch_size * n0)
    (fun (n : Network α) i => do
      let l ← n.layers[0]?
      let c ← l.contents.set? (i / l.contents.cols) (i % l.contents.cols) (vals i)
      pure { n with layers := n.layers.set 0 { l with contents := c } })
    (by
      rintro s i ⟨hs, hf, hi1, hi2⟩ hi
      obtain ⟨l, n, hl, hn, hsh⟩ := hs.layer_exists (i := 0) hs.pos
      rw [h0] at hn
      cases hn
      have hb : s.batch_size = net.batch_size := hf.2.1
      have hdm : i / l.contents.cols < l.contents.rows ∧ i % l.contents.cols < l.contents.cols := by
        rw [hsh.contents_cols, hsh.contents_rows, hb]
        exact div_mod_lt hi
      have e := Mat.set?_eq_some l.contents hdm.1 hdm.2 (vals i)
      refine ⟨s.withLayer 0 (l.withContents ⟨l.contents.rows, l.contents.cols,
        fun a b => if a = i / l.contents.cols ∧ b = i % l.contents.cols then vals i
          else l.contents.coeff a b⟩), ?_, ?_, ?_, hi1, hi2⟩
      · simp only [hl, e, Option.pure_def, Option.bind_eq_bind, Option.some_bind]
        rfl
      · exact hs.set_layer hl
          (fun n hsn => ⟨hsn.contents_rows, hsn.contents_cols, hsn.dZ_rows, hsn.dZ_cols,
            hsn.bias_rows, hsn.bias_cols, hsn.act, hsn.deriv⟩) rfl rfl
      · exact hf)
    (List.range (net.batch_size * n0)) net ⟨h, ⟨rfl, rfl, rfl, rfl, rfl⟩, rfl, rfl⟩
    (fun i hi => List.mem_range.mp hi)
  exact key

/-- Method `next_batch` on a well-formed network with at least 4 input nodes and an output
node: it returns, the stream has moved by the lines read, and the network stays well
formed. -/
theorem Network.WellFormed.next_batch {net : Network α} {dims : List Nat}
    (h : net.WellFormed dims) {n0 nl : Nat} (h0 : dims[0]? = some n0) (h4 : 4 ≤ n0)
    (hl : dims[dims.length - 1]? = some nl) (hnl : 1 ≤ nl) (data : DataFile α)
    (stack : Nat → α) :
    ∃ post, net.next_batch data stack
        = some (post, ⟨data.lines,
            data.pos + min net.batch_size (data.lines.length - data.pos)⟩) ∧
      post.WellFormed dims ∧ post.batch_size = net.batch_size ∧
      post.instances = net.instances ∧ post.batches = net.batches := by
  obtain ⟨l0, n, hl0, hn, hsh⟩ := h.layer_exists (i := 0) h.pos
  rw [h0] at hn
  cases hn
  have hlab := h.labels nl hl
  rw [Option.map_eq_some'] at hlab
  obtain ⟨lab, hlab1, hlab2⟩ := hlab
  simp only [Mat.shape, Prod.mk.injEq] at hlab2
  have hlen : ((data.lines.drop data.pos).take net.batch_size).length
      = min net.batch_size (data.lines.length - data.pos) := by
    rw [List.length_take, List.length_drop]
  have hloop := foldlM_inv
    (fun s : (Nat → α) × Option (Mat α) =>
      ∃ m, s.2 = some m ∧ m.rows = net.batch_size ∧ m.cols = nl)
    (fun i => i < ((data.lines.drop data.pos).take net.batch_size).length)
    (fun (s : (Nat → α) × Option (Mat α)) i => do
      let line ← ((data.lines.drop data.pos).take net.batch_size)[i]?
      if net.batch_size * l0.contents.cols ≤ 3 + i * l0.contents.cols then none
      let batch := fun n =>
        if n = 3 + i * l0.contents.cols then line.x3
        else if n = 2 + i * l0.contents.cols then line.x2
        else if n = 1 + i * l0.contents.cols then line.x1
        else if n = 0 + i * l0.contents.cols then line.x0
        else s.1 n
      let labels ← s.2
      let labels ← labels.set? i 0 (line.label : α)
      pure (batch, some labels))
    (by
      rintro ⟨b, lb⟩ i ⟨m, hm, hmr, hmc⟩ hi
      simp only at hm
      subst hm
      have hiB : i < net.batch_size := by
        rw [hlen] at hi
        exact lt_of_lt_of_le hi (min_le_left _ _)
      have hbound : ¬ net.batch_size * l0.contents.cols ≤ 3 + i * l0.contents.cols := by
        rw [hsh.contents_cols]
        have : (i + 1) * n0 ≤ net.batch_size * n0 := Nat.mul_le_mul_right n0 hiB
        rw [Nat.add_mul, Nat.one_mul] at this
        omega
      have e := Mat.set?_eq_some m (j := i) (k := 0) (by omega) (by omega)
        ((((data.lines.drop data.pos).take net.batch_size)[i]).label : α)
      refine ⟨(fun n =>
          if n = 3 + i * l0.contents.cols then
            (((data.lines.drop data.pos).take net.batch_size)[i]).x3
          else if n = 2 + i * l0.contents.cols then
            (((data.lines.drop data.pos).take net.batch_size)[i]).x2
          else if n = 1 + i * l0.contents.cols then
            (((data.lines.drop data.pos).take net.batch_size)[i]).x1
          else if n = 0 + i * l0.contents.cols then
            (((data.lines.drop data.pos).take net.batch_size)[i]).x0
          else b n,
        some ⟨m.rows, m.cols, fun a c => if a = i ∧ c = 0 then
          ((((data.lines.drop data.pos).take net.batch_size)[i]).label : α)
          else m.coeff a c⟩), ?_, ⟨_, rfl, hmr, hmc⟩⟩
      simp only [List.getElem?_eq_getElem hi, if_neg hbound, e, Option.pure_def,
        Option.bind_eq_bind, Option.some_bind])
    (List.range ((data.lines.drop data.pos).take net.batch_size).length) (stack, net.labels)
    ⟨lab, hlab1, hlab2.1, hlab2.2⟩ (fun i hi => List.mem_range.mp hi)
  obtain ⟨⟨b, lb⟩, hfold, m, hm, hmr, hmc⟩ := hloop
  simp only at hm
  subst hm
  have hwf : (net.withLabels m).WellFormed dims := by
    refine ⟨h.length_eq, h.layers_length, h.pos, h.shaped, h.weights, ?_⟩
    intro n' hn'
    rw [hl] at hn'
    cases hn'
    show some (m.rows, m.cols) = some (net.batch_size, nl)
    rw [hmr, hmc]
  obtain ⟨post, hpost, hpwf, hpf, hpi, hpb⟩ := hwf.update_layer h0 b
  refine ⟨post, ?_, hpwf, hpf.2.1, hpi, hpb⟩
  simp only [Option.pure_def, Option.bind_eq_bind, Option.some_bind] at hfold
  simp only [Network.next_batch, hl0, Option.pure_def, Option.bind_eq_bind, Option.some_bind]
  rw [hfold]
  simp only [Option.some_bind]
  rw [hsh.contents_cols]
  have hpost' : (Network.update_layer { net with labels := some m } b (net.batch_size * n0) 0)
      = some post := hpost
  rw [hpost']
  simp only [Option.some_bind, hlen]

/-- One round of the `for` loop of `Network::train` on a well-formed network. -/
theorem Network.WellFormed.trainBatch [FloorRing α] {net : Network α} {dims : List Nat}
    (h : net.WellFormed dims) (h2 : 2 ≤ dims.length) {n0 nl : Nat} (h0 : dims[0]? = some n0)
    (h4 : 4 ≤ n0) (hl : dims[dims.length - 1]? = some nl) (hnl : 1 ≤ nl)
    (hb : 1 ≤ net.batch_size) (stack : Nat → Nat → α) (data : DataFile α) (cs acs : α)
    (i : Nat) :
    ∃ post cs' acs', Network.trainBatch stack (net, data, cs, acs) i
        = some (post,
            (if i ≠ net.instances - net.batch_size then
              ⟨data.lines, data.pos + min net.batch_size (data.lines.length - data.pos)⟩
            else data), cs', acs') ∧
      post.WellFormed dims ∧ post.batch_size = net.batch_size ∧
      post.instances = net.instances ∧ post.batches = net.batches + 1 := by
  have hload : ∃ n1, (if i ≠ net.instances - net.batch_size then net.next_batch data (stack i)
        else pure (net, data))
      = some (n1, (if i ≠ net.instances - net.batch_size then
          ⟨data.lines, data.pos + min net.batch_size (data.lines.length - data.pos)⟩
        else data)) ∧
      n1.WellFormed dims ∧ n1.batch_size = net.batch_size ∧ n1.instances = net.instances ∧
      n1.batches = net.batches := by
    by_cases hi : i ≠ net.instances - net.batch_size
    · obtain ⟨n1, e1, w1, b1, i1, c1⟩ := h.next_batch h0 h4 hl hnl data (stack i)
      exact ⟨n1, by rw [if_pos hi, if_pos hi]; exact e1, w1, b1, i1, c1⟩
    · exact ⟨net, by rw [if_neg hi, if_neg hi]; rfl, h, rfl, rfl, rfl⟩
  obtain ⟨n1, e1, w1, b1, i1, c1⟩ := hload
  obtain ⟨n2, e2, w2, f2⟩ := w1.feedforward
  obtain ⟨i2, c2⟩ := Network.feedforward_static e2
  have b2 : n2.batch_size = n1.batch_size := f2.1.2.1
  obtain ⟨n3, e3, u3⟩ := w2.backpropagate_eq h2
  have w3 := w2.of_updatedTo u3
  have b3 : n3.batch_size = n2.batch_size := u3.1.2.1
  have i3 : n3.instances = n2.instances := u3.2.1
  have c3 : n3.batches = n2.batches := u3.2.2.1
  have hb3 : 1 ≤ n3.batch_size := by rw [b3, b2, b1]; exact hb
  obtain ⟨ll, nn, hll, hnn, hls⟩ := w3.layer_exists (i := dims.length - 1) (by omega)
  rw [hl] at hnn
  cases hnn
  have hlab := w3.labels nl hl
  rw [Option.map_eq_some'] at hlab
  obtain ⟨lab, hlab1, hlab2⟩ := hlab
  simp only [Mat.shape, Prod.mk.injEq] at hlab2
  have hlen3 : 0 < n3.length := by rw [w3.length_eq]; omega
  have hll' : n3.layers[n3.length - 1]? = some ll := by rw [w3.length_eq]; exact hll
  have ec := Network.cost_eq_sum n3 ll lab hlen3 hll' hlab1 hls.contents_rows hlab2.1
    (by rw [hls.contents_cols]; omega) (by rw [hlab2.2]; omega) hb3
  have ea := Network.accuracy_eq_fraction n3 ll lab hlen3 hll' hlab1 hls.contents_rows hlab2.1
    (by rw [hls.contents_cols]; omega) (by rw [hlab2.2]; omega) hb3
  obtain ⟨cv, ecv⟩ : ∃ cv, n3.cost = some cv := ⟨_, ec⟩
  obtain ⟨av, eav⟩ : ∃ av, n3.accuracy = some av := ⟨_, ea⟩
  refine ⟨{ n3 with batches := n3.batches + 1 }, cs + cv, acs + av, ?_, ?_, ?_, ?_, ?_⟩
  · simp only [Network.trainBatch, Option.pure_def, Option.bind_eq_bind]
    simp only [Option.pure_def] at e1
    by_cases hi : i ≠ net.instances - net.batch_size
    · simp only [if_pos hi] at e1 ⊢
      rw [e1]
      simp only [Option.some_bind, e2, e3, ecv, eav]
    · simp only [if_neg hi, Option.some.injEq, Prod.mk.injEq] at e1 ⊢
      rw [e1.1]
      simp only [Option.some_bind, e2, e3, ecv, eav]
  · exact ⟨w3.length_eq, w3.layers_length, w3.pos, w3.shaped, w3.weights, w3.labels⟩
  · exact b3.trans (b2.trans b1)
  · exact i3.trans (i2.trans i1)
  · show n3.batches + 1 = net.batches + 1
    rw [c3, c2, c1]

/-- The first `m` rounds of the `for` loop of `Network::train` over `k` batches: every
round returns, and the stream has moved by one batch per round except in round `k`. -/
theorem Network.WellFormed.trainRounds [FloorRing α] {net : Network α} {dims : List Nat}
    (h : net.WellFormed dims) (h2 : 2 ≤ dims.length) {n0 nl : Nat} (h0 : dims[0]? = some n0)
    (h4 : 4 ≤ n0) (hl : dims[dims.length - 1]? = some nl) (hnl : 1 ≤ nl)
    (hb : 1 ≤ net.batch_size) (k : Nat) (hk : 1 ≤ k) (hi : net.instances = k * net.batch_size)
    (stack : Nat → Nat → α) (data : DataFile α) (hlines : data.lines.length = net.instances)
    (hpos : data.pos = 0) (m : Nat) (hm : m ≤ k) :
    ∃ post cs acs, ((List.range m).map (fun n => n * net.batch_size)).foldlM
        (Network.trainBatch stack) (net, data, 0, 0)
        = some (post, ⟨data.lines, min m (k - 1) * net.batch_size⟩, cs, acs) ∧
      post.WellFormed dims ∧ post.batch_size = net.batch_size ∧
      post.instances = net.instances ∧ post.batches = net.batches + m := by
  induction m with
  | zero =>
    refine ⟨net, 0, 0, ?_, h, rfl, rfl, rfl⟩
    simp only [List.range_zero, List.map_nil, List.foldlM_nil, Option.pure_def, Nat.zero_min,
      Nat.zero_mul]
    rw [← hpos]
  | succ m ih =>
    obtain ⟨s, cs, acs, hs, ws, bs, is, cs'⟩ := ih (by omega)
    have step := ws.trainBatch h2 h0 h4 hl hnl (by rw [bs]; exact hb) stack
      ⟨data.lines, min m (k - 1) * net.batch_size⟩ cs acs (m * net.batch_size)
    obtain ⟨post, c1, a1, e1, w1, b1, i1, t1⟩ := step
    refine ⟨post, c1, a1, ?_, w1, b1.trans bs, i1.trans is, by rw [t1, cs']; omega⟩
    rw [List.range_succ, List.map_append, List.foldlM_append, hs]
    simp only [List.map_cons, List.map_nil, List.foldlM_cons, List.foldlM_nil,
      Option.bind_eq_bind, Option.some_bind, Option.pure_def]
    rw [e1, is, bs, hi]
    simp only [Option.some_bind]
    have hkB : k * net.batch_size - net.batch_size = (k - 1) * net.batch_size := by
      rw [Nat.sub_mul, Nat.one_mul]
    rw [hkB]
    by_cases hmk : m = k - 1
    · subst hmk
      rw [if_neg (by simp)]
      have : min (k - 1 + 1) (k - 1) = k - 1 := by omega
      rw [this, Nat.min_self]
    · have hne : m * net.batch_size ≠ (k - 1) * net.batch_size := by
        intro hc
        exact hmk (Nat.eq_of_mul_eq_mul_right (by omega) hc)
      rw [if_pos hne]
      have hlt : m < k - 1 := by omega
      have e3 : min m (k - 1) = m := by omega
      have e4 : min (m + 1) (k - 1) = m + 1 := by omega
      rw [e3, e4]
      have hrest : net.batch_size ≤ data.lines.length - m * net.batch_size := by
        rw [hlines, hi, ← Nat.sub_mul]
        calc net.batch_size = 1 * net.batch_size := (Nat.one_mul _).symm
          _ ≤ (k - m) * net.batch_size := Nat.mul_le_mul_right _ (by omega)
      show some (post, (⟨data.lines, m * net.batch_size
        + min net.batch_size (data.lines.length - m * net.batch_size)⟩ : DataFile α), c1, a1) = _
      rw [Nat.min_eq_left hrest, Nat.add_mul, Nat.one_mul]

theorem trainIndices_eq (k b : Nat) (hk : 1 ≤ k) (hb : 1 ≤ b) :
    trainIndices (k * b) b = (List.range k).map (fun n => n * b) := by
  have h1 : ¬ k * b < b := by
    have : 1 * b ≤ k * b := Nat.mul_le_mul_right b hk
    omega
  have h2 : (k * b - b) / b + 1 = k := by
    have : k * b - b = (k - 1) * b := by rw [Nat.sub_mul, Nat.one_mul]
    rw [this, Nat.mul_div_cancel _ (by omega)]
    omega
  unfold trainIndices
  rw [if_neg h1, h2]

end training

section trainingLoop

variable {α : Type} [LinearOrderedField α]

/-- The `for` loop of `Network::train` over a file of `k` batches: it returns after `k`
rounds with the stream moved by `k - 1` batches. -/
theorem Network.WellFormed.trainLoop_eq [FloorRing α] {net : Network α} {dims : List Nat}
    (h : net.WellFormed dims) (h2 : 2 ≤ dims.length) {n0 nl : Nat} (h0 : dims[0]? = some n0)
    (h4 : 4 ≤ n0) (hl : dims[dims.length - 1]? = some nl) (hnl : 1 ≤ nl)
    (hb : 1 ≤ net.batch_size) (k : Nat) (hk : 1 ≤ k) (hi : net.instances = k * net.batch_size)
    (stack : Nat → Nat → α) (data : DataFile α) (hlines : data.lines.length = net.instances)
    (hpos : data.pos = 0) :
    ∃ post cs acs, net.trainLoop data stack
        = some (post, ⟨data.lines, (k - 1) * net.batch_size⟩, cs, acs) ∧
      post.WellFormed dims ∧ post.batch_size = net.batch_size ∧
      post.instances = net.instances ∧ post.batches = net.batches + k := by
  obtain ⟨post, cs, acs, e, w, b, i, c⟩ :=
    h.trainRounds h2 h0 h4 hl hnl hb k hk hi stack data hlines hpos k (le_refl _)
  refine ⟨post, cs, acs, ?_, w, b, i, c⟩
  unfold Network.trainLoop
  rw [if_neg (by omega), hi, trainIndices_eq k _ hk hb, e]
  have : min k (k - 1) = k - 1 := by omega
  rw [this]

theorem trainIndices_take (k b m : Nat) (hk : 1 ≤ k) (hb : 1 ≤ b) (hm : m ≤ k) :
    (trainIndices (k * b) b).take m = (List.range m).map (fun n => n * b) := by
  rw [trainIndices_eq k b hk hb, ← List.map_take, List.take_range, Nat.min_eq_left hm]

theorem chainPair_wellFormed : chainPair.WellFormed [4, 1, 1] :=
  ⟨chain3_wellFormed.length_eq, chain3_wellFormed.layers_length, chain3_wellFormed.pos,
    chain3_wellFormed.shaped, chain3_wellFormed.weights, chain3_wellFormed.labels⟩

end trainingLoop

/-! ## The decayed coefficient of `demon` -/

section decay

variable {α : Type} [LinearOrderedField α]

end decay

/-! ## The backward pass of a network of two layers -/

section backwardPair

variable {α : Type} [LinearOrderedField α]

/-- The backward pass of a well-formed network of two layers, in closed form. -/
theorem Network.WellFormed.backpropagate_pair {net : Network α} {n0 n1 : Nat}
    (h : net.WellFormed [n0, n1]) :
    ∃ l0 l1 w pu labels, net.layers = [l0, l1] ∧ l0.weights = some w ∧
      l0.prev_update = some pu ∧ net.labels = some labels ∧
      net.backpropSignals = some ([(l1.contents.sub labels).cwiseProduct l1.dZ],
        [l0.contents.transpose.mul ((l1.contents.sub labels).cwiseProduct l1.dZ)]) ∧
      net.backpropagate = some (net.withLayers
        [l0.withNewWeights (w.sub ((Mat.smul (9 / 10) pu).add (Mat.smul net.learning_rate
            (l0.contents.transpose.mul ((l1.contents.sub labels).cwiseProduct l1.dZ))))),
          l1.withBias (l1.bias.sub (Mat.smul net.bias_lr
            ((l1.contents.sub labels).cwiseProduct l1.dZ)))]) ∧
      (net.withLayers
        [l0.withNewWeights (w.sub ((Mat.smul (9 / 10) pu).add (Mat.smul net.learning_rate
            (l0.contents.transpose.mul ((l1.contents.sub labels).cwiseProduct l1.dZ))))),
          l1.withBias (l1.bias.sub (Mat.smul net.bias_lr
            ((l1.contents.sub labels).cwiseProduct l1.dZ)))]).WellFormed [n0, n1] := by
  have hlen : net.length = 2 := h.length_eq
  have hll : net.layers.length = 2 := h.layers_length
  obtain ⟨l0, l1, w, pu, m0, m1, hl0, hl1, -, -, -, -, hw, -, -, hp, -, -⟩ :=
    h.weights_exists (i := 0) (by simp)
  obtain ⟨hlab, -, -, -⟩ := h.labelsMat_shape
  have hlayers : net.layers = [l0, l1] := by
    apply List.ext_getElem?
    intro k
    match k with
    | 0 => rw [hl0]; rfl
    | 1 => rw [hl1]; rfl
    | k + 2 =>
      rw [List.getElem?_eq_none (by omega)]
      rfl
  have hc1 : net.contentsAt 1 = l1.contents := Network.contentsAt_eq hl1
  have hd1 : net.dZAt 1 = l1.dZ := Network.dZAt_eq hl1
  have hc0 : net.contentsAt 0 = l0.contents := Network.contentsAt_eq hl0
  have hb1 : net.biasAt 1 = l1.bias := Network.biasAt_eq hl1
  have hw0 : net.weightsAt 0 = w := Network.weightsAt_eq hl0 hw
  have hp0 : net.prevUpdateAt 0 = pu := Network.prevUpdateAt_eq hl0 hp
  have hg : net.signalBack 0 = (l1.contents.sub net.labelsMat).cwiseProduct l1.dZ := by
    show ((net.contentsAt (net.length - 1)).sub net.labelsMat).cwiseProduct
      (net.dZAt (net.length - 1)) = _
    rw [hlen, hc1, hd1]
  have hdl : net.delta 0
      = l0.contents.transpose.mul ((l1.contents.sub net.labelsMat).cwiseProduct l1.dZ) := by
    show (net.contentsAt 0).transpose.mul (net.signalBack (net.length - 1 - (0 + 1))) = _
    rw [hlen, hc0]
    exact congrArg _ hg
  have hsig := h.backpropSignals_eq (by simp)
  rw [hlen] at hsig
  have hsig' : net.backpropSignals = some ([net.signalBack 0], [net.delta 0]) := hsig
  rw [hg, hdl] at hsig'
  obtain ⟨post, hpost, hu⟩ := h.backpropagate_eq (by simp)
  have hwfp := h.of_updatedTo hu
  obtain ⟨⟨e1, e2, e3, e4, e5⟩, e6, e7, hlay⟩ := hu
  have hpl : post.layers
      = [l0.withNewWeights (w.sub ((Mat.smul (9 / 10) pu).add (Mat.smul net.learning_rate
            (l0.contents.transpose.mul ((l1.contents.sub net.labelsMat).cwiseProduct l1.dZ))))),
          l1.withBias (l1.bias.sub (Mat.smul net.bias_lr
            ((l1.contents.sub net.labelsMat).cwiseProduct l1.dZ)))] := by
    apply List.ext_getElem?
    intro k
    rw [hlay k]
    match k with
    | 0 =>
      rw [hl0, Option.map_some']
      show some (net.updatedLayer (net.length - 1) 0 l0) = some _
      have c1 : net.length - 1 - (net.length - 1) ≤ 0 ∧ 0 + 1 < net.length := by omega
      have c2 : ¬ (net.length - (net.length - 1) ≤ 0 ∧ 0 < net.length) := by omega
      simp only [Network.updatedLayer, if_pos c1, if_neg c2, Network.newWeights, hw0, hp0, hdl]
      rfl
    | 1 =>
      rw [hl1, Option.map_some']
      show some (net.updatedLayer (net.length - 1) 1 l1) = some _
      have c1 : ¬ (net.length - 1 - (net.length - 1) ≤ 1 ∧ 1 + 1 < net.length) := by omega
      have c2 : net.length - (net.length - 1) ≤ 1 ∧ 1 < net.length := by omega
      have hes : net.errorSignal 1 = net.signalBack 0 := by
        show net.signalBack (net.length - 1 - 1) = _
        rw [hlen]
      simp only [Network.updatedLayer, if_neg c1, if_pos c2, Network.newBias, hb1, hes, hg]
      rfl
    | k + 2 =>
      rw [List.getElem?_eq_none (by omega)]
      rfl
  have hpe : post = net.withLayers post.layers := by
    obtain ⟨pl, plen, plr, pblr, pbs, plab, pinst, pbat⟩ := post
    simp only at e1 e2 e3 e4 e5 e6 e7
    subst e1 e2 e3 e4 e5 e6 e7
    rfl
  rw [hpl] at hpe
  rw [hpe] at hpost hwfp
  refine ⟨l0, l1, w, pu, net.labelsMat, hlayers, hw, hp, hlab, hsig', hpost, hwfp⟩

theorem momNet_wellFormed : momNet.WellFormed [4, 1] := by
  refine ⟨rfl, rfl, by decide, ?_, ?_, ?_⟩
  · intro i l n hl hn
    match i with
    | 0 =>
      simp only [momNet, List.getElem?_cons_zero, Option.some.injEq] at hl hn
      subst hl hn
      exact ⟨rfl, rfl, rfl, rfl, rfl, rfl, rfl, rfl⟩
    | 1 =>
      simp only [momNet, List.getElem?_cons_succ, List.getElem?_cons_zero,
        Option.some.injEq] at hl hn
      subst hl hn
      exact ⟨rfl, rfl, rfl, rfl, rfl, rfl, rfl, rfl⟩
    | k + 2 => simp at hn
  · intro i l n n' hl hn hn'
    match i with
    | 0 =>
      simp only [momNet, List.getElem?_cons_succ, List.getElem?_cons_zero,
        Option.some.injEq] at hl hn hn'
      subst hl hn hn'
      exact ⟨rfl, rfl⟩
    | k + 1 => simp at hn'
  · intro n hn
    simp only [List.length_cons, List.length_nil, List.getElem?_cons_succ,
      List.getElem?_cons_zero, Option.some.injEq] at hn
    subst hn
    rfl

end backwardPair

/-! ## The forward pass depends on the input layer and the parameters only -/

section determinacy

variable {α : Type} [LinearOrderedField α]

theorem Layer.Alike.same (l : Layer α) : l.Alike l :=
  ⟨rfl, rfl, rfl, rfl, rfl, rfl, rfl, fun _ _ _ => rfl⟩

/-- Alike layers with equal `contents` are equal once they are activated. -/
theorem Layer.Alike.activated_eq {la lb : Layer α} (h : la.Alike lb)
    (hc : la.contents = lb.contents) (hr : la.contents.rows = la.dZ.rows)
    (hcol : la.contents.cols = la.dZ.cols) (f f' : α → α) :
    la.activated f f' = lb.activated f f' := by
  obtain ⟨ca, da, ba, wa, pa, fa, ga⟩ := la
  obtain ⟨cb, db, bb, wb, pb, fb, gb⟩ := lb
  obtain ⟨h1, h2, h3, h4, h5, h6, h7, h8⟩ := h
  simp only at hc h1 h2 h3 h4 h5 h6 h7 h8 hr hcol
  subst hc h1 h2 h3 h4 h5
  have hd : (⟨da.rows, da.cols, fun a b =>
        if done ca.cols ca.rows 0 a b then f' (ca.coeff a b) else da.coeff a b⟩ : Mat α)
      = ⟨db.rows, db.cols, fun a b =>
        if done ca.cols ca.rows 0 a b then f' (ca.coeff a b) else db.coeff a b⟩ := by
    rw [h6, h7]
    congr 1
    funext a b
    by_cases hdn : done ca.cols ca.rows 0 a b = true
    · rw [if_pos hdn, if_pos hdn]
    · rw [if_neg hdn, if_neg hdn]
      apply h8
      intro hin
      apply hdn
      simp only [done, decide_eq_true_eq]
      exact ⟨by omega, Or.inl (by omega)⟩
  simp only [Layer.activated, Layer.activatedOn]
  rw [hd]

/-- Replacing the layers at one index keeps two networks alike. -/
theorem Network.Alike.set_alike {a b : Network α} {c e c' e' : Nat} (h : a.Alike b c e)
    (k : Nat) {la lb : Layer α} (hl : la.Alike lb) (hc : k < c' → la.contents = lb.contents)
    (he : k < e' → la = lb) (hcc : ∀ j, j ≠ k → j < c' → j < c)
    (hee : ∀ j, j ≠ k → j < e' → j < e) :
    (a.withLayer k la).Alike (b.withLayer k lb) c' e' := by
  obtain ⟨hf, hi, hb, hlen, hlay⟩ := h
  refine ⟨hf, hi, hb, by simp [Network.withLayer, hlen], ?_⟩
  intro j xa xb hxa hxb
  have hxa' : (a.layers.set k la)[j]? = some xa := hxa
  have hxb' : (b.layers.set k lb)[j]? = some xb := hxb
  by_cases hkj : k = j
  · subst hkj
    have hlt : k < a.layers.length := by
      by_contra hcon
      rw [List.getElem?_eq_none (by simp only [List.length_set]; omega)] at hxa'
      cases hxa'
    rw [List.getElem?_set_self hlt] at hxa'
    rw [List.getElem?_set_self (by omega)] at hxb'
    cases hxa'
    cases hxb'
    exact ⟨hl, hc, he⟩
  · rw [List.getElem?_set_ne hkj] at hxa' hxb'
    obtain ⟨h1, h2, h3⟩ := hlay j xa xb hxa' hxb'
    exact ⟨h1, fun hj => h2 (hcc j (Ne.symm hkj) hj), fun hj => h3 (hee j (Ne.symm hkj) hj)⟩

/-- Activating layer `k` of two alike well-formed networks with equal `contents` there makes
the two layers equal. -/
theorem Network.Alike.activate_step {a b : Network α} {dims : List Nat} {c e k : Nat}
    (ha : a.WellFormed dims) (hb : b.WellFormed dims) (h : a.Alike b c e)
    (hk : k < dims.length) (hkc : k < c) :
    ∃ a1 b1, a.activateAt k = some a1 ∧ b.activateAt k = some b1 ∧ a1.WellFormed dims ∧
      b1.WellFormed dims ∧
      ∀ c' e', (∀ j, j ≠ k → j < c' → j < c) → (∀ j, j ≠ k → j < e' → j < e) →
        a1.Alike b1 c' e' := by
  obtain ⟨la, f, f', hla, hf, hf', ea, wa⟩ := ha.activateAt hk
  obtain ⟨lb, g, g', hlb, hg, hg', eb, wb⟩ := hb.activateAt hk
  obtain ⟨hal, hcon, -⟩ := h.2.2.2.2 k la lb hla hlb
  have hfg : f = g := by
    have := hal.2.2.2.1
    rw [hf, hg] at this
    exact Option.some.inj this
  have hfg' : f' = g' := by
    have := hal.2.2.2.2.1
    rw [hf', hg'] at this
    exact Option.some.inj this
  subst hfg hfg'
  obtain ⟨l', n, hl', hn, hs⟩ := ha.layer_exists hk
  rw [hla] at hl'
  cases hl'
  have heq : la.activated f f' = lb.activated f f' :=
    hal.activated_eq (hcon hkc) (by rw [hs.contents_rows, hs.dZ_rows])
      (by rw [hs.contents_cols, hs.dZ_cols]) f f'
  refine ⟨_, _, ea, eb, wa, wb, ?_⟩
  intro c' e' hcc hee
  rw [← heq]
  exact h.set_alike k (Layer.Alike.same _) (fun _ => rfl) (fun _ => rfl) hcc hee

/-- Forming the product for layer `k+1` in two alike well-formed networks with equal
`contents` in layer `k` gives equal `contents` in layer `k+1`. -/
theorem Network.Alike.propagate_step {a b : Network α} {dims : List Nat} {c e k : Nat}
    (ha : a.WellFormed dims) (hb : b.WellFormed dims) (h : a.Alike b c e)
    (hk : k + 1 < dims.length) (hkc : k < c) :
    ∃ a1 b1, a.propagateAt k = some a1 ∧ b.propagateAt k = some b1 ∧ a1.WellFormed dims ∧
      b1.WellFormed dims ∧
      ∀ c' e', e' ≤ k + 1 → (∀ j, j ≠ k + 1 → j < c' → j < c) →
        (∀ j, j ≠ k + 1 → j < e' → j < e) → a1.Alike b1 c' e' := by
  obtain ⟨la, na, w, hla, hna, hw, ea, wa⟩ := ha.propagateAt hk
  obtain ⟨lb, nb, v, hlb, hnb, hv, eb, wb⟩ := hb.propagateAt hk
  obtain ⟨hal, hcon, -⟩ := h.2.2.2.2 k la lb hla hlb
  obtain ⟨hnl, -, -⟩ := h.2.2.2.2 (k + 1) na nb hna hnb
  have hwv : w = v := by
    have := hal.2.1
    rw [hw, hv] at this
    exact Option.some.inj this
  subst hwv
  have hprod : (la.contents.mul w).add na.bias = (lb.contents.mul w).add nb.bias := by
    rw [hcon hkc, hnl.1]
  refine ⟨_, _, ea, eb, wa, wb, ?_⟩
  intro c' e' he' hcc hee
  refine h.set_alike (k + 1) ?_ (fun _ => hprod) (fun hlt => absurd hlt (by omega)) hcc hee
  exact ⟨hnl.1, hnl.2.1, hnl.2.2.1, hnl.2.2.2.1, hnl.2.2.2.2.1, hnl.2.2.2.2.2.1,
    hnl.2.2.2.2.2.2.1, hnl.2.2.2.2.2.2.2⟩

/-- The product loop on two alike well-formed networks with equal input `contents`. -/
theorem Network.Alike.propagate_run {a b : Network α} {dims : List Nat} {e : Nat}
    (ha : a.WellFormed dims) (hb : b.WellFormed dims) (he : e ≤ 1) (h : a.Alike b 1 e)
    (m : Nat) (hm : m + 1 ≤ dims.length) :
    ∃ a1 b1, (List.range m).foldlM Network.propagateAt a = some a1 ∧
      (List.range m).foldlM Network.propagateAt b = some b1 ∧ a1.WellFormed dims ∧
      b1.WellFormed dims ∧ a1.Alike b1 (m + 1) e := by
  induction m with
  | zero => exact ⟨a, b, rfl, rfl, ha, hb, h⟩
  | succ m ih =>
    obtain ⟨a1, b1, ea, eb, wa, wb, hal⟩ := ih (by omega)
    obtain ⟨a2, b2, ea2, eb2, wa2, wb2, hal2⟩ :=
      hal.propagate_step wa wb (k := m) (by omega) (by omega)
    refine ⟨a2, b2, ?_, ?_, wa2, wb2, hal2 (m + 1 + 1) e (by omega)
      (fun j hj hlt => by omega) (fun j _ hlt => hlt)⟩
    · rw [List.range_succ, List.foldlM_append, ea]
      simp only [List.foldlM_cons, List.foldlM_nil, Option.bind_eq_bind, Option.some_bind, ea2]
      rfl
    · rw [List.range_succ, List.foldlM_append, eb]
      simp only [List.foldlM_cons, List.foldlM_nil, Option.bind_eq_bind, Option.some_bind, eb2]
      rfl

/-- The third loop of the forward pass on two alike well-formed networks whose `contents`
are all equal and whose input layers are equal. -/
theorem Network.Alike.activate_run {a b : Network α} {dims : List Nat}
    (ha : a.WellFormed dims) (hb : b.WellFormed dims) (h : a.Alike b dims.length 1)
    (n : Nat) (hn : n + 1 ≤ dims.length) :
    ∃ a1 b1, (List.range' 1 n).foldlM Network.activateAt a = some a1 ∧
      (List.range' 1 n).foldlM Network.activateAt b = some b1 ∧ a1.WellFormed dims ∧
      b1.WellFormed dims ∧ a1.Alike b1 dims.length (n + 1) := by
  induction n with
  | zero => exact ⟨a, b, rfl, rfl, ha, hb, h⟩
  | succ n ih =>
    obtain ⟨a1, b1, ea, eb, wa, wb, hal⟩ := ih (by omega)
    obtain ⟨a2, b2, ea2, eb2, wa2, wb2, hal2⟩ :=
      hal.activate_step wa wb (k := n + 1) (by omega) (by omega)
    refine ⟨a2, b2, ?_, ?_, wa2, wb2, hal2 dims.length (n + 1 + 1) (fun j _ hlt => hlt)
      (fun j hj hlt => by omega)⟩
    · rw [List.range'_1_concat, List.foldlM_append, ea]
      simp only [List.foldlM_cons, List.foldlM_nil, Option.bind_eq_bind, Option.some_bind]
      rw [Nat.add_comm 1 n, ea2]
      rfl
    · rw [List.range'_1_concat, List.foldlM_append, eb]
      simp only [List.foldlM_cons, List.foldlM_nil, Option.bind_eq_bind, Option.some_bind]
      rw [Nat.add_comm 1 n, eb2]
      rfl

/-- Two alike networks all of whose layers are equal are equal. -/
theorem Network.Alike.eq_of_layers {a b : Network α} {c e : Nat} (h : a.Alike b c e)
    (he : a.layers.length ≤ e) : a = b := by
  obtain ⟨⟨h1, h2, h3, h4, h5⟩, hi, hb, hlen, hlay⟩ := h
  have hl : a.layers = b.layers := by
    apply List.ext_getElem?
    intro k
    by_cases hk : k < a.layers.length
    · rw [List.getElem?_eq_getElem hk, List.getElem?_eq_getElem (by omega)]
      exact congrArg some ((hlay k _ _ (List.getElem?_eq_getElem hk)
        (List.getElem?_eq_getElem (by omega))).2.2 (by omega))
    · rw [List.getElem?_eq_none (by omega), List.getElem?_eq_none (by omega)]
  obtain ⟨al, alen, alr, ablr, abs, alab, ainst, abat⟩ := a
  obtain ⟨bl, blen, blr, bblr, bbs, blab, binst, bbat⟩ := b
  simp only at h1 h2 h3 h4 h5 hi hb hl
  subst h1 h2 h3 h4 h5 hi hb hl
  rfl

/-- The forward pass gives one result on two well-formed networks that are alike and have
equal `contents` in the input layer. -/
theorem Network.WellFormed.feedforward_congr {a b : Network α} {dims : List Nat}
    (ha : a.WellFormed dims) (hb : b.WellFormed dims) (h : a.Alike b 1 0) :
    a.feedforward = b.feedforward := by
  have hla := ha.length_eq
  have hlb := hb.length_eq
  have hpos := ha.pos
  obtain ⟨a1, b1, ea1, eb1, wa1, wb1, hal1⟩ :=
    h.activate_step ha hb (k := 0) hpos (by omega)
  have h1 := hal1 1 1 (fun j hj hlt => by omega) (fun j hj hlt => by omega)
  have hla1 : a1.length = dims.length := wa1.length_eq
  have hlb1 : b1.length = dims.length := wb1.length_eq
  obtain ⟨a2, b2, ea2, eb2, wa2, wb2, hal2⟩ :=
    h1.propagate_run wa1 wb1 (le_refl _) (dims.length - 1) (by omega)
  have h2 : a2.Alike b2 dims.length 1 := by
    have e : dims.length - 1 + 1 = dims.length := by omega
    rw [e] at hal2
    exact hal2
  have hla2 : a2.length = dims.length := wa2.length_eq
  have hlb2 : b2.length = dims.length := wb2.length_eq
  obtain ⟨a3, b3, ea3, eb3, wa3, wb3, hal3⟩ :=
    h2.activate_run wa2 wb2 (dims.length - 1) (by omega)
  have hfa : a.feedforward = some a3 := by
    simp only [Network.feedforward, Network.propagateAll, Network.activateUpTo, ea1,
      Option.bind_eq_bind, Option.some_bind, hla1, ea2, hla2, ea3]
  have hfb : b.feedforward = some b3 := by
    simp only [Network.feedforward, Network.propagateAll, Network.activateUpTo, eb1,
      Option.bind_eq_bind, Option.some_bind, hlb1, eb2, hlb2, eb3]
  rw [hfa, hfb]
  exact congrArg some (hal3.eq_of_layers (by rw [wa3.layers_length]; omega))

end determinacy

/-! ## A second forward pass on the same batch -/

section idempotence

variable {α : Type} [LinearOrderedField α]

/-- Activation leaves the entries of `dZ` outside its dimensions alone. -/
theorem Layer.activated_dZ_outside (l : Layer α) (f f' : α → α)
    (hr : l.contents.rows = l.dZ.rows) (hc : l.contents.cols = l.dZ.cols) {j c : Nat}
    (h : ¬ (j < l.dZ.rows ∧ c < l.dZ.cols)) :
    (l.activated f f').dZ.coeff j c = l.dZ.coeff j c := by
  have hd : ¬ (done l.contents.cols l.contents.rows 0 j c = true) := by
    simp only [done, decide_eq_true_eq]
    rintro ⟨h1, h2⟩
    apply h
    constructor <;> omega
  show (if done l.contents.cols l.contents.rows 0 j c then f' (l.contents.coeff j c)
    else l.dZ.coeff j c) = l.dZ.coeff j c
  rw [if_neg hd]

/-- The linear activation leaves `contents` as it is. -/
theorem Layer.activated_linear_contents (l : Layer α) (f' : α → α) :
    (l.activated activations.linear f').contents = l.contents := by
  obtain ⟨c, d, b, w, p, g, g'⟩ := l
  obtain ⟨r, k, co⟩ := c
  show (⟨r, k, fun a b => if done k r 0 a b then activations.linear (co a b) else co a b⟩
    : Mat α) = ⟨r, k, co⟩
  congr 1
  funext a b
  split <;> rfl

/-- What the forward pass keeps of a well-formed network: beside the frame and the
parameters, the entries of `dZ` outside its dimensions; and the input layer is the
activated input layer of the state on entry. -/
theorem Network.WellFormed.feedforward_keeps {net : Network α} {dims : List Nat}
    (h : net.WellFormed dims) :
    ∃ post l0 f f', net.feedforward = some post ∧ post.WellFormed dims ∧ net.Frame post ∧
      net.layers[0]? = some l0 ∧ l0.activation = some f ∧ l0.activation_deriv = some f' ∧
      post.layers[0]? = some (l0.activated f f') ∧ post.SameOutside net := by
  have hlen := h.length_eq
  obtain ⟨l, f, f', hl, hf, hf', h1, hwf1⟩ := h.activateAt h.pos
  obtain ⟨l', n, hl', hn, hs⟩ := h.layer_exists h.pos
  rw [hl] at hl'
  cases hl'
  have hlt : 0 < net.layers.length := by rw [h.layers_length]; exact h.pos
  -- the invariant of the three loops
  have step : ∀ (s : Network α) (k : Nat) (lk lk' : Layer α), s.layers[k]? = some lk →
      lk'.dZ.rows = lk.dZ.rows → lk'.dZ.cols = lk.dZ.cols →
      (∀ j c, ¬ (j < lk.dZ.rows ∧ c < lk.dZ.cols) → lk'.dZ.coeff j c = lk.dZ.coeff j c) →
      s.SameOutside net → (s.withLayer k lk').SameOutside net := by
    intro s k lk lk' hlk hr hc hout hq i li hli
    have hli' : (s.layers.set k lk')[i]? = some li := hli
    by_cases hki : k = i
    · subst hki
      have hklt : k < s.layers.length := by
        by_contra hcon
        rw [List.getElem?_eq_none (by omega)] at hlk
        cases hlk
      rw [List.getElem?_set_self hklt] at hli'
      cases hli'
      obtain ⟨ln, hln, e1, e2, e3⟩ := hq k lk hlk
      refine ⟨ln, hln, hr.trans e1, hc.trans e2, ?_⟩
      intro j c hjc
      rw [hr, hc] at hjc
      rw [hout j c hjc, e3 j c hjc]
    · rw [List.getElem?_set_ne hki] at hli'
      exact hq i li hli'
  have hq0 : net.SameOutside net := fun i li hli => ⟨li, hli, rfl, rfl, fun _ _ _ => rfl⟩
  have hq1 := step net 0 l (l.activated f f') hl rfl rfl
    (fun j c hjc => l.activated_dZ_outside f f' (by rw [hs.contents_rows, hs.dZ_rows])
      (by rw [hs.contents_cols, hs.dZ_cols]) hjc) hq0
  -- second loop
  have key2 := foldlM_inv
    (fun s : Network α => s.WellFormed dims ∧ net.Frame s ∧
      s.layers[0]? = some (l.activated f f') ∧ s.SameOutside net)
    (fun i => i + 1 < dims.length) Network.propagateAt
    (by
      rintro s i ⟨hsw, hsf, hs0, hsq⟩ hi
      obtain ⟨lk, next, w, hlk, hnext, hw, heq, hwf⟩ := hsw.propagateAt hi
      refine ⟨_, heq, hwf, hsf.propagated _ hnext, ?_, ?_⟩
      · show (s.layers.set (i + 1) _)[0]? = _
        rw [List.getElem?_set_ne (by omega)]
        exact hs0
      · exact step s (i + 1) next _ hnext rfl rfl (fun _ _ _ => rfl) hsq)
    (List.range (net.length - 1)) (net.withLayer 0 (l.activated f f'))
    ⟨hwf1, Network.Frame.activated ⟨⟨rfl, rfl, rfl, rfl, rfl⟩, Network.SameStatics.refl net⟩
      f f' hl, by
        show (net.layers.set 0 _)[0]? = _
        rw [List.getElem?_set_self hlt], hq1⟩
    (by
      intro i hi
      simp only [List.mem_range] at hi
      omega)
  obtain ⟨n2, h2, hwf2, hf2, hz2, hq2⟩ := key2
  have hlen2 : n2.length = net.length := hf2.1.1
  -- third loop
  have key3 := foldlM_inv
    (fun s : Network α => s.WellFormed dims ∧ net.Frame s ∧
      s.layers[0]? = some (l.activated f f') ∧ s.SameOutside net)
    (fun i => 1 ≤ i ∧ i < dims.length) Network.activateAt
    (by
      rintro s i ⟨hsw, hsf, hs0, hsq⟩ ⟨hi1, hi⟩
      obtain ⟨lk, g, g', hlk, hg, hg', heq, hwf⟩ := hsw.activateAt hi
      obtain ⟨lk', m, hlk', hm, hsk⟩ := hsw.layer_exists hi
      rw [hlk] at hlk'
      cases hlk'
      refine ⟨_, heq, hwf, hsf.activated g g' hlk, ?_, ?_⟩
      · show (s.layers.set i _)[0]? = _
        rw [List.getElem?_set_ne (by omega)]
        exact hs0
      · exact step s i lk _ hlk rfl rfl
          (fun j c hjc => lk.activated_dZ_outside g g' (by rw [hsk.contents_rows, hsk.dZ_rows])
            (by rw [hsk.contents_cols, hsk.dZ_cols]) hjc) hsq)
    (List.range' 1 (n2.length - 1)) n2 ⟨hwf2, hf2, hz2, hq2⟩
    (by
      intro i hi
      simp only [List.mem_range'_1] at hi
      omega)
  obtain ⟨n3, h3, hwf3, hf3, hz3, hq3⟩ := key3
  refine ⟨n3, l, f, f', ?_, hwf3, hf3, hl, hf, hf', hz3, hq3⟩
  simp only [Network.feedforward, h1, Option.bind_eq_bind, Option.some_bind,
    Network.propagateAll, Network.activateUpTo]
  have h2' : List.foldlM Network.propagateAt (net.withLayer 0 (l.activated f f'))
      (List.range ((net.withLayer 0 (l.activated f f')).length - 1)) = some n2 := h2
  rw [h2']
  exact h3

/-- With the linear activation in the input layer, the result of the forward pass on a
well-formed network is a fixed point of the forward pass. -/
theorem Network.WellFormed.feedforward_idem {net : Network α} {dims : List Nat}
    (h : net.WellFormed dims) {l0 : Layer α} (hl0 : net.layers[0]? = some l0)
    (hlin : l0.activation = some activations.linear) :
    ∃ post, net.feedforward = some post ∧ post.WellFormed dims ∧
      post.feedforward = some post := by
  obtain ⟨post, l, f, f', hff, hwf, hframe, hl, hf, hf', hp0, hq⟩ := h.feedforward_keeps
  rw [hl0] at hl
  cases hl
  rw [hlin] at hf
  cases hf
  have halike : post.Alike net 1 0 := by
    refine ⟨hframe.1, (Network.feedforward_static hff).1, (Network.feedforward_static hff).2,
      by rw [hwf.layers_length, h.layers_length], ?_⟩
    intro k lp ln hlp hln
    obtain ⟨ln', hln', e1, e2, e3⟩ := hq k lp hlp
    rw [hln] at hln'
    cases hln'
    obtain ⟨lx, hlx, s1, s2, s3, s4, s5⟩ := hframe.2 k lp hlp
    rw [hln] at hlx
    cases hlx
    refine ⟨⟨s1, s2, s3, s4, s5, e1, e2, e3⟩, ?_, fun hk => absurd hk (by omega)⟩
    intro hk
    have hk0 : k = 0 := by omega
    subst hk0
    rw [hp0] at hlp
    cases hlp
    rw [hl0] at hln
    cases hln
    exact l0.activated_linear_contents f'
  refine ⟨post, hff, hwf, ?_⟩
  rw [hwf.feedforward_congr h halike]
  exact hff

theorem doubleNet_wellFormed : doubleNet.WellFormed [4, 1] := by
  refine ⟨rfl, rfl, by decide, ?_, ?_, ?_⟩
  · intro i l n hl hn
    match i with
    | 0 =>
      simp only [doubleNet, List.getElem?_cons_zero, Option.some.injEq] at hl hn
      subst hl hn
      exact ⟨rfl, rfl, rfl, rfl, rfl, rfl, rfl, rfl⟩
    | 1 =>
      simp only [doubleNet, List.getElem?_cons_succ, List.getElem?_cons_zero,
        Option.some.injEq] at hl hn
      subst hl hn
      exact ⟨rfl, rfl, rfl, rfl, rfl, rfl, rfl, rfl⟩
    | k + 2 => simp at hn
  · intro i l n n' hl hn hn'
    match i with
    | 0 =>
      simp only [doubleNet, List.getElem?_cons_succ, List.getElem?_cons_zero,
        Option.some.injEq] at hl hn hn'
      subst hl hn hn'
      exact ⟨rfl, rfl⟩
    | k + 1 => simp at hn'
  · intro n hn
    simp only [List.length_cons, List.length_nil, List.getElem?_cons_succ,
      List.getElem?_cons_zero, Option.some.injEq] at hn
    subst hn
    rfl

/-- Two forward passes in a row on `doubleNet`: the prediction is 2, then 4. -/
theorem doubleNet_twice :
    ∃ post post2 lp lp2, doubleNet.feedforward = some post ∧ post.feedforward = some post2 ∧
      post.layers[1]? = some lp ∧ post2.layers[1]? = some lp2 ∧
      lp.contents.coeff 0 0 = 2 ∧ lp2.contents.coeff 0 0 = 4 := by
  obtain ⟨l0, l1, w, f0, f0', f1, f1', post, hl0, hl1, hw, hf0, hf0', hf1, hf1', -, -, -, -,
    hff, -, -, hp0, hp1⟩ := doubleNet_wellFormed.feedforward_two
  have e0 : some doubleIn = some l0 := hl0
  have e1 : some doubleOut = some l1 := hl1
  simp only [Option.some.injEq] at e0 e1
  subst e0 e1
  have ew : some (⟨4, 1, fun k _ => if k = 0 then 1 else 0⟩ : Mat ℚ) = some w := hw
  have ef0 : some (fun x : ℚ => 2 * x) = some f0 := hf0
  have ef0' : some (fun _ : ℚ => (2 : ℚ)) = some f0' := hf0'
  have ef1 : some (activations.linear : ℚ → ℚ) = some f1 := hf1
  have ef1' : some (activations.linear_deriv : ℚ → ℚ) = some f1' := hf1'
  simp only [Option.some.injEq] at ew ef0 ef0' ef1 ef1'
  subst ew ef0 ef0' ef1 ef1'
  obtain ⟨post', hff', hwfp, -⟩ := doubleNet_wellFormed.feedforward
  rw [hff] at hff'
  cases hff'
  obtain ⟨m0, m1, v, g0, g0', g1, g1', post2, hm0, hm1, hv, hg0, hg0', hg1, hg1', -, -, -, -,
    hff2, -, -, -, hq1⟩ := hwfp.feedforward_two
  rw [hp0] at hm0
  rw [hp1] at hm1
  simp only [Option.some.injEq] at hm0 hm1
  subst hm0 hm1
  have ev : some (⟨4, 1, fun k _ => if k = 0 then 1 else 0⟩ : Mat ℚ) = some v := hv
  have eg0 : some (fun x : ℚ => 2 * x) = some g0 := hg0
  have eg0' : some (fun _ : ℚ => (2 : ℚ)) = some g0' := hg0'
  have eg1 : some (activations.linear : ℚ → ℚ) = some g1 := hg1
  have eg1' : some (activations.linear_deriv : ℚ → ℚ) = some g1' := hg1'
  simp only [Option.some.injEq] at ev eg0 eg0' eg1 eg1'
  subst ev eg0 eg0' eg1 eg1'
  refine ⟨post, post2, _, _, hff, hff2, hp1, hq1, ?_, ?_⟩
  · simp [Layer.activated, Layer.activatedOn, Layer.withContents, done, doubleIn, doubleOut,
      Mat.mul, Mat.add, Mat.zip, Mat.const, activations.linear, Finset.sum_range_succ]
  · simp [Layer.activated, Layer.activatedOn, Layer.withContents, done, doubleIn, doubleOut,
      Mat.mul, Mat.add, Mat.zip, Mat.const, activations.linear, Finset.sum_range_succ]
    norm_num

end idempotence

/-! ## The batch that `next_batch` loads -/

section loading

variable {α : Type} [LinearOrderedField α]

theorem div_mod_iff {n t a b : Nat} (hn : 0 < n) :
    (a = t / n ∧ b = t % n) ↔ (b < n ∧ a * n + b = t) := by
  constructor
  · rintro ⟨rfl, rfl⟩
    refine ⟨Nat.mod_lt _ hn, ?_⟩
    rw [Nat.mul_comm]
    exact Nat.div_add_mod t n
  · rintro ⟨hb, rfl⟩
    constructor
    · rw [Nat.add_comm, Nat.add_mul_div_right _ _ hn, Nat.div_eq_of_lt hb, Nat.zero_add]
    · rw [Nat.add_comm, Nat.add_mul_mod_self_right, Nat.mod_eq_of_lt hb]

theorem Mat.filled_zero (c : Mat α) (vals : Nat → α) : c.filled vals 0 = c := by
  obtain ⟨r, k, co⟩ := c
  show (⟨r, k, fun a b => if b < k ∧ a * k + b < 0 then vals (a * k + b) else co a b⟩ : Mat α)
    = ⟨r, k, co⟩
  congr 1
  funext a b
  rw [if_neg (by omega)]

theorem Mat.filled_succ (c : Mat α) (vals : Nat → α) {t : Nat} (ht : t < c.rows * c.cols) :
    (c.filled vals t).set? (t / c.cols) (t % c.cols) (vals t) = some (c.filled vals (t + 1)) := by
  have hdm := div_mod_lt ht
  have hn : 0 < c.cols := by omega
  rw [Mat.set?_eq_some (c.filled vals t) (j := t / c.cols) (k := t % c.cols) hdm.1 hdm.2]
  show some (⟨c.rows, c.cols, fun a b => if a = t / c.cols ∧ b = t % c.cols then vals t
      else if b < c.cols ∧ a * c.cols + b < t then vals (a * c.cols + b) else c.coeff a b⟩ : Mat α)
    = some ⟨c.rows, c.cols, fun a b =>
      if b < c.cols ∧ a * c.cols + b < t + 1 then vals (a * c.cols + b) else c.coeff a b⟩
  congr 2
  funext a b
  by_cases h1 : a = t / c.cols ∧ b = t % c.cols
  · have h2 := (div_mod_iff hn).mp h1
    rw [if_pos h1, if_pos ⟨h2.1, by omega⟩, h2.2]
  · have h2 : ¬ (b < c.cols ∧ a * c.cols + b = t) := fun hh => h1 ((div_mod_iff hn).mpr hh)
    rw [if_neg h1]
    by_cases h3 : b < c.cols ∧ a * c.cols + b < t
    · rw [if_pos h3, if_pos ⟨h3.1, by omega⟩]
    · rw [if_neg h3, if_neg]
      rintro ⟨h4, h5⟩
      rcases Nat.lt_succ_iff_lt_or_eq.mp h5 with h6 | h6
      · exact h3 ⟨h4, h6⟩
      · exact h2 ⟨h4, h6⟩

theorem Network.withLayer_self (net : Network α) {i : Nat} {l : Layer α}
    (hl : net.layers[i]? = some l) : net.withLayer i l = net := by
  have hlt : i < net.layers.length := by
    by_contra hc
    rw [List.getElem?_eq_none (by omega)] at hl
    cases hl
  have hset : net.layers.set i l = net.layers := by
    apply List.ext_getElem?
    intro j
    by_cases hij : i = j
    · subst hij
      rw [List.getElem?_set_self hlt, hl]
    · rw [List.getElem?_set_ne hij]
  show ({ net with layers := net.layers.set i l } : Network α) = net
  rw [hset]

/-- Method `update_layer` on the input layer, in closed form: after `t` values the contents
are `filled` up to `t`, and nothing else has changed. -/
theorem Network.update_layer_filled (net : Network α) {l0 : Layer α}
    (hl0 : net.layers[0]? = some l0) (vals : Nat → α) (t : Nat)
    (ht : t ≤ l0.contents.rows * l0.contents.cols) :
    net.update_layer vals t 0
      = some (net.withLayer 0 (l0.withContents (l0.contents.filled vals t))) := by
  have hlt : 0 < net.layers.length := by
    by_contra hc
    rw [List.getElem?_eq_none (by omega)] at hl0
    cases hl0
  unfold Network.update_layer
  induction t with
  | zero =>
    rw [Mat.filled_zero]
    show some net = some (net.withLayer 0 l0)
    rw [Network.withLayer_self net hl0]
  | succ t ih =>
    rw [List.range_succ, List.foldlM_append, ih (by omega)]
    have hget : (net.withLayer 0 (l0.withContents (l0.contents.filled vals t))).layers[0]?
        = some (l0.withContents (l0.contents.filled vals t)) := by
      show (net.layers.set 0 _)[0]? = _
      rw [List.getElem?_set_self hlt]
    have hset := Mat.filled_succ l0.contents vals (t := t) (by omega)
    simp only [Option.bind_eq_bind, Option.some_bind, List.foldlM_cons, List.foldlM_nil,
      Option.pure_def, hget]
    have hset' : (l0.withContents (l0.contents.filled vals t)).contents.set?
        (t / (l0.withContents (l0.contents.filled vals t)).contents.cols)
        (t % (l0.withContents (l0.contents.filled vals t)).contents.cols) (vals t)
        = some (l0.contents.filled vals (t + 1)) := hset
    rw [hset']
    simp only [Option.some_bind, Option.bind_some]
    show some ({ net.withLayer 0 (l0.withContents (l0.contents.filled vals t)) with
        layers := (net.layers.set 0 _).set 0 _ } : Network α) = _
    rw [List.set_set]
    rfl

/-- The loop of `next_batch` over the lines read, after `t` rounds: the array `batch` holds
the features of line `i` at the indices `0 + i * inputs` to `3 + i * inputs`, `labels` holds
its label in row `i`, and every other index of `batch` is as the stack left it. -/
theorem next_batch_loop (read : List (Instance α)) (inputs datalen : Nat) (h4 : 4 ≤ inputs)
    (stack : Nat → α) (lab : Mat α) (hrows : read.length ≤ lab.rows) (hcols : 0 < lab.cols)
    (hlen : read.length * inputs ≤ datalen) (t : Nat) (ht : t ≤ read.length) :
    ∃ (b : Nat → α) (m : Mat α),
      (List.range t).foldlM
        (fun (s : (Nat → α) × Option (Mat α)) i => do
          let line ← read[i]?
          if datalen ≤ 3 + i * inputs then none
          let batch := fun n =>
            if n = 3 + i * inputs then line.x3 else if n = 2 + i * inputs then line.x2
            else if n = 1 + i * inputs then line.x1 else if n = 0 + i * inputs then line.x0
            else s.1 n
          let labels ← s.2
          let labels ← labels.set? i 0 (line.label : α)
          pure (batch, some labels))
        (stack, some lab) = some (b, some m) ∧
      m.rows = lab.rows ∧ m.cols = lab.cols ∧
      (∀ (i : Nat) (ln : Instance α), i < t → read[i]? = some ln →
        b (0 + i * inputs) = ln.x0 ∧ b (1 + i * inputs) = ln.x1 ∧
        b (2 + i * inputs) = ln.x2 ∧ b (3 + i * inputs) = ln.x3 ∧
        m.coeff i 0 = (ln.label : α)) ∧
      (∀ (n : Nat), (∀ (i : Nat), i < t → ∀ (c : Nat), c < 4 → n ≠ c + i * inputs) →
        b n = stack n) := by
  induction t with
  | zero =>
    refine ⟨stack, lab, rfl, rfl, rfl, ?_, fun _ _ => rfl⟩
    intro i ln hi
    omega
  | succ t ih =>
    obtain ⟨b, m, hfold, hmr, hmc, hb, hrest⟩ := ih (by omega)
    have htlt : t < read.length := by omega
    have hbound : ¬ datalen ≤ 3 + t * inputs := by
      have h1 : (t + 1) * inputs ≤ read.length * inputs := Nat.mul_le_mul_right inputs htlt
      rw [Nat.add_mul, Nat.one_mul] at h1
      omega
    have e := Mat.set?_eq_some m (j := t) (k := 0) (by omega) (by omega) ((read[t]).label : α)
    refine ⟨(fun n =>
        if n = 3 + t * inputs then (read[t]).x3 else if n = 2 + t * inputs then (read[t]).x2
        else if n = 1 + t * inputs then (read[t]).x1 else if n = 0 + t * inputs then (read[t]).x0
        else b n),
      ⟨m.rows, m.cols, fun a c => if a = t ∧ c = 0 then ((read[t]).label : α) else m.coeff a c⟩,
      ?_, hmr, hmc, ?_, ?_⟩
    · rw [List.range_succ, List.foldlM_append, hfold]
      simp only [List.getElem?_eq_getElem htlt, if_neg hbound, e, Option.pure_def,
        Option.bind_eq_bind, Option.some_bind, List.foldlM_cons, List.foldlM_nil]
    · intro i ln hi hln
      by_cases hit : i = t
      · subst hit
        rw [List.getElem?_eq_getElem htlt, Option.some.injEq] at hln
        subst hln
        refine ⟨?_, ?_, ?_, ?_, ?_⟩
        · show (if 0 + i * inputs = 3 + i * inputs then _ else if 0 + i * inputs = 2 + i * inputs
            then _ else if 0 + i * inputs = 1 + i * inputs then _
            else if 0 + i * inputs = 0 + i * inputs then (read[i]).x0 else _) = _
          rw [if_neg (by omega), if_neg (by omega), if_neg (by omega), if_pos rfl]
        · show (if 1 + i * inputs = 3 + i * inputs then _ else if 1 + i * inputs = 2 + i * inputs
            then _ else if 1 + i * inputs = 1 + i * inputs then (read[i]).x1 else _) = _
          rw [if_neg (by omega), if_neg (by omega), if_pos rfl]
        · show (if 2 + i * inputs = 3 + i * inputs then _ else if 2 + i * inputs = 2 + i * inputs
            then (read[i]).x2 else _) = _
          rw [if_neg (by omega), if_pos rfl]
        · show (if 3 + i * inputs = 3 + i * inputs then (read[i]).x3 else _) = _
          rw [if_pos rfl]
        · show (if i = i ∧ 0 = 0 then ((read[i]).label : α) else _) = _
          rw [if_pos ⟨rfl, rfl⟩]
      · have hlt : i < t := by omega
        obtain ⟨e0, e1, e2, e3, e4⟩ := hb i ln hlt hln
        have h1 : (i + 1) * inputs ≤ t * inputs := Nat.mul_le_mul_right inputs hlt
        rw [Nat.add_mul, Nat.one_mul] at h1
        have key : ∀ (c : Nat), c < 4 →
            (if c + i * inputs = 3 + t * inputs then (read[t]).x3
              else if c + i * inputs = 2 + t * inputs then (read[t]).x2
              else if c + i * inputs = 1 + t * inputs then (read[t]).x1
              else if c + i * inputs = 0 + t * inputs then (read[t]).x0
              else b (c + i * inputs)) = b (c + i * inputs) := by
          intro c hc
          rw [if_neg (by omega), if_neg (by omega), if_neg (by omega), if_neg (by omega)]
        refine ⟨(key 0 (by omega)).trans e0, (key 1 (by omega)).trans e1,
          (key 2 (by omega)).trans e2, (key 3 (by omega)).trans e3, ?_⟩
        show (if i = t ∧ 0 = 0 then _ else m.coeff i 0) = _
        rw [if_neg (fun hh => hit hh.1)]
        exact e4
    · intro n hn
      have h0 := hn t (Nat.lt_succ_self t)
      show (if n = 3 + t * inputs then _ else if n = 2 + t * inputs then _
        else if n = 1 + t * inputs then _ else if n = 0 + t * inputs then _ else b n) = _
      rw [if_neg (h0 3 (by omega)), if_neg (h0 2 (by omega)), if_neg (h0 1 (by omega)),
        if_neg (h0 0 (by omega))]
      exact hrest n (fun i hi c hc => hn i (by omega) c hc)

/-- Method `next_batch` on a well-formed network with at least 4 input nodes and an output
node, over a stream that still holds a whole batch: it returns, the stream has moved by
`batch_size` lines, the input layer and `labels` hold the batch read, and nothing else has
changed. -/
theorem Network.WellFormed.next_batch_loads {net : Network α} {dims : List Nat}
    (h : net.WellFormed dims) {n0 nl : Nat} (h0 : dims[0]? = some n0) (h4 : 4 ≤ n0)
    (hl : dims[dims.length - 1]? = some nl) (hnl : 1 ≤ nl) (data : DataFile α)
    (stack : Nat → α) (hfit : data.pos + net.batch_size ≤ data.lines.length) :
    ∃ (post : Network α) (l0 : Layer α) (c lab : Mat α),
      net.next_batch data stack = some (post, ⟨data.lines, data.pos + net.batch_size⟩) ∧
      net.layers[0]? = some l0 ∧
      post = (net.withLabels lab).withLayer 0 (l0.withContents c) ∧
      post.HoldsBatch data.lines data.pos stack := by
  obtain ⟨l0, n, hl0, hn, hsh⟩ := h.layer_exists (i := 0) h.pos
  rw [h0] at hn
  cases hn
  have hlab := h.labels nl hl
  rw [Option.map_eq_some'] at hlab
  obtain ⟨lab, hlab1, hlab2⟩ := hlab
  simp only [Mat.shape, Prod.mk.injEq] at hlab2
  have hlen : ((data.lines.drop data.pos).take net.batch_size).length = net.batch_size := by
    rw [List.length_take, List.length_drop]
    omega
  obtain ⟨b, m, hfold, hmr, hmc, hb, hrest⟩ := next_batch_loop
    ((data.lines.drop data.pos).take net.batch_size) l0.contents.cols
    (net.batch_size * l0.contents.cols) (by rw [hsh.contents_cols]; exact h4) stack lab
    (by rw [hlen, hlab2.1]) (by rw [hlab2.2]; exact hnl) (by rw [hlen])
    ((data.lines.drop data.pos).take net.batch_size).length (le_refl _)
  have hl0' : (net.withLabels m).layers[0]? = some l0 := hl0
  have hupd := Network.update_layer_filled (net.withLabels m) hl0' b
    (net.batch_size * l0.contents.cols) (by rw [hsh.contents_rows])
  refine ⟨(net.withLabels m).withLayer 0 (l0.withContents
      (l0.contents.filled b (net.batch_size * l0.contents.cols))), l0, _, m, ?_, hl0, rfl, ?_⟩
  · simp only [Option.pure_def, Option.bind_eq_bind, Option.some_bind] at hfold
    simp only [Network.next_batch, hl0, hlab1, Option.pure_def, Option.bind_eq_bind,
      Option.some_bind]
    rw [hfold]
    simp only [Option.some_bind]
    have hupd' : (Network.update_layer { net with labels := some m } b
        (net.batch_size * l0.contents.cols) 0) = _ := hupd
    rw [hupd']
    simp only [Option.some_bind, hlen]
  · have hlt : 0 < net.layers.length := by rw [h.layers_length]; exact h.pos
    refine ⟨l0.withContents (l0.contents.filled b (net.batch_size * l0.contents.cols)), m,
      ?_, rfl, ?_⟩
    · show (net.layers.set 0 _)[0]? = _
      rw [List.getElem?_set_self hlt]
    · intro r ln hr hln
      have hr' : r < net.batch_size := hr
      have hread : ((data.lines.drop data.pos).take net.batch_size)[r]? = some ln := by
        rw [List.getElem?_take_of_lt hr', List.getElem?_drop]
        exact hln
      obtain ⟨e0, e1, e2, e3, e4⟩ := hb r ln (by rw [hlen]; exact hr') hread
      have hcols : l0.contents.cols = n0 := hsh.contents_cols
      have h1 : (r + 1) * l0.contents.cols ≤ net.batch_size * l0.contents.cols :=
        Nat.mul_le_mul_right _ hr'
      rw [Nat.add_mul, Nat.one_mul] at h1
      have key : ∀ (c : Nat), c < l0.contents.cols →
          (l0.contents.filled b (net.batch_size * l0.contents.cols)).coeff r c
            = b (c + r * l0.contents.cols) := by
        intro c hc
        show (if c < l0.contents.cols ∧ r * l0.contents.cols + c
            < net.batch_size * l0.contents.cols then b (r * l0.contents.cols + c)
          else l0.contents.coeff r c) = _
        rw [if_pos ⟨hc, by omega⟩, Nat.add_comm]
      refine ⟨(key 0 (by omega)).trans e0, (key 1 (by omega)).trans e1,
        (key 2 (by omega)).trans e2, (key 3 (by omega)).trans e3, e4, ?_⟩
      intro c hc4 hc
      have hc' : c < l0.contents.cols := hc
      refine (key c hc').trans ?_
      rw [Nat.add_comm c]
      apply hrest
      intro i _ c' hc'4 heq
      rcases Nat.lt_trichotomy i r with hir | hir | hir
      · have h2 : (i + 1) * l0.contents.cols ≤ r * l0.contents.cols :=
          Nat.mul_le_mul_right _ hir
        rw [Nat.add_mul, Nat.one_mul] at h2
        omega
      · subst hir
        omega
      · have h2 : (r + 1) * l0.contents.cols ≤ i * l0.contents.cols :=
          Nat.mul_le_mul_right _ hir
        rw [Nat.add_mul, Nat.one_mul] at h2
        omega

/-- One round of the `for` loop of `Network::train` on a well-formed network, step by step:
a round that loads is `next_batch`, `feedforward`, `backpropagate` and `batches++` in this
order, and leaves the activated batch in the input layer; the round at index `instances -
batch_size` is `feedforward`, `backpropagate` and `batches++` on the state as it stands. -/
theorem Network.WellFormed.trainBatch_round [FloorRing α] {net : Network α} {dims : List Nat}
    (h : net.WellFormed dims) (h2 : 2 ≤ dims.length) {n0 nl : Nat} (h0 : dims[0]? = some n0)
    (h4 : 4 ≤ n0) (hl : dims[dims.length - 1]? = some nl) (hnl : 1 ≤ nl)
    (stack : Nat → Nat → α) (data : DataFile α) (cs acs : α)
    (i : Nat) {post : Network α} {d : DataFile α} {cs' acs' : α}
    (e : Network.trainBatch stack (net, data, cs, acs) i = some (post, d, cs', acs')) :
    (i ≠ net.instances - net.batch_size → data.pos + net.batch_size ≤ data.lines.length →
      net.LoadedRound post data.lines data.pos (stack i) ∧
        post.HoldsActivated data.lines data.pos) ∧
    (i = net.instances - net.batch_size → net.IdleRound post) := by
  constructor
  · intro hi hfit
    obtain ⟨loaded, l0, c, lab, e1, hl0, hloaded, hholds⟩ :=
      h.next_batch_loads h0 h4 hl hnl data (stack i) hfit
    obtain ⟨n1, e1', w1, b1, -, -⟩ := h.next_batch h0 h4 hl hnl data (stack i)
    rw [e1, Option.some.injEq, Prod.mk.injEq] at e1'
    have hn1 : loaded = n1 := e1'.1
    subst hn1
    obtain ⟨ff, lin, f, f', e2, w2, fr2, hlin, hf, hf', hff0, -⟩ := w1.feedforward_keeps
    obtain ⟨bp, e3, u3⟩ := w2.backpropagate_eq h2
    simp only [Network.trainBatch, if_pos hi, e1, e2, e3, Option.pure_def, Option.bind_eq_bind,
      Option.some_bind, Option.bind_eq_some, Option.some.injEq, Prod.mk.injEq] at e
    obtain ⟨cv, -, av, -, hpost, -, -, -⟩ := e
    have hpost' : post = bp.counted := hpost.symm
    refine ⟨⟨loaded, ff, bp, e1, hholds, ?_, e2, e3, hpost'⟩, ?_⟩
    all_goals try subst hpost'
    · intro k hk
      rw [hloaded]
      show ((net.withLabels lab).layers.set 0 _)[k]? = _
      rw [List.getElem?_set_ne (by omega)]
      rfl
    · obtain ⟨lh, labh, hlh, hlabh, hrows⟩ := hholds
      rw [hlin] at hlh
      cases hlh
      obtain ⟨lx, nx, hlx, hnx, hsx⟩ := w1.layer_exists (i := 0) w1.pos
      rw [hlin] at hlx
      cases hlx
      rw [h0] at hnx
      cases hnx
      have hbp0 := u3.2.2.2 0
      rw [hff0, Option.map_some'] at hbp0
      refine ⟨ff.updatedLayer (ff.length - 1) 0 (lin.activated f f'), labh, f, hbp0, hf, ?_, ?_⟩
      · show bp.labels = some labh
        rw [u3.1.2.2.1, fr2.1.2.2.1]
        exact hlabh
      · intro r ln hr hln
        have hr' : r < loaded.batch_size := by
          have : r < bp.batch_size := hr
          rw [u3.1.2.1, fr2.1.2.1] at this
          exact this
        obtain ⟨e0, e1, e2, e3, e4, -⟩ := hrows r ln hr' hln
        have hco : ∀ (c : Nat), c < 4 →
            (ff.updatedLayer (ff.length - 1) 0 (lin.activated f f')).contents.coeff r c
              = f (lin.contents.coeff r c) := by
          intro c hc
          exact (lin.activated_coeff f f' (by rw [hsx.contents_rows]; exact hr')
            (by rw [hsx.contents_cols]; omega)).2
        rw [hco 0 (by omega), hco 1 (by omega), hco 2 (by omega), hco 3 (by omega), e0, e1, e2,
          e3]
        exact ⟨rfl, rfl, rfl, rfl, e4⟩
  · intro hi
    obtain ⟨ff, e2, w2, -⟩ := h.feedforward
    obtain ⟨bp, e3, -⟩ := w2.backpropagate_eq h2
    have hi' : ¬ i ≠ net.instances - net.batch_size := fun hh => hh hi
    simp only [Network.trainBatch, if_neg hi', e2, e3, Option.pure_def, Option.bind_eq_bind,
      Option.some_bind, Option.bind_eq_some, Option.some.injEq, Prod.mk.injEq] at e
    obtain ⟨cv, -, av, -, hpost, -, -, -⟩ := e
    exact ⟨ff, bp, e2, e3, hpost.symm⟩

/-- Round `m` of the `for` loop of `Network::train` over a file of `k` batches, for `m < k`:
the states before and after it, and what the round does. -/
theorem Network.WellFormed.trainRound_step [FloorRing α] {net : Network α} {dims : List Nat}
    (h : net.WellFormed dims) (h2 : 2 ≤ dims.length) {n0 nl : Nat} (h0 : dims[0]? = some n0)
    (h4 : 4 ≤ n0) (hl : dims[dims.length - 1]? = some nl) (hnl : 1 ≤ nl)
    (hb : 1 ≤ net.batch_size) (k : Nat) (hk : 1 ≤ k) (hi : net.instances = k * net.batch_size)
    (stack : Nat → Nat → α) (data : DataFile α) (hlines : data.lines.length = net.instances)
    (hpos : data.pos = 0) (m : Nat) (hm : m < k) :
    ∃ (pre post : Network α) (cs acs cs' acs' : α),
      ((List.range m).map (fun n => n * net.batch_size)).foldlM (Network.trainBatch stack)
          (net, data, 0, 0)
        = some (pre, ⟨data.lines, m * net.batch_size⟩, cs, acs) ∧
      Network.trainBatch stack (pre, ⟨data.lines, m * net.batch_size⟩, cs, acs)
          (m * net.batch_size)
        = some (post, ⟨data.lines, min (m + 1) (k - 1) * net.batch_size⟩, cs', acs') ∧
      ((List.range (m + 1)).map (fun n => n * net.batch_size)).foldlM
          (Network.trainBatch stack) (net, data, 0, 0)
        = some (post, ⟨data.lines, min (m + 1) (k - 1) * net.batch_size⟩, cs', acs') ∧
      pre.batches = net.batches + m ∧ post.batches = net.batches + (m + 1) ∧
      (m + 1 < k →
        pre.LoadedRound post data.lines (m * net.batch_size) (stack (m * net.batch_size)) ∧
        post.HoldsActivated data.lines (m * net.batch_size)) ∧
      (m + 1 = k → pre.IdleRound post) := by
  obtain ⟨pre, cs, acs, epre, wpre, bpre, ipre, cpre⟩ :=
    h.trainRounds h2 h0 h4 hl hnl hb k hk hi stack data hlines hpos m (by omega)
  obtain ⟨post, cs', acs', epost, -, -, -, cpost⟩ :=
    h.trainRounds h2 h0 h4 hl hnl hb k hk hi stack data hlines hpos (m + 1) (by omega)
  have hmin : min m (k - 1) = m := by omega
  rw [hmin] at epre
  have estep : Network.trainBatch stack (pre, ⟨data.lines, m * net.batch_size⟩, cs, acs)
      (m * net.batch_size)
      = some (post, ⟨data.lines, min (m + 1) (k - 1) * net.batch_size⟩, cs', acs') := by
    have e := epost
    rw [List.range_succ, List.map_append, List.foldlM_append, epre] at e
    simpa only [List.map_cons, List.map_nil, List.foldlM_cons, List.foldlM_nil,
      Option.bind_eq_bind, Option.some_bind, Option.pure_def, Option.bind_some] using e
  have hround := wpre.trainBatch_round h2 h0 h4 hl hnl stack
    ⟨data.lines, m * net.batch_size⟩ cs acs (m * net.batch_size) estep
  have hkB : k * net.batch_size - net.batch_size = (k - 1) * net.batch_size := by
    rw [Nat.sub_mul, Nat.one_mul]
  refine ⟨pre, post, cs, acs, cs', acs', epre, estep, epost, cpre, cpost, ?_, ?_⟩
  · intro hlt
    have hne : m * net.batch_size ≠ pre.instances - pre.batch_size := by
      rw [ipre, bpre, hi, hkB]
      intro hc
      have := Nat.eq_of_mul_eq_mul_right (by omega) hc
      omega
    have hfit : m * net.batch_size + pre.batch_size ≤ data.lines.length := by
      rw [bpre, hlines, hi, ← Nat.succ_mul]
      exact Nat.mul_le_mul_right _ (by omega)
    have := hround.1 hne hfit
    exact this
  · intro heq
    have he : m * net.batch_size = pre.instances - pre.batch_size := by
      rw [ipre, bpre, hi, hkB]
      congr 1
      omega
    exact hround.2 he

end loading

/-! ## The optimizers keep the shapes, whatever the arithmetic -/

section floatShapes

variable {β : Type}

theorem optimizers.momentumOn_shaped (F : FloatOps β) (beta lr : β) (layer : OptLayer β)
    (delta : Mat β) {r c : Nat} (hw : layer.weights.shape = (r, c))
    (hm : layer.m.shape = (r, c)) (hv : layer.v.shape = (r, c)) (hd : delta.shape = (r, c)) :
    ∃ post, optimizers.momentumOn F beta layer delta lr = some post ∧
      post.weights.shape = (r, c) ∧ post.m.shape = (r, c) ∧ post.v.shape = (r, c) := by
  simp only [Mat.shape, Prod.mk.injEq] at hw hm hv hd
  have e1 := Mat.zip?_eq_some F.add (a := layer.m.map (F.mul beta))
    (b := delta.map (F.mul lr)) (by show layer.m.rows = delta.rows; omega)
    (by show layer.m.cols = delta.cols; omega)
  have e2 := Mat.zip?_eq_some F.sub (a := layer.weights)
    (b := Mat.zip F.add (layer.m.map (F.mul beta)) (delta.map (F.mul lr)))
    (by show layer.weights.rows = layer.m.rows; omega)
    (by show layer.weights.cols = layer.m.cols; omega)
  refine ⟨_, by
    simp only [optimizers.momentumOn, e1, e2, Option.pure_def, Option.bind_eq_bind,
      Option.some_bind]
    rfl, ?_, ?_, ?_⟩
  · show (layer.weights.rows, layer.weights.cols) = (r, c)
    rw [hw.1, hw.2]
  · show (delta.rows, delta.cols) = (r, c)
    rw [hd.1, hd.2]
  · show (layer.v.rows, layer.v.cols) = (r, c)
    rw [hv.1, hv.2]

theorem optimizers.Demon.stepOn_shaped (F : FloatOps β) (cl : optimizers.Demon β) (lr : β)
    (layer : OptLayer β) (delta : Mat β) {r c : Nat} (hw : layer.weights.shape = (r, c))
    (hm : layer.m.shape = (r, c)) (hv : layer.v.shape = (r, c)) (hd : delta.shape = (r, c)) :
    ∃ post cl', cl.callOn F layer delta lr = some (post, cl') ∧
      post.weights.shape = (r, c) ∧ post.m.shape = (r, c) ∧ post.v.shape = (r, c) := by
  simp only [Mat.shape, Prod.mk.injEq] at hw hm hv hd
  have e1 := Mat.zip?_eq_some F.add
    (a := layer.m.map (F.mul (F.div (F.mul cl.beta_init
      (F.sub F.one (F.div cl.epochs (F.ofInt cl.max_ep))))
      (F.add (F.mul cl.beta_init (F.sub F.one (F.div cl.epochs (F.ofInt cl.max_ep))))
        (F.sub F.one cl.beta_init)))))
    (b := delta.map (F.mul lr)) (by show layer.m.rows = delta.rows; omega)
    (by show layer.m.cols = delta.cols; omega)
  have e2 := Mat.zip?_eq_some F.sub (a := layer.weights)
    (b := Mat.zip F.add (layer.m.map (F.mul (F.div (F.mul cl.beta_init
      (F.sub F.one (F.div cl.epochs (F.ofInt cl.max_ep))))
      (F.add (F.mul cl.beta_init (F.sub F.one (F.div cl.epochs (F.ofInt cl.max_ep))))
        (F.sub F.one cl.beta_init))))) (delta.map (F.mul lr)))
    (by show layer.weights.rows = layer.m.rows; omega)
    (by show layer.weights.cols = layer.m.cols; omega)
  refine ⟨_, _, by
    simp only [optimizers.Demon.callOn, e1, e2, Option.pure_def, Option.bind_eq_bind,
      Option.some_bind]
    rfl, ?_, ?_, ?_⟩
  · show (layer.weights.rows, layer.weights.cols) = (r, c)
    rw [hw.1, hw.2]
  · show (delta.rows, delta.cols) = (r, c)
    rw [hd.1, hd.2]
  · show (layer.v.rows, layer.v.cols) = (r, c)
    rw [hv.1, hv.2]

theorem optimizers.adamOn_shaped (F : FloatOps β) (beta1 beta2 epsilon lr : β)
    (layer : OptLayer β) (delta : Mat β) {r c : Nat} (hw : layer.weights.shape = (r, c))
    (hm : layer.m.shape = (r, c)) (hv : layer.v.shape = (r, c)) (hd : delta.shape = (r, c)) :
    ∃ post, optimizers.adamOn F beta1 beta2 epsilon layer delta lr = some post ∧
      post.weights.shape = (r, c) ∧ post.m.shape = (r, c) ∧ post.v.shape = (r, c) := by
  simp only [Mat.shape, Prod.mk.injEq] at hw hm hv hd
  have e1 := Mat.zip?_eq_some F.add (a := layer.m.map (F.mul beta1))
    (b := delta.map (F.mul (F.sub F.one beta1))) (by show layer.m.rows = delta.rows; omega)
    (by show layer.m.cols = delta.cols; omega)
  have e2 := Mat.zip?_eq_some F.mul (a := delta) (b := delta) rfl rfl
  have e3 := Mat.zip?_eq_some F.add (a := layer.v.map (F.mul beta2))
    (b := (Mat.zip F.mul delta delta).map (F.mul (F.sub F.one beta2)))
    (by show layer.v.rows = delta.rows; omega) (by show layer.v.cols = delta.cols; omega)
  have e4 := Mat.zip?_eq_some F.mul
    (a := (((Mat.zip F.add (layer.v.map (F.mul beta2))
      ((Mat.zip F.mul delta delta).map (F.mul (F.sub F.one beta2)))).map F.sqrt).map
        (fun x => F.add x epsilon)).map F.recip)
    (b := Mat.zip F.add (layer.m.map (F.mul beta1)) (delta.map (F.mul (F.sub F.one beta1))))
    (by show layer.v.rows = layer.m.rows; omega) (by show layer.v.cols = layer.m.cols; omega)
  have e5 := Mat.zip?_eq_some F.sub (a := layer.weights)
    (b := (Mat.zip F.mul ((((Mat.zip F.add (layer.v.map (F.mul beta2))
      ((Mat.zip F.mul delta delta).map (F.mul (F.sub F.one beta2)))).map F.sqrt).map
        (fun x => F.add x epsilon)).map F.recip)
      (Mat.zip F.add (layer.m.map (F.mul beta1))
        (delta.map (F.mul (F.sub F.one beta1))))).map (F.mul lr))
    (by show layer.weights.rows = layer.v.rows; omega)
    (by show layer.weights.cols = layer.v.cols; omega)
  refine ⟨_, by
    simp only [optimizers.adamOn, e1, e2, e3, e4, e5, Option.pure_def, Option.bind_eq_bind,
      Option.some_bind]
    rfl, ?_, ?_, ?_⟩
  · show (layer.weights.rows, layer.weights.cols) = (r, c)
    rw [hw.1, hw.2]
  · show (layer.m.rows, layer.m.cols) = (r, c)
    rw [hm.1, hm.2]
  · show (layer.v.rows, layer.v.cols) = (r, c)
    rw [hv.1, hv.2]

theorem optimizers.adamaxOn_shaped (F : FloatOps β) (beta1 beta2 epsilon lr : β)
    (layer : OptLayer β) (delta : Mat β) {r c : Nat} (hw : layer.weights.shape = (r, c))
    (hm : layer.m.shape = (r, c)) (hv : layer.v.shape = (r, c)) (hd : delta.shape = (r, c)) :
    ∃ post, optimizers.adamaxOn F beta1 beta2 epsilon layer delta lr = some post ∧
      post.weights.shape = (r, c) ∧ post.m.shape = (r, c) ∧ post.v.shape = (r, c) := by
  simp only [Mat.shape, Prod.mk.injEq] at hw hm hv hd
  have e1 := Mat.zip?_eq_some F.add (a := layer.m.map (F.mul beta1))
    (b := delta.map (F.mul (F.sub F.one beta1))) (by show layer.m.rows = delta.rows; omega)
    (by show layer.m.cols = delta.cols; omega)
  by_cases hgt : F.gt ((layer.v.map (F.mul beta2)).sumOn F) ((delta.map F.abs).sumOn F) = true
  · have e4 := Mat.zip?_eq_some F.mul (a := (layer.v.map (F.mul beta2)).map F.recip)
      (b := Mat.zip F.add (layer.m.map (F.mul beta1)) (delta.map (F.mul (F.sub F.one beta1))))
      (by show layer.v.rows = layer.m.rows; omega) (by show layer.v.cols = layer.m.cols; omega)
    have e5 := Mat.zip?_eq_some F.sub (a := layer.weights)
      (b := (Mat.zip F.mul ((layer.v.map (F.mul beta2)).map F.recip)
        (Mat.zip F.add (layer.m.map (F.mul beta1))
          (delta.map (F.mul (F.sub F.one beta1))))).map (F.mul lr))
      (by show layer.weights.rows = layer.v.rows; omega)
      (by show layer.weights.cols = layer.v.cols; omega)
    refine ⟨_, by
      simp only [optimizers.adamaxOn, e1, hgt, if_true, e4, e5, Option.pure_def,
        Option.bind_eq_bind, Option.some_bind]
      rfl, ?_, ?_, ?_⟩
    · show (layer.weights.rows, layer.weights.cols) = (r, c)
      rw [hw.1, hw.2]
    · show (layer.m.rows, layer.m.cols) = (r, c)
      rw [hm.1, hm.2]
    · show (layer.v.rows, layer.v.cols) = (r, c)
      rw [hv.1, hv.2]
  · have e4 := Mat.zip?_eq_some F.mul (a := (delta.map F.abs).map F.recip)
      (b := Mat.zip F.add (layer.m.map (F.mul beta1)) (delta.map (F.mul (F.sub F.one beta1))))
      (by show delta.rows = layer.m.rows; omega) (by show delta.cols = layer.m.cols; omega)
    have e5 := Mat.zip?_eq_some F.sub (a := layer.weights)
      (b := (Mat.zip F.mul ((delta.map F.abs).map F.recip)
        (Mat.zip F.add (layer.m.map (F.mul beta1))
          (delta.map (F.mul (F.sub F.one beta1))))).map (F.mul lr))
      (by show layer.weights.rows = delta.rows; omega)
      (by show layer.weights.cols = delta.cols; omega)
    refine ⟨_, by
      simp only [optimizers.adamaxOn, e1, hgt, Bool.false_eq_true, if_false, e4, e5,
        Option.pure_def, Option.bind_eq_bind, Option.some_bind]
      rfl, ?_, ?_, ?_⟩
    · show (layer.weights.rows, layer.weights.cols) = (r, c)
      rw [hw.1, hw.2]
    · show (layer.m.rows, layer.m.cols) = (r, c)
      rw [hm.1, hm.2]
    · show (delta.rows, delta.cols) = (r, c)
      rw [hd.1, hd.2]

/-- One call of any of the four closures on operands shaped like the weights returns, and
leaves `weights`, `m` and `v` with that shape, whatever the arithmetic. -/
theorem Optimizer.callOn_shaped (F : FloatOps β) (o : Optimizer β) (layer : OptLayer β)
    (delta : Mat β) (lr : β) {r c : Nat} (hw : layer.weights.shape = (r, c))
    (hm : layer.m.shape = (r, c)) (hv : layer.v.shape = (r, c)) (hd : delta.shape = (r, c)) :
    ∃ post o', o.callOn F layer delta lr = some (post, o') ∧
      post.weights.shape = (r, c) ∧ post.m.shape = (r, c) ∧ post.v.shape = (r, c) := by
  cases o with
  | momentum beta =>
    obtain ⟨post, e, s⟩ := optimizers.momentumOn_shaped F beta lr layer delta hw hm hv hd
    exact ⟨post, _, by simp only [Optimizer.callOn, e, Option.map_some']; rfl, s⟩
  | demon cl =>
    obtain ⟨post, cl', e, s⟩ := optimizers.Demon.stepOn_shaped F cl lr layer delta hw hm hv hd
    exact ⟨post, _, by simp only [Optimizer.callOn, e, Option.map_some']; rfl, s⟩
  | adam beta1 beta2 epsilon =>
    obtain ⟨post, e, s⟩ :=
      optimizers.adamOn_shaped F beta1 beta2 epsilon lr layer delta hw hm hv hd
    exact ⟨post, _, by simp only [Optimizer.callOn, e, Option.map_some']; rfl, s⟩
  | adamax beta1 beta2 epsilon =>
    obtain ⟨post, e, s⟩ :=
      optimizers.adamaxOn_shaped F beta1 beta2 epsilon lr layer delta hw hm hv hd
    exact ⟨post, _, by simp only [Optimizer.callOn, e, Option.map_some']; rfl, s⟩

/-- Any number of consecutive calls on gradients shaped like the weights returns and keeps
the shapes. -/
theorem Optimizer.runOn_shaped (F : FloatOps β) (calls : List (Mat β × β)) :
    ∀ (o : Optimizer β) (layer : OptLayer β) {r c : Nat}, layer.weights.shape = (r, c) →
      layer.m.shape = (r, c) → layer.v.shape = (r, c) →
      (∀ d ∈ calls, d.1.shape = (r, c)) →
      ∃ post o', o.runOn F layer calls = some (post, o') ∧
        post.weights.shape = (r, c) ∧ post.m.shape = (r, c) ∧ post.v.shape = (r, c) := by
  induction calls with
  | nil =>
    intro o layer r c hw hm hv _
    exact ⟨layer, o, rfl, hw, hm, hv⟩
  | cons d rest ih =>
    intro o layer r c hw hm hv hd
    obtain ⟨delta, lr⟩ := d
    obtain ⟨p1, o1, e1, w1, m1, v1⟩ := Optimizer.callOn_shaped F o layer delta lr hw hm hv
      (hd (delta, lr) (List.mem_cons_self _ _))
    obtain ⟨post, o', e, s⟩ := ih o1 p1 w1 m1 v1 (fun x hx => hd x (List.mem_cons_of_mem _ hx))
    refine ⟨post, o', ?_, s⟩
    simp only [Optimizer.runOn, e1]
    exact e

end floatShapes

/-! ## The exact optimizers are the optimizers over the arithmetic of the field -/

section floatExact

variable {α : Type} [LinearOrderedField α]

theorem foldl_add_eq_sum (f : Nat → α) (n : Nat) (a : α) :
    (List.range n).foldl (fun s k => s + f k) a = a + ∑ k in Finset.range n, f k := by
  induction n with
  | zero => simp
  | succ n ih =>
    rw [List.range_succ, List.foldl_append, ih, Finset.sum_range_succ]
    simp only [List.foldl_cons, List.foldl_nil]
    ring

theorem Mat.sumOn_fieldOps (sqrt : α → α) (m : Mat α) : m.sumOn (fieldOps sqrt) = m.sum := by
  have inner : ∀ (j : Nat) (s : α),
      (List.range m.cols).foldl (fun s k => (fieldOps sqrt).add s (m.coeff j k)) s
        = s + ∑ k in Finset.range m.cols, m.coeff j k :=
    fun j s => foldl_add_eq_sum (fun k => m.coeff j k) m.cols s
  have outer : (List.range m.rows).foldl
      (fun s j => (List.range m.cols).foldl (fun s k => (fieldOps sqrt).add s (m.coeff j k)) s)
        (fieldOps sqrt).zero
      = (List.range m.rows).foldl
        (fun s j => s + ∑ k in Finset.range m.cols, m.coeff j k) 0 := by
    congr 1
    funext s j
    exact inner j s
  show (List.range m.rows).foldl
      (fun s j => (List.range m.cols).foldl (fun s k => (fieldOps sqrt).add s (m.coeff j k)) s)
        (fieldOps sqrt).zero = _
  rw [outer, foldl_add_eq_sum (fun j => ∑ k in Finset.range m.cols, m.coeff j k), zero_add]
  rfl

theorem optimizers.momentumOn_fieldOps (sqrt : α → α) (beta lr : α) (layer : OptLayer α)
    (delta : Mat α) :
    optimizers.momentumOn (fieldOps sqrt) beta layer delta lr
      = optimizers.momentum beta layer delta lr := rfl

theorem optimizers.Demon.stepOn_fieldOps (sqrt : α → α) (cl : optimizers.Demon α) (lr : α)
    (layer : OptLayer α) (delta : Mat α) {r : OptLayer α × optimizers.Demon α}
    (h : cl.call layer delta lr = some r) : cl.callOn (fieldOps sqrt) layer delta lr = some r := by
  unfold optimizers.Demon.call at h
  by_cases h1 : (cl.max_ep : α) = 0
  · simp [h1] at h
  by_cases h2 : cl.beta_init * (1 - cl.epochs / (cl.max_ep : α)) + (1 - cl.beta_init) = 0
  · simp [h1, h2] at h
  simp only [h1, h2, if_false, Option.pure_def, Option.bind_eq_bind, Option.some_bind,
    Option.bind_some] at h
  exact h

theorem optimizers.adamOn_fieldOps (sqrt : α → α) (beta1 beta2 epsilon lr : α)
    (layer : OptLayer α) (delta : Mat α) {post : OptLayer α}
    (h : optimizers.adam sqrt beta1 beta2 epsilon layer delta lr = some post) :
    optimizers.adamOn (fieldOps sqrt) beta1 beta2 epsilon layer delta lr = some post := by
  simp only [optimizers.adam, Option.pure_def, Option.bind_eq_bind, Option.bind_eq_some] at h
  obtain ⟨m, hm, sq, hsq, v, hv, root, hroot, inv, hinv, quot, hquot, w, hw, hpost⟩ := h
  have hroot' : root = v.map sqrt := by
    unfold Mat.cwiseSqrt? at hroot
    split at hroot
    · exact (Option.some.inj hroot).symm
    · cases hroot
  subst hroot'
  have hinv' : inv = ((v.map sqrt).map (fun x => x + epsilon)).map (fun x => x⁻¹) := by
    unfold Mat.cwiseInverse? at hinv
    split at hinv
    · exact (Option.some.inj hinv).symm
    · cases hinv
  subst hinv'
  have hm' : Mat.zip? (fieldOps sqrt).add (layer.m.map ((fieldOps sqrt).mul beta1))
      (delta.map ((fieldOps sqrt).mul ((fieldOps sqrt).sub (fieldOps sqrt).one beta1)))
      = some m := hm
  have hsq' : Mat.zip? (fieldOps sqrt).mul delta delta = some sq := hsq
  have hv' : Mat.zip? (fieldOps sqrt).add (layer.v.map ((fieldOps sqrt).mul beta2))
      (sq.map ((fieldOps sqrt).mul ((fieldOps sqrt).sub (fieldOps sqrt).one beta2)))
      = some v := hv
  have hquot' : Mat.zip? (fieldOps sqrt).mul
      (((v.map (fieldOps sqrt).sqrt).map (fun x => (fieldOps sqrt).add x epsilon)).map
        (fieldOps sqrt).recip) m = some quot := hquot
  have hw' : Mat.zip? (fieldOps sqrt).sub layer.weights (quot.map ((fieldOps sqrt).mul lr))
      = some w := hw
  simp only [optimizers.adamOn, hm', hsq', hv', hquot', hw', Option.pure_def,
    Option.bind_eq_bind, Option.some_bind]
  exact hpost

theorem optimizers.adamaxOn_fieldOps (sqrt : α → α) (beta1 beta2 epsilon lr : α)
    (layer : OptLayer α) (delta : Mat α) {post : OptLayer α}
    (h : optimizers.adamax beta1 beta2 epsilon layer delta lr = some post) :
    optimizers.adamaxOn (fieldOps sqrt) beta1 beta2 epsilon layer delta lr = some post := by
  simp only [optimizers.adamax, Option.pure_def, Option.bind_eq_bind, Option.bind_eq_some] at h
  obtain ⟨m, hm, inv, hinv, quot, hquot, w, hw, hpost⟩ := h
  have hm' : Mat.zip? (fieldOps sqrt).add (layer.m.map ((fieldOps sqrt).mul beta1))
      (delta.map ((fieldOps sqrt).mul ((fieldOps sqrt).sub (fieldOps sqrt).one beta1)))
      = some m := hm
  have hs1 : ((layer.v.map ((fieldOps sqrt).mul beta2)).sumOn (fieldOps sqrt))
      = (Mat.smul beta2 layer.v).sum := Mat.sumOn_fieldOps sqrt _
  have hs2 : ((delta.map (fieldOps sqrt).abs).sumOn (fieldOps sqrt))
      = (delta.map (fun x => |x|)).sum := Mat.sumOn_fieldOps sqrt _
  simp only [optimizers.adamaxOn, hm', Option.pure_def, Option.bind_eq_bind, Option.some_bind,
    hs1, hs2]
  by_cases hgt : (Mat.smul beta2 layer.v).sum > (delta.map (fun x => |x|)).sum
  · have hg : (fieldOps sqrt).gt (Mat.smul beta2 layer.v).sum (delta.map (fun x => |x|)).sum
        = true := decide_eq_true hgt
    simp only [hgt, if_true] at hinv hquot hw hpost
    have hinv' : inv = (Mat.smul beta2 layer.v).map (fun x => x⁻¹) := by
      unfold Mat.cwiseInverse? at hinv
      split at hinv
      · exact (Option.some.inj hinv).symm
      · cases hinv
    subst hinv'
    have hquot' : Mat.zip? (fieldOps sqrt).mul
        ((layer.v.map ((fieldOps sqrt).mul beta2)).map (fieldOps sqrt).recip) m
        = some quot := hquot
    have hw' : Mat.zip? (fieldOps sqrt).sub layer.weights (quot.map ((fieldOps sqrt).mul lr))
        = some w := hw
    simp only [hg, if_true, hquot', hw', Option.some_bind]
    exact hpost
  · have hg : (fieldOps sqrt).gt (Mat.smul beta2 layer.v).sum (delta.map (fun x => |x|)).sum
        = false := decide_eq_false hgt
    simp only [hgt, if_false] at hinv hquot hw hpost
    have hinv' : inv = (delta.map (fun x => |x|)).map (fun x => x⁻¹) := by
      unfold Mat.cwiseInverse? at hinv
      split at hinv
      · exact (Option.some.inj hinv).symm
      · cases hinv
    subst hinv'
    have hquot' : Mat.zip? (fieldOps sqrt).mul
        ((delta.map (fieldOps sqrt).abs).map (fieldOps sqrt).recip) m
        = some quot := hquot
    have hw' : Mat.zip? (fieldOps sqrt).sub layer.weights (quot.map ((fieldOps sqrt).mul lr))
        = some w := hw
    simp only [hg, Bool.false_eq_true, if_false, hquot', hw', Option.some_bind]
    exact hpost

/-- Where a call of the exact closure returns, the closure over the arithmetic of the field
returns the same layer and closure. -/
theorem Optimizer.callOn_fieldOps (sqrt : α → α) (o : Optimizer α) (layer : OptLayer α)
    (delta : Mat α) (lr : α) {r : OptLayer α × Optimizer α}
    (h : o.call sqrt layer delta lr = some r) :
    o.callOn (fieldOps sqrt) layer delta lr = some r := by
  cases o with
  | momentum beta =>
    simp only [Optimizer.call] at h
    simp only [Optimizer.callOn, optimizers.momentumOn_fieldOps]
    exact h
  | demon cl =>
    simp only [Optimizer.call, Option.map_eq_some'] at h
    obtain ⟨x, hx, rfl⟩ := h
    simp only [Optimizer.callOn, optimizers.Demon.stepOn_fieldOps sqrt cl lr layer delta hx,
      Option.map_some']
  | adam beta1 beta2 epsilon =>
    simp only [Optimizer.call, Option.map_eq_some'] at h
    obtain ⟨x, hx, rfl⟩ := h
    simp only [Optimizer.callOn, optimizers.adamOn_fieldOps sqrt _ _ _ _ _ _ hx,
      Option.map_some']
  | adamax beta1 beta2 epsilon =>
    simp only [Optimizer.call, Option.map_eq_some'] at h
    obtain ⟨x, hx, rfl⟩ := h
    simp only [Optimizer.callOn, optimizers.adamaxOn_fieldOps sqrt _ _ _ _ _ _ hx,
      Option.map_some']

/-- Where consecutive calls of the exact closure return, the closure over the arithmetic of
the field returns the same. -/
theorem Optimizer.runOn_fieldOps (sqrt : α → α) (calls : List (Mat α × α)) :
    ∀ (o : Optimizer α) (layer : OptLayer α) (r : OptLayer α × Optimizer α),
      o.run sqrt layer calls = some r → o.runOn (fieldOps sqrt) layer calls = some r := by
  induction calls with
  | nil =>
    intro o layer r h
    exact h
  | cons d rest ih =>
    intro o layer r h
    obtain ⟨delta, lr⟩ := d
    simp only [Optimizer.run] at h
    cases hc : o.call sqrt layer delta lr with
    | none =>
      rw [hc] at h
      cases h
    | some x =>
      rw [hc] at h
      obtain ⟨l1, o1⟩ := x
      simp only [Optimizer.runOn, Optimizer.callOn_fieldOps sqrt o layer delta lr hc]
      exact ih o1 l1 r h

end floatExact

/-! ## Gradient and central difference of a network of two layers -/

section gradientWide

variable {α : Type} [LinearOrderedField α]

end gradientWide

section gradientDeep

end gradientDeep

/-! ## The claims -/

section claims

variable {α : Type} [LinearOrderedField α]

/-- C1. On a well-formed (initialized) network and for every layer `i`, the input layer
included, `Network::feedforward` returns, and it passes through the state `pre` that stands
just before the activation loops reach layer `i`; with `f`, `f'` the callbacks of layer `i`,
every entry of `dZ_i` in the result is `f'` of the entry that `contents_i` held in `pre`, and
the same entry of `contents_i` is `f` of it.  For `i = 0` the state `pre` is the state on
entry. -/
theorem feedforward_derivative_at_preactivation (net : Network α) (dims : List Nat)
    (h : net.WellFormed dims) (i : Nat) (hi : i < net.length) :
    ∃ pre mid post l0 lpre lpost f f',
      net.feedforwardBefore i = some pre ∧ pre.activateAt i = some mid ∧
      mid.feedforwardAfter i = some post ∧ net.feedforward = some post ∧
      net.layers[i]? = some l0 ∧ l0.activation = some f ∧ l0.activation_deriv = some f' ∧
      pre.layers[i]? = some lpre ∧ post.layers[i]? = some lpost ∧
      lpost.contents.shape = lpre.contents.shape ∧ lpost.dZ.shape = lpre.contents.shape ∧
      ∀ j k, j < lpre.contents.rows → k < lpre.contents.cols →
        lpost.dZ.coeff j k = f' (lpre.contents.coeff j k) ∧
        lpost.contents.coeff j k = f (lpre.contents.coeff j k) := by
  have hlen := h.length_eq
  obtain ⟨l, f, f', n2, hl, hf, hf', h1, h2, hwf2, hq2, hz2⟩ := h.feedforward_products
  cases i with
  | zero =>
    obtain ⟨n3, h3, hwf3, hq3, hz3⟩ := hwf2.activate_fold (List.range' 1 (n2.length - 1))
      (by
        intro k hk
        have := hwf2.length_eq
        simp only [List.mem_range'_1] at hk
        omega)
      (fun s => net.Frame s ∧ s.layers[0]? = some (l.activated f f'))
      (by
        rintro s k lk g g' hk hlk ⟨hs, hz⟩
        refine ⟨hs.activated g g' hlk, ?_⟩
        show (s.layers.set k _)[0]? = _
        simp only [List.mem_range'_1] at hk
        rw [List.getElem?_set_ne (by omega)]
        exact hz)
      ⟨hq2, hz2⟩
    obtain ⟨l', n, hl', hn, hs⟩ := h.layer_exists h.pos
    rw [hl] at hl'
    cases hl'
    refine ⟨net, net.withLayer 0 (l.activated f f'), n3, l, l, l.activated f f', f, f', rfl, h1,
      ?_, ?_, hl, hf, hf', hl, hz3, rfl, ?_, ?_⟩
    · simp only [Network.feedforwardAfter, h2, Option.bind_eq_bind, Option.some_bind]
      exact h3
    · simp only [Network.feedforward, h1, h2, Option.bind_eq_bind, Option.some_bind]
      exact h3
    · show (l.dZ.rows, l.dZ.cols) = (l.contents.rows, l.contents.cols)
      rw [hs.dZ_rows, hs.dZ_cols, hs.contents_rows, hs.contents_cols]
    · intro j k hj hk
      exact l.activated_coeff f f' hj hk
  | succ i =>
    have hi' : i + 1 < dims.length := by omega
    have hlen2 : n2.length = net.length := hq2.1.1
    -- the third loop up to layer `i`
    obtain ⟨pre, h3, hwf3, hq3⟩ := hwf2.activate_fold (List.range' 1 i)
      (by
        intro k hk
        simp only [List.mem_range'_1] at hk
        omega)
      (fun s => net.Frame s) (fun s k lk g g' _ hlk hs => hs.activated g g' hlk) hq2
    -- layer `i+1` itself
    obtain ⟨lpre, g, g', hlpre, hg, hg', h4, hwf4⟩ := hwf3.activateAt hi'
    obtain ⟨l0, hl0, -, -, -, ha, hd⟩ := hq3.2 (i + 1) lpre hlpre
    have hlt : i + 1 < pre.layers.length := by rw [hwf3.layers_length]; exact hi'
    -- the rest of the third loop
    obtain ⟨post, h5, hwf5, hz5⟩ := hwf4.activate_fold
      (List.range' (i + 2) (net.length - 2 - i))
      (by
        intro k hk
        simp only [List.mem_range'_1] at hk
        omega)
      (fun s => s.layers[i + 1]? = some (lpre.activated g g'))
      (by
        rintro s k lk e e' hk hlk hz
        show (s.layers.set k _)[i + 1]? = _
        simp only [List.mem_range'_1] at hk
        rw [List.getElem?_set_ne (by omega)]
        exact hz)
      (by
        show (pre.layers.set (i + 1) _)[i + 1]? = _
        rw [List.getElem?_set_self hlt])
    obtain ⟨lx, n, hlx, hn, hs⟩ := hwf3.layer_exists hi'
    rw [hlpre] at hlx
    cases hlx
    have hpre : net.feedforwardBefore (i + 1) = some pre := by
      simp only [Network.feedforwardBefore, h1, h2, Option.bind_eq_bind, Option.some_bind]
      exact h3
    have hmidlen : (pre.withLayer (i + 1) (lpre.activated g g')).length = net.length :=
      hq3.1.1
    refine ⟨pre, pre.withLayer (i + 1) (lpre.activated g g'), post, l0, lpre,
      lpre.activated g g', g, g', hpre, h4, ?_, ?_, hl0, ha ▸ hg, hd ▸ hg', hlpre, hz5, rfl, ?_,
      ?_⟩
    · simp only [Network.feedforwardAfter, hmidlen]
      exact h5
    · simp only [Network.feedforward, h1, h2, Option.bind_eq_bind, Option.some_bind,
        Network.activateUpTo, hlen2]
      rw [range'_split i net.length (by omega), List.foldlM_append]
      have h3' : List.foldlM Network.activateAt n2 (List.range' 1 i) = some pre := h3
      rw [h3']
      simp only [Option.bind_eq_bind, Option.some_bind, List.foldlM_cons, h4]
      exact h5
    · show (lpre.dZ.rows, lpre.dZ.cols) = (lpre.contents.rows, lpre.contents.cols)
      rw [hs.dZ_rows, hs.dZ_cols, hs.contents_rows, hs.contents_cols]
    · intro j k hj hk
      exact lpre.activated_coeff g g' hj hk

/-- Witness of C1: the hidden layer of the chain `chain3`. -/
theorem feedforward_derivative_at_preactivation_witness :
    chain3.WellFormed [4, 1, 1] ∧ 1 < chain3.length ∧
      ∃ pre mid post l0 lpre lpost f f',
        chain3.feedforwardBefore 1 = some pre ∧ pre.activateAt 1 = some mid ∧
        mid.feedforwardAfter 1 = some post ∧ chain3.feedforward = some post ∧
        chain3.layers[1]? = some l0 ∧ l0.activation = some f ∧ l0.activation_deriv = some f' ∧
        pre.layers[1]? = some lpre ∧ post.layers[1]? = some lpost ∧
        lpost.contents.shape = lpre.contents.shape ∧ lpost.dZ.shape = lpre.contents.shape ∧
        ∀ j k, j < lpre.contents.rows → k < lpre.contents.cols →
          lpost.dZ.coeff j k = f' (lpre.contents.coeff j k) ∧
          lpost.contents.coeff j k = f (lpre.contents.coeff j k) :=
  ⟨chain3_wellFormed, by decide,
    feedforward_derivative_at_preactivation chain3 [4, 1, 1] chain3_wellFormed 1 (by decide)⟩

/-- C2, evaluated at `chain3`: the hidden layer holds 2 before its activation and
`step(2) = 1` after it, yet the value at which the output layer is activated is
`2 = 2 * 1 + 0`, formed from the hidden value before the activation, and not `1 * 1 + 0`;
the prediction is 2. -/
theorem feedforward_products_skip_hidden_activation :
    readOut (chain3.feedforwardBefore 1) 1 = some 2 ∧ readOut chain3.feedforward 1 = some 1 ∧
      readOut (chain3.feedforwardBefore 2) 2 = some 2 ∧ readOut chain3.feedforward 2 = some 2 := by
  rw [chain3_before_hidden, chain3_before_output, chain3_feedforward]
  have hget : ∀ m : Mat ℚ, m.rows = 1 → m.cols = 1 → m.get? 0 0 = some (m.coeff 0 0) :=
    fun m hr hc => Mat.get?_eq_some m (by omega) (by omega)
  refine ⟨?_, ?_, ?_, ?_⟩
  · show chainHiddenPre.contents.get? 0 0 = some 2
    rw [hget _ rfl rfl, chainHiddenPre_value]
  · show (chainHiddenPre.activated activations.step activations.step_deriv).contents.get? 0 0
      = some 1
    rw [hget _ rfl rfl, (Layer.activated_coeff chainHiddenPre _ _ (by decide) (by decide)).2,
      chainHiddenPre_value]
    simp [activations.step]
  · show chainOutPre.contents.get? 0 0 = some 2
    rw [hget _ rfl rfl, chainOutPre_value]
  · show (chainOutPre.activated activations.linear activations.linear_deriv).contents.get? 0 0
      = some 2
    rw [hget _ rfl rfl, (Layer.activated_coeff chainOutPre _ _ (by decide) (by decide)).2,
      chainOutPre_value]
    rfl

/-- C3. For every topology given by `add_layer` calls with node counts `n_0 .. n_{L-1}`,
`L >= 2`, and registered activation names, on a network of batch size `b`: the calls return,
`initialize` returns, `feedforward` returns, and in the result every layer `i` has `contents`
of shape `(b, n_i)` and `dZ` of the same shape. -/
theorem feedforward_shapes (p : Prims α) (instances b : Nat) (lr blr : α)
    (topo : List (Nat × String)) (heaps : Nat → Nat → Nat → Nat → α) (rnd : Nat → Nat → α)
    (heap : Nat → Nat → Nat → Nat → α) (lheap : Nat → Nat → α) (hL : 2 ≤ topo.length)
    (hnames : ∀ t ∈ topo, (lookupActivation p t.2).isSome = true) :
    ∃ built init post,
      Network.add_layers p heaps (Network.new instances b lr blr) topo = Except.ok built ∧
      Network.initialize built rnd heap lheap = some init ∧ init.feedforward = some post ∧
      post.layers.length = topo.length ∧
      ∀ (i : Nat) (hi : i < topo.length), ∃ l, post.layers[i]? = some l ∧
        l.contents.shape = (b, (topo[i]).1) ∧ l.dZ.shape = l.contents.shape := by
  obtain ⟨built, h1, hb1, hs1⟩ := Network.add_layers_ok p heaps topo hnames
    (Network.new instances b lr blr) [] (Network.new_built instances b lr blr)
  simp only [List.nil_append] at hb1
  have hpos : 0 < (topo.map Prod.fst).length := by simp; omega
  obtain ⟨init, h2, hwf2, hs2⟩ := hb1.initialize_wellFormed hpos rnd heap lheap
  obtain ⟨post, h3, hwf3, hf3⟩ := hwf2.feedforward
  have hbs : post.batch_size = b := by
    rw [hf3.1.2.1, hs2, hs1]
    rfl
  refine ⟨built, init, post, h1, h2, h3, by simpa using hwf3.layers_length, ?_⟩
  intro i hi
  obtain ⟨l, n, hl, hn, hs⟩ := hwf3.layer_exists (i := i) (by simpa using hi)
  have hn' : n = (topo[i]).1 := by
    simp only [List.getElem?_map, List.getElem?_eq_getElem hi, Option.map_some',
      Option.some.injEq] at hn
    exact hn.symm
  refine ⟨l, hl, ?_, ?_⟩
  · show (l.contents.rows, l.contents.cols) = _
    rw [hs.contents_rows, hs.contents_cols, hbs, hn']
  · show (l.dZ.rows, l.dZ.cols) = (l.contents.rows, l.contents.cols)
    rw [hs.dZ_rows, hs.dZ_cols, hs.contents_rows, hs.contents_cols]

/-- Witness of C3: the topology of `bench` in `example.cpp`, 4 linear inputs, 5 `lecun_tanh`
nodes and 2 linear outputs, with batch size 16. -/
theorem feedforward_shapes_witness :
    2 ≤ benchTopology.length ∧
      (∀ t ∈ benchTopology, (lookupActivation zeroPrims t.2).isSome = true) ∧
      ∃ built init post,
        Network.add_layers zeroPrims (fun _ _ _ _ => 0)
          (Network.new 1372 16 (155 / 10000 : ℚ) (3 / 100)) benchTopology = Except.ok built ∧
        Network.initialize built (fun _ _ => 1 / 2) (fun _ _ _ _ => 0) (fun _ _ => 0)
          = some init ∧
        init.feedforward = some post ∧ post.layers.length = benchTopology.length ∧
        ∀ (i : Nat) (hi : i < benchTopology.length), ∃ l, post.layers[i]? = some l ∧
          l.contents.shape = (16, (benchTopology[i]).1) ∧ l.dZ.shape = l.contents.shape :=
  ⟨by decide, by decide,
    feedforward_shapes zeroPrims 1372 16 (155 / 10000) (3 / 100) benchTopology
      (fun _ _ _ _ => 0) (fun _ _ => 1 / 2) (fun _ _ _ _ => 0) (fun _ _ => 0) (by decide)
      (by decide)⟩

/-- C4. In every network state whose terminal layer and labels have `batch_size >= 1` rows
and a first column, `Network::cost` returns `(1/batch_size)` times the sum over all rows `i`
of `(labels(i,0) - contents_last(i,0))^2`. -/
theorem cost_is_first_column_mse (net : Network α) (l : Layer α) (labels : Mat α)
    (hlen : 0 < net.length) (hl : net.layers[net.length - 1]? = some l)
    (hlab : net.labels = some labels) (hrows : l.contents.rows = net.batch_size)
    (hlrows : labels.rows = net.batch_size) (hcols : 0 < l.contents.cols)
    (hlcols : 0 < labels.cols) (hb : 1 ≤ net.batch_size) :
    net.cost = some (1 / (net.batch_size : α) *
      ∑ i in Finset.range net.batch_size, (labels.coeff i 0 - l.contents.coeff i 0) ^ 2) :=
  Network.cost_eq_sum net l labels hlen hl hlab hrows hlrows hcols hlcols hb

/-- C5. For every labels and terminal contents with `batch_size >= 1` rows and a first
column, `Network::accuracy` returns the number of rows `i` with
`round(contents_last(i,0)) == labels(i,0)` divided by `batch_size`, a value in `[0, 1]`. -/
theorem accuracy_is_fraction_in_unit_interval [FloorRing α] (net : Network α) (l : Layer α)
    (labels : Mat α) (hlen : 0 < net.length) (hl : net.layers[net.length - 1]? = some l)
    (hlab : net.labels = some labels) (hrows : l.contents.rows = net.batch_size)
    (hlrows : labels.rows = net.batch_size) (hcols : 0 < l.contents.cols)
    (hlcols : 0 < labels.cols) (hb : 1 ≤ net.batch_size) :
    net.accuracy = some ((((Finset.range net.batch_size).filter
        (fun i => labels.coeff i 0 = cround (l.contents.coeff i 0))).card : α) /
          (net.batch_size : α)) ∧
      0 ≤ (((Finset.range net.batch_size).filter
        (fun i => labels.coeff i 0 = cround (l.contents.coeff i 0))).card : α) /
          (net.batch_size : α) ∧
      (((Finset.range net.batch_size).filter
        (fun i => labels.coeff i 0 = cround (l.contents.coeff i 0))).card : α) /
          (net.batch_size : α) ≤ 1 := by
  have hbpos : (0 : α) < (net.batch_size : α) := by exact_mod_cast hb
  refine ⟨Network.accuracy_eq_fraction net l labels hlen hl hlab hrows hlrows hcols hlcols hb,
    by positivity, ?_⟩
  rw [div_le_one hbpos]
  have h := Finset.card_filter_le (Finset.range net.batch_size)
    (fun i => labels.coeff i 0 = cround (l.contents.coeff i 0))
  rw [Finset.card_range] at h
  exact_mod_cast h

/-- Witness of C4: the batch `scoreNet` of two rows with predictions `1, 0` and labels
`1, 1`. -/
theorem cost_is_first_column_mse_witness :
    1 ≤ scoreNet.batch_size ∧
      ∃ (l : Layer ℚ) (labels : Mat ℚ), scoreNet.layers[scoreNet.length - 1]? = some l ∧
        scoreNet.labels = some labels ∧
        scoreNet.cost = some (1 / (scoreNet.batch_size : ℚ) *
          ∑ i in Finset.range scoreNet.batch_size,
            (labels.coeff i 0 - l.contents.coeff i 0) ^ 2) :=
  ⟨by decide, _, _, rfl, rfl, cost_is_first_column_mse scoreNet
    ⟨⟨2, 1, fun j _ => if j = 0 then 1 else 0⟩, Mat.const 2 1 0, Mat.const 2 1 0, none, none,
      some activations.linear, some activations.linear_deriv⟩
    ⟨2, 1, fun _ _ => 1⟩ (by decide) rfl rfl rfl rfl (by decide) (by decide) (by decide)⟩

/-- Witness of C5: the batch `scoreNet` of two rows with predictions `1, 0` and labels
`1, 1`. -/
theorem accuracy_is_fraction_in_unit_interval_witness :
    1 ≤ scoreNet.batch_size ∧
      ∃ q : ℚ, scoreNet.accuracy = some q ∧ 0 ≤ q ∧ q ≤ 1 :=
  ⟨by decide, _, accuracy_is_fraction_in_unit_interval scoreNet
    ⟨⟨2, 1, fun j _ => if j = 0 then 1 else 0⟩, Mat.const 2 1 0, Mat.const 2 1 0, none, none,
      some activations.linear, some activations.linear_deriv⟩
    ⟨2, 1, fun _ _ => 1⟩ (by decide) rfl rfl rfl rfl (by decide) (by decide) (by decide)⟩

/-- C6, as stated, fails: in the batch `halfNet` of one row with label `1/2` and prediction
`1 = round(1/2)` every prediction equals the rounded label, and `Network::accuracy` returns
0; in the batch `emptyNet` of no rows it returns no number at all. -/
theorem accuracy_rounded_label_counterexample :
    (∀ i < halfNet.batch_size,
        (halfNet.contentsAt 1).coeff i 0 = cround (halfNet.labelsMat.coeff i 0)) ∧
      halfNet.accuracy = some 0 ∧
      (∀ i < emptyNet.batch_size,
        (emptyNet.contentsAt 1).coeff i 0 = cround (emptyNet.labelsMat.coeff i 0)) ∧
      emptyNet.accuracy = none := by
  have h1 : cround (1 / 2 : ℚ) = 1 := by
    unfold cround
    rw [if_pos (by norm_num)]
    norm_num
  have h2 : cround (1 : ℚ) = 1 := by
    simpa using cround_intCast (α := ℚ) 1
  refine ⟨fun i _ => ?_, ?_, fun i hi => absurd hi (Nat.not_lt_zero i), ?_⟩
  · show (1 : ℚ) = cround (1 / 2 : ℚ)
    rw [h1]
  · simp [halfNet, Network.accuracy, twoLayer, Mat.get?, h2, List.range_succ]
  · simp [emptyNet, Network.accuracy, twoLayer]

/-- C6, amended. For every batch of `batch_size >= 1` rows with a first column in which each
label `labels(i,0)` is an integer and each prediction `contents_last(i,0)` equals
`round(labels(i,0))`, `Network::accuracy` returns exactly 1. -/
theorem accuracy_one_on_integer_labels [FloorRing α] (net : Network α) (l : Layer α)
    (labels : Mat α) (hlen : 0 < net.length) (hl : net.layers[net.length - 1]? = some l)
    (hlab : net.labels = some labels) (hrows : l.contents.rows = net.batch_size)
    (hlrows : labels.rows = net.batch_size) (hcols : 0 < l.contents.cols)
    (hlcols : 0 < labels.cols) (hb : 1 ≤ net.batch_size)
    (hint : ∀ i < net.batch_size, ∃ z : Int, labels.coeff i 0 = (z : α))
    (hpred : ∀ i < net.batch_size, l.contents.coeff i 0 = cround (labels.coeff i 0)) :
    net.accuracy = some 1 := by
  rw [Network.accuracy_eq_fraction net l labels hlen hl hlab hrows hlrows hcols hlcols hb]
  have hall : (Finset.range net.batch_size).filter
      (fun i => labels.coeff i 0 = cround (l.contents.coeff i 0)) = Finset.range net.batch_size := by
    apply Finset.filter_true_of_mem
    intro i hi
    have hi' := Finset.mem_range.mp hi
    obtain ⟨z, hz⟩ := hint i hi'
    rw [hpred i hi', hz, cround_intCast, cround_intCast]
  have hbpos : (net.batch_size : α) ≠ 0 := by
    have : (0 : α) < (net.batch_size : α) := by exact_mod_cast hb
    exact ne_of_gt this
  rw [hall, Finset.card_range, div_self hbpos]

/-- Witness of amended C6: the batch `unitNet` of one row with label 1 and prediction 1. -/
theorem accuracy_one_on_integer_labels_witness :
    1 ≤ unitNet.batch_size ∧ unitNet.accuracy = some 1 :=
  ⟨by decide, accuracy_one_on_integer_labels unitNet
    ⟨⟨1, 1, fun _ _ => 1⟩, Mat.const 1 1 0, Mat.const 1 1 0, none, none,
      some activations.linear, some activations.linear_deriv⟩
    ⟨1, 1, fun _ _ => 1⟩ (by decide) rfl rfl
    rfl rfl (by decide) (by decide) (by decide) (fun _ _ => ⟨1, by norm_num⟩)
    (fun _ _ => by simpa using (cround_intCast (α := ℚ) 1).symm)⟩

/-- C8. On a well-formed network of at least two layers `Network::backpropagate` returns;
for every edge `i` from 0 to `length-2`, with `w` and `pu` the weights and `prev_update` of
layer `i` on entry: the vector `gradients` holds at `length-2-i` the error signal `g_{i+1}`
of layer `i+1`, the vector `deltas` holds at `length-2-i` the gradient
`delta_i = contents_i^T * g_{i+1}`, and the weights of layer `i` in the result are
`w - (0.9 * pu + learning_rate * delta_i)`. -/
theorem backpropagate_weight_update (net : Network α) (dims : List Nat)
    (h : net.WellFormed dims) (h2 : 2 ≤ net.length) :
    ∃ post gradients deltas,
      net.backpropSignals = some (gradients, deltas) ∧ net.backpropagate = some post ∧
      ∀ i, i + 1 < net.length →
        ∃ l0 w pu g d lpost, net.layers[i]? = some l0 ∧ l0.weights = some w ∧
          l0.prev_update = some pu ∧
          gradients[net.length - 2 - i]? = some g ∧ g = net.errorSignal (i + 1) ∧
          deltas[net.length - 2 - i]? = some d ∧ d = l0.contents.transpose.mul g ∧
          post.layers[i]? = some lpost ∧
          lpost.weights
            = some (w.sub ((Mat.smul (9 / 10) pu).add (Mat.smul net.learning_rate d))) ∧
          ∀ a b, (w.sub ((Mat.smul (9 / 10) pu).add (Mat.smul net.learning_rate d))).coeff a b
            = w.coeff a b - (9 / 10 * pu.coeff a b + net.learning_rate * d.coeff a b) := by
  have hlen := h.length_eq
  obtain ⟨post, hpost, hu⟩ := h.backpropagate_eq (by omega)
  refine ⟨post, _, _, h.backpropSignals_eq (by omega), hpost, ?_⟩
  intro i hi
  obtain ⟨l0, lpost, hl0, hlp, hw, -, -, -, -⟩ := hu.layer_updated h (k := i) (by omega)
  obtain ⟨l0', n, n', hl0', -, -, hw0, hp0, -, -, -, -⟩ := h.edge_data (i := i) (by omega)
  rw [hl0] at hl0'
  cases hl0'
  rw [if_pos hi] at hw
  refine ⟨l0, net.weightsAt i, net.prevUpdateAt i, net.errorSignal (i + 1), net.delta i, lpost,
    hl0, hw0, hp0, ?_, rfl, ?_, ?_, hlp, hw, fun _ _ => rfl⟩
  · rw [getElem?_map_range _ (by omega)]
    show some (net.signalBack (net.length - 2 - i)) = some (net.signalBack (net.length - 1 - (i + 1)))
    rw [show net.length - 1 - (i + 1) = net.length - 2 - i by omega]
  · rw [getElem?_map_range _ (by omega)]
    show some (net.delta (net.length - 2 - (net.length - 2 - i))) = _
    rw [show net.length - 2 - (net.length - 2 - i) = i by omega]
  · show (net.contentsAt i).transpose.mul _ = _
    rw [Network.contentsAt_eq hl0]

/-- Witness of C8: the chain `chain3`. -/
theorem backpropagate_weight_update_witness :
    chain3.WellFormed [4, 1, 1] ∧ 2 ≤ chain3.length ∧
      ∃ post gradients deltas,
        chain3.backpropSignals = some (gradients, deltas) ∧ chain3.backpropagate = some post ∧
        ∀ i, i + 1 < chain3.length →
          ∃ l0 w pu g d lpost, chain3.layers[i]? = some l0 ∧ l0.weights = some w ∧
            l0.prev_update = some pu ∧
            gradients[chain3.length - 2 - i]? = some g ∧ g = chain3.errorSignal (i + 1) ∧
            deltas[chain3.length - 2 - i]? = some d ∧ d = l0.contents.transpose.mul g ∧
            post.layers[i]? = some lpost ∧
            lpost.weights
              = some (w.sub ((Mat.smul (9 / 10) pu).add (Mat.smul chain3.learning_rate d))) ∧
            ∀ a b,
              (w.sub ((Mat.smul (9 / 10) pu).add (Mat.smul chain3.learning_rate d))).coeff a b
                = w.coeff a b - (9 / 10 * pu.coeff a b + chain3.learning_rate * d.coeff a b) :=
  ⟨chain3_wellFormed, by decide,
    backpropagate_weight_update chain3 [4, 1, 1] chain3_wellFormed (by decide)⟩

/-- C9. On a well-formed network of at least two layers `Network::backpropagate` returns;
for every layer `j` from 1 to `length-1` the vector `gradients` holds at `length-1-j` the
error signal `g_j`, and the bias of layer `j` in the result is `bias_j - bias_lr * g_j`, with
`bias_j` the bias on entry; the bias of the input layer is unchanged. -/
theorem backpropagate_bias_update (net : Network α) (dims : List Nat)
    (h : net.WellFormed dims) (h2 : 2 ≤ net.length) :
    ∃ post gradients deltas,
      net.backpropSignals = some (gradients, deltas) ∧ net.backpropagate = some post ∧
      (∃ l0 lpost, net.layers[0]? = some l0 ∧ post.layers[0]? = some lpost ∧
        lpost.bias = l0.bias) ∧
      ∀ j, 1 ≤ j → j < net.length →
        ∃ l0 g lpost, net.layers[j]? = some l0 ∧
          gradients[net.length - 1 - j]? = some g ∧ g = net.errorSignal j ∧
          post.layers[j]? = some lpost ∧
          lpost.bias = l0.bias.sub (Mat.smul net.bias_lr g) ∧
          ∀ a b, (l0.bias.sub (Mat.smul net.bias_lr g)).coeff a b
            = l0.bias.coeff a b - net.bias_lr * g.coeff a b := by
  have hlen := h.length_eq
  obtain ⟨post, hpost, hu⟩ := h.backpropagate_eq (by omega)
  refine ⟨post, _, _, h.backpropSignals_eq (by omega), hpost, ?_, ?_⟩
  · obtain ⟨l0, lpost, hl0, hlp, -, hb, -, -, -⟩ := hu.layer_updated h (k := 0) (by omega)
    rw [if_neg (by omega)] at hb
    exact ⟨l0, lpost, hl0, hlp, hb⟩
  · intro j hj1 hj
    obtain ⟨l0, lpost, hl0, hlp, -, hb, -, -, -⟩ := hu.layer_updated h (k := j) hj
    rw [if_pos hj1] at hb
    refine ⟨l0, net.errorSignal j, lpost, hl0, ?_, rfl, hlp, ?_, fun _ _ => rfl⟩
    · rw [getElem?_map_range _ (by omega)]
      rfl
    · rw [hb]
      show (net.biasAt j).sub _ = _
      rw [Network.biasAt_eq hl0]

/-- Witness of C9: the chain `chain3`. -/
theorem backpropagate_bias_update_witness :
    chain3.WellFormed [4, 1, 1] ∧ 2 ≤ chain3.length ∧
      ∃ post gradients deltas,
        chain3.backpropSignals = some (gradients, deltas) ∧ chain3.backpropagate = some post ∧
        (∃ l0 lpost, chain3.layers[0]? = some l0 ∧ post.layers[0]? = some lpost ∧
          lpost.bias = l0.bias) ∧
        ∀ j, 1 ≤ j → j < chain3.length →
          ∃ l0 g lpost, chain3.layers[j]? = some l0 ∧
            gradients[chain3.length - 1 - j]? = some g ∧ g = chain3.errorSignal j ∧
            post.layers[j]? = some lpost ∧
            lpost.bias = l0.bias.sub (Mat.smul chain3.bias_lr g) ∧
            ∀ a b, (l0.bias.sub (Mat.smul chain3.bias_lr g)).coeff a b
              = l0.bias.coeff a b - chain3.bias_lr * g.coeff a b :=
  ⟨chain3_wellFormed, by decide,
    backpropagate_bias_update chain3 [4, 1, 1] chain3_wellFormed (by decide)⟩

/-- C10. For every layer whose `m` has the shape of its weights, every gradient `delta` of
that shape, learning rate `lr` and coefficient `beta`, one call of the optimizer returned by
`optimizers::momentum(beta)` returns; it changes the weights to
`weights - (beta * m_prev + lr * delta)`, with `m_prev` the `m` before the call, sets `m` to
`lr * delta` and leaves `v` alone. -/
theorem momentum_update (beta lr : α) (layer : OptLayer α) (delta : Mat α)
    (hd : delta.shape = layer.weights.shape) (hm : layer.m.shape = layer.weights.shape) :
    ∃ post, optimizers.momentum beta layer delta lr = some post ∧
      post.weights = layer.weights.sub ((Mat.smul beta layer.m).add (Mat.smul lr delta)) ∧
      post.weights.shape = layer.weights.shape ∧
      (∀ a b, post.weights.coeff a b =
        layer.weights.coeff a b - (beta * layer.m.coeff a b + lr * delta.coeff a b)) ∧
      post.m = Mat.smul lr delta ∧ post.m.shape = layer.weights.shape ∧
      (∀ a b, post.m.coeff a b = lr * delta.coeff a b) ∧ post.v = layer.v := by
  simp only [Mat.shape, Prod.mk.injEq] at hd hm
  refine ⟨⟨layer.weights.sub ((Mat.smul beta layer.m).add (Mat.smul lr delta)),
    Mat.smul lr delta, layer.v⟩, ?_, rfl, rfl, fun _ _ => rfl, rfl, ?_, fun _ _ => rfl, rfl⟩
  · simp only [optimizers.momentum, Option.pure_def, Option.bind_eq_bind]
    rw [Mat.add?_eq_some (by show layer.m.rows = delta.rows; rw [hm.1, hd.1])
      (by show layer.m.cols = delta.cols; rw [hm.2, hd.2])]
    simp only [Option.some_bind]
    rw [Mat.sub?_eq_some (by show _ = layer.m.rows; rw [hm.1])
      (by show _ = layer.m.cols; rw [hm.2])]
    rfl
  · show (delta.rows, delta.cols) = _
    rw [hd.1, hd.2]
    rfl

/-- Witness of C10: a 2 by 1 layer with weights 1, `m` equal to 1/2 and gradient 3, updated
with `beta = 9/10` and learning rate 1/100. -/
theorem momentum_update_witness :
    (Mat.const 2 1 (3 : ℚ)).shape = (Mat.const 2 1 (1 : ℚ)).shape ∧
      ∃ post, optimizers.momentum (9 / 10 : ℚ)
          ⟨Mat.const 2 1 1, Mat.const 2 1 (1 / 2), Mat.const 2 1 0⟩ (Mat.const 2 1 3) (1 / 100)
          = some post ∧
        ∀ a b, post.weights.coeff a b = 1 - (9 / 10 * (1 / 2) + 1 / 100 * 3) :=
  ⟨rfl, by
    obtain ⟨post, h1, -, -, h2, -⟩ := momentum_update (9 / 10 : ℚ) (1 / 100)
      ⟨Mat.const 2 1 1, Mat.const 2 1 (1 / 2), Mat.const 2 1 0⟩ (Mat.const 2 1 3) rfl rfl
    exact ⟨post, h1, h2⟩⟩

/-- C15. `Network::add_layer` ends the process with status 1 exactly when the name is none
of sigmoid, linear, step, tanh, lecun_tanh, inverse_logit, cloglog, softplus, relu, resig.
For each of these names, on a network whose `length` is the size of `layers`, it returns
with exactly one layer appended: the layer `Layer(batch_size, nodes)`, of `nodes` columns,
carrying the pair of callbacks that the chain of `add_layer` assigns for the name; nothing
else changes except `length`, which grows by one.  The pairs are listed. -/
theorem add_layer_exits_iff_unregistered (p : Prims α) (net : Network α) (nodes : Nat)
    (name : String) (heap : Nat → Nat → Nat → α) :
    (net.add_layer p nodes name heap = Except.error 1 ↔ name ∉ registeredNames) ∧
    (name ∈ registeredNames → net.length = net.layers.length →
      ∃ l f f' post, Layer.new net.batch_size nodes heap = some l ∧
        lookupActivation p name = some (f, f') ∧
        net.add_layer p nodes name heap = Except.ok post ∧
        post.layers = net.layers ++ [l.withActivation f f'] ∧
        post.layers.length = net.layers.length + 1 ∧
        post.length = net.length + 1 ∧ post.batch_size = net.batch_size ∧
        post.labels = net.labels ∧ post.instances = net.instances ∧
        post.batches = net.batches ∧ post.learning_rate = net.learning_rate ∧
        post.bias_lr = net.bias_lr ∧
        (l.withActivation f f').contents.shape = (net.batch_size, nodes) ∧
        (l.withActivation f f').activation = some f ∧
        (l.withActivation f f').activation_deriv = some f') ∧
    lookupActivation p "sigmoid" = some (activations.sigmoid p, activations.sigmoid_deriv p) ∧
    lookupActivation p "linear" = some (activations.linear, activations.linear_deriv) ∧
    lookupActivation p "step" = some (activations.step, activations.step_deriv) ∧
    lookupActivation p "tanh" = some (p.mytanh, p.tanh_deriv) ∧
    lookupActivation p "lecun_tanh"
      = some (activations.lecun_tanh, activations.lecun_tanh_deriv p) ∧
    lookupActivation p "inverse_logit"
      = some (activations.inverse_logit p, activations.inverse_logit_deriv p) ∧
    lookupActivation p "cloglog" = some (activations.cloglog p, activations.cloglog_deriv p) ∧
    lookupActivation p "softplus"
      = some (activations.softplus p, activations.softplus_deriv p) ∧
    lookupActivation p "relu" = some (activations.rectifier activations.linear,
      activations.rectifier activations.linear_deriv) ∧
    lookupActivation p "resig" = some (activations.rectifier (activations.sigmoid p),
      activations.rectifier (activations.sigmoid_deriv p)) := by
  refine ⟨(Network.add_layer_exit p net nodes name heap).trans
    (lookupActivation_eq_none p name), ?_, rfl, rfl, rfl, rfl, rfl, rfl, rfl, rfl, rfl, rfl⟩
  intro hname hlen
  have hsome : ∃ f f', lookupActivation p name = some (f, f') := by
    cases hlook : lookupActivation p name with
    | none => exact absurd hname ((lookupActivation_eq_none p name).mp hlook)
    | some ff => exact ⟨ff.1, ff.2, rfl⟩
  obtain ⟨f, f', hff⟩ := hsome
  obtain ⟨l, hl, hadd, hc, -, -⟩ := Network.add_layer_push p net nodes name heap hlen hff
  exact ⟨l, f, f', _, hl, hff, hadd, rfl, by simp [Network.pushLayer], rfl, rfl, rfl, rfl, rfl,
    rfl, rfl, hc, rfl, rfl⟩

/-- Witness of C15: the call `add_layer(3, "relu")` on the empty network of batch size 2
appends one layer of 3 columns; the call with the name "gelu" ends with status 1. -/
theorem add_layer_exits_iff_unregistered_witness :
    "relu" ∈ registeredNames ∧
      (Network.new 8 2 (1 / 10 : ℚ) (1 / 10)).length
        = (Network.new 8 2 (1 / 10 : ℚ) (1 / 10)).layers.length ∧
      (∃ l post, Network.add_layer zeroPrims (Network.new 8 2 (1 / 10 : ℚ) (1 / 10)) 3 "relu"
          (fun _ _ _ => 0) = Except.ok post ∧
        post.layers = [l] ∧ post.length = 1 ∧ l.contents.shape = (2, 3)) ∧
      Network.add_layer zeroPrims (Network.new 8 2 (1 / 10 : ℚ) (1 / 10)) 3 "gelu"
        (fun _ _ _ => 0) = Except.error 1 :=
  ⟨by decide, rfl, by
      obtain ⟨l, f, f', post, -, -, h1, h2, -, h3, -, -, -, -, -, -, h4, -⟩ :=
        (add_layer_exits_iff_unregistered zeroPrims (Network.new 8 2 (1 / 10 : ℚ) (1 / 10)) 3
          "relu" (fun _ _ _ => 0)).2.1 (by decide) rfl
      exact ⟨_, post, h1, h2, h3, h4⟩,
    (add_layer_exits_iff_unregistered zeroPrims (Network.new 8 2 (1 / 10 : ℚ) (1 / 10)) 3
      "gelu" (fun _ _ _ => 0)).1.mpr (by decide)⟩

/-- C16. For every base function `g` and input `x`, `rectifier(g)(x)` is `g(x)` when `x > 0`
and 0 otherwise; the chain of `add_layer` registers under "relu" the pair `rectifier(linear)`,
`rectifier(linear_deriv)`, which are `x -> (x if x > 0 else 0)` and
`x -> (1 if x > 0 else 0)`, and a call `add_layer(nodes, "relu")` stores that pair in the
layer it appends. -/
theorem rectifier_zeroes_nonpositive (p : Prims α) (g : α → α) (x : α) (net : Network α)
    (nodes : Nat) (heap : Nat → Nat → Nat → α) :
    activations.rectifier g x = (if x > 0 then g x else 0) ∧
    lookupActivation p "relu" = some (activations.rectifier activations.linear,
      activations.rectifier activations.linear_deriv) ∧
    activations.rectifier activations.linear x = (if x > 0 then x else 0) ∧
    activations.rectifier activations.linear_deriv x = (if x > 0 then 1 else 0) ∧
    (net.length = net.layers.length →
      ∃ l post, net.add_layer p nodes "relu" heap = Except.ok post ∧
        post.layers = net.layers ++ [l] ∧
        l.activation.map (fun f => f x) = some (if x > 0 then x else 0) ∧
        l.activation_deriv.map (fun f => f x) = some (if x > 0 then 1 else 0)) := by
  refine ⟨rfl, rfl, rfl, rfl, ?_⟩
  intro hlen
  have hpair : lookupActivation p "relu" = some (activations.rectifier activations.linear,
      activations.rectifier activations.linear_deriv) := rfl
  obtain ⟨l, -, hadd, -⟩ := Network.add_layer_push p net nodes "relu" heap hlen hpair
  exact ⟨_, _, hadd, rfl, rfl, rfl⟩

/-- Witness of C16: the rectified sigmoid at -2 and the "relu" layer added to the empty
network, at 3. -/
theorem rectifier_zeroes_nonpositive_witness :
    activations.rectifier (activations.sigmoid zeroPrims) (-2 : ℚ) = 0 ∧
      activations.rectifier activations.linear (3 : ℚ) = 3 ∧
      (Network.new 8 2 (1 / 10 : ℚ) (1 / 10)).length
        = (Network.new 8 2 (1 / 10 : ℚ) (1 / 10)).layers.length ∧
      ∃ l post, Network.add_layer zeroPrims (Network.new 8 2 (1 / 10 : ℚ) (1 / 10)) 3 "relu"
          (fun _ _ _ => 0) = Except.ok post ∧
        post.layers = [l] ∧ l.activation.map (fun f => f 3) = some 3 :=
  ⟨by
      rw [(rectifier_zeroes_nonpositive zeroPrims (activations.sigmoid zeroPrims) (-2 : ℚ)
        (Network.new 8 2 (1 / 10 : ℚ) (1 / 10)) 3 (fun _ _ _ => 0)).1]
      norm_num,
    by
      rw [(rectifier_zeroes_nonpositive zeroPrims (activations.sigmoid zeroPrims) (3 : ℚ)
        (Network.new 8 2 (1 / 10 : ℚ) (1 / 10)) 3 (fun _ _ _ => 0)).2.2.1]
      norm_num,
    rfl, by
      obtain ⟨l, post, h1, h2, h3, -⟩ :=
        (rectifier_zeroes_nonpositive zeroPrims (activations.sigmoid zeroPrims) (3 : ℚ)
          (Network.new 8 2 (1 / 10 : ℚ) (1 / 10)) 3 (fun _ _ _ => 0)).2.2.2.2 rfl
      refine ⟨l, post, h1, h2, ?_⟩
      rw [h3]
      norm_num⟩

/-- C17 fails for `dZ`.  The constructor `Layer(1, 1)`, run on storage that holds 7
everywhere, returns a layer whose three matrices are 1 by 1 and whose `contents` and `bias`
are 0, but whose `dZ` holds 7: the last statement of the constructor replaces the zeroed
`dZ` by a fresh allocation that nothing writes to. -/
theorem layer_constructor_dZ_not_zeroed :
    ∃ l, Layer.new 1 1 sevens = some l ∧ l.contents.shape = (1, 1) ∧ l.dZ.shape = (1, 1) ∧
      l.bias.shape = (1, 1) ∧ l.contents.coeff 0 0 = 0 ∧ l.bias.coeff 0 0 = 0 ∧
      l.dZ.coeff 0 0 = 7 ∧ l.dZ.coeff 0 0 ≠ 0 := by
  obtain ⟨l, hl, hc, hb, hd, hc0, hb0⟩ := Layer.new_spec 1 1 sevens
  refine ⟨l, hl, hc, ?_, hb, hc0 0 0 (by decide) (by decide), hb0 0 0 (by decide) (by decide),
    ?_, ?_⟩
  · rw [hd]
    rfl
  · rw [hd]
    rfl
  · rw [hd]
    show (7 : ℚ) ≠ 0
    norm_num

/-- C18 fails for the entries of `prev_update`.  On two layers of one node, with storage
that holds 7 everywhere, `init_weights` returns weights and a `prev_update` of shape
(1, 1), but the entry of `prev_update` is 7: the matrix is allocated and never written to.
After `Network::initialize` on the network of these two layers the first layer is in that
state, and the last layer has no `prev_update`. -/
theorem init_weights_prev_update_not_zeroed :
    (∃ l w pu, unitLayer.init_weights unitLayer (fun _ => 1 / 2) sevens = some l ∧
      l.weights = some w ∧ l.prev_update = some pu ∧ w.shape = (1, 1) ∧ pu.shape = (1, 1) ∧
      pu.coeff 0 0 = 7 ∧ pu.coeff 0 0 ≠ 0) ∧
    prevUpdateEntry
      ( Network.initialize unitPair (fun _ _ => 1 / 2) (fun _ => sevens) (fun _ _ => 0)) 0
      = some 7 ∧
    prevUpdateEntry
      ( Network.initialize unitPair (fun _ _ => 1 / 2) (fun _ => sevens) (fun _ _ => 0)) 1
      = none := by
  obtain ⟨w, hw, hs⟩ := Layer.init_weights_spec unitLayer unitLayer (fun _ => (1 / 2 : ℚ))
    sevens
  refine ⟨⟨_, w, _, hw, rfl, rfl, hs, rfl, rfl, ?_⟩, ?_, ?_⟩
  · show (7 : ℚ) ≠ 0
    norm_num
  · rfl
  · rfl

/-- Counterexample to C20: at `x = 100` the registered `lecun_tanh` is below 0.6, whereas
`1.7159 * tanh(0.66 * 100)` is above 0.85. -/
theorem lecun_tanh_counterexample :
    activations.lecun_tanh (100 : ℝ) < 6 / 10 ∧
      85 / 100 < 17159 / 10000 * Real.tanh (66 / 100 * 100) ∧
      activations.lecun_tanh (100 : ℝ) ≠ 17159 / 10000 * Real.tanh (66 / 100 * 100) := by
  have e : (66 / 100 * 100 : ℝ) = 66 := by norm_num
  have h1 : activations.lecun_tanh (100 : ℝ) < 6 / 10 := by
    unfold activations.lecun_tanh
    rw [e, ftanh_66]
    norm_num
  have h2 : (85 / 100 : ℝ) < 17159 / 10000 * Real.tanh (66 / 100 * 100) := by
    rw [e]
    have := half_lt_tanh_66
    linarith
  exact ⟨h1, h2, fun h => by rw [h] at h1; linarith⟩

/-- C20, amended.  For every real `x`, the registered `lecun_tanh(x)` is `1.7159 * r(0.66 * x)`
for the rational function `r(y) = y (10 + y^2) (60 + y^2) / (600 + 270 y^2 + 11 y^4 + y^6 / 24)`
of `ftanh`, whose divisor is positive; it is odd and agrees with `1.7159 * tanh(0.66 * x)`
at `x = 0`. -/
theorem lecun_tanh_is_rational (x : ℝ) :
    activations.lecun_tanh x = 17159 / 10000 *
        ((66 / 100 * x) * (10 + (66 / 100 * x) ^ 2) * (60 + (66 / 100 * x) ^ 2) /
          (600 + 270 * (66 / 100 * x) ^ 2 + 11 * (66 / 100 * x) ^ 4 + (66 / 100 * x) ^ 6 / 24)) ∧
      0 < 600 + 270 * (66 / 100 * x) ^ 2 + 11 * (66 / 100 * x) ^ 4 + (66 / 100 * x) ^ 6 / 24 ∧
      activations.lecun_tanh (-x) = -activations.lecun_tanh x ∧
      activations.lecun_tanh (0 : ℝ) = 17159 / 10000 * Real.tanh (66 / 100 * 0) := by
  refine ⟨rfl, ftanh_divisor_pos _, ?_, ?_⟩
  · unfold activations.lecun_tanh activations.ftanh
    have e : (66 / 100 * -x : ℝ) = -(66 / 100 * x) := by ring
    rw [e]
    have e2 : (-(66 / 100 * x)) ^ 2 = (66 / 100 * x) ^ 2 := by ring
    have e4 : (-(66 / 100 * x)) ^ 4 = (66 / 100 * x) ^ 4 := by ring
    have e6 : (-(66 / 100 * x)) ^ 6 = (66 / 100 * x) ^ 6 := by ring
    rw [e2, e4, e6]
    ring
  · unfold activations.lecun_tanh activations.ftanh
    simp

/-- C11 fails on two calls made within one epoch.  The optimizer `demon(0.9, 50)` is
called twice in a row on a layer with one weight (gradient 1, learning rate 0.1).  The first
call uses `beta = 0.9`; the second uses `beta = 441/491`, the decayed coefficient for
`t = 1`, because the counter is incremented by every call and not once per epoch; the second
step on the weight therefore differs from the step with the coefficient 0.9 of the first
call. -/
theorem demon_counter_advances_every_call :
    ∃ l1 c1 l2 c2,
      (optimizers.demon (9 / 10 : ℚ) 50).call unitOpt (Mat.const 1 1 1) (1 / 10) = some (l1, c1) ∧
      c1.call l1 (Mat.const 1 1 1) (1 / 10) = some (l2, c2) ∧
      c1.beta = 9 / 10 ∧ c1.epochs = 1 ∧ c2.beta = 441 / 491 ∧ c2.epochs = 2 ∧
      c2.beta ≠ c1.beta ∧
      l2.weights.coeff 0 0
        = l1.weights.coeff 0 0 - (441 / 491 * l1.m.coeff 0 0 + 1 / 10 * 1) ∧
      l2.weights.coeff 0 0
        ≠ l1.weights.coeff 0 0 - (9 / 10 * l1.m.coeff 0 0 + 1 / 10 * 1) := by
  have hs : unitOpt.Shaped 1 1 := ⟨rfl, rfl, rfl⟩
  have hd : (Mat.const 1 1 (1 : ℚ)).shape = (1, 1) := rfl
  have h1 := optimizers.Demon.call_eq (optimizers.demon (9 / 10 : ℚ) 50) (1 / 10) unitOpt
    (Mat.const 1 1 1) hs hd
  rw [if_pos (by simp only [optimizers.demon]; norm_num)] at h1
  have b1 : decayedBeta (9 / 10 : ℚ) 0 50 = 9 / 10 := by
    unfold decayedBeta
    norm_num
  simp only [optimizers.demon, b1] at h1
  have h2 := optimizers.Demon.call_eq (⟨50, 0 + 1, 9 / 10, 9 / 10⟩ : optimizers.Demon ℚ)
    (1 / 10) ⟨unitOpt.weights.sub ((Mat.smul (9 / 10) unitOpt.m).add (Mat.smul (1 / 10)
      (Mat.const 1 1 1))), Mat.smul (1 / 10) (Mat.const 1 1 1), unitOpt.v⟩ (Mat.const 1 1 1)
    (r := 1) (c := 1) ⟨rfl, rfl, rfl⟩ hd
  rw [if_pos (by norm_num)] at h2
  have b2 : decayedBeta (9 / 10 : ℚ) (0 + 1) 50 = 441 / 491 := by
    unfold decayedBeta
    norm_num
  simp only [b2] at h2
  refine ⟨_, _, _, _, h1, h2, rfl, by norm_num, rfl, by norm_num, by norm_num, rfl, ?_⟩
  show (unitOpt.weights.sub ((Mat.smul (9 / 10) unitOpt.m).add (Mat.smul (1 / 10)
      (Mat.const 1 1 1)))).coeff 0 0 - (441 / 491 * (1 / 10 * 1) + 1 / 10 * 1)
    ≠ (unitOpt.weights.sub ((Mat.smul (9 / 10) unitOpt.m).add (Mat.smul (1 / 10)
      (Mat.const 1 1 1)))).coeff 0 0 - (9 / 10 * (1 / 10 * 1) + 1 / 10 * 1)
  intro h
  have := sub_right_injective h
  norm_num at this

/-- C12. For every layer whose `m` and `v` have the shape of its weights, every gradient
`delta` of that shape, learning rate `lr` and hyperparameters `beta1`, `beta2`, `epsilon`
for which every entry of `beta2 * v + (1 - beta2) * delta^2` is non-negative and has
`sqrt(..) + epsilon` different from zero, one call of the optimizer returned by
`optimizers::adam` returns; it sets `m` to `beta1 * m + (1 - beta1) * delta`, sets `v` to
`beta2 * v + (1 - beta2) * delta^2` entry by entry, and subtracts
`lr * m_new / (sqrt(v_new) + epsilon)` from each weight, with the updated `m` and `v`; the
shapes stay. -/
theorem adam_update (sqrt : α → α) (beta1 beta2 epsilon lr : α) (layer : OptLayer α)
    (delta : Mat α) (r c : Nat) (hl : layer.Shaped r c) (hd : delta.shape = (r, c))
    (hnn : ∀ j, j < r → ∀ k, k < c →
      0 ≤ beta2 * layer.v.coeff j k + (1 - beta2) * delta.coeff j k ^ 2)
    (hne : ∀ j, j < r → ∀ k, k < c →
      sqrt (beta2 * layer.v.coeff j k + (1 - beta2) * delta.coeff j k ^ 2) + epsilon ≠ 0) :
    ∃ post, optimizers.adam sqrt beta1 beta2 epsilon layer delta lr = some post ∧
      post.Shaped r c ∧
      (∀ a b, post.m.coeff a b = beta1 * layer.m.coeff a b + (1 - beta1) * delta.coeff a b) ∧
      (∀ a b, post.v.coeff a b
        = beta2 * layer.v.coeff a b + (1 - beta2) * delta.coeff a b ^ 2) ∧
      (∀ a b, post.weights.coeff a b = layer.weights.coeff a b
        - lr * (post.m.coeff a b / (sqrt (post.v.coeff a b) + epsilon))) := by
  obtain ⟨-, -, ⟨hvr, hvc⟩⟩ := hl.dims
  have hv : ∀ a b, (adamSecondMoment beta2 layer delta).coeff a b
      = beta2 * layer.v.coeff a b + (1 - beta2) * delta.coeff a b ^ 2 := by
    intro a b
    rw [pow_two]
    rfl
  have h1 : (adamSecondMoment beta2 layer delta).Forall (fun x => 0 ≤ x) := by
    intro j hj k hk
    rw [hv]
    exact hnn j (hvr ▸ hj) k (hvc ▸ hk)
  have h2 : (((adamSecondMoment beta2 layer delta).map sqrt).map
      (fun x => x + epsilon)).Forall (fun x => x ≠ 0) := by
    intro j hj k hk
    show sqrt ((adamSecondMoment beta2 layer delta).coeff j k) + epsilon ≠ 0
    rw [hv]
    exact hne j (hvr ▸ hj) k (hvc ▸ hk)
  refine ⟨_, (optimizers.adam_eq sqrt beta1 beta2 epsilon lr layer delta hl hd).trans
    (if_pos ⟨h1, h2⟩), ?_, fun _ _ => rfl, hv, ?_⟩
  · exact ⟨hl.1, hl.2.1, hl.2.2⟩
  · intro a b
    show layer.weights.coeff a b - lr * ((sqrt ((adamSecondMoment beta2 layer delta).coeff a b)
        + epsilon)⁻¹ * (adamFirstMoment beta1 layer delta).coeff a b)
      = layer.weights.coeff a b - lr * ((adamFirstMoment beta1 layer delta).coeff a b
        / (sqrt ((adamSecondMoment beta2 layer delta).coeff a b) + epsilon))
    rw [div_eq_mul_inv, mul_comm ((adamFirstMoment beta1 layer delta).coeff a b)]

/-- Witness of C12: a 2 by 1 layer with weights 1, `m` equal to 1 and `v` equal to 4, gradient
2, `beta1 = beta2 = 1/2`, `epsilon = 1` and learning rate 1/10: the new `v` is 4, its root 2,
the new `m` is 3/2 and each weight becomes `1 - 1/10 * (3/2) / 3`. -/
theorem adam_update_witness :
    columnOpt.Shaped 2 1 ∧ (Mat.const 2 1 (2 : ℚ)).shape = (2, 1) ∧
      ∃ post, optimizers.adam ratSqrt (1 / 2) (1 / 2) 1 columnOpt (Mat.const 2 1 2) (1 / 10)
          = some post ∧
        ∀ a b, post.weights.coeff a b = 19 / 20 := by
  have hv : ∀ j k : Nat, (1 / 2 : ℚ) * columnOpt.v.coeff j k
      + (1 - 1 / 2) * (Mat.const 2 1 (2 : ℚ)).coeff j k ^ 2 = 4 := by
    intro j k
    show (1 / 2 : ℚ) * 4 + (1 - 1 / 2) * 2 ^ 2 = 4
    norm_num
  obtain ⟨post, h1, -, hm, hv', hw⟩ := adam_update ratSqrt (1 / 2 : ℚ) (1 / 2) 1 (1 / 10)
    columnOpt (Mat.const 2 1 2) 2 1 ⟨rfl, rfl, rfl⟩ rfl
    (fun j _ k _ => by rw [hv]; norm_num)
    (fun j _ k _ => by
      have := ratSqrt_nonneg ((1 / 2 : ℚ) * columnOpt.v.coeff j k
        + (1 - 1 / 2) * (Mat.const 2 1 (2 : ℚ)).coeff j k ^ 2)
      linarith)
  refine ⟨⟨rfl, rfl, rfl⟩, rfl, post, h1, ?_⟩
  intro a b
  rw [hw, hv', hm, hv, ratSqrt_four]
  show (1 : ℚ) - 1 / 10 * ((1 / 2 * 1 + (1 - 1 / 2) * 2) / (2 + 1)) = 19 / 20
  norm_num

/-- C13 fails.  With `beta2 = 1/2`, `v = (4, 1)` and gradient `(1, 3)` the optimizer
`adamax` returns with `v = (1, 3)`, the absolute gradient: the sum 5/2 of `beta2 * v` does not
exceed the sum 4 of the absolute gradient, so the whole of `v` is replaced.  The entry-wise
maximum `max(beta2 * v, |delta|)` is `(2, 3)`; the first entry differs.  The update of `m` is
the claimed one. -/
theorem adamax_compares_sums_not_entries :
    ∃ post, optimizers.adamax (1 / 2 : ℚ) (1 / 2) (1 / 100) pairOpt (Mat.row2 1 3) (1 / 10)
        = some post ∧
      post.v.coeff 0 0 = 1 ∧ post.v.coeff 0 1 = 3 ∧
      max (1 / 2 * pairOpt.v.coeff 0 0) |(Mat.row2 1 3).coeff 0 0| = 2 ∧
      post.v.coeff 0 0 ≠ max (1 / 2 * pairOpt.v.coeff 0 0) |(Mat.row2 1 3).coeff 0 0| ∧
      (∀ a b, post.m.coeff a b
        = 1 / 2 * pairOpt.m.coeff a b + (1 - 1 / 2) * (Mat.row2 1 3).coeff a b) := by
  have hn : adamaxNorm (1 / 2 : ℚ) pairOpt (Mat.row2 1 3)
      = (Mat.row2 1 3).map (fun x => |x|) := by
    unfold adamaxNorm
    rw [if_neg]
    simp only [Mat.sum, Mat.smul, Mat.map, pairOpt, Mat.row2, Finset.sum_range_succ,
      Finset.sum_range_zero]
    norm_num
  have hf : (adamaxNorm (1 / 2 : ℚ) pairOpt (Mat.row2 1 3)).Forall (fun x => x ≠ 0) := by
    rw [hn]
    intro j _ k _
    show |(if k = 0 then (1 : ℚ) else 3)| ≠ 0
    split <;> norm_num
  have h := optimizers.adamax_eq (1 / 2 : ℚ) (1 / 2) (1 / 100) (1 / 10) pairOpt (Mat.row2 1 3)
    (r := 1) (c := 2) ⟨rfl, rfl, rfl⟩ rfl
  rw [if_pos hf] at h
  refine ⟨_, h, ?_, ?_, ?_, ?_, fun _ _ => rfl⟩
  · show (adamaxNorm (1 / 2 : ℚ) pairOpt (Mat.row2 1 3)).coeff 0 0 = 1
    rw [hn]
    show |(if (0 : Nat) = 0 then (1 : ℚ) else 3)| = 1
    norm_num
  · show (adamaxNorm (1 / 2 : ℚ) pairOpt (Mat.row2 1 3)).coeff 0 1 = 3
    rw [hn]
    show |(if (1 : Nat) = 0 then (1 : ℚ) else 3)| = 3
    norm_num
  · show max (1 / 2 * (if (0 : Nat) = 0 then (4 : ℚ) else 1))
      |(if (0 : Nat) = 0 then (1 : ℚ) else 3)| = 2
    norm_num
  · show (adamaxNorm (1 / 2 : ℚ) pairOpt (Mat.row2 1 3)).coeff 0 0
      ≠ max (1 / 2 * (if (0 : Nat) = 0 then (4 : ℚ) else 1))
        |(if (0 : Nat) = 0 then (1 : ℚ) else 3)|
    rw [hn]
    show |(if (0 : Nat) = 0 then (1 : ℚ) else 3)|
      ≠ max (1 / 2 * (if (0 : Nat) = 0 then (4 : ℚ) else 1))
        |(if (0 : Nat) = 0 then (1 : ℚ) else 3)|
    norm_num

/-- C14. For each of the optimizers momentum, demon, adam and adamax, over any arithmetic
`F` (no law is assumed of its operations, so the values may be infinite or NaN): if
`weights`, `m` and `v` are `r` by `c` and every gradient of a list of consecutive calls is
`r` by `c`, then the calls return and `weights`, `m` and `v` are `r` by `c` afterwards,
whatever the number of calls; so does a single call.  The exact closures of the field model
agree with them: where a run of the exact closures returns, the run over the arithmetic of
the field returns the same; on operands of one shape a call of an exact closure has no
value only when its arithmetic leaves the field (a zero divisor or the root of a negative
number), never because of a shape; a run of exact closures that returns leaves the shapes,
and the runs of the exact momentum always return. -/
theorem optimizer_shapes_preserved {β : Type} (F : FloatOps β) (o : Optimizer β)
    (layer : OptLayer β) (calls : List (Mat β × β)) (r c : Nat)
    (hw : layer.weights.shape = (r, c)) (hm : layer.m.shape = (r, c))
    (hv : layer.v.shape = (r, c)) (hd : ∀ d ∈ calls, d.1.shape = (r, c)) :
    (∃ post o', o.runOn F layer calls = some (post, o') ∧
      post.weights.shape = (r, c) ∧ post.m.shape = (r, c) ∧ post.v.shape = (r, c)) ∧
    (∀ (delta : Mat β) (lr : β), delta.shape = (r, c) →
      ∃ post o', o.callOn F layer delta lr = some (post, o') ∧
        post.weights.shape = (r, c) ∧ post.m.shape = (r, c) ∧ post.v.shape = (r, c)) ∧
    (∀ (sqrt : α → α) (oa : Optimizer α) (la : OptLayer α) (ca : List (Mat α × α))
      (res : OptLayer α × Optimizer α),
      oa.run sqrt la ca = some res → oa.runOn (fieldOps sqrt) la ca = some res) ∧
    (∀ (sqrt : α → α) (oa : Optimizer α) (la : OptLayer α) (delta : Mat α) (lr : α),
      la.Shaped r c → delta.shape = (r, c) →
      (oa.call sqrt la delta lr = none ↔ ¬ oa.Finite sqrt la delta) ∧
      ∀ post o', oa.call sqrt la delta lr = some (post, o') →
        post.weights.shape = (r, c) ∧ post.m.shape = (r, c) ∧ post.v.shape = (r, c)) ∧
    (∀ (sqrt : α → α) (oa : Optimizer α) (la : OptLayer α) (ca : List (Mat α × α)),
      la.Shaped r c → (∀ d ∈ ca, d.1.shape = (r, c)) →
      (∀ post o', oa.run sqrt la ca = some (post, o') →
        post.weights.shape = (r, c) ∧ post.m.shape = (r, c) ∧ post.v.shape = (r, c)) ∧
      ∀ beta, ∃ post, (Optimizer.momentum beta).run sqrt la ca
          = some (post, Optimizer.momentum beta) ∧
        post.weights.shape = (r, c) ∧ post.m.shape = (r, c) ∧ post.v.shape = (r, c)) := by
  refine ⟨Optimizer.runOn_shaped F calls o layer hw hm hv hd, ?_, ?_, ?_, ?_⟩
  · intro delta lr hdelta
    exact Optimizer.callOn_shaped F o layer delta lr hw hm hv hdelta
  · intro sqrt oa la ca res hres
    exact Optimizer.runOn_fieldOps sqrt ca oa la res hres
  · intro sqrt oa la delta lr hla hdelta
    exact Optimizer.call_spec sqrt oa la delta lr hla hdelta
  · intro sqrt oa la ca hla hca
    refine ⟨fun post o' h => Optimizer.run_shaped sqrt ca oa la hla hca post o' h, ?_⟩
    intro beta
    obtain ⟨post, hpost⟩ := Optimizer.run_momentum sqrt beta ca la hla hca
    exact ⟨post, hpost, Optimizer.run_shaped sqrt ca _ la hla hca post _ hpost⟩

/-- Witness of C14, over the rationals extended by a value for the results that are no
numbers.  A first call of `adamax` on a fresh layer (`v` zero) with the gradient `(0, 3)`
divides by the zero entry of the new `v`; five calls of `demon(1/2, 2)` reach a decayed
coefficient with divisor zero; a call of `adam` with `epsilon = 0` and a zero gradient divides
by the root of zero.  Each run returns with `weights`, `m` and `v` still 1 by 2; after the
call of `adamax` the first weight is no number and the second is `19/20`, where the exact
closure has no value. -/
theorem optimizer_shapes_preserved_witness :
    (∃ post o', (Optimizer.adamax (some (1 / 2)) (some (1 / 2)) (some (1 / 100))).runOn
        extendedOps freshOpt [(Mat.rowPair (some 0) (some 3), some (1 / 10))]
        = some (post, o') ∧
      post.weights.shape = (1, 2) ∧ post.m.shape = (1, 2) ∧ post.v.shape = (1, 2)) ∧
    (∃ post o', (Optimizer.demon freshDemon).runOn extendedOps freshOpt
        (List.replicate 5 (Mat.rowPair (some 1) (some 3), some (1 / 10)))
        = some (post, o') ∧
      post.weights.shape = (1, 2) ∧ post.m.shape = (1, 2) ∧ post.v.shape = (1, 2)) ∧
    (∃ post o', (Optimizer.adam (some (1 / 2)) (some (1 / 2)) (some 0)).runOn extendedOps
        freshOpt [(Mat.rowPair (some 0) (some 0), some (1 / 10))] = some (post, o') ∧
      post.weights.shape = (1, 2) ∧ post.m.shape = (1, 2) ∧ post.v.shape = (1, 2)) ∧
    (optimizers.adamaxOn extendedOps (some (1 / 2)) (some (1 / 2)) (some (1 / 100)) freshOpt
        (Mat.rowPair (some 0) (some 3)) (some (1 / 10))).map
      (fun p => (p.weights.coeff 0 0, p.weights.coeff 0 1)) = some (none, some (19 / 20)) ∧
    optimizers.adamax (1 / 2 : ℚ) (1 / 2) (1 / 100) zeroOpt (Mat.row2 0 3) (1 / 10) = none := by
  refine ⟨(@optimizer_shapes_preserved ℚ _ (Option ℚ) extendedOps
      (Optimizer.adamax (some (1 / 2)) (some (1 / 2)) (some (1 / 100))) freshOpt
      [(Mat.rowPair (some 0) (some 3), some (1 / 10))] 1 2 rfl rfl rfl (by
        intro d hd
        simp only [List.mem_singleton] at hd
        subst hd
        rfl)).1,
    (@optimizer_shapes_preserved ℚ _ (Option ℚ) extendedOps
      (Optimizer.demon freshDemon) freshOpt
      (List.replicate 5 (Mat.rowPair (some 1) (some 3), some (1 / 10))) 1 2 rfl rfl rfl (by
        intro d hd
        rw [List.eq_of_mem_replicate hd]
        rfl)).1,
    (@optimizer_shapes_preserved ℚ _ (Option ℚ) extendedOps
      (Optimizer.adam (some (1 / 2)) (some (1 / 2)) (some 0)) freshOpt
      [(Mat.rowPair (some 0) (some 0), some (1 / 10))] 1 2 rfl rfl rfl (by
        intro d hd
        simp only [List.mem_singleton] at hd
        subst hd
        rfl)).1, ?_, ?_⟩
  · simp [optimizers.adamaxOn, Mat.zip?, Mat.zip, Mat.map, Mat.sumOn, extendedOps, freshOpt,
      Mat.rowPair, List.range_succ]
    norm_num
  · have h := optimizers.adamax_eq (1 / 2 : ℚ) (1 / 2) (1 / 100) (1 / 10) zeroOpt (Mat.row2 0 3)
      (r := 1) (c := 2) ⟨rfl, rfl, rfl⟩ rfl
    rw [h, if_neg]
    intro hall
    have h00 := hall 0 (by
      show 0 < (adamaxNorm (1 / 2 : ℚ) zeroOpt (Mat.row2 0 3)).rows
      rw [(adamaxNorm_dims (1 / 2 : ℚ) zeroOpt (Mat.row2 0 3) ⟨rfl, rfl, rfl⟩ rfl).1]
      decide) 0 (by
      show 0 < (adamaxNorm (1 / 2 : ℚ) zeroOpt (Mat.row2 0 3)).cols
      rw [(adamaxNorm_dims (1 / 2 : ℚ) zeroOpt (Mat.row2 0 3) ⟨rfl, rfl, rfl⟩ rfl).2]
      decide)
    apply h00
    unfold adamaxNorm
    simp [Mat.smul, Mat.map, Mat.sum, zeroOpt, Mat.row2, Finset.sum_range_succ]
    norm_num

/-- Counterexample to C19: a file of two instances and batch size 1, so an epoch of
`instances / batch_size = 2` batches.  The loop of the epoch runs its two rounds (the counter
`batches` grows by 2), but `next_batch` is called in the first round only: of the two lines of
the file one is read, and the second instance is never loaded. -/
theorem train_epoch_counterexample :
    chainPair.instances / chainPair.batch_size = 2 ∧ twoLines.lines.length = 2 ∧
      ∃ post d cs acs, chainPair.trainLoop twoLines (fun _ _ => 0) = some (post, d, cs, acs) ∧
        post.batches = chainPair.batches + 2 ∧ d.pos = 1 ∧ d.pos ≠ twoLines.lines.length := by
  have h0 : [4, 1, 1][0]? = some 4 := rfl
  have hl : [4, 1, 1][[4, 1, 1].length - 1]? = some 1 := rfl
  obtain ⟨post, cs, acs, e, -, -, -, c⟩ := chainPair_wellFormed.trainLoop_eq
    (by decide) h0 (by decide) hl (by decide) (by decide) 2 (by decide) rfl (fun _ _ => 0)
    twoLines rfl rfl
  exact ⟨rfl, rfl, post, _, cs, acs, e, c, rfl, by decide⟩

/-- C19, amended.  For every well-formed network of at least two layers with at least 4
input nodes and an output node, every `batch_size >= 1` and every file of
`instances = k * batch_size` lines with `k >= 1`, read from its start: one epoch of
`Network::train` returns after `k` rounds (the counter `batches` grows by `k`), and after
`m` rounds the stream stands at line `min(m, k - 1) * batch_size`.  Round `m < k - 1` calls
`next_batch`, which writes the lines `m * batch_size` to `m * batch_size + batch_size - 1`
into the rows of the input layer and their labels into `labels`, then feeds that state
forward and backpropagates the result, once each.  Round `k - 1` loads nothing: it feeds
forward and backpropagates the state that round `k - 2` left, whose input layer holds the
activated batch `k - 2`.  The last `batch_size` lines of the file are never loaded.  The
epoch ends with `batches = 1` and the stream rewound. -/
theorem train_epoch_skips_final_load [FloorRing α] (net : Network α) (dims : List Nat)
    (n0 nl k : Nat) (h : net.WellFormed dims) (h2 : 2 ≤ dims.length) (h0 : dims[0]? = some n0)
    (h4 : 4 ≤ n0) (hl : dims[dims.length - 1]? = some nl) (hnl : 1 ≤ nl)
    (hb : 1 ≤ net.batch_size) (hk : 1 ≤ k) (hi : net.instances = k * net.batch_size)
    (stack : Nat → Nat → α) (data : DataFile α) (hlines : data.lines.length = net.instances)
    (hpos : data.pos = 0) :
    (∀ m, m ≤ k → ∃ post cs acs,
      ((trainIndices net.instances net.batch_size).take m).foldlM (Network.trainBatch stack)
          (net, data, 0, 0)
        = some (post, ⟨data.lines, min m (k - 1) * net.batch_size⟩, cs, acs) ∧
      post.batches = net.batches + m) ∧
    (∀ (m : Nat), m < k → ∃ (pre post : Network α) (cs acs cs' acs' : α),
      ((trainIndices net.instances net.batch_size).take m).foldlM (Network.trainBatch stack)
          (net, data, 0, 0)
        = some (pre, ⟨data.lines, m * net.batch_size⟩, cs, acs) ∧
      ((trainIndices net.instances net.batch_size).take (m + 1)).foldlM
          (Network.trainBatch stack) (net, data, 0, 0)
        = some (post, ⟨data.lines, min (m + 1) (k - 1) * net.batch_size⟩, cs', acs') ∧
      pre.batches = net.batches + m ∧ post.batches = net.batches + (m + 1) ∧
      (m + 1 < k →
        pre.LoadedRound post data.lines (m * net.batch_size) (stack (m * net.batch_size))) ∧
      (m + 1 = k → pre.IdleRound post ∧
        (2 ≤ k → pre.HoldsActivated data.lines ((k - 2) * net.batch_size)))) ∧
    (∃ post cs acs, net.trainLoop data stack
        = some (post, ⟨data.lines, (k - 1) * net.batch_size⟩, cs, acs) ∧
      post.batches = net.batches + k ∧ post.WellFormed dims ∧
      ∃ final, net.trainEpoch data stack = some (final, ⟨data.lines, 0⟩) ∧
        final.batches = 1 ∧ final.layers = post.layers) ∧
    (k - 1) * net.batch_size + net.batch_size = data.lines.length := by
  refine ⟨?_, ?_, ?_, ?_⟩
  · intro m hm
    obtain ⟨post, cs, acs, e, -, -, -, c⟩ :=
      h.trainRounds h2 h0 h4 hl hnl hb k hk hi stack data hlines hpos m hm
    refine ⟨post, cs, acs, ?_, c⟩
    rw [hi, trainIndices_take k _ m hk hb hm]
    exact e
  · intro m hm
    obtain ⟨pre, post, cs, acs, cs', acs', epre, -, epost, cpre, cpost, hload, hidle⟩ :=
      h.trainRound_step h2 h0 h4 hl hnl hb k hk hi stack data hlines hpos m hm
    refine ⟨pre, post, cs, acs, cs', acs', ?_, ?_, cpre, cpost, fun hlt => (hload hlt).1, ?_⟩
    · rw [hi, trainIndices_take k _ m hk hb (by omega)]
      exact epre
    · rw [hi, trainIndices_take k _ (m + 1) hk hb (by omega)]
      exact epost
    · intro heq
      refine ⟨hidle heq, ?_⟩
      intro hk2
      obtain ⟨pre', post', cs1, acs1, cs2, acs2, -, -, epost', -, -, hload', -⟩ :=
        h.trainRound_step h2 h0 h4 hl hnl hb k hk hi stack data hlines hpos (m - 1) (by omega)
      have hm1 : m - 1 + 1 = m := by omega
      rw [hm1] at epost'
      rw [epre, Option.some.injEq, Prod.mk.injEq] at epost'
      have hpp : pre = post' := epost'.1
      subst hpp
      have := (hload' (by omega)).2
      have hk2' : k - 2 = m - 1 := by omega
      rw [hk2']
      exact this
  · obtain ⟨post, cs, acs, e, w, -, -, c⟩ :=
      h.trainLoop_eq h2 h0 h4 hl hnl hb k hk hi stack data hlines hpos
    refine ⟨post, cs, acs, e, c, w, ⟨post.layers, post.length, post.learning_rate, post.bias_lr,
      post.batch_size, post.labels, post.instances, 1⟩, ?_, rfl, rfl⟩
    simp only [Network.trainEpoch, e, Option.pure_def, Option.bind_eq_bind, Option.some_bind]
  · rw [hlines, hi, ← Nat.succ_mul]
    congr 1
    omega

/-- Witness of C19, amended: `chainPair`, batch size 1, over the file `twoLines` of two
instances, so `k = 2`.  The first round loads line 0 into the input layer, feeds it forward
and backpropagates; the second round loads nothing and runs on the state `s1` that the first
round left, whose input layer holds the activated line 0; line 1 is never loaded. -/
theorem train_epoch_skips_final_load_witness :
    chainPair.WellFormed [4, 1, 1] ∧ chainPair.instances = 2 * chainPair.batch_size ∧
      twoLines.lines.length = chainPair.instances ∧ twoLines.pos = 0 ∧
      ∃ (s1 s2 : Network ℚ),
        chainPair.LoadedRound s1 twoLines.lines 0 (fun _ => 0) ∧ s1.IdleRound s2 ∧
        s1.HoldsActivated twoLines.lines 0 ∧ s2.batches = 2 := by
  have T := (train_epoch_skips_final_load chainPair [4, 1, 1] 4 1 2 chainPair_wellFormed
    (by decide) rfl (by decide) rfl (by decide) (by decide) (by decide) rfl (fun _ _ => 0)
    twoLines rfl rfl).2.1
  obtain ⟨pre0, post0, cs0, acs0, cs0', acs0', epre0, epost0, -, -, hload0, -⟩ :=
    T 0 (by decide)
  obtain ⟨pre1, post1, cs1, acs1, cs1', acs1', epre1, -, -, cpost1, -, hidle1⟩ :=
    T 1 (by decide)
  have hp0 : chainPair = pre0 := by
    simp only [List.take_zero, List.foldlM_nil, Option.pure_def, Option.some.injEq,
      Prod.mk.injEq] at epre0
    exact epre0.1
  subst hp0
  have hp1 : post0 = pre1 := by
    rw [epost0, Option.some.injEq, Prod.mk.injEq] at epre1
    exact epre1.1
  subst hp1
  obtain ⟨hi1, ha1⟩ := hidle1 rfl
  exact ⟨chainPair_wellFormed, rfl, rfl, rfl, post0, post1, hload0 (by decide), hi1,
    ha1 (by decide), cpost1⟩

/-- C25. The parameter `epsilon` of `optimizers::adamax` has no effect: for every layer,
gradient, learning rate, `beta1`, `beta2` and any two values `epsilon1`, `epsilon2` the two
closures give the same result.  On operands shaped like the weights the call has a value
exactly when every entry of the updated `v` is non-zero, and then each weight has lost
`lr * m_new / v_new`, the quotient by `v` alone. -/
theorem adamax_ignores_epsilon (beta1 beta2 epsilon1 epsilon2 lr : α) (layer : OptLayer α)
    (delta : Mat α) :
    optimizers.adamax beta1 beta2 epsilon1 layer delta lr
      = optimizers.adamax beta1 beta2 epsilon2 layer delta lr ∧
    ∀ r c, layer.Shaped r c → delta.shape = (r, c) →
      ((optimizers.adamax beta1 beta2 epsilon1 layer delta lr).isSome = true ↔
        ∀ j, j < r → ∀ k, k < c → (adamaxNorm beta2 layer delta).coeff j k ≠ 0) ∧
      ∀ post, optimizers.adamax beta1 beta2 epsilon1 layer delta lr = some post →
        post.v = adamaxNorm beta2 layer delta ∧
        post.m = adamFirstMoment beta1 layer delta ∧
        ∀ a b, post.weights.coeff a b
          = layer.weights.coeff a b - lr * (post.m.coeff a b / post.v.coeff a b) := by
  refine ⟨rfl, ?_⟩
  intro r c hl hd
  obtain ⟨hnr, hnc⟩ := adamaxNorm_dims beta2 layer delta hl hd
  have hfor : (adamaxNorm beta2 layer delta).Forall (fun x => x ≠ 0) ↔
      ∀ j, j < r → ∀ k, k < c → (adamaxNorm beta2 layer delta).coeff j k ≠ 0 := by
    unfold Mat.Forall
    rw [hnr, hnc]
  rw [optimizers.adamax_eq beta1 beta2 epsilon1 lr layer delta hl hd]
  by_cases hf : (adamaxNorm beta2 layer delta).Forall (fun x => x ≠ 0)
  · rw [if_pos hf]
    refine ⟨⟨fun _ => hfor.mp hf, fun _ => rfl⟩, ?_⟩
    intro post hpost
    simp only [Option.some.injEq] at hpost
    subst hpost
    refine ⟨rfl, rfl, ?_⟩
    intro a b
    show layer.weights.coeff a b - lr * (((adamaxNorm beta2 layer delta).coeff a b)⁻¹
        * (adamFirstMoment beta1 layer delta).coeff a b)
      = layer.weights.coeff a b - lr * ((adamFirstMoment beta1 layer delta).coeff a b
        / (adamaxNorm beta2 layer delta).coeff a b)
    rw [div_eq_mul_inv, mul_comm ((adamFirstMoment beta1 layer delta).coeff a b)]
  · rw [if_neg hf]
    refine ⟨⟨fun h => Bool.noConfusion h, fun h => absurd (hfor.mpr h) hf⟩, ?_⟩
    intro post hpost
    exact Option.noConfusion hpost

/-- Witness of C25: the layer with `v = (4, 1)` and the gradient `(1, 3)`, with `epsilon`
equal to 1/100 and to 5. -/
theorem adamax_ignores_epsilon_witness :
    pairOpt.Shaped 1 2 ∧ (Mat.row2 1 3).shape = (1, 2) ∧
      optimizers.adamax (1 / 2 : ℚ) (1 / 2) (1 / 100) pairOpt (Mat.row2 1 3) (1 / 10)
        = optimizers.adamax (1 / 2 : ℚ) (1 / 2) 5 pairOpt (Mat.row2 1 3) (1 / 10) ∧
      ((optimizers.adamax (1 / 2 : ℚ) (1 / 2) (1 / 100) pairOpt (Mat.row2 1 3) (1 / 10)).isSome
          = true ↔
        ∀ j, j < 1 → ∀ k, k < 2 →
          (adamaxNorm (1 / 2 : ℚ) pairOpt (Mat.row2 1 3)).coeff j k ≠ 0) :=
  ⟨⟨rfl, rfl, rfl⟩, rfl,
    (adamax_ignores_epsilon (1 / 2 : ℚ) (1 / 2) (1 / 100) 5 (1 / 10) pairOpt (Mat.row2 1 3)).1,
    ((adamax_ignores_epsilon (1 / 2 : ℚ) (1 / 2) (1 / 100) 5 (1 / 10) pairOpt
      (Mat.row2 1 3)).2 1 2 ⟨rfl, rfl, rfl⟩ rfl).1⟩

/-- C21. On a well-formed network of at least two layers `Network::backpropagate` returns,
and the vector `gradients` that its update loop works with is computed from the state on
entry, before any weight is written: its first element is
`g_0 = (contents_last - labels)` times `dZ_last` entry by entry, and for every layer `i` from
`length-2` down to 1 the element `g_k`, `k = length-1-i`, is `(g_{k-1} * weights_i^T)` times
`dZ_i` entry by entry, with `weights_i` the weights of layer `i` on entry. -/
theorem backpropagate_error_signals (net : Network α) (dims : List Nat)
    (h : net.WellFormed dims) (h2 : 2 ≤ net.length) :
    ∃ gradients deltas post last labels,
      net.backpropSignals = some (gradients, deltas) ∧
      net.backpropagate
        = (List.range (net.length - 1)).foldlM (Network.updateAt gradients deltas) net ∧
      net.backpropagate = some post ∧ gradients.length = net.length - 1 ∧
      net.layers[net.length - 1]? = some last ∧ net.labels = some labels ∧
      gradients[0]? = some ((last.contents.sub labels).cwiseProduct last.dZ) ∧
      (∀ a b, ((last.contents.sub labels).cwiseProduct last.dZ).coeff a b
        = (last.contents.coeff a b - labels.coeff a b) * last.dZ.coeff a b) ∧
      ∀ i, 1 ≤ i → i + 1 < net.length →
        ∃ li w gprev g, net.layers[i]? = some li ∧ li.weights = some w ∧
          gradients[net.length - 2 - i]? = some gprev ∧
          gradients[net.length - 1 - i]? = some g ∧
          g = (gprev.mul w.transpose).cwiseProduct li.dZ ∧
          ∀ a b, g.coeff a b = (gprev.mul w.transpose).coeff a b * li.dZ.coeff a b := by
  have hlen := h.length_eq
  have hsig := h.backpropSignals_eq (by omega)
  obtain ⟨post, hpost, -⟩ := h.backpropagate_eq (by omega)
  obtain ⟨last, n, hlast, -, -⟩ := h.layer_exists (i := net.length - 1) (by omega)
  obtain ⟨hlab, -, -, -⟩ := h.labelsMat_shape
  refine ⟨_, _, post, last, net.labelsMat, hsig, ?_, hpost, by simp, hlast, hlab, ?_,
    fun _ _ => rfl, ?_⟩
  · simp only [Network.backpropagate, hsig, Option.bind_eq_bind, Option.some_bind]
  · rw [getElem?_map_range _ (by omega)]
    show some (((net.contentsAt (net.length - 1)).sub net.labelsMat).cwiseProduct
      (net.dZAt (net.length - 1))) = _
    rw [Network.contentsAt_eq hlast, Network.dZAt_eq hlast]
  · intro i hi1 hi
    obtain ⟨li, n, n', hli, -, -, hw, -, -, -, -, -⟩ := h.edge_data (i := i) (by omega)
    refine ⟨li, net.weightsAt i, net.signalBack (net.length - 2 - i),
      net.signalBack (net.length - 1 - i), hli, hw, getElem?_map_range _ (by omega),
      getElem?_map_range _ (by omega), ?_, ?_⟩
    · have e : net.length - 1 - i = (net.length - 2 - i) + 1 := by omega
      rw [e]
      show ((net.signalBack (net.length - 2 - i)).mul
          (net.weightsAt (net.length - 2 - (net.length - 2 - i))).transpose).cwiseProduct
          (net.dZAt (net.length - 2 - (net.length - 2 - i))) = _
      have e2 : net.length - 2 - (net.length - 2 - i) = i := by omega
      rw [e2, Network.dZAt_eq hli]
    · intro a b
      have e : net.length - 1 - i = (net.length - 2 - i) + 1 := by omega
      rw [e]
      show (((net.signalBack (net.length - 2 - i)).mul
          (net.weightsAt (net.length - 2 - (net.length - 2 - i))).transpose).cwiseProduct
          (net.dZAt (net.length - 2 - (net.length - 2 - i)))).coeff a b = _
      have e2 : net.length - 2 - (net.length - 2 - i) = i := by omega
      rw [e2, Network.dZAt_eq hli]
      rfl

/-- Witness of C21: the chain `chain3`, whose hidden layer is layer 1. -/
theorem backpropagate_error_signals_witness :
    chain3.WellFormed [4, 1, 1] ∧ 2 ≤ chain3.length ∧
      ∃ gradients deltas li w gprev g,
        chain3.backpropSignals = some (gradients, deltas) ∧ gradients.length = 2 ∧
        chain3.layers[1]? = some li ∧ li.weights = some w ∧
        gradients[0]? = some gprev ∧ gradients[1]? = some g ∧
        g = (gprev.mul w.transpose).cwiseProduct li.dZ := by
  obtain ⟨gradients, deltas, post, last, labels, h1, -, -, h2, -, -, -, -, h3⟩ :=
    backpropagate_error_signals chain3 [4, 1, 1] chain3_wellFormed (by decide)
  obtain ⟨li, w, gprev, g, h4, h5, h6, h7, h8, -⟩ := h3 1 (by decide) (by decide)
  exact ⟨chain3_wellFormed, by decide, gradients, deltas, li, w, gprev, g, h1, h2, h4, h5, h6, h7,
    h8⟩

/-- C22. On a well-formed network of two layers `Network::backpropagate` returns, and its
first loop does not run: `gradients` holds the output error signal
`g_0 = (contents_1 - labels)` times `dZ_1` alone and `deltas` holds `contents_0^T * g_0` alone.
In the result the weights of layer 0 are `weights_0 - (0.9 * prev_update_0 + learning_rate *
contents_0^T * g_0)`, the bias of layer 1 is `bias_1 - bias_lr * g_0`, and nothing else
differs from the state on entry. -/
theorem backpropagate_two_layers (net : Network α) (n0 n1 : Nat)
    (h : net.WellFormed [n0, n1]) :
    ∃ l0 l1 w pu labels g0 post, net.length = 2 ∧ net.layers = [l0, l1] ∧
      l0.weights = some w ∧ l0.prev_update = some pu ∧ net.labels = some labels ∧
      g0 = (l1.contents.sub labels).cwiseProduct l1.dZ ∧
      net.backpropSignals = some ([g0], [l0.contents.transpose.mul g0]) ∧
      net.backpropagate = some post ∧
      post.layers = [l0.withNewWeights (w.sub ((Mat.smul (9 / 10) pu).add
          (Mat.smul net.learning_rate (l0.contents.transpose.mul g0)))),
        l1.withBias (l1.bias.sub (Mat.smul net.bias_lr g0))] ∧
      post.length = net.length ∧ post.learning_rate = net.learning_rate ∧
      post.bias_lr = net.bias_lr ∧ post.batch_size = net.batch_size ∧
      post.labels = net.labels ∧ post.instances = net.instances ∧
      post.batches = net.batches := by
  obtain ⟨l0, l1, w, pu, labels, h1, h2, h3, h4, h5, h6, -⟩ := h.backpropagate_pair
  exact ⟨l0, l1, w, pu, labels, _, _, h.length_eq, h1, h2, h3, h4, rfl, h5, h6, rfl, rfl, rfl,
    rfl, rfl, rfl, rfl, rfl⟩

/-- Witness of C22: the network `momNet`. -/
theorem backpropagate_two_layers_witness :
    momNet.WellFormed [4, 1] ∧
      ∃ g0 d0 post, momNet.backpropSignals = some ([g0], [d0]) ∧
        momNet.backpropagate = some post ∧ post.layers.length = 2 ∧
        post.labels = momNet.labels := by
  obtain ⟨l0, l1, w, pu, labels, g0, post, -, -, -, -, -, -, h1, h2, h3, -, -, -, -, h4, -⟩ :=
    backpropagate_two_layers momNet 4 1 momNet_wellFormed
  exact ⟨momNet_wellFormed, g0, _, post, h1, h2, by rw [h3]; rfl, h4⟩

/-- C23 fails for the stored momentum state.  On `momNet` (gradient entry -1, learning rate
1/100, `prev_update` zero) the first call of `Network::backpropagate` gives layer 0 the
weights that `optimizers::momentum(0.9)` gives, but leaves `prev_update` as it was, zero,
where the optimizer stores `m = learning_rate * delta`, entry -1/100.  A second call
therefore uses zero as the previous update: the weight entry becomes 1/50, whereas the second
call of the optimizer gives 29/1000. -/
theorem backpropagate_never_stores_update :
    ∃ post lpost mom post2 lpost2 w2 mom2,
      momNet.backpropagate = some post ∧ post.layers[0]? = some lpost ∧
      optimizers.momentum (9 / 10) momOpt momDelta (1 / 100) = some mom ∧
      lpost.weights = some mom.weights ∧ mom.weights.coeff 0 0 = 1 / 100 ∧
      lpost.prev_update = some (Mat.const 4 1 0) ∧ mom.m.coeff 0 0 = -1 / 100 ∧
      lpost.prev_update ≠ some mom.m ∧
      post.backpropagate = some post2 ∧ post2.layers[0]? = some lpost2 ∧
      optimizers.momentum (9 / 10) mom momDelta (1 / 100) = some mom2 ∧
      lpost2.weights = some w2 ∧ w2.coeff 0 0 = 1 / 50 ∧ mom2.weights.coeff 0 0 = 29 / 1000 := by
  obtain ⟨l0, l1, w, pu, labels, h1, h2, h3, h4, -, h6, h7⟩ := momNet_wellFormed.backpropagate_pair
  have e : [momIn, momOut] = [l0, l1] := h1
  simp only [List.cons.injEq, and_true] at e
  obtain ⟨e0, e1⟩ := e
  subst e0 e1
  have ew : some (Mat.const 4 1 (0 : ℚ)) = some w := h2
  have ep : some (Mat.const 4 1 (0 : ℚ)) = some pu := h3
  have el : some (Mat.const 1 1 (1 : ℚ)) = some labels := h4
  simp only [Option.some.injEq] at ew ep el
  subst ew ep el
  obtain ⟨m0, m1, w', pu', labels', k1, k2, k3, k4, -, k6, -⟩ := h7.backpropagate_pair
  have e' : [momIn.withNewWeights ((Mat.const 4 1 0).sub ((Mat.smul (9 / 10) (Mat.const 4 1 0)).add
      (Mat.smul momNet.learning_rate momDelta))),
      momOut.withBias (momOut.bias.sub (Mat.smul momNet.bias_lr
        ((momOut.contents.sub (Mat.const 1 1 1)).cwiseProduct momOut.dZ)))] = [m0, m1] := k1
  simp only [List.cons.injEq, and_true] at e'
  obtain ⟨e0, e1⟩ := e'
  subst e0 e1
  have ew' : some ((Mat.const 4 1 (0 : ℚ)).sub ((Mat.smul (9 / 10) (Mat.const 4 1 0)).add
      (Mat.smul momNet.learning_rate momDelta))) = some w' := k2
  have ep' : some (Mat.const 4 1 (0 : ℚ)) = some pu' := k3
  have el' : some (Mat.const 1 1 (1 : ℚ)) = some labels' := k4
  simp only [Option.some.injEq] at ew' ep' el'
  subst ew' ep' el'
  have hm1 := optimizers.momentum_eq (9 / 10 : ℚ) (1 / 100) momOpt momDelta (r := 4) (c := 1)
    ⟨rfl, rfl, rfl⟩ rfl
  have hm2 := optimizers.momentum_eq (9 / 10 : ℚ) (1 / 100)
    ⟨momOpt.weights.sub ((Mat.smul (9 / 10) momOpt.m).add (Mat.smul (1 / 100) momDelta)),
      Mat.smul (1 / 100) momDelta, momOpt.v⟩ momDelta (r := 4) (c := 1) ⟨rfl, rfl, rfl⟩ rfl
  have hd : momDelta.coeff 0 0 = -1 := by
    simp [momDelta, momIn, momOut, Mat.mul, Mat.transpose, Mat.sub, Mat.cwiseProduct, Mat.zip,
      Mat.const]
  refine ⟨_, _, _, _, _, _, _, h6, rfl, hm1, rfl, ?_, rfl, ?_, ?_, k6, rfl, hm2, rfl, ?_, ?_⟩
  · show (0 : ℚ) - (9 / 10 * 0 + 1 / 100 * momDelta.coeff 0 0) = 1 / 100
    rw [hd]
    norm_num
  · show (1 / 100 : ℚ) * momDelta.coeff 0 0 = -1 / 100
    rw [hd]
    norm_num
  · intro hc
    have hc' : Mat.const 4 1 (0 : ℚ) = Mat.smul (1 / 100) momDelta := Option.some.inj hc
    have := congrArg (fun m : Mat ℚ => m.coeff 0 0) hc'
    simp only at this
    have h0 : (Mat.smul (1 / 100 : ℚ) momDelta).coeff 0 0 = 1 / 100 * momDelta.coeff 0 0 := rfl
    rw [h0, hd] at this
    have h00 : (Mat.const 4 1 (0 : ℚ)).coeff 0 0 = 0 := rfl
    rw [h00] at this
    norm_num at this
  · show ((0 : ℚ) - (9 / 10 * 0 + 1 / 100 * momDelta.coeff 0 0))
      - (9 / 10 * 0 + 1 / 100 * momDelta.coeff 0 0) = 1 / 50
    rw [hd]
    norm_num
  · show ((0 : ℚ) - (9 / 10 * 0 + 1 / 100 * momDelta.coeff 0 0))
      - (9 / 10 * (1 / 100 * momDelta.coeff 0 0) + 1 / 100 * momDelta.coeff 0 0) = 29 / 1000
    rw [hd]
    norm_num

/-- C24. On a well-formed (initialized) network whose input layer has the linear activation,
`Network::feedforward` returns a state on which a second call, with no batch loaded in
between, returns that same state: every layer, in particular every `contents` and `dZ`, is
exactly as after the first call.  For the network `doubleNet`, whose input layer has the
activation `x -> 2 * x`, the first call predicts 2 and the second call predicts 4: the input
activation is applied again to the activated inputs. -/
theorem feedforward_idempotent_on_linear_input (net : Network α) (dims : List Nat)
    (h : net.WellFormed dims) (l0 : Layer α) (hl0 : net.layers[0]? = some l0)
    (hlin : l0.activation = some activations.linear) :
    (∃ post post2, net.feedforward = some post ∧ post.feedforward = some post2 ∧
      post2 = post ∧
      ∀ (k : Nat) (l l2 : Layer α), post.layers[k]? = some l → post2.layers[k]? = some l2 →
        l2.contents = l.contents ∧ l2.dZ = l.dZ) ∧
    (doubleNet.WellFormed [4, 1] ∧
      doubleNet.layers[0]? = some doubleIn ∧ doubleIn.activation = some (fun x => 2 * x) ∧
      ∃ post post2 lp lp2, doubleNet.feedforward = some post ∧
        post.feedforward = some post2 ∧ post.layers[1]? = some lp ∧
        post2.layers[1]? = some lp2 ∧ lp.contents.coeff 0 0 = 2 ∧
        lp2.contents.coeff 0 0 = 4 ∧ lp2.contents.coeff 0 0 ≠ lp.contents.coeff 0 0) := by
  obtain ⟨post, h1, -, h2⟩ := h.feedforward_idem hl0 hlin
  refine ⟨⟨post, post, h1, h2, rfl, ?_⟩, doubleNet_wellFormed, rfl, rfl, ?_⟩
  · intro k l l2 hl hl2
    rw [hl] at hl2
    cases hl2
    exact ⟨rfl, rfl⟩
  · obtain ⟨post, post2, lp, lp2, e1, e2, e3, e4, e5, e6⟩ := doubleNet_twice
    refine ⟨post, post2, lp, lp2, e1, e2, e3, e4, e5, e6, ?_⟩
    rw [e5, e6]
    norm_num

/-- Witness of C24: the chain `chain3`, whose input layer is linear. -/
theorem feedforward_idempotent_on_linear_input_witness :
    chain3.WellFormed [4, 1, 1] ∧ chain3.layers[0]? = some chainIn ∧
      chainIn.activation = some activations.linear ∧
      ∃ post, chain3.feedforward = some post ∧ post.feedforward = some post :=
  ⟨chain3_wellFormed, rfl, rfl, by
    obtain ⟨post, post2, h1, h2, h3, -⟩ := (feedforward_idempotent_on_linear_input chain3
      [4, 1, 1] chain3_wellFormed chainIn rfl rfl).1
    subst h3
    exact ⟨post2, h1, h2⟩⟩

end claims

end Jacobian
